import Mathlib

/-!
# lbotx: event dispatch chain, typed registrations, the text pattern matcher and the message builders

A shallow embedding of `lbotx.go` (the router of the bot) and of `message.go`
(the message bank, the postman, the button, confirm, carousel and image map
builders, and the column template).

Conventions of the embedding.

* Go strings are Lean strings; the named string types of the platform client
  (`EventType`, `EventSourceType`, `BeaconEventType`) stay strings and are
  compared with the same constants as in the Go code.
* A Go map `map[string]T` is an association list with at most one entry per key
  (`GoMap`); `make(map...)` is the empty list.
* Everything outside the process (the user's own state, the network behind the
  platform client) is one abstract world `W`.  A Go function that may touch it
  is a function `W → result × W`; the `*BotContext` it receives is passed and
  returned by value.
* A nil dereference or an index out of range is the outcome `Outcome.panic`.
* The loops of `ServeHTTP` keep a ghost trace (`Call`) of what they invoke.
* `len([]rune(s))` is `String.length`, the number of code points.
* `url.Parse` of the Go standard library is a parameter of the button builder;
  `Parse` and `Execute` of `text/template` are the record `TemplateLib`.
* The columns of the carousel builder are reached through pointers
  (`[]*CarouselColumn`): a pointer is an address, the columns live in a memory
  `ColumnCells`, and two entries of a slice with the same address are the same
  column (`generate` appends one pointer several times).
* The field `bot` of a `BotContext` is the client of the bot that made the
  context; a function that reads it takes the client as a parameter, and the
  bot hands its own client to its handlers when it calls them (`Bot.bound`).
* A method with a pointer receiver returns the receiver after the call where
  it assigns to it (`SendImmediately`, the carousel builder's `Build`), and
  only its result where it does not.
-/

namespace Lbotx

/-! ## Errors -/

/-- Error values: the package's sentinel errors, the one sentinel of the
platform client that `ServeHTTP` compares with, and any other error value
(`errors.New(msg)`, transport failures). -/
inductive Error where
  | ErrorInvalidUserId
  | ErrorUnknowJoinType
  | ErrorTooManyMessages
  | ErrorNoAction
  | ErrorInvalidMapSize
  | ErrorInvalidUrl
  | ErrorMissingParam
  | ErrorTextExceedLimit
  | ErrorTooManyActions
  | ErrorTooManyColumn
  | ErrorActionNumNotConsistent
  | ErrorNoColumnTemplate
  | ErrInvalidSignature
  | other (msg : String)
  deriving DecidableEq, Repr

/-! ## Data declared by the platform client (`linebot`) -/

/-- Raw bytes (`[]byte`), each a natural number below 256. -/
abbrev Bytes := List Nat

/-- A `float64`, carried as its bit pattern; no arithmetic is done on it. -/
abbrev Float64 := Nat

def EventTypeMessage : String := "message"
def EventTypeFollow : String := "follow"
def EventTypeUnfollow : String := "unfollow"
def EventTypeJoin : String := "join"
def EventTypeLeave : String := "leave"
def EventTypePostback : String := "postback"
def EventTypeBeacon : String := "beacon"

def EventSourceTypeUser : String := "user"
def EventSourceTypeGroup : String := "group"
def EventSourceTypeRoom : String := "room"

def BeaconEventTypeEnter : String := "enter"
def BeaconEventTypeLeave : String := "leave"

/-- The struct `linebot.EventSource`. -/
structure EventSource where
  Type_ : String
  UserID : String
  GroupID : String
  RoomID : String
  deriving DecidableEq, Repr

/-- The struct `linebot.Postback`. -/
structure Postback where
  Data : String
  deriving DecidableEq, Repr

/-- The struct `linebot.Beacon`. -/
structure Beacon where
  Hwid : String
  Type_ : String
  deriving DecidableEq, Repr

/-- The struct `linebot.LocationMessage`. -/
structure LocationMessage where
  ID : String
  Title : String
  Address : String
  Latitude : Float64
  Longitude : Float64
  deriving DecidableEq, Repr

/-- The struct `linebot.StickerMessage`. -/
structure StickerMessage where
  ID : String
  PackageID : String
  StickerID : String
  deriving DecidableEq, Repr

/-- The interface `linebot.TemplateAction` with its three implementations. -/
inductive TemplateAction where
  | URI (Label URI : String)
  | Message (Label Text : String)
  | Postback (Label Data Text : String)
  deriving DecidableEq, Repr

/-- The struct `linebot.ImagemapArea`. -/
structure ImagemapArea where
  X : Int
  Y : Int
  Width : Int
  Height : Int
  deriving DecidableEq, Repr

/-- The struct `linebot.ImagemapBaseSize`. -/
structure ImagemapBaseSize where
  Width : Int
  Height : Int
  deriving DecidableEq, Repr

/-- The interface `linebot.ImagemapAction` with its two implementations. -/
inductive ImagemapAction where
  | Message (Text : String) (Area : ImagemapArea)
  | URI (LinkURL : String) (Area : ImagemapArea)
  deriving DecidableEq, Repr

/-- The struct `linebot.CarouselColumn`. -/
structure LinebotCarouselColumn where
  ThumbnailImageURL : String
  Title : String
  Text : String
  Actions : List TemplateAction
  deriving DecidableEq, Repr

/-- The interface `linebot.Template` with its three implementations. -/
inductive Template where
  | Buttons (ThumbnailImageURL Title Text : String) (Actions : List TemplateAction)
  | Confirm (Text : String) (Actions : List TemplateAction)
  | Carousel (Columns : List LinebotCarouselColumn)
  deriving DecidableEq, Repr

/-- The interface `linebot.Message`: one constructor per implementing struct.
The dynamic type that `reflect.TypeOf` inspects is the constructor. -/
inductive Message where
  | Text (ID Text : String)
  | Image (ID OriginalContentURL PreviewImageURL : String)
  | Video (ID OriginalContentURL PreviewImageURL : String)
  | Audio (ID OriginalContentURL : String) (Duration : Int)
  | Location (m : LocationMessage)
  | Sticker (m : StickerMessage)
  | Template (AltText : String) (Template : Template)
  | Imagemap (BaseURL AltText : String) (BaseSize : ImagemapBaseSize)
      (Actions : List ImagemapAction)
  deriving DecidableEq, Repr

/-- The struct `linebot.Event`.  The pointer fields `Source`, `Postback`,
`Beacon` and the interface field `Message` may be nil (`none`). -/
structure Event where
  ReplyToken : String
  Type_ : String
  Timestamp : Int
  Source : Option EventSource
  Message : Option Message
  Postback : Option Postback
  Beacon : Option Beacon
  deriving DecidableEq, Repr

/-- The struct `linebot.UserProfileResponse`. -/
structure UserProfileResponse where
  UserID : String
  DisplayName : String
  PictureURL : String
  StatusMessage : String
  deriving DecidableEq, Repr

/-- An open response body (`io.ReadCloser`), named by a handle into the world. -/
abbrev ReadCloser := Nat

/-- The struct `linebot.MessageContentResponse`. -/
structure MessageContentResponse where
  Content : ReadCloser
  deriving DecidableEq, Repr

/-- An inbound HTTP request, as far as `ParseRequest` looks at it. -/
structure Request where
  Signature : String
  Body : String
  deriving DecidableEq, Repr

/-- The platform client `*linebot.Client` as a record of oracles over the
world `W`: each call returns what the platform answered and the world after
the call.  `ReadAll` and `Close` are `ioutil.ReadAll` and `Close` on a
response body. -/
structure Client (W : Type) where
  ParseRequest : Request → W → Except Error (List Event) × W
  GetMessageContent : String → W → Except Error MessageContentResponse × W
  ReadAll : ReadCloser → W → Except Error Bytes × W
  Close : ReadCloser → W → W
  GetProfile : String → W → Except Error UserProfileResponse × W
  ReplyMessage : String → List Message → W → Option Error × W
  PushMessage : String → List Message → W → Option Error × W

/-! ## Go maps -/

/-- A Go `map[string]T`. -/
abbrev GoMap (α : Type) := List (String × α)

/-- The result of `make(map[string]T)`. -/
def GoMap.make {α : Type} : GoMap α := []

/-- The lookup `m[k]` with the comma-ok result. -/
def GoMap.get {α : Type} : GoMap α → String → Option α
  | [], _ => none
  | (k, v) :: rest, key => if k = key then some v else GoMap.get rest key

/-- The assignment `m[key] = v`. -/
def GoMap.set {α : Type} : GoMap α → String → α → GoMap α
  | [], key, v => [(key, v)]
  | (k, x) :: rest, key, v =>
    if k = key then (k, v) :: rest else (k, x) :: GoMap.set rest key v

/-! ## `message.go`: the message bank -/

/-- The struct `MessageBank`; its `bot` field is the client that the functions
below take as a parameter. -/
structure MessageBank where
  messages : List Message
  deriving DecidableEq, Repr

/-- The method `(*MessageBank).AddMessage`; the receiver may be nil, and then
the assignment through it panics (`none`). -/
def MessageBank.AddMessage (mb : Option MessageBank) (m : Message) :
    Option (Option Error × MessageBank) :=
  match mb with
  | some bank =>
    if bank.messages.length > 5 then
      some (some Error.ErrorTooManyMessages, bank)
    else
      some (none, { bank with messages := bank.messages ++ [m] })
  | none => none

/-- The method `(*MessageBank).AddTextMessage`; `linebot.NewTextMessage(msg)`
is the text message with that text and no id. -/
def MessageBank.AddTextMessage (mb : Option MessageBank) (msg : String) :
    Option (Option Error × MessageBank) :=
  MessageBank.AddMessage mb (Message.Text "" msg)

/-- The method `(*MessageBank).AddStickerMessage`. -/
def MessageBank.AddStickerMessage (mb : Option MessageBank) (packageId stickerId : String) :
    Option (Option Error × MessageBank) :=
  MessageBank.AddMessage mb
    (Message.Sticker { ID := "", PackageID := packageId, StickerID := stickerId })

/-- The method `(*MessageBank).AddLocationMessage`. -/
def MessageBank.AddLocationMessage (mb : Option MessageBank) (title address : String)
    (latitude longitude : Float64) : Option (Option Error × MessageBank) :=
  MessageBank.AddMessage mb
    (Message.Location
      { ID := "", Title := title, Address := address,
        Latitude := latitude, Longitude := longitude })

/-- The method `(*MessageBank).AddAudioMessage`. -/
def MessageBank.AddAudioMessage (mb : Option MessageBank) (contentUrl : String)
    (duration : Int) : Option (Option Error × MessageBank) :=
  MessageBank.AddMessage mb (Message.Audio "" contentUrl duration)

/-- The method `(*MessageBank).AddVideoMessage`. -/
def MessageBank.AddVideoMessage (mb : Option MessageBank) (contentUrl previewUrl : String) :
    Option (Option Error × MessageBank) :=
  MessageBank.AddMessage mb (Message.Video "" contentUrl previewUrl)

/-- The method `(*MessageBank).AddImageMessage`. -/
def MessageBank.AddImageMessage (mb : Option MessageBank) (contentUrl previewUrl : String) :
    Option (Option Error × MessageBank) :=
  MessageBank.AddMessage mb (Message.Image "" contentUrl previewUrl)

/-- The method `(*MessageBank).Len`. -/
def MessageBank.Len (mb : MessageBank) : Nat :=
  mb.messages.length

/-- The method `(*MessageBank).reply`. -/
def MessageBank.reply {W : Type} (cl : Client W) (mb : MessageBank)
    (reply_token : String) (w : W) : Option Error × W :=
  if mb.messages.length > 0 then
    match cl.ReplyMessage reply_token mb.messages w with
    | (some err, w1) => (some err, w1)
    | (none, w1) => (none, w1)
  else
    (none, w)

/-- The method `(*MessageBank).push`. -/
def MessageBank.push {W : Type} (cl : Client W) (mb : MessageBank)
    (target : String) (w : W) : Option Error × W :=
  match cl.PushMessage target mb.messages w with
  | (some err, w1) => (some err, w1)
  | (none, w1) => (none, w1)

deriving instance DecidableEq for Except

/-- One call of the delivery capability as a recording client sees it: the
token or target, the messages carried, and the error the platform answered. -/
inductive Delivery where
  | reply (token : String) (messages : List Message) (res : Option Error)
  | push (target : String) (messages : List Message) (res : Option Error)
  deriving DecidableEq, Repr

/-- A client that behaves as `cl` and, beside the world, keeps the list of the
delivery calls made through it, oldest first. -/
def Client.recording {W : Type} (cl : Client W) : Client (W × List Delivery) where
  ParseRequest := fun r s => ((cl.ParseRequest r s.1).1, ((cl.ParseRequest r s.1).2, s.2))
  GetMessageContent := fun id s =>
    ((cl.GetMessageContent id s.1).1, ((cl.GetMessageContent id s.1).2, s.2))
  ReadAll := fun c s => ((cl.ReadAll c s.1).1, ((cl.ReadAll c s.1).2, s.2))
  Close := fun c s => (cl.Close c s.1, s.2)
  GetProfile := fun id s => ((cl.GetProfile id s.1).1, ((cl.GetProfile id s.1).2, s.2))
  ReplyMessage := fun token messages s =>
    ((cl.ReplyMessage token messages s.1).1,
      ((cl.ReplyMessage token messages s.1).2,
        s.2 ++ [Delivery.reply token messages (cl.ReplyMessage token messages s.1).1]))
  PushMessage := fun target messages s =>
    ((cl.PushMessage target messages s.1).1,
      ((cl.PushMessage target messages s.1).2,
        s.2 ++ [Delivery.push target messages (cl.PushMessage target messages s.1).1]))

/-! ## `message.go`: the postman -/

/-- The struct `PostMan`, which embeds a `MessageBank`. -/
structure PostMan where
  MessageBank : MessageBank
  deriving DecidableEq, Repr

/-- The loop of `(*PostMan).SendImmediately`: `success` is the list built so
far; the result is the list and the error at the exit of the loop. -/
def PostMan.sendLoop {W : Type} (cl : Client W) (pm : PostMan) :
    List String → List String → W → List String × Option Error × W
  | [], success, w => (success, none, w)
  | target :: tos, success, w =>
    match MessageBank.push cl pm.MessageBank target w with
    | (some err, w1) => (success, some err, w1)
    | (none, w1) => PostMan.sendLoop cl pm tos (success ++ [target]) w1

/-- The method `(*PostMan).SendImmediately`: the returned pair, the postman
after the call and the world after the call. -/
def PostMan.SendImmediately {W : Type} (cl : Client W) (pm : PostMan) (tos : List String)
    (w : W) : (List String × Option Error) × PostMan × W :=
  match PostMan.sendLoop cl pm tos [] w with
  | (success, none, w1) =>
    ((success, none), { pm with MessageBank := { pm.MessageBank with messages := [] } }, w1)
  | (success, some err, w1) => ((success, some err), pm, w1)

/-! ## `message.go`: validation of action texts -/

/-- The dynamic types that `validateActionTexts` is called with: a template
action or an imagemap action. -/
inductive AnyAction where
  | template (action : TemplateAction)
  | imagemap (action : ImagemapAction)
  deriving DecidableEq, Repr

/-- The function `validateActionTexts`; `len([]rune(s))` is the number of code
points of `s`. -/
def validateActionTexts (iaction : AnyAction) : Option Error :=
  match iaction with
  | AnyAction.template (TemplateAction.URI label _) =>
    if label.length > 20 then some Error.ErrorTextExceedLimit else none
  | AnyAction.template (TemplateAction.Message label text) =>
    if label.length > 20 then some Error.ErrorTextExceedLimit
    else if text.length > 300 then some Error.ErrorTextExceedLimit
    else none
  | AnyAction.template (TemplateAction.Postback label data text) =>
    if label.length > 20 then some Error.ErrorTextExceedLimit
    else if text.length > 300 then some Error.ErrorTextExceedLimit
    else if data.length > 300 then some Error.ErrorTextExceedLimit
    else none
  | AnyAction.imagemap (ImagemapAction.Message text _) =>
    if text.length > 400 then some Error.ErrorTextExceedLimit else none
  | AnyAction.imagemap (ImagemapAction.URI linkURL _) =>
    if linkURL.length > 1000 then some Error.ErrorTextExceedLimit else none

/-! ## `message.go`: the button and confirm builders -/

/-- The struct `actionable`. -/
structure actionable where
  actions : List TemplateAction
  deriving DecidableEq, Repr

/-- The method `(*actionable).addAction`. -/
def actionable.addAction (a : actionable) (action : TemplateAction) : actionable :=
  { a with actions := a.actions ++ [action] }

/-- The method `(*actionable).WithMessageAction`. -/
def actionable.WithMessageAction (a : actionable) (label text : String) : actionable :=
  a.addAction (TemplateAction.Message label text)

/-- The method `(*actionable).WithURIAction`. -/
def actionable.WithURIAction (a : actionable) (label uri : String) : actionable :=
  a.addAction (TemplateAction.URI label uri)

/-- The method `(*actionable).WithPostbackAction`. -/
def actionable.WithPostbackAction (a : actionable) (label data text : String) : actionable :=
  a.addAction (TemplateAction.Postback label data text)

/-- The part of the struct `url.URL` that the builders read. -/
structure URL where
  Scheme : String
  deriving DecidableEq, Repr

/-- The function `url.Parse` of the Go standard library, which the button
builder takes as a parameter here. -/
abbrev UrlParse := String → Except Error URL

/-- The struct `ButtonMessageBuilder`; the embedded `actionable` is the parent
structure. -/
structure ButtonMessageBuilder extends actionable where
  thumbnailImageUrl : String
  title : String
  text : String
  deriving DecidableEq, Repr

/-- The function `NewButtonMessageBuilder`: the zero value. -/
def NewButtonMessageBuilder : ButtonMessageBuilder :=
  { actions := [], thumbnailImageUrl := "", title := "", text := "" }

/-- The function `NewButtonMessageBuilderWith`. -/
def NewButtonMessageBuilderWith (thumbnailImageUrl title text : String) :
    ButtonMessageBuilder :=
  { NewButtonMessageBuilder with
    thumbnailImageUrl := thumbnailImageUrl, title := title, text := text }

/-- The method `(*ButtonMessageBuilder).WithImage`. -/
def ButtonMessageBuilder.WithImage (b : ButtonMessageBuilder) (thumbnailImageUrl : String) :
    ButtonMessageBuilder :=
  { b with thumbnailImageUrl := thumbnailImageUrl }

/-- The method `(*ButtonMessageBuilder).WithTitle`. -/
def ButtonMessageBuilder.WithTitle (b : ButtonMessageBuilder) (title : String) :
    ButtonMessageBuilder :=
  { b with title := title }

/-- The method `(*ButtonMessageBuilder).WithText`. -/
def ButtonMessageBuilder.WithText (b : ButtonMessageBuilder) (text : String) :
    ButtonMessageBuilder :=
  { b with text := text }

/-- The promoted method `WithMessageAction` called on a button builder: it
acts on the embedded `actionable`. -/
def ButtonMessageBuilder.WithMessageAction (b : ButtonMessageBuilder) (label text : String) :
    ButtonMessageBuilder :=
  { b with toactionable := b.toactionable.WithMessageAction label text }

/-- The promoted method `WithURIAction` called on a button builder. -/
def ButtonMessageBuilder.WithURIAction (b : ButtonMessageBuilder) (label uri : String) :
    ButtonMessageBuilder :=
  { b with toactionable := b.toactionable.WithURIAction label uri }

/-- The promoted method `WithPostbackAction` called on a button builder. -/
def ButtonMessageBuilder.WithPostbackAction (b : ButtonMessageBuilder)
    (label data text : String) : ButtonMessageBuilder :=
  { b with toactionable := b.toactionable.WithPostbackAction label data text }

/-- The method `(*ButtonMessageBuilder).Build`; it assigns nothing to its
receiver. -/
def ButtonMessageBuilder.Build (parse : UrlParse) (b : ButtonMessageBuilder)
    (altMsg : String) : Except Error Message :=
  if b.text = "" then Except.error Error.ErrorMissingParam
  else
    let urlCheck : Option Error :=
      if b.thumbnailImageUrl ≠ "" then
        match parse b.thumbnailImageUrl with
        | Except.error e => some e
        | Except.ok parsedUrl =>
          if parsedUrl.Scheme ≠ "https" then some Error.ErrorInvalidUrl else none
      else none
    match urlCheck with
    | some e => Except.error e
    | none =>
      if b.title.length > 40 then Except.error Error.ErrorTextExceedLimit
      else if (if b.title = "" ∨ b.thumbnailImageUrl = "" then b.text.length > 160
               else b.text.length > 60) then
        Except.error Error.ErrorTextExceedLimit
      else if b.actions.length > 4 then Except.error Error.ErrorTooManyActions
      else
        Except.ok
          (Message.Template altMsg
            (Template.Buttons b.thumbnailImageUrl b.title b.text b.actions))

/-- The struct `ConfirmMessageBuilder`. -/
structure ConfirmMessageBuilder extends actionable where
  text : String
  deriving DecidableEq, Repr

/-- The function `NewConfirmMessageBuilder`: the zero value. -/
def NewConfirmMessageBuilder : ConfirmMessageBuilder :=
  { actions := [], text := "" }

/-- The function `NewConfirmMessageBuilderWith`. -/
def NewConfirmMessageBuilderWith (text : String) : ConfirmMessageBuilder :=
  { NewConfirmMessageBuilder with text := text }

/-- The method `(*ConfirmMessageBuilder).WithText`. -/
def ConfirmMessageBuilder.WithText (b : ConfirmMessageBuilder) (text : String) :
    ConfirmMessageBuilder :=
  { b with text := text }

/-- The promoted method `WithMessageAction` called on a confirm builder. -/
def ConfirmMessageBuilder.WithMessageAction (b : ConfirmMessageBuilder)
    (label text : String) : ConfirmMessageBuilder :=
  { b with toactionable := b.toactionable.WithMessageAction label text }

/-- The promoted method `WithURIAction` called on a confirm builder. -/
def ConfirmMessageBuilder.WithURIAction (b : ConfirmMessageBuilder) (label uri : String) :
    ConfirmMessageBuilder :=
  { b with toactionable := b.toactionable.WithURIAction label uri }

/-- The promoted method `WithPostbackAction` called on a confirm builder. -/
def ConfirmMessageBuilder.WithPostbackAction (b : ConfirmMessageBuilder)
    (label data text : String) : ConfirmMessageBuilder :=
  { b with toactionable := b.toactionable.WithPostbackAction label data text }

/-- The method `(*ConfirmMessageBuilder).Build`; it assigns nothing to its
receiver. -/
def ConfirmMessageBuilder.Build (b : ConfirmMessageBuilder) (altMsg : String) :
    Except Error Message :=
  if b.text = "" then Except.error Error.ErrorMissingParam
  else if b.text.length > 240 then Except.error Error.ErrorTextExceedLimit
  else if b.actions.length > 2 then Except.error Error.ErrorTooManyActions
  else Except.ok (Message.Template altMsg (Template.Confirm b.text b.actions))

/-! ## `message.go`: the carousel builder -/

/-- A parsed `*template.Template` of the Go standard library, kept as the name
it was created with and the text it was parsed from. -/
structure TextTemplate where
  name : String
  text : String
  deriving DecidableEq, Repr

/-- The struct `ActionTempate`; a nil template is `none`. -/
structure ActionTempate where
  actionType : String
  labelTemplate : Option TextTemplate
  textOrUrlTemplate : Option TextTemplate
  dataTemplate : Option TextTemplate
  deriving DecidableEq, Repr

/-- The struct `ColumnTemplate`. -/
structure ColumnTemplate where
  imageUrlTemplate : Option TextTemplate
  titleTemplate : Option TextTemplate
  textTemplate : Option TextTemplate
  actionsTemplates : List ActionTempate
  deriving DecidableEq, Repr

/-- The struct `CarouselColumn` of this package: the embedded pointer
`*linebot.CarouselColumn` is the field `Column`, the embedded `actionable` the
parent structure. Every column that the builder holds was made by `AddColumn`
or `generate` with a pointer that is not nil. -/
structure CarouselColumn extends actionable where
  Column : LinebotCarouselColumn
  deriving DecidableEq, Repr

/-- The method `(*CarouselColumn).WithImage`. -/
def CarouselColumn.WithImage (c : CarouselColumn) (imageUrl : String) : CarouselColumn :=
  { c with Column := { c.Column with ThumbnailImageURL := imageUrl } }

/-- The method `(*CarouselColumn).WithTitle`. -/
def CarouselColumn.WithTitle (c : CarouselColumn) (title : String) : CarouselColumn :=
  { c with Column := { c.Column with Title := title } }

/-- The method `(*CarouselColumn).WithText`. -/
def CarouselColumn.WithText (c : CarouselColumn) (text : String) : CarouselColumn :=
  { c with Column := { c.Column with Text := text } }

/-- The promoted method `WithMessageAction` called on a column. -/
def CarouselColumn.WithMessageAction (c : CarouselColumn) (label text : String) :
    CarouselColumn :=
  { c with toactionable := c.toactionable.WithMessageAction label text }

/-- The promoted method `WithURIAction` called on a column. -/
def CarouselColumn.WithURIAction (c : CarouselColumn) (label uri : String) : CarouselColumn :=
  { c with toactionable := c.toactionable.WithURIAction label uri }

/-- The promoted method `WithPostbackAction` called on a column. -/
def CarouselColumn.WithPostbackAction (c : CarouselColumn) (label data text : String) :
    CarouselColumn :=
  { c with toactionable := c.toactionable.WithPostbackAction label data text }

/-- The column that `AddColumn` creates: `&CarouselColumn{CarouselColumn:
&linebot.CarouselColumn{}}`. -/
def CarouselColumn.new : CarouselColumn :=
  { actions := [],
    Column := { ThumbnailImageURL := "", Title := "", Text := "", Actions := [] } }

/-- The assignment `c.CarouselColumn.Actions = c.actions` of `Build`: the
column after it. -/
def CarouselColumn.assigned (c : CarouselColumn) : CarouselColumn :=
  { c with Column := { c.Column with Actions := c.actions } }

/-- The memory that holds the columns of a carousel builder: the column at
every address.  A pointer `*CarouselColumn` is an address; the pointer
`*linebot.CarouselColumn` embedded in a column is set when the column is made
and never again, so it goes by the address of its column. -/
abbrev ColumnCells := Nat → CarouselColumn

/-- The memory with the column `c` at address `p`. -/
def storeColumn (cells : ColumnCells) (p : Nat) (c : CarouselColumn) : ColumnCells :=
  fun q => if q = p then c else cells q

/-- The struct `CarouselMessageBuilder`.  Its field `columns` is the slice
`[]*CarouselColumn` of the addresses of its columns, which live in `cells`;
two entries with the same address are one and the same column. -/
structure CarouselMessageBuilder where
  columns : List Nat
  cells : ColumnCells
  columnGenerator : Option ColumnTemplate

/-- The function `NewCarouselMessageBuilder`: the zero value; no column is in
use. -/
def NewCarouselMessageBuilder : CarouselMessageBuilder :=
  { columns := [], cells := fun _ => CarouselColumn.new, columnGenerator := none }

/-- The columns that the pointers of `cm.columns` point to, in the order of
the slice. -/
def CarouselMessageBuilder.deref (cm : CarouselMessageBuilder) : List CarouselColumn :=
  cm.columns.map cm.cells

/-- The address that the next allocation of a column returns: it differs from
the address of every column in use, and the columns in use are those of
`cm.columns`. -/
def CarouselMessageBuilder.fresh (cm : CarouselMessageBuilder) : Nat :=
  cm.columns.foldr (fun p n => max (p + 1) n) 0

/-- The method `(*CarouselMessageBuilder).AddColumn`: the builder after the
call and the pointer that the method returns. -/
def CarouselMessageBuilder.AddColumn (cm : CarouselMessageBuilder) :
    CarouselMessageBuilder × Nat :=
  ({ cm with
      columns := cm.columns ++ [cm.fresh]
      cells := storeColumn cm.cells cm.fresh CarouselColumn.new }, cm.fresh)

/-- A method call `f` on a column through a pointer to it, such as the one
that `AddColumn` returned. -/
def CarouselMessageBuilder.onColumn (cm : CarouselMessageBuilder) (column : Nat)
    (f : CarouselColumn → CarouselColumn) : CarouselMessageBuilder :=
  { cm with cells := storeColumn cm.cells column (f (cm.cells column)) }

/-- The loop over the actions of a column in `(*CarouselMessageBuilder).Build`:
the first error of `validateActionTexts`. -/
def validateActions : List TemplateAction → Option Error
  | [] => none
  | action :: rest =>
    match validateActionTexts (AnyAction.template action) with
    | some e => some e
    | none => validateActions rest

/-- One round of the loop of `(*CarouselMessageBuilder).Build` after the
assignment to `Actions`: the checks made on `column` with the action count of
the rounds before (`-1` before the first), giving the error returned or the
action count that the next round sees. -/
def CarouselMessageBuilder.checkColumn (actionCount : Int) (column : LinebotCarouselColumn) :
    Except Error Int :=
  if column.Actions.length > 3 then Except.error Error.ErrorTooManyActions
  else if actionCount ≠ -1 ∧ actionCount ≠ (column.Actions.length : Int) then
    Except.error Error.ErrorActionNumNotConsistent
  else
    match validateActions column.Actions with
    | some e => Except.error e
    | none =>
      if column.ThumbnailImageURL.length > 1000 then Except.error Error.ErrorTextExceedLimit
      else if column.Title.length > 40 then Except.error Error.ErrorTextExceedLimit
      else if column.Text = "" then Except.error Error.ErrorMissingParam
      else if column.Text.length >
          (if column.ThumbnailImageURL = "" ∨ column.Title = "" then 120 else 60) then
        Except.error Error.ErrorTextExceedLimit
      else
        Except.ok (if actionCount = -1 then (column.Actions.length : Int) else actionCount)

/-- The loop of `(*CarouselMessageBuilder).Build` over the pointers of
`cm.columns` not yet visited, on the memory `cells`.  A round assigns
`c.CarouselColumn.Actions = c.actions` in the column that `c` points to, checks
that column and appends its pointer `column` to the local slice `columns`.  The
result is that slice at the end or the error returned, and the memory as the
loop leaves it. -/
def CarouselMessageBuilder.buildLoop :
    List Nat → ColumnCells → Int → List Nat → Except Error (List Nat) × ColumnCells
  | [], cells, _, columns => (Except.ok columns, cells)
  | c :: rest, cells, actionCount, columns =>
    match CarouselMessageBuilder.checkColumn actionCount (cells c).assigned.Column with
    | Except.error e => (Except.error e, storeColumn cells c (cells c).assigned)
    | Except.ok actionCount1 =>
      CarouselMessageBuilder.buildLoop rest (storeColumn cells c (cells c).assigned)
        actionCount1 (columns ++ [c])

/-- The method `(*CarouselMessageBuilder).Build`: what it returns and the
builder after the call.  The message holds the pointers of the local slice
`columns`; it is given by the columns that they point to when `Build`
returns. -/
def CarouselMessageBuilder.Build (cm : CarouselMessageBuilder) (altMsg : String) :
    Except Error Message × CarouselMessageBuilder :=
  if cm.columns.length > 5 then (Except.error Error.ErrorTooManyColumn, cm)
  else
    match CarouselMessageBuilder.buildLoop cm.columns cm.cells (-1) [] with
    | (Except.error e, cells1) => (Except.error e, { cm with cells := cells1 })
    | (Except.ok columns, cells1) =>
      (Except.ok
          (Message.Template altMsg (Template.Carousel (columns.map fun p => (cells1 p).Column))),
        { cm with cells := cells1 })

/-! ## Constructors of the platform client -/

/-- The function `linebot.NewMessageTemplateAction`. -/
def NewMessageTemplateAction (label text : String) : TemplateAction :=
  TemplateAction.Message label text

/-- The function `linebot.NewURITemplateAction`. -/
def NewURITemplateAction (label uri : String) : TemplateAction :=
  TemplateAction.URI label uri

/-- The function `linebot.NewPostbackTemplateAction`. -/
def NewPostbackTemplateAction (label data text : String) : TemplateAction :=
  TemplateAction.Postback label data text

/-- The function `linebot.NewButtonsTemplate`. -/
def NewButtonsTemplate (thumbnailImageURL title text : String)
    (actions : List TemplateAction) : Template :=
  Template.Buttons thumbnailImageURL title text actions

/-- The function `linebot.NewConfirmTemplate`. -/
def NewConfirmTemplate (text : String) (actions : List TemplateAction) : Template :=
  Template.Confirm text actions

/-- The function `linebot.NewCarouselColumn`. -/
def NewCarouselColumn (thumbnailImageURL title text : String)
    (actions : List TemplateAction) : LinebotCarouselColumn :=
  { ThumbnailImageURL := thumbnailImageURL, Title := title, Text := text, Actions := actions }

/-- The function `linebot.NewCarouselTemplate`. -/
def NewCarouselTemplate (columns : List LinebotCarouselColumn) : Template :=
  Template.Carousel columns

/-- The function `linebot.NewTemplateMessage`. -/
def NewTemplateMessage (altText : String) (template : Template) : Message :=
  Message.Template altText template

/-! ## `message.go`: the image map builder -/

/-- The struct `ImageMapBuilder`. -/
structure ImageMapBuilder where
  actions : List ImagemapAction
  BaseUrl : String
  AltText : String
  Width : Int
  Height : Int
  deriving DecidableEq, Repr

/-- The method `(*ImageMapBuilder).addAction`. -/
def ImageMapBuilder.addAction (ib : ImageMapBuilder) (action : ImagemapAction) :
    ImageMapBuilder :=
  { ib with actions := ib.actions ++ [action] }

/-- The function `NewImageMapBuilder`: the zero value. -/
def NewImageMapBuilder : ImageMapBuilder :=
  { actions := [], BaseUrl := "", AltText := "", Width := 0, Height := 0 }

/-- The function `NewImageMapBuilderWith`. -/
def NewImageMapBuilderWith (baseUrl altText : String) (width height : Int) : ImageMapBuilder :=
  { actions := [], BaseUrl := baseUrl, AltText := altText, Width := width, Height := height }

/-- The function `linebot.NewMessageImagemapAction`. -/
def NewMessageImagemapAction (text : String) (area : ImagemapArea) : ImagemapAction :=
  ImagemapAction.Message text area

/-- The function `linebot.NewURIImagemapAction`. -/
def NewURIImagemapAction (linkURL : String) (area : ImagemapArea) : ImagemapAction :=
  ImagemapAction.URI linkURL area

/-- The function `linebot.NewImagemapMessage`. -/
def NewImagemapMessage (baseURL altText : String) (baseSize : ImagemapBaseSize)
    (actions : List ImagemapAction) : Message :=
  Message.Imagemap baseURL altText baseSize actions

/-- The method `(*ImageMapBuilder).WithMessageAction`. -/
def ImageMapBuilder.WithMessageAction (ib : ImageMapBuilder) (text : String)
    (x y width height : Int) : ImageMapBuilder :=
  ib.addAction
    (NewMessageImagemapAction text { X := x, Y := y, Width := width, Height := height })

/-- The method `(*ImageMapBuilder).WithURIAction`. -/
def ImageMapBuilder.WithURIAction (ib : ImageMapBuilder) (linkURL : String)
    (x y width height : Int) : ImageMapBuilder :=
  ib.addAction
    (NewURIImagemapAction linkURL { X := x, Y := y, Width := width, Height := height })

/-- The type switch in the loop of `(*ImageMapBuilder).Build`: the area of an
action. -/
def ImagemapAction.area : ImagemapAction → ImagemapArea
  | ImagemapAction.Message _ area => area
  | ImagemapAction.URI _ area => area

/-- The loop of `(*ImageMapBuilder).Build` over the actions: the error it
returns, if any. -/
def ImageMapBuilder.checkActions : List ImagemapAction → Option Error
  | [] => none
  | action :: rest =>
    if action.area.Width = 0 ∨ action.area.Height = 0 then some Error.ErrorInvalidMapSize
    else
      match validateActionTexts (AnyAction.imagemap action) with
      | some e => some e
      | none => ImageMapBuilder.checkActions rest

/-- The method `(*ImageMapBuilder).Build`; it assigns nothing to its
receiver. -/
def ImageMapBuilder.Build (ib : ImageMapBuilder) : Except Error Message :=
  if ib.actions.length = 0 then Except.error Error.ErrorNoAction
  else if ib.Width = 0 ∨ ib.Height = 0 then Except.error Error.ErrorInvalidMapSize
  else
    match ImageMapBuilder.checkActions ib.actions with
    | some e => Except.error e
    | none =>
      Except.ok
        (NewImagemapMessage ib.BaseUrl ib.AltText { Width := ib.Width, Height := ib.Height }
          ib.actions)

/-! ## `message.go`: the column template -/

/-- The package `text/template` of the Go standard library as far as the
column template uses it, for records of type `D`: the error of `Parse` on a
template text (`none` when the text parses), and the text that `Execute` has
written to the buffer when it returns (its error is dropped by the caller). -/
structure TemplateLib (D : Type) where
  parseError : String → Option Error
  Execute : TextTemplate → D → String

/-- Go: `template.New(name).Parse(text)`. -/
def TemplateLib.Parse {D : Type} (lib : TemplateLib D) (name text : String) :
    Except Error TextTemplate :=
  match lib.parseError text with
  | some e => Except.error e
  | none => Except.ok { name := name, text := text }

/-- Go: `templ, _ := template.New(name).Parse(text)`: the template, nil when
the text does not parse. -/
def TemplateLib.parsed {D : Type} (lib : TemplateLib D) (name text : String) :
    Option TextTemplate :=
  match lib.Parse name text with
  | Except.error _ => none
  | Except.ok templ => some templ

def TemplateActionTypeURI : String := "uri"
def TemplateActionTypeMessage : String := "message"
def TemplateActionTypePostback : String := "postback"

/-- The function `newColumnTemplate`. -/
def newColumnTemplate : ColumnTemplate :=
  { imageUrlTemplate := none, titleTemplate := none, textTemplate := none,
    actionsTemplates := [] }

/-- The method `(*ColumnTemplate).WithImage`: the error returned and the
template after the call. -/
def ColumnTemplate.WithImage {D : Type} (lib : TemplateLib D) (ct : ColumnTemplate)
    (imageTempl : String) : Option Error × ColumnTemplate :=
  match lib.Parse "colImage" imageTempl with
  | Except.error e => (some e, ct)
  | Except.ok templ => (none, { ct with imageUrlTemplate := some templ })

/-- The method `(*ColumnTemplate).WithTitle`. -/
def ColumnTemplate.WithTitle {D : Type} (lib : TemplateLib D) (ct : ColumnTemplate)
    (titleTempl : String) : Option Error × ColumnTemplate :=
  match lib.Parse "colTitle" titleTempl with
  | Except.error e => (some e, ct)
  | Except.ok templ => (none, { ct with titleTemplate := some templ })

/-- The method `(*ColumnTemplate).WithText`. -/
def ColumnTemplate.WithText {D : Type} (lib : TemplateLib D) (ct : ColumnTemplate)
    (textTempl : String) : Option Error × ColumnTemplate :=
  match lib.Parse "colText" textTempl with
  | Except.error e => (some e, ct)
  | Except.ok templ => (none, { ct with textTemplate := some templ })

/-- The method `(*ColumnTemplate).WithMessageAction`. -/
def ColumnTemplate.WithMessageAction {D : Type} (lib : TemplateLib D) (ct : ColumnTemplate)
    (label text : String) : ColumnTemplate :=
  let labelTempl := lib.parsed "label" label
  let textTempl := lib.parsed "text" text
  let actionTemplate : ActionTempate :=
    { actionType := TemplateActionTypeMessage, labelTemplate := labelTempl,
      textOrUrlTemplate := textTempl, dataTemplate := none }
  { ct with actionsTemplates := ct.actionsTemplates ++ [actionTemplate] }

/-- The method `(*ColumnTemplate).WithURIAction`. -/
def ColumnTemplate.WithURIAction {D : Type} (lib : TemplateLib D) (ct : ColumnTemplate)
    (label uri : String) : ColumnTemplate :=
  let labelTempl := lib.parsed "label" label
  let uriTempl := lib.parsed "uri" uri
  let actionTemplate : ActionTempate :=
    { actionType := TemplateActionTypeURI, labelTemplate := labelTempl,
      textOrUrlTemplate := uriTempl, dataTemplate := none }
  { ct with actionsTemplates := ct.actionsTemplates ++ [actionTemplate] }

/-- The method `(*ColumnTemplate).WithPostbackAction` (lines 455 to 468): the
template named "text" is parsed from `label`, and the action type set is
`linebot.TemplateActionTypeMessage`. -/
def ColumnTemplate.WithPostbackAction {D : Type} (lib : TemplateLib D) (ct : ColumnTemplate)
    (label data _text : String) : ColumnTemplate :=
  let labelTempl := lib.parsed "label" label
  let textTempl := lib.parsed "text" label
  let dataTempl := lib.parsed "data" data
  let actionTemplate : ActionTempate :=
    { actionType := TemplateActionTypeMessage, labelTemplate := labelTempl,
      textOrUrlTemplate := textTempl, dataTemplate := dataTempl }
  { ct with actionsTemplates := ct.actionsTemplates ++ [actionTemplate] }

/-- The pattern `if templ != nil { buf := bytes.NewBufferString("");
templ.Execute(buf, d); x = buf.String() }` on a variable `x` that holds the
empty string before. -/
def TemplateLib.render {D : Type} (lib : TemplateLib D) (templ : Option TextTemplate)
    (d : D) : String :=
  match templ with
  | none => ""
  | some t => lib.Execute t d

/-- The `switch actionTempl.actionType` of `generate`: the list `actions` after
it. -/
def ActionTempate.appendAction (actionType : String) (actions : List TemplateAction)
    (label textOrUrl data : String) : List TemplateAction :=
  if actionType = TemplateActionTypeMessage then
    actions ++ [NewMessageTemplateAction label textOrUrl]
  else if actionType = TemplateActionTypeURI then
    actions ++ [NewURITemplateAction label textOrUrl]
  else if actionType = TemplateActionTypePostback then
    actions ++ [NewPostbackTemplateAction label data textOrUrl]
  else actions

/-- The inner loop of `generate` for the record `d` (lines 497 to 531): the
list `actions` and the number of times the pointer `col` has been appended to
`columns`, at the end of the loop.  Each round ends with `col.actions =
actions` and `columns = append(columns, col)`. -/
def ColumnTemplate.actionsLoop {D : Type} (lib : TemplateLib D) (d : D) :
    List ActionTempate → List TemplateAction → Nat → List TemplateAction × Nat
  | [], actions, appended => (actions, appended)
  | actionTempl :: rest, actions, appended =>
    let label := lib.render actionTempl.labelTemplate d
    let textOrUrl := lib.render actionTempl.textOrUrlTemplate d
    let data := lib.render actionTempl.dataTemplate d
    ColumnTemplate.actionsLoop lib d rest
      (ActionTempate.appendAction actionTempl.actionType actions label textOrUrl data)
      (appended + 1)

/-- The column `col` of `generate` for the record `d` as it is when `generate`
returns, given the list `actions` assigned to it last. -/
def ColumnTemplate.column {D : Type} (lib : TemplateLib D) (ct : ColumnTemplate) (d : D)
    (actions : List TemplateAction) : CarouselColumn :=
  { actions := actions,
    Column :=
      { ThumbnailImageURL := lib.render ct.imageUrlTemplate d,
        Title := lib.render ct.titleTemplate d,
        Text := lib.render ct.textTemplate d,
        Actions := [] } }

/-- The outer loop of `generate` (lines 476 to 532) on the memory `cells`, in
which `fresh` is the address that the next allocation returns.  `columns` is a
slice of pointers: a round allocates one column `col`, and its inner loop
appends the one pointer `col` once in every round of its own, so when
`generate` returns the column at `col` holds the actions assigned in the last
of these rounds.  The result is the slice and the memory at the end. -/
def ColumnTemplate.generateLoop {D : Type} (lib : TemplateLib D) (ct : ColumnTemplate) :
    List D → ColumnCells → Nat → List Nat → List Nat × ColumnCells
  | [], cells, _, columns => (columns, cells)
  | d :: rest, cells, fresh, columns =>
    let r := ColumnTemplate.actionsLoop lib d ct.actionsTemplates [] 0
    ColumnTemplate.generateLoop lib ct rest
      (storeColumn cells fresh (ColumnTemplate.column lib ct d r.1)) (fresh + 1)
      (columns ++ List.replicate r.2 fresh)

/-- The method `(*ColumnTemplate).generate` on the memory `cells` with next
address `fresh`: the slice of pointers or the error returned, and the memory
after the call; `none` is the nil slice. -/
def ColumnTemplate.generate {D : Type} (lib : TemplateLib D) (ct : ColumnTemplate)
    (data : Option (List D)) (cells : ColumnCells) (fresh : Nat) :
    Except Error (List Nat) × ColumnCells :=
  match data with
  | none => (Except.error Error.ErrorMissingParam, cells)
  | some records =>
    (Except.ok (ColumnTemplate.generateLoop lib ct records cells fresh []).1,
      (ColumnTemplate.generateLoop lib ct records cells fresh []).2)

/-- The method `(*CarouselMessageBuilder).GetColumnGenerator`: the builder after
the call; the pointer returned is the generator now held by the builder. -/
def CarouselMessageBuilder.GetColumnGenerator (cm : CarouselMessageBuilder) :
    CarouselMessageBuilder :=
  { cm with columnGenerator := some newColumnTemplate }

/-- A method call `f` on the generator through the pointer that
`GetColumnGenerator` returned. -/
def CarouselMessageBuilder.onGenerator (cm : CarouselMessageBuilder)
    (f : ColumnTemplate → ColumnTemplate) : CarouselMessageBuilder :=
  { cm with columnGenerator := cm.columnGenerator.map f }

/-- The method `(*CarouselMessageBuilder).GenerateColumnsWith`; a call without
arguments passes the nil slice (`none`). -/
def CarouselMessageBuilder.GenerateColumnsWith {D : Type} (lib : TemplateLib D)
    (cm : CarouselMessageBuilder) (data : Option (List D)) :
    Option Error × CarouselMessageBuilder :=
  match cm.columnGenerator with
  | none => (some Error.ErrorNoColumnTemplate, cm)
  | some generator =>
    match ColumnTemplate.generate lib generator data cm.cells cm.fresh with
    | (Except.error e, _) => (some e, cm)
    | (Except.ok columns, cells1) =>
      (none, { cm with columns := cm.columns ++ columns, cells := cells1 })

/-! ## `lbotx.go`: contexts and handlers -/

/-- A value parked in the scratch map (the empty interface). -/
inductive Value where
  | str (s : String)
  | int (n : Int)
  | obj (fields : List (String × String))
  deriving DecidableEq, Repr

/-- The struct `UserProfile`. -/
structure UserProfile where
  Id : String
  Name : String
  Picture : String
  Status : String
  deriving DecidableEq, Repr

/-- The struct `BotContext`; its `bot` field is the client that the functions
below take as a parameter. -/
structure BotContext where
  Event : Event
  Params : GoMap String
  Data : GoMap Value
  Messages : MessageBank
  userProfile : Option UserProfile
  deriving DecidableEq, Repr

/-- What a call of a handler does: it returns `(next, err)`, or it panics. -/
inductive Outcome where
  | ret (next : Bool) (err : Option Error)
  | panic
  deriving DecidableEq, Repr

/-- Go: `type EventHandler func(context *BotContext) (bool, error)`. -/
abbrev EventHandler (W : Type) := BotContext → W → Outcome × BotContext × W

/-- Go: `type TextFilter func(context *BotContext, text string) bool`
(`none`: the filter panics). -/
abbrev TextFilter (W : Type) := BotContext → String → W → Option Bool × BotContext × W

abbrev TextMessageHandler (W : Type) := BotContext → String → W → Outcome × BotContext × W
abbrev BinaryDataHandler (W : Type) := BotContext → Bytes → W → Outcome × BotContext × W
abbrev LocationHandler (W : Type) :=
  BotContext → LocationMessage → W → Outcome × BotContext × W
abbrev StickerHandler (W : Type) :=
  BotContext → StickerMessage → W → Outcome × BotContext × W
abbrev JoinHandler (W : Type) :=
  BotContext → String → String → W → Outcome × BotContext × W
abbrev LeaveHandler (W : Type) := BotContext → String → W → Outcome × BotContext × W
abbrev PostbackHandler (W : Type) := BotContext → String → W → Outcome × BotContext × W
abbrev BeaconHandler (W : Type) := BotContext → String → W → Outcome × BotContext × W

/-- Go: `type ErrorHandler func(context *BotContext, err error)`. -/
abbrev ErrorHandler (W : Type) := BotContext → Error → W → BotContext × W

/-- The struct `Bot`.  A handler that the bot holds is called on a context
whose field `bot` is the client that the bot holds at that moment; a handler is
stored here as a function of that client. -/
structure Bot (W : Type) where
  Client : Client W
  handlers : List (Lbotx.Client W → EventHandler W)
  errHandlers : List (ErrorHandler W)

/-- The method `(*Bot).NewContext`. -/
def NewContext (event : Event) : BotContext :=
  { Event := event
    Params := GoMap.make
    Data := GoMap.make
    Messages := { messages := [] }
    userProfile := none }

/-- The method `(*BotContext).Set`. -/
def BotContext.Set (c : BotContext) (name : String) (value : Value) : BotContext :=
  { c with Data := GoMap.set c.Data name value }

/-- The method `(*BotContext).Get` (`none` is the nil interface). -/
def BotContext.Get (c : BotContext) (name : String) : Option Value :=
  GoMap.get c.Data name

/-- The method `(*Bot).OnEvent`; the first argument of `handler` is the field
`bot` of the context that the handler is called on. -/
def Bot.OnEvent {W : Type} (b : Bot W) (handler : Lbotx.Client W → EventHandler W) :
    Bot W :=
  { b with handlers := b.handlers ++ [handler] }

/-- The handlers of the bot as `ServeHTTP` calls them: on the context that
`NewContext` made, whose field `bot` is `b.Client`. -/
def Bot.bound {W : Type} (b : Bot W) : List (EventHandler W) :=
  b.handlers.map fun handler => handler b.Client

/-- The method `(*Bot).OnError`. -/
def Bot.OnError {W : Type} (b : Bot W) (handler : ErrorHandler W) : Bot W :=
  { b with errHandlers := b.errHandlers ++ [handler] }

/-! ## `ServeHTTP` -/

/-- One entry of the ghost trace of `ServeHTTP`. -/
inductive Call where
  /-- The call `b.NewContext(event)` and the context it returned. -/
  | newContext (ctx : BotContext)
  /-- The call `handler(context)` of `b.handlers[idx]`, the context it was
  given and what it did. -/
  | handler (idx : Nat) (ctx : BotContext) (out : Outcome)
  /-- The call `errHandler(context, e)` of `b.errHandlers[idx]`. -/
  | errHandler (idx : Nat) (ctx : BotContext) (e : Error)
  /-- The call `context.Messages.reply(token)`, the messages of the bank at
  that moment and the error it returned. -/
  | reply (token : String) (messages : List Message) (res : Option Error)
  deriving DecidableEq, Repr

/-- The state that the loops of `ServeHTTP` thread: the context of the current
event, the world, and the ghost trace so far. -/
structure St (W : Type) where
  ctx : BotContext
  world : W
  trace : List Call

/-- The loop `for _, errHandler := range b.errHandlers { errHandler(context, e) }`;
`idx` is the index of the first handler of the list. -/
def callErrHandlers {W : Type} (e : Error) :
    List (ErrorHandler W) → Nat → St W → St W
  | [], _, s => s
  | errHandler :: rest, idx, s =>
    let r := errHandler s.ctx e s.world
    callErrHandlers e rest (idx + 1)
      { ctx := r.1, world := r.2, trace := s.trace ++ [Call.errHandler idx s.ctx e] }

/-- How the handler loop of one event ended. -/
inductive ChainEnd where
  | exhausted
  | stopped
  | failed (e : Error)
  | panicked
  deriving DecidableEq, Repr

/-- The loop `for _, handler := range b.handlers { ... }` of `ServeHTTP`
(lines 99 to 111); `idx` is the index of the first handler of the list. -/
def runHandlers {W : Type} (errHandlers : List (ErrorHandler W)) :
    List (EventHandler W) → Nat → St W → ChainEnd × St W
  | [], _, s => (ChainEnd.exhausted, s)
  | handler :: rest, idx, s =>
    match handler s.ctx s.world with
    | (Outcome.panic, ctx1, w1) =>
      (ChainEnd.panicked,
        { ctx := ctx1, world := w1,
          trace := s.trace ++ [Call.handler idx s.ctx Outcome.panic] })
    | (Outcome.ret next (some e), ctx1, w1) =>
      (ChainEnd.failed e,
        callErrHandlers e errHandlers 0
          { ctx := ctx1, world := w1,
            trace := s.trace ++ [Call.handler idx s.ctx (Outcome.ret next (some e))] })
    | (Outcome.ret false none, ctx1, w1) =>
      (ChainEnd.stopped,
        { ctx := ctx1, world := w1,
          trace := s.trace ++ [Call.handler idx s.ctx (Outcome.ret false none)] })
    | (Outcome.ret true none, ctx1, w1) =>
      runHandlers errHandlers rest (idx + 1)
        { ctx := ctx1, world := w1,
          trace := s.trace ++ [Call.handler idx s.ctx (Outcome.ret true none)] }

/-- The flush after the handler loop (lines 112 to 118): the call
`context.Messages.reply(event.ReplyToken)` and the error handlers on its
error. -/
def flush {W : Type} (b : Bot W) (event : Event) (s : St W) : St W :=
  match MessageBank.reply b.Client s.ctx.Messages event.ReplyToken s.world with
  | (some e, w1) =>
    callErrHandlers e b.errHandlers 0
      { ctx := s.ctx, world := w1,
        trace := s.trace ++ [Call.reply event.ReplyToken s.ctx.Messages.messages (some e)] }
  | (none, w1) =>
    { ctx := s.ctx, world := w1,
      trace := s.trace ++ [Call.reply event.ReplyToken s.ctx.Messages.messages none] }

/-- The body of the loop over the events (lines 97 to 118) for one event.
When a handler panicked the panic unwinds out of `ServeHTTP` and nothing is
flushed. -/
def dispatch {W : Type} (b : Bot W) (event : Event) (w : W) (trace : List Call) :
    ChainEnd × St W :=
  let context := NewContext event
  let r := runHandlers b.errHandlers b.bound 0
    { ctx := context, world := w, trace := trace ++ [Call.newContext context] }
  match r.1 with
  | ChainEnd.panicked => r
  | _ => (r.1, flush b event r.2)

/-- The loop `for _, event := range events` of `ServeHTTP`: the world and the
trace after the batch, and whether a handler panicked. -/
def serveEvents {W : Type} (b : Bot W) : List Event → W → List Call → Bool × W × List Call
  | [], w, trace => (false, w, trace)
  | event :: rest, w, trace =>
    match dispatch b event w trace with
    | (ChainEnd.panicked, s) => (true, s.world, s.trace)
    | (_, s) => serveEvents b rest s.world s.trace

/-- What `ServeHTTP` leaves behind: the status code of the response (`none`
when a handler panicked and the function did not return), the world and the
ghost trace. -/
structure Served (W : Type) where
  status : Option Nat
  world : W
  trace : List Call

/-- The method `(*Bot).ServeHTTP`.  A handler that returns without a call of
`WriteHeader` answers with status 200. -/
def ServeHTTP {W : Type} (b : Bot W) (req : Request) (w : W) : Served W :=
  match b.Client.ParseRequest req w with
  | (Except.error err, w1) =>
    if err = Error.ErrInvalidSignature then
      { status := some 400, world := w1, trace := [] }
    else
      { status := some 500, world := w1, trace := [] }
  | (Except.ok events, w1) =>
    match serveEvents b events w1 [] with
    | (true, w2, trace) => { status := none, world := w2, trace := trace }
    | (false, w2, trace) => { status := some 200, world := w2, trace := trace }

/-! ## User profile -/

/-- The method `(*BotContext).GetUser`: `none` is the panic on a nil
`Event.Source`, otherwise the pair `(profile, error)` of the Go function as
an `Except`. -/
def BotContext.GetUser {W : Type} (cl : Client W) (c : BotContext) (w : W) :
    Option (Except Error UserProfile) × BotContext × W :=
  match c.userProfile with
  | some profile => (some (Except.ok profile), c, w)
  | none =>
    match c.Event.Source with
    | none => (none, c, w)
    | some source =>
      let userId := source.UserID
      if userId = "" then
        (some (Except.error Error.ErrorInvalidUserId), c, w)
      else
        match cl.GetProfile userId w with
        | (Except.error e, w1) => (some (Except.error e), c, w1)
        | (Except.ok resp, w1) =>
          let profile : UserProfile :=
            { Id := resp.UserID, Name := resp.DisplayName,
              Picture := resp.PictureURL, Status := resp.StatusMessage }
          (some (Except.ok profile), { c with userProfile := some profile }, w1)

/-- The method `(*BotContext).GetUserId` (`none`: nil `Event.Source`). -/
def BotContext.GetUserId (c : BotContext) : Option String :=
  match c.Event.Source with
  | none => none
  | some source => some source.UserID

/-! ## Typed registrations

Each `OnX` of the Go code builds a closure `eventHandler` and registers it with
`OnEvent`.  The closure is `OnX.eventHandler`, the registration `Bot.OnX`.  The
closures of `OnImage`, `OnVideo` and `OnAudio` read the client off the context
they are called on (`context.bot`): it is their parameter `cl`, which
`Bot.OnImage`, `Bot.OnVideo` and `Bot.OnAudio` leave open until the call. -/

/-- The closure of `OnText`. -/
def OnText.eventHandler {W : Type} (handler : TextMessageHandler W) : EventHandler W :=
  fun context w =>
    if context.Event.Type_ ≠ EventTypeMessage then
      (Outcome.ret true none, context, w)
    else
      match context.Event.Message with
      | some (Message.Text _ text) => handler context text w
      | _ => (Outcome.ret true none, context, w)

/-- The closure of `OnFilteredText`. -/
def OnFilteredText.eventHandler {W : Type} (filter : TextFilter W)
    (handler : TextMessageHandler W) : EventHandler W :=
  fun context w =>
    if context.Event.Type_ ≠ EventTypeMessage then
      (Outcome.ret true none, context, w)
    else
      match context.Event.Message with
      | some (Message.Text _ text) =>
        match filter context text w with
        | (none, context1, w1) => (Outcome.panic, context1, w1)
        | (some true, context1, w1) => handler context1 text w1
        | (some false, context1, w1) => (Outcome.ret true none, context1, w1)
      | _ => (Outcome.ret true none, context, w)

/-- The part that the closures of `OnImage`, `OnVideo` and `OnAudio` share
word for word once the message is known to be of their type: fetch the
content of message `id`, read it, call the handler; the deferred `Close` of
the body runs when the closure returns. -/
def fetchAndHandle {W : Type} (cl : Client W) (handler : BinaryDataHandler W)
    (id : String) : EventHandler W :=
  fun context w =>
    match cl.GetMessageContent id w with
    | (Except.error err, w1) => (Outcome.ret false (some err), context, w1)
    | (Except.ok resp, w1) =>
      match cl.ReadAll resp.Content w1 with
      | (Except.error err, w2) =>
        (Outcome.ret false (some err), context, cl.Close resp.Content w2)
      | (Except.ok data, w2) =>
        let r := handler context data w2
        (r.1, r.2.1, cl.Close resp.Content r.2.2)

/-- The closure of `OnImage`. -/
def OnImage.eventHandler {W : Type} (cl : Client W) (handler : BinaryDataHandler W) :
    EventHandler W :=
  fun context w =>
    if context.Event.Type_ ≠ EventTypeMessage then
      (Outcome.ret true none, context, w)
    else
      match context.Event.Message with
      | some (Message.Image id _ _) => fetchAndHandle cl handler id context w
      | _ => (Outcome.ret true none, context, w)

/-- The closure of `OnVideo`. -/
def OnVideo.eventHandler {W : Type} (cl : Client W) (handler : BinaryDataHandler W) :
    EventHandler W :=
  fun context w =>
    if context.Event.Type_ ≠ EventTypeMessage then
      (Outcome.ret true none, context, w)
    else
      match context.Event.Message with
      | some (Message.Video id _ _) => fetchAndHandle cl handler id context w
      | _ => (Outcome.ret true none, context, w)

/-- The closure of `OnAudio`. -/
def OnAudio.eventHandler {W : Type} (cl : Client W) (handler : BinaryDataHandler W) :
    EventHandler W :=
  fun context w =>
    if context.Event.Type_ ≠ EventTypeMessage then
      (Outcome.ret true none, context, w)
    else
      match context.Event.Message with
      | some (Message.Audio id _ _) => fetchAndHandle cl handler id context w
      | _ => (Outcome.ret true none, context, w)

/-- The closure of `OnLocation`. -/
def OnLocation.eventHandler {W : Type} (handler : LocationHandler W) : EventHandler W :=
  fun context w =>
    if context.Event.Type_ ≠ EventTypeMessage then
      (Outcome.ret true none, context, w)
    else
      match context.Event.Message with
      | some (Message.Location msg) => handler context msg w
      | _ => (Outcome.ret true none, context, w)

/-- The closure of `OnSticker`. -/
def OnSticker.eventHandler {W : Type} (handler : StickerHandler W) : EventHandler W :=
  fun context w =>
    if context.Event.Type_ ≠ EventTypeMessage then
      (Outcome.ret true none, context, w)
    else
      match context.Event.Message with
      | some (Message.Sticker msg) => handler context msg w
      | _ => (Outcome.ret true none, context, w)

/-- The closure of `OnFollow`. -/
def OnFollow.eventHandler {W : Type} (handler : EventHandler W) : EventHandler W :=
  fun context w =>
    if context.Event.Type_ ≠ EventTypeFollow then
      (Outcome.ret true none, context, w)
    else
      handler context w

/-- The closure of `OnUnFollow`. -/
def OnUnFollow.eventHandler {W : Type} (handler : EventHandler W) : EventHandler W :=
  fun context w =>
    if context.Event.Type_ ≠ EventTypeUnfollow then
      (Outcome.ret true none, context, w)
    else
      handler context w

/-- The closure of `OnJoin`. -/
def OnJoin.eventHandler {W : Type} (handler : JoinHandler W) : EventHandler W :=
  fun context w =>
    if context.Event.Type_ ≠ EventTypeJoin then
      (Outcome.ret true none, context, w)
    else
      match context.Event.Source with
      | none => (Outcome.panic, context, w)
      | some source =>
        if source.Type_ ≠ EventSourceTypeRoom ∧ source.Type_ ≠ EventSourceTypeGroup then
          (Outcome.ret false (some Error.ErrorUnknowJoinType), context, w)
        else
          let id := if source.Type_ = EventSourceTypeRoom then source.RoomID else source.GroupID
          handler context source.Type_ id w

/-- The closure of `OnLeave`. -/
def OnLeave.eventHandler {W : Type} (handler : LeaveHandler W) : EventHandler W :=
  fun context w =>
    if context.Event.Type_ ≠ EventTypeLeave then
      (Outcome.ret true none, context, w)
    else
      match context.Event.Source with
      | none => (Outcome.panic, context, w)
      | some source =>
        if source.Type_ ≠ EventSourceTypeGroup then
          (Outcome.ret false (some Error.ErrorUnknowJoinType), context, w)
        else
          let id := source.GroupID
          handler context id w

/-- The closure of `OnPostback`. -/
def OnPostback.eventHandler {W : Type} (handler : PostbackHandler W) : EventHandler W :=
  fun context w =>
    if context.Event.Type_ ≠ EventTypePostback then
      (Outcome.ret true none, context, w)
    else
      match context.Event.Postback with
      | none => (Outcome.panic, context, w)
      | some postback => handler context postback.Data w

/-- The closure of `OnBeaconEnter`. -/
def OnBeaconEnter.eventHandler {W : Type} (handler : BeaconHandler W) : EventHandler W :=
  fun context w =>
    if context.Event.Type_ ≠ EventTypeBeacon then
      (Outcome.ret true none, context, w)
    else
      match context.Event.Beacon with
      | none => (Outcome.panic, context, w)
      | some beacon =>
        if beacon.Type_ ≠ BeaconEventTypeEnter then
          (Outcome.ret true none, context, w)
        else
          handler context beacon.Hwid w

/-- The closure of `OnBeaconLeave`. -/
def OnBeaconLeave.eventHandler {W : Type} (handler : BeaconHandler W) : EventHandler W :=
  fun context w =>
    if context.Event.Type_ ≠ EventTypeBeacon then
      (Outcome.ret true none, context, w)
    else
      match context.Event.Beacon with
      | none => (Outcome.panic, context, w)
      | some beacon =>
        if beacon.Type_ ≠ BeaconEventTypeLeave then
          (Outcome.ret true none, context, w)
        else
          handler context beacon.Hwid w

def Bot.OnText {W : Type} (b : Bot W) (handler : TextMessageHandler W) : Bot W :=
  b.OnEvent (fun _ => OnText.eventHandler handler)

def Bot.OnFilteredText {W : Type} (b : Bot W) (filter : TextFilter W)
    (handler : TextMessageHandler W) : Bot W :=
  b.OnEvent (fun _ => OnFilteredText.eventHandler filter handler)

def Bot.OnImage {W : Type} (b : Bot W) (handler : BinaryDataHandler W) : Bot W :=
  b.OnEvent (fun bot => OnImage.eventHandler bot handler)

def Bot.OnVideo {W : Type} (b : Bot W) (handler : BinaryDataHandler W) : Bot W :=
  b.OnEvent (fun bot => OnVideo.eventHandler bot handler)

def Bot.OnAudio {W : Type} (b : Bot W) (handler : BinaryDataHandler W) : Bot W :=
  b.OnEvent (fun bot => OnAudio.eventHandler bot handler)

def Bot.OnLocation {W : Type} (b : Bot W) (handler : LocationHandler W) : Bot W :=
  b.OnEvent (fun _ => OnLocation.eventHandler handler)

def Bot.OnSticker {W : Type} (b : Bot W) (handler : StickerHandler W) : Bot W :=
  b.OnEvent (fun _ => OnSticker.eventHandler handler)

def Bot.OnFollow {W : Type} (b : Bot W) (handler : EventHandler W) : Bot W :=
  b.OnEvent (fun _ => OnFollow.eventHandler handler)

def Bot.OnUnFollow {W : Type} (b : Bot W) (handler : EventHandler W) : Bot W :=
  b.OnEvent (fun _ => OnUnFollow.eventHandler handler)

def Bot.OnJoin {W : Type} (b : Bot W) (handler : JoinHandler W) : Bot W :=
  b.OnEvent (fun _ => OnJoin.eventHandler handler)

def Bot.OnLeave {W : Type} (b : Bot W) (handler : LeaveHandler W) : Bot W :=
  b.OnEvent (fun _ => OnLeave.eventHandler handler)

def Bot.OnPostback {W : Type} (b : Bot W) (handler : PostbackHandler W) : Bot W :=
  b.OnEvent (fun _ => OnPostback.eventHandler handler)

def Bot.OnBeaconEnter {W : Type} (b : Bot W) (handler : BeaconHandler W) : Bot W :=
  b.OnEvent (fun _ => OnBeaconEnter.eventHandler handler)

def Bot.OnBeaconLeave {W : Type} (b : Bot W) (handler : BeaconHandler W) : Bot W :=
  b.OnEvent (fun _ => OnBeaconLeave.eventHandler handler)

/-! ## The text pattern matcher of `OnTextWith`

The functions of the Go standard library that `OnTextWith` calls, as far as it
uses them.  Strings are handled as lists of characters. -/

/-- The characters that `regexp.QuoteMeta` escapes: the characters of
`\.+*?()|[]{}^$`. -/
def isSpecial (c : Char) : Bool :=
  c = '\\' || c = '.' || c = '+' || c = '*' || c = '?' || c = '(' || c = ')' || c = '|'
    || c = '[' || c = ']' || c = '\x7b' || c = '\x7d' || c = '^' || c = '$'

/-- Go: `regexp.QuoteMeta`: a backslash in front of every special character. -/
def QuoteMeta : List Char → List Char
  | [] => []
  | c :: cs => if isSpecial c then '\\' :: c :: QuoteMeta cs else c :: QuoteMeta cs

/-- The class `\w` of Go regular expressions: `[0-9A-Za-z_]`. -/
def isWordChar (c : Char) : Bool :=
  c.isAlphanum || c = '_'

/-- The text `\{\{` with which a match of `templReg` starts. -/
def templOpen : List Char := ['\\', '\x7b', '\\', '\x7b']

/-- The text `\}\}` with which a match of `templReg` ends. -/
def templClose : List Char := ['\\', '\x7d', '\\', '\x7d']

/-- The match of `templReg`, the expression `\\\{\\\{(\w+)\\\}\\\}`, that
starts at the first character of `s`: the matched text `m[0]` and the group
`m[1]`.  The group `\w+` is greedy and the character after it must be a
backslash, which is no word character, so the longest run of word characters
is the only candidate. -/
def templRegMatchAt (s : List Char) : Option (List Char × List Char) :=
  if templOpen.isPrefixOf s then
    let name := (s.drop 4).takeWhile isWordChar
    let after := (s.drop 4).dropWhile isWordChar
    if name ≠ [] ∧ templClose.isPrefixOf after then
      some (templOpen ++ name ++ templClose, name)
    else
      none
  else
    none

/-- Go: `templReg.FindAllStringSubmatch(s, -1)`: the successive leftmost
matches, each search starting where the match before it ended.  The first
argument is the number of characters still covered by the last match. -/
def templRegFindAll : Nat → List Char → List (List Char × List Char)
  | _, [] => []
  | 0, c :: cs =>
    match templRegMatchAt (c :: cs) with
    | some m => m :: templRegFindAll (m.1.length - 1) cs
    | none => templRegFindAll 0 cs
  | skip + 1, _ :: cs => templRegFindAll skip cs

/-- The scan of `strings.Replace(s, old, new, -1)` for a non-empty `old`; the
first argument is the number of characters still covered by the occurrence
replaced last. -/
def replaceScan (old new : List Char) : Nat → List Char → List Char
  | _, [] => []
  | 0, c :: cs =>
    if old.isPrefixOf (c :: cs) then new ++ replaceScan old new (old.length - 1) cs
    else c :: replaceScan old new 0 cs
  | skip + 1, _ :: cs => replaceScan old new skip cs

/-- Go: `strings.Replace(s, old, new, -1)`: every non-overlapping occurrence
of `old`, from the left, becomes `new`; an empty `old` matches in front of
every character and at the end. -/
def stringsReplace (s old new : List Char) : List Char :=
  if old = [] then new ++ s.flatMap (fun c => c :: new)
  else replaceScan old new 0 s

/-- The text `(.+)` that takes the place of a placeholder. -/
def groupText : List Char := ['(', '.', '+', ')']

/-- The loop of `OnTextWith` over the matches (lines 216 to 221): the template
and the name list after it. -/
def OnTextWith.substitute :
    List (List Char × List Char) → List Char × List String → List Char × List String
  | [], acc => acc
  | m :: rest, (template, nameList) =>
    OnTextWith.substitute rest
      (stringsReplace template m.1 groupText, nameList ++ [String.mk m.2])

/-- The expression text and the name list that `OnTextWith` builds from a
template (lines 210 to 221). -/
def OnTextWith.build (template : String) : List Char × List String :=
  let quoted := QuoteMeta template.toList
  let found := templRegFindAll 0 quoted
  OnTextWith.substitute found (quoted, [])

/-- The placeholder `{{name}}`. -/
def namePlaceholder : String := "\x7b\x7bname\x7d\x7d"

/-- The placeholder `{{name}}` after `QuoteMeta`. -/
def quotedNamePlaceholder : List Char := templOpen ++ "name".toList ++ templClose

/-- The pieces of the expressions that `OnTextWith` compiles: a literal
character, or the group `(.+)`. -/
inductive Item where
  | lit (c : Char)
  | group
  deriving DecidableEq, Repr

/-- A compiled expression (`*regexp.Regexp`). -/
structure Regexp where
  items : List Item
  deriving DecidableEq, Repr

/-- The scan of the parser of `regexp.Compile` on the expressions within its
reach here: a character that is not special stands for itself, a backslash
followed by a special character stands for that character, `(.+)` is a group;
any other text is outside this model (`none`).  The first argument is the
number of characters still covered by the piece read last. -/
def parseScan : Nat → List Char → Option (List Item)
  | _, [] => some []
  | skip + 1, _ :: rest => parseScan skip rest
  | 0, c :: rest =>
    if c = '\\' then
      match rest.head? with
      | some d =>
        if isSpecial d then (parseScan 1 rest).map (fun items => Item.lit d :: items)
        else none
      | none => none
    else if c = '(' then
      if rest.take 3 = ['.', '+', ')'] then
        (parseScan 3 rest).map (fun items => Item.group :: items)
      else none
    else if isSpecial c then none
    else (parseScan 0 rest).map (fun items => Item.lit c :: items)

/-- The parser of `regexp.Compile` on the expressions within its reach. -/
def parseItems (expr : List Char) : Option (List Item) :=
  parseScan 0 expr

/-- Go: `regexp.Compile`, with its error dropped as in `OnTextWith`: `none` is
the nil expression. -/
def Compile (expr : List Char) : Option Regexp :=
  (parseItems expr).map fun items => { items := items }

/-- The number of characters that `.+` can take at most at the start of
`text`: `.` matches every character but the line feed. -/
def dotRun (text : List Char) : Nat :=
  (text.takeWhile (fun c => c ≠ '\n')).length

/-- The greedy choice of a group: the longest admissible length first, down
to one character; `k` matches what follows the group. -/
def tryLengths (k : List Char → Option (List (List Char) × List Char)) (text : List Char) :
    Nat → Option (List (List Char) × List Char)
  | 0 => none
  | n + 1 =>
    match k (text.drop (n + 1)) with
    | some (groups, rest) => some (text.take (n + 1) :: groups, rest)
    | none => tryLengths k text n

/-- The match of the items at the start of `text`, as a backtracking search
finds it first: the texts of the groups and the text left after the match. -/
def matchHere : List Item → List Char → Option (List (List Char) × List Char)
  | [], text => some ([], text)
  | Item.lit _ :: _, [] => none
  | Item.lit c :: items, t :: text => if c = t then matchHere items text else none
  | Item.group :: items, text =>
    tryLengths (fun rest => matchHere items rest) text (dotRun text)

/-- The leftmost match in `text`: the matched text, then the texts of the
groups.  Go's expressions are not anchored; the match returned is the one that
starts earliest and, among those, the one that a backtracking search finds
first. -/
def findFrom (items : List Item) : List Char → Option (List (List Char))
  | [] =>
    match matchHere items [] with
    | some (groups, _) => some ([] :: groups)
    | none => none
  | t :: text =>
    match matchHere items (t :: text) with
    | some (groups, rest) =>
      some ((t :: text).take ((t :: text).length - rest.length) :: groups)
    | none => findFrom items text

/-- Go: `(*Regexp).FindStringSubmatch`; the nil result is the empty list. -/
def Regexp.FindStringSubmatch (re : Regexp) (text : String) : List String :=
  match findFrom re.items text.toList with
  | some results => results.map String.mk
  | none => []

/-- Go: `(*Regexp).MatchString`. -/
def Regexp.MatchString (re : Regexp) (text : String) : Bool :=
  (findFrom re.items text.toList).isSome

/-- The loop `for i, r := range results` of the filter of `OnTextWith` (lines
234 to 240), from index `i` on; `none` is the panic of `nameList[i-1]` out of
range. -/
def OnTextWith.fill (nameList : List String) :
    List String → Nat → GoMap String → Option (GoMap String)
  | [], _, params => some params
  | r :: results, i, params =>
    if i = 0 then OnTextWith.fill nameList results (i + 1) params
    else
      match nameList[i - 1]? with
      | none => none
      | some name => OnTextWith.fill nameList results (i + 1) (GoMap.set params name r)

/-- The closure `filter` of `OnTextWith` (lines 225 to 243). -/
def OnTextWith.filter {W : Type} (textReg : Option Regexp) (nameList : List String) :
    TextFilter W :=
  fun context text w =>
    match textReg with
    | none => (none, context, w)
    | some re =>
      if !re.MatchString text then
        (some false, context, w)
      else
        let results := re.FindStringSubmatch text
        match OnTextWith.fill nameList results 0 GoMap.make with
        | none => (none, { context with Params := GoMap.make }, w)
        | some params => (some true, { context with Params := params }, w)

/-- The filter that `OnTextWith` builds from a template. -/
def OnTextWith.matcher {W : Type} (template : String) : TextFilter W :=
  OnTextWith.filter (Compile (OnTextWith.build template).1) (OnTextWith.build template).2

/-- The event handler that `OnTextWith` registers. -/
def OnTextWith.eventHandler {W : Type} (template : String) (handler : TextMessageHandler W) :
    EventHandler W :=
  OnFilteredText.eventHandler
    (OnTextWith.filter (Compile (OnTextWith.build template).1) (OnTextWith.build template).2)
    handler

def Bot.OnTextWith {W : Type} (b : Bot W) (template : String)
    (handler : TextMessageHandler W) : Bot W :=
  b.OnFilteredText
    (OnTextWith.filter (Compile (OnTextWith.build template).1) (OnTextWith.build template).2)
    handler

/-! ### Pieces of expression text

The expressions that `OnTextWith` builds are made of three kinds of pieces.
The pieces serve the proof that `Compile` never fails on them. -/

/-- One piece of expression text: a character that stands for itself, an
escaped special character, or the group `(.+)`. -/
inductive Piece where
  | plain (c : Char)
  | escaped (c : Char)
  | group
  deriving DecidableEq, Repr

/-- The text of a piece. -/
def Piece.text : Piece → List Char
  | Piece.plain c => [c]
  | Piece.escaped c => ['\\', c]
  | Piece.group => groupText

/-- A plain piece holds no special character, an escaped one holds one. -/
def Piece.ok : Piece → Bool
  | Piece.plain c => !isSpecial c
  | Piece.escaped c => isSpecial c
  | Piece.group => true

/-- The item that a piece parses to. -/
def Piece.item : Piece → Item
  | Piece.plain c => Item.lit c
  | Piece.escaped c => Item.lit c
  | Piece.group => Item.group

/-- The text of a list of pieces. -/
def piecesText : List Piece → List Char
  | [] => []
  | piece :: rest => piece.text ++ piecesText rest

/-- The piece that `QuoteMeta` makes of a character. -/
def quotePiece (c : Char) : Piece :=
  if isSpecial c then Piece.escaped c else Piece.plain c

/-- A text that `templReg` can match: `\{\{`, a non-empty run of word
characters, `\}\}`. -/
def IsQuotedPlaceholder (m : List Char) : Prop :=
  ∃ name : List Char, name ≠ [] ∧ (∀ c ∈ name, isWordChar c = true)
    ∧ m = templOpen ++ name ++ templClose

/-- The number of groups among the items of an expression. -/
def groupCount (items : List Item) : Nat :=
  items.count Item.group

/-- The number of group pieces among pieces. -/
def pieceGroups (pieces : List Piece) : Nat :=
  pieces.count Piece.group

/-- The pieces of the quoted placeholder with the given name. -/
def placeholderPieces (name : List Char) : List Piece :=
  Piece.escaped '\x7b' :: Piece.escaped '\x7b' ::
    (name.map Piece.plain ++ [Piece.escaped '\x7d', Piece.escaped '\x7d'])

/-! ## The thirteen typed registrations as data -/

/-- The dynamic type of a message. -/
inductive MessageKind where
  | text | image | video | audio | location | sticker | template | imagemap
  deriving DecidableEq, Repr

def Message.kind : Message → MessageKind
  | Message.Text _ _ => MessageKind.text
  | Message.Image _ _ _ => MessageKind.image
  | Message.Video _ _ _ => MessageKind.video
  | Message.Audio _ _ _ => MessageKind.audio
  | Message.Location _ => MessageKind.location
  | Message.Sticker _ => MessageKind.sticker
  | Message.Template _ _ => MessageKind.template
  | Message.Imagemap _ _ _ _ => MessageKind.imagemap

/-- The kinds that the typed registrations filter on. -/
inductive Kind where
  | text | image | video | audio | location | sticker
  | follow | unfollow | join | leave | postback | beaconEnter | beaconLeave
  deriving DecidableEq, Repr

/-- The event kind of a registration kind. -/
def Kind.eventType : Kind → String
  | Kind.text => EventTypeMessage
  | Kind.image => EventTypeMessage
  | Kind.video => EventTypeMessage
  | Kind.audio => EventTypeMessage
  | Kind.location => EventTypeMessage
  | Kind.sticker => EventTypeMessage
  | Kind.follow => EventTypeFollow
  | Kind.unfollow => EventTypeUnfollow
  | Kind.join => EventTypeJoin
  | Kind.leave => EventTypeLeave
  | Kind.postback => EventTypePostback
  | Kind.beaconEnter => EventTypeBeacon
  | Kind.beaconLeave => EventTypeBeacon

/-- The message sub-kind of a registration kind, if it has one. -/
def Kind.messageKind : Kind → Option MessageKind
  | Kind.text => some MessageKind.text
  | Kind.image => some MessageKind.image
  | Kind.video => some MessageKind.video
  | Kind.audio => some MessageKind.audio
  | Kind.location => some MessageKind.location
  | Kind.sticker => some MessageKind.sticker
  | _ => none

/-- The beacon sub-kind of a registration kind, if it has one. -/
def Kind.beaconType : Kind → Option String
  | Kind.beaconEnter => some BeaconEventTypeEnter
  | Kind.beaconLeave => some BeaconEventTypeLeave
  | _ => none

/-- The event's kind, message sub-kind or beacon sub-kind differs from that of
the registration kind `k`.  A message event without a message (its type is
unknown to the platform client) differs from every message sub-kind; the beacon
sub-kind of an event is that of the beacon it carries. -/
def Kind.differs (k : Kind) (ev : Event) : Bool :=
  decide (ev.Type_ ≠ k.eventType)
  || (match k.messageKind with
      | some mk => decide (ev.Message.map Message.kind ≠ some mk)
      | none => false)
  || (match k.beaconType, ev.Beacon with
      | some bt, some beacon => decide (beacon.Type_ ≠ bt)
      | _, _ => false)

/-- One typed registration: which `OnX` was called, and with which handler. -/
inductive Registration (W : Type) where
  | OnText (handler : TextMessageHandler W)
  | OnImage (handler : BinaryDataHandler W)
  | OnVideo (handler : BinaryDataHandler W)
  | OnAudio (handler : BinaryDataHandler W)
  | OnLocation (handler : LocationHandler W)
  | OnSticker (handler : StickerHandler W)
  | OnFollow (handler : EventHandler W)
  | OnUnFollow (handler : EventHandler W)
  | OnJoin (handler : JoinHandler W)
  | OnLeave (handler : LeaveHandler W)
  | OnPostback (handler : PostbackHandler W)
  | OnBeaconEnter (handler : BeaconHandler W)
  | OnBeaconLeave (handler : BeaconHandler W)

def Registration.kind {W : Type} : Registration W → Kind
  | Registration.OnText _ => Kind.text
  | Registration.OnImage _ => Kind.image
  | Registration.OnVideo _ => Kind.video
  | Registration.OnAudio _ => Kind.audio
  | Registration.OnLocation _ => Kind.location
  | Registration.OnSticker _ => Kind.sticker
  | Registration.OnFollow _ => Kind.follow
  | Registration.OnUnFollow _ => Kind.unfollow
  | Registration.OnJoin _ => Kind.join
  | Registration.OnLeave _ => Kind.leave
  | Registration.OnPostback _ => Kind.postback
  | Registration.OnBeaconEnter _ => Kind.beaconEnter
  | Registration.OnBeaconLeave _ => Kind.beaconLeave

/-- The event handler that the registration puts into the chain, as it runs on
a context whose field `bot` is the client `cl`. -/
def Registration.eventHandler {W : Type} (cl : Client W) : Registration W → EventHandler W
  | Registration.OnText h => OnText.eventHandler h
  | Registration.OnImage h => OnImage.eventHandler cl h
  | Registration.OnVideo h => OnVideo.eventHandler cl h
  | Registration.OnAudio h => OnAudio.eventHandler cl h
  | Registration.OnLocation h => OnLocation.eventHandler h
  | Registration.OnSticker h => OnSticker.eventHandler h
  | Registration.OnFollow h => OnFollow.eventHandler h
  | Registration.OnUnFollow h => OnUnFollow.eventHandler h
  | Registration.OnJoin h => OnJoin.eventHandler h
  | Registration.OnLeave h => OnLeave.eventHandler h
  | Registration.OnPostback h => OnPostback.eventHandler h
  | Registration.OnBeaconEnter h => OnBeaconEnter.eventHandler h
  | Registration.OnBeaconLeave h => OnBeaconLeave.eventHandler h

/-- The call of the `OnX` method that the registration stands for. -/
def Bot.register {W : Type} (b : Bot W) : Registration W → Bot W
  | Registration.OnText h => b.OnText h
  | Registration.OnImage h => b.OnImage h
  | Registration.OnVideo h => b.OnVideo h
  | Registration.OnAudio h => b.OnAudio h
  | Registration.OnLocation h => b.OnLocation h
  | Registration.OnSticker h => b.OnSticker h
  | Registration.OnFollow h => b.OnFollow h
  | Registration.OnUnFollow h => b.OnUnFollow h
  | Registration.OnJoin h => b.OnJoin h
  | Registration.OnLeave h => b.OnLeave h
  | Registration.OnPostback h => b.OnPostback h
  | Registration.OnBeaconEnter h => b.OnBeaconEnter h
  | Registration.OnBeaconLeave h => b.OnBeaconLeave h

/-- What the claim on the binary wrappers says of a result `r` of a wrapper on
a message with id `id`: a failed fetch or a failed read gives `(false, e)`
and leaves the context alone, whatever the handler is; otherwise the handler
is called with the bytes read and its result is the result.  The deferred
`Close` of the body is the last thing that happens to the world. -/
def FetchThenHandle {W : Type} (cl : Client W) (handler : BinaryDataHandler W) (id : String)
    (context : BotContext) (w : W) (r : Outcome × BotContext × W) : Prop :=
  (∀ e w1, cl.GetMessageContent id w = (Except.error e, w1) →
      r = (Outcome.ret false (some e), context, w1))
  ∧ (∀ resp w1 e w2, cl.GetMessageContent id w = (Except.ok resp, w1) →
      cl.ReadAll resp.Content w1 = (Except.error e, w2) →
      r = (Outcome.ret false (some e), context, cl.Close resp.Content w2))
  ∧ (∀ resp w1 data w2, cl.GetMessageContent id w = (Except.ok resp, w1) →
      cl.ReadAll resp.Content w1 = (Except.ok data, w2) →
      r = ((handler context data w2).1, (handler context data w2).2.1,
            cl.Close resp.Content (handler context data w2).2.2))

/-- The bot with client `cl` and error handlers `errs` after the typed
registrations `regs`, made in that order. -/
def chainBot {W : Type} (cl : Client W) (errs : List (ErrorHandler W))
    (regs : List (Registration W)) : Bot W :=
  regs.foldl Bot.register { Client := cl, handlers := [], errHandlers := errs }

/-- The registrations of `regs` that are left when every registration whose
kind or sub-kind differs from that of the event is removed. -/
def keptFor {W : Type} (ev : Event) (regs : List (Registration W)) : List (Registration W) :=
  regs.filter fun r => !r.kind.differs ev

/-! ## `lbotx_test.go`: the bot and the batch of `TestServer` -/

namespace TestServer

/-- What the test observes outside the bot: the counter `tested`, the number
of failed assertions, and what the mock server received on its reply
endpoint. -/
structure World where
  tested : Nat
  failedAsserts : Nat
  replies : List (String × List Message)
  deriving DecidableEq, Repr

/-- Go: `assert.Equal(t, a, b)` and its relatives: a failed assertion is
counted and the handler goes on. -/
def assert (ok : Bool) (w : World) : World :=
  if ok then w else { w with failedAsserts := w.failedAsserts + 1 }

/-- The signature that the test computes for `webhookTestRequestBody`. -/
def validSignature : String := "hmac-sha256(test, body)"

/-- The statement `context.Messages.AddTextMessage(msg)` of a handler, its
error dropped as in the test. -/
def addText (context : BotContext) (msg : String) : BotContext :=
  match MessageBank.AddTextMessage (some context.Messages) msg with
  | some (_, bank) => { context with Messages := bank }
  | none => context

def event (typ : String) (token : String) (source : EventSource) : Event :=
  { ReplyToken := token, Type_ := typ, Timestamp := 1462629479859,
    Source := some source, Message := none, Postback := none, Beacon := none }

def replyToken : String := "nHuyWiB7yP5Zw52FIkcQobQuGDXCTA"

def userSource : EventSource :=
  { Type_ := EventSourceTypeUser, UserID := "u206d25c2ea6bd87c17655609a1c37cb8",
    GroupID := "", RoomID := "" }

def groupUserSource : EventSource :=
  { Type_ := EventSourceTypeGroup, UserID := "u206d25c2ea6bd87c17655609a1c37cb8",
    GroupID := "u206d25c2ea6bd87c17655609a1c37cb8", RoomID := "" }

def groupSource : EventSource :=
  { Type_ := EventSourceTypeGroup, UserID := "",
    GroupID := "cxxxxxxxxxxxxxxxxxxxxxxxxxxxxxxxxx", RoomID := "" }

def beaconSource : EventSource :=
  { Type_ := EventSourceTypeUser, UserID := "U012345678901234567890123456789ab",
    GroupID := "", RoomID := "" }

def expectedLocation : LocationMessage :=
  { ID := "325708", Title := "hello", Address := "〒150-0002 東京都渋谷区渋谷２丁目２１−１",
    Latitude := 4630215390617588449, Longitude := 4639119404545081344 }

def expectedSticker : StickerMessage :=
  { ID := "325708", PackageID := "1", StickerID := "1" }

/-- The twelve events of `webhookTestRequestBody`, as the platform client
decodes them. -/
def events : List Event :=
  [ { event EventTypeMessage replyToken userSource with
        Message := some (Message.Text "325708" "Hello, world") },
    { event EventTypeMessage replyToken groupUserSource with
        Message := some (Message.Text "325708" "Hello, world") },
    { event EventTypeMessage replyToken userSource with
        Message := some (Message.Image "325708" "" "") },
    { event EventTypeMessage replyToken userSource with
        Message := some (Message.Location expectedLocation) },
    { event EventTypeMessage replyToken userSource with
        Message := some (Message.Sticker expectedSticker) },
    event EventTypeFollow replyToken userSource,
    event EventTypeUnfollow "" userSource,
    event EventTypeJoin replyToken groupSource,
    event EventTypeLeave "" groupSource,
    { event EventTypePostback replyToken userSource with
        Postback := some { Data := "action=buyItem&itemId=123123&color=red" } },
    { event EventTypeBeacon replyToken beaconSource with
        Beacon := some { Hwid := "374591320", Type_ := BeaconEventTypeEnter } },
    { event EventTypeBeacon replyToken beaconSource with
        Beacon := some { Hwid := "374591320", Type_ := BeaconEventTypeLeave } } ]

/-- The mock platform of the test: the request parser checks the signature,
the content endpoint answers six zero bytes, the reply endpoint accepts, the
profile endpoint answers the profile of "BOT API". -/
def mockClient : Client World :=
  { ParseRequest := fun req w =>
      if req.Signature = validSignature then (Except.ok events, w)
      else (Except.error Error.ErrInvalidSignature, w)
    GetMessageContent := fun _ w => (Except.ok { Content := 0 }, w)
    ReadAll := fun _ w => (Except.ok [0, 0, 0, 0, 0, 0], w)
    Close := fun _ w => w
    GetProfile := fun _ w =>
      (Except.ok
        { UserID := "U0047556f2e40dba2456887320ba7c76d", DisplayName := "BOT API",
          PictureURL := "http://dl.profile.line.naver.jp/abcdefghijklmn",
          StatusMessage := "Hello, LINE!" }, w)
    ReplyMessage := fun token messages w =>
      (none, { w with replies := w.replies ++ [(token, messages)] })
    PushMessage := fun _ _ w => (none, w) }

/-- The first `OnText` handler of the test. -/
def text1 : TextMessageHandler World := fun context msg w =>
  let w1 := assert (msg = "Hello, world") w
  let context1 := addText context "test1"
  let context2 := context1.Set "test" (Value.str "test")
  (Outcome.ret true none, context2, { w1 with tested := w1.tested + 1 })

/-- The second `OnText` handler of the test. -/
def text2 : TextMessageHandler World := fun context msg w =>
  let w1 := assert (msg = "Hello, world") w
  let w2 := assert (context.Get "test" = some (Value.str "test")) w1
  let context1 := addText context msg
  match context1.Get "test" with
  | some (Value.str v) =>
    let context2 := context1.Set "test" (Value.str (v ++ "a"))
    match context2.Event.Source with
    | none => (Outcome.panic, context2, w2)
    | some source => (Outcome.ret (source.GroupID ≠ "") none, context2, w2)
  | _ => (Outcome.panic, context1, w2)

/-- The third `OnText` handler of the test. -/
def text3 : TextMessageHandler World := fun context msg w =>
  let w1 := assert (msg = "Hello, world") w
  let context1 := addText context "test1"
  let context2 := context1.Set "test" (Value.str "test")
  (Outcome.ret true (some (Error.other "Error on purpose")), context2, w1)

/-- The handlers given to `OnImage`, `OnVideo` and `OnAudio`. -/
def binary : BinaryDataHandler World := fun context data w =>
  let w1 := assert (data.length = 6) w
  (Outcome.ret false none, context, { w1 with tested := w1.tested + 1 })

def location : LocationHandler World := fun context loc w =>
  let w1 := assert (loc = expectedLocation) w
  (Outcome.ret false none, context, { w1 with tested := w1.tested + 1 })

def sticker : StickerHandler World := fun context st w =>
  let w1 := assert (st = expectedSticker) w
  (Outcome.ret false none, context, { w1 with tested := w1.tested + 1 })

def follow : EventHandler World := fun context w =>
  let w1 := assert (context.GetUserId = some "u206d25c2ea6bd87c17655609a1c37cb8") w
  match context.GetUser mockClient w1 with
  | (some (Except.ok user), context1, w2) =>
    let w3 := assert (user.Name = "BOT API") w2
    (Outcome.ret false none, context1, { w3 with tested := w3.tested + 1 })
  | (_, context1, w2) => (Outcome.panic, context1, w2)

def unfollow : EventHandler World := fun context w =>
  let w1 := assert (context.GetUserId = some "u206d25c2ea6bd87c17655609a1c37cb8") w
  (Outcome.ret false none, context, { w1 with tested := w1.tested + 1 })

def join : JoinHandler World := fun context joinType id w =>
  let w1 := assert (joinType = EventSourceTypeGroup) w
  let w2 := assert (id = "cxxxxxxxxxxxxxxxxxxxxxxxxxxxxxxxxx") w1
  match context.GetUser mockClient w2 with
  | (none, context1, w3) => (Outcome.panic, context1, w3)
  | (some r, context1, w3) =>
    let w4 := assert (match r with | Except.error _ => true | Except.ok _ => false) w3
    (Outcome.ret false none, context1, { w4 with tested := w4.tested + 1 })

def leave : LeaveHandler World := fun context id w =>
  let w1 := assert (id = "cxxxxxxxxxxxxxxxxxxxxxxxxxxxxxxxxx") w
  (Outcome.ret false none, context, { w1 with tested := w1.tested + 1 })

/-- The handlers given to `OnBeaconEnter` and `OnBeaconLeave`. -/
def beacon : BeaconHandler World := fun context hwid w =>
  let w1 := assert (hwid = "374591320") w
  (Outcome.ret false none, context, { w1 with tested := w1.tested + 1 })

def onError : ErrorHandler World := fun context e w =>
  (context, assert (e = Error.other "Error on purpose") w)

/-- The bot of the test after all its registrations, in their order. -/
def bot : Bot World :=
  let b0 : Bot World := { Client := mockClient, handlers := [], errHandlers := [] }
  let b1 := b0.OnText text1
  let b2 := b1.OnText text2
  let b3 := b2.OnText text3
  let b4 := b3.OnImage binary
  let b5 := b4.OnVideo binary
  let b6 := b5.OnAudio binary
  let b7 := b6.OnLocation location
  let b8 := b7.OnSticker sticker
  let b9 := b8.OnFollow follow
  let b10 := b9.OnUnFollow unfollow
  let b11 := b10.OnJoin join
  let b12 := b11.OnLeave leave
  let b13 := b12.OnBeaconEnter beacon
  let b14 := b13.OnBeaconLeave beacon
  b14.OnError onError

def world0 : World := { tested := 0, failedAsserts := 0, replies := [] }

/-- The typed registrations of the test, in their order. -/
def registrations : List (Registration World) :=
  [ Registration.OnText text1, Registration.OnText text2, Registration.OnText text3,
    Registration.OnImage binary, Registration.OnVideo binary, Registration.OnAudio binary,
    Registration.OnLocation location, Registration.OnSticker sticker,
    Registration.OnFollow follow, Registration.OnUnFollow unfollow,
    Registration.OnJoin join, Registration.OnLeave leave,
    Registration.OnBeaconEnter beacon, Registration.OnBeaconLeave beacon ]

/-- The request of the test with the valid signature. -/
def validRequest : Request := { Signature := validSignature, Body := "" }

/-- The second event of the batch: the text message from a group. -/
def groupTextEvent : Event :=
  { event EventTypeMessage replyToken groupUserSource with
      Message := some (Message.Text "325708" "Hello, world") }

/-- A context with a text message `text`. -/
def textContext (text : String) : BotContext :=
  NewContext { event EventTypeMessage replyToken userSource with
                Message := some (Message.Text "325708" text) }

/-- The third event of the batch: the image message. -/
def imageEvent : Event :=
  { event EventTypeMessage replyToken userSource with
      Message := some (Message.Image "325708" "" "") }

/-- The context of `groupTextEvent` as the first two text handlers leave it. -/
def contextBeforeText3 : BotContext :=
  { Event := groupTextEvent
    Params := []
    Data := [("test", Value.str "testa")]
    Messages := { messages := [Message.Text "" "test1", Message.Text "" "Hello, world"] }
    userProfile := none }

end TestServer

/-! ## Reading the ghost trace -/

/-- The handlers of `b.handlers` that the trace shows invoked, in the order of
their invocation: index in `b.handlers` and what the call did. -/
def handlerCalls (tr : List Call) : List (Nat × Outcome) :=
  tr.filterMap fun c =>
    match c with
    | Call.handler idx _ out => some (idx, out)
    | _ => none

/-- The error handlers that the trace shows invoked, in the order of their
invocation: index in `b.errHandlers` and the error passed. -/
def errHandlerCalls (tr : List Call) : List (Nat × Error) :=
  tr.filterMap fun c =>
    match c with
    | Call.errHandler idx _ e => some (idx, e)
    | _ => none

/-- The calls of `reply` that the trace shows, in order. -/
def replyCalls (tr : List Call) : List (String × List Message × Option Error) :=
  tr.filterMap fun c =>
    match c with
    | Call.reply token messages res => some (token, messages, res)
    | _ => none

/-- The handler invocations that the trace shows, with the context each
handler was given: index, context, outcome. -/
def handlerEntries (tr : List Call) : List (Nat × BotContext × Outcome) :=
  tr.filterMap fun c =>
    match c with
    | Call.handler idx ctx out => some (idx, ctx, out)
    | _ => none

/-- The outcome `(true, nil)`: go on with the next handler. -/
def Outcome.goOn : Outcome := Outcome.ret true none

/-- The handler loop of `ServeHTTP` for one event, on the fresh context of the
event and from the empty trace. -/
def handlerLoop {W : Type} (b : Bot W) (event : Event) (w : W) : ChainEnd × St W :=
  runHandlers b.errHandlers b.bound 0
    { ctx := NewContext event, world := w, trace := [] }

/-- A state with `t0` put in front of its trace. -/
def St.after {W : Type} (t0 : List Call) (s : St W) : St W :=
  { s with trace := t0 ++ s.trace }

/-- The ghost trace of the dispatch of one event, from the empty trace. -/
def eventTrace {W : Type} (b : Bot W) (event : Event) (w : W) : List Call :=
  (dispatch b event w []).2.trace

/-- The traces of the events of a batch, each dispatched on its own from the
empty trace, in the world that the dispatch of the event before it left. -/
def batchTrace {W : Type} (b : Bot W) : List Event → W → List Call
  | [], _ => []
  | event :: rest, w =>
    eventTrace b event w ++ batchTrace b rest (dispatch b event w []).2.world

/-- The world after the events of a batch, each dispatched on its own. -/
def batchWorld {W : Type} (b : Bot W) : List Event → W → W
  | [], w => w
  | event :: rest, w => batchWorld b rest (dispatch b event w []).2.world

/-! ## Reading the builders -/

/-- The column of the platform library hand-constructed from the image, title,
text and actions that a column of the carousel builder holds. -/
def CarouselColumn.handBuilt (c : CarouselColumn) : LinebotCarouselColumn :=
  NewCarouselColumn c.Column.ThumbnailImageURL c.Column.Title c.Column.Text c.actions

/-- The thumbnail of a button builder passes the URL check of `Build`: it is
empty, or `parse` gives a URL with scheme `https`. -/
def ButtonMessageBuilder.secureThumbnail (parse : UrlParse) (b : ButtonMessageBuilder) :
    Prop :=
  b.thumbnailImageUrl = "" ∨
    ∃ u, parse b.thumbnailImageUrl = Except.ok u ∧ u.Scheme = "https"

/-- The text caps of a template action: label at most 20 code points, text of
a message or postback action at most 300, data of a postback action at most
300. -/
def TemplateAction.withinCaps : TemplateAction → Prop
  | TemplateAction.URI label _ => label.length ≤ 20
  | TemplateAction.Message label text => label.length ≤ 20 ∧ text.length ≤ 300
  | TemplateAction.Postback label data text =>
    label.length ≤ 20 ∧ text.length ≤ 300 ∧ data.length ≤ 300

instance (a : TemplateAction) : Decidable a.withinCaps :=
  match a with
  | TemplateAction.URI label _ => inferInstanceAs (Decidable (label.length ≤ 20))
  | TemplateAction.Message label text =>
    inferInstanceAs (Decidable (label.length ≤ 20 ∧ text.length ≤ 300))
  | TemplateAction.Postback label data text =>
    inferInstanceAs (Decidable (label.length ≤ 20 ∧ text.length ≤ 300 ∧ data.length ≤ 300))

/-- A column of the carousel builder that is valid on its own: text not empty,
at most 3 actions, thumbnail URL of at most 1000 code points, title of at most
40, text of at most 60 when both title and thumbnail are present and at most
120 otherwise, every action within its caps. -/
def CarouselColumn.valid (c : CarouselColumn) : Prop :=
  c.Column.Text ≠ "" ∧ c.actions.length ≤ 3 ∧
    c.Column.ThumbnailImageURL.length ≤ 1000 ∧ c.Column.Title.length ≤ 40 ∧
    c.Column.Text.length ≤
      (if c.Column.Title ≠ "" ∧ c.Column.ThumbnailImageURL ≠ "" then 60 else 120) ∧
    ∀ a ∈ c.actions, a.withinCaps

instance (c : CarouselColumn) : Decidable c.valid :=
  inferInstanceAs (Decidable (_ ∧ _))

/-- The deliveries that a recording client has seen. -/
def deliveries {W : Type} (s : W × List Delivery) : List Delivery := s.2

/-- A platform whose push endpoint answers `answer target` and whose other
endpoints accept; it has no state. -/
def scriptedClient (answer : String → Option Error) : Client Unit :=
  { ParseRequest := fun _ w => (Except.ok [], w)
    GetMessageContent := fun _ w => (Except.ok { Content := 0 }, w)
    ReadAll := fun _ w => (Except.ok [], w)
    Close := fun _ w => w
    GetProfile := fun _ w =>
      (Except.ok { UserID := "", DisplayName := "", PictureURL := "", StatusMessage := "" }, w)
    ReplyMessage := fun _ _ w => (none, w)
    PushMessage := fun target _ w => (answer target, w) }

/-! ## `message_test.go` -/

namespace TestMessage

/-- The builder of `TestConfirmMessages` before the first `Build`. -/
def confirmBuilder : ConfirmMessageBuilder :=
  let b := NewConfirmMessageBuilder
  let b := b.WithText "test"
  let b := b.WithMessageAction "test" "test"
  b.WithPostbackAction "test2" "I'm data" "test2"

/-- The message that `TestConfirmMessages` constructs by hand. -/
def confirmMessage2 : Message :=
  NewTemplateMessage "test"
    (NewConfirmTemplate "test"
      [NewMessageTemplateAction "test" "test",
        NewPostbackTemplateAction "test2" "I'm data" "test2"])

def httpsImage : String :=
  "https://upload.wikimedia.org/wikipedia/commons/c/c4/Leaky_bucket_analogy.JPG"

def httpImage : String :=
  "http://upload.wikimedia.org/wikipedia/commons/c/c4/Leaky_bucket_analogy.JPG"

/-- The first builder of `TestButtonMessages` before the first `Build`. -/
def buttonBuilder : ButtonMessageBuilder :=
  let b := NewButtonMessageBuilderWith httpsImage "Leaky Bucket" "For test"
  let b := b.WithMessageAction "test" "test1"
  let b := b.WithURIAction "test2" "http://www.google.com"
  b.WithPostbackAction "test3" "test3data" "test3"

/-- The message that `TestButtonMessages` constructs by hand. -/
def buttonMessage2 : Message :=
  NewTemplateMessage "AltText"
    (NewButtonsTemplate httpsImage "Leaky Bucket" "For test"
      [NewMessageTemplateAction "test" "test1",
        NewURITemplateAction "test2" "http://www.google.com",
        NewPostbackTemplateAction "test3" "test3data" "test3"])

/-- The first builder of `TestButtonMessages` after the loop that adds three
more actions. -/
def buttonBuilderSix : ButtonMessageBuilder :=
  let b := buttonBuilder.WithMessageAction "test" "test1"
  let b := b.WithMessageAction "test" "test1"
  b.WithMessageAction "test" "test1"

/-- The second builder of `TestButtonMessages`, with the `http` thumbnail. -/
def buttonBuilderHttp : ButtonMessageBuilder :=
  let b := NewButtonMessageBuilderWith httpImage "Leaky Bucket" "For test"
  let b := b.WithMessageAction "test" "test1"
  b.WithURIAction "test2" "http://www.google.com"

/-- The builder `buttonBuilderHttp` with the thumbnail changed to the `https`
one and nothing else. -/
def buttonBuilderHttps : ButtonMessageBuilder :=
  buttonBuilderHttp.WithImage httpsImage

/-- What `url.Parse` answers on the two thumbnails of the test: the scheme in
front of the colon. Other texts are not looked at by the test. -/
def parse : UrlParse := fun s =>
  if s = httpsImage then Except.ok { Scheme := "https" }
  else if s = httpImage then Except.ok { Scheme := "http" }
  else Except.error (Error.other "parse")

/-- One round of the first loop of `TestCarouselMessage`. -/
def addColumn (b : CarouselMessageBuilder) : CarouselMessageBuilder :=
  let r := b.AddColumn
  let b := r.1.onColumn r.2 (fun col => col.WithImage httpImage)
  let b := b.onColumn r.2 (fun col => col.WithText "test")
  let b := b.onColumn r.2 (fun col => col.WithTitle "test")
  let b := b.onColumn r.2 (fun col => col.WithMessageAction "Message" "test")
  b.onColumn r.2 (fun col => col.WithURIAction "Google" "http://www.google.com")

/-- The first builder of `TestCarouselMessage` before the first `Build`. -/
def carouselBuilder : CarouselMessageBuilder :=
  addColumn (addColumn (addColumn (addColumn (addColumn NewCarouselMessageBuilder))))

/-- The message that `TestCarouselMessage` constructs by hand. -/
def carouselMessage2 : Message :=
  NewTemplateMessage "altText"
    (NewCarouselTemplate
      (List.replicate 5
        (NewCarouselColumn httpImage "test" "test"
          [NewMessageTemplateAction "Message" "test",
            NewURITemplateAction "Google" "http://www.google.com"])))

/-- The first builder of `TestCarouselMessage` after the first `Build` and the
sixth `AddColumn`. -/
def carouselBuilderSix : CarouselMessageBuilder :=
  ((carouselBuilder.Build "altText").2).AddColumn.1

/-- The second builder of `TestCarouselMessage`: one column with two actions
and no text. -/
def carouselBuilderNoText : CarouselMessageBuilder :=
  let r := NewCarouselMessageBuilder.AddColumn
  let b := r.1.onColumn r.2 (fun col => col.WithMessageAction "Message" "test")
  b.onColumn r.2 (fun col => col.WithURIAction "Google" "http://www.google.com")

/-- A column with text "1111" and the message action of the test added to `b`,
with the URI action of the test as well when `two` holds. -/
def addTextColumn (b : CarouselMessageBuilder) (two : Bool) : CarouselMessageBuilder :=
  let r := b.AddColumn
  let b := r.1.onColumn r.2 (fun col => col.WithText "1111")
  let b := b.onColumn r.2 (fun col => col.WithMessageAction "Message" "test")
  if two then b.onColumn r.2 (fun col => col.WithURIAction "Google" "http://www.google.com")
  else b

/-- The third builder of `TestCarouselMessage`: columns with 2 and 1 actions. -/
def carouselBuilderTwoOne : CarouselMessageBuilder :=
  addTextColumn (addTextColumn NewCarouselMessageBuilder true) false

/-- The same with 2 actions in both columns. -/
def carouselBuilderTwoTwo : CarouselMessageBuilder :=
  addTextColumn (addTextColumn NewCarouselMessageBuilder true) true

/-- Six columns, each valid on its own, the first with 2 actions and the
others with 1. -/
def carouselBuilderSixMixed : CarouselMessageBuilder :=
  addTextColumn (addTextColumn (addTextColumn (addTextColumn (addTextColumn
    (addTextColumn NewCarouselMessageBuilder true) false) false) false) false) false

/-- Six columns, each valid on its own, all with 1 action. -/
def carouselBuilderSixSame : CarouselMessageBuilder :=
  addTextColumn (addTextColumn (addTextColumn (addTextColumn (addTextColumn
    (addTextColumn NewCarouselMessageBuilder false) false) false) false) false) false

end TestMessage

/-! ## Reading the validation of actions and columns -/

/-- An action violates a cap of its type: URI template action label above 20
code points; message template action label above 20 or text above 300;
postback template action label above 20, text above 300 or data above 300;
image map message action text above 400; image map URI action link above
1000. -/
def AnyAction.overCap : AnyAction → Prop
  | AnyAction.template (TemplateAction.URI label _) => label.length > 20
  | AnyAction.template (TemplateAction.Message label text) =>
    label.length > 20 ∨ text.length > 300
  | AnyAction.template (TemplateAction.Postback label data text) =>
    label.length > 20 ∨ text.length > 300 ∨ data.length > 300
  | AnyAction.imagemap (ImagemapAction.Message text _) => text.length > 400
  | AnyAction.imagemap (ImagemapAction.URI linkURL _) => linkURL.length > 1000

instance (a : AnyAction) : Decidable a.overCap :=
  match a with
  | AnyAction.template (TemplateAction.URI label _) =>
    inferInstanceAs (Decidable (label.length > 20))
  | AnyAction.template (TemplateAction.Message label text) =>
    inferInstanceAs (Decidable (label.length > 20 ∨ text.length > 300))
  | AnyAction.template (TemplateAction.Postback label data text) =>
    inferInstanceAs (Decidable (label.length > 20 ∨ text.length > 300 ∨ data.length > 300))
  | AnyAction.imagemap (ImagemapAction.Message text _) =>
    inferInstanceAs (Decidable (text.length > 400))
  | AnyAction.imagemap (ImagemapAction.URI linkURL _) =>
    inferInstanceAs (Decidable (linkURL.length > 1000))

/-- The rules on a column of the carousel builder in the order in which
`Build` checks them, each with whether the column violates it and with the
error of the rule: at most 3 actions; as many actions as the first column
(`first`); actions within their caps; thumbnail URL of at most 1000 code
points; title of at most 40; text required; text of at most 60 when both title
and thumbnail are present and at most 120 otherwise. -/
def CarouselColumn.rules (first : Nat) (c : CarouselColumn) : List (Bool × Error) :=
  [ (decide (c.actions.length > 3), Error.ErrorTooManyActions),
    (decide (c.actions.length ≠ first), Error.ErrorActionNumNotConsistent),
    (decide (∃ a ∈ c.actions, ¬ a.withinCaps), Error.ErrorTextExceedLimit),
    (decide (c.Column.ThumbnailImageURL.length > 1000), Error.ErrorTextExceedLimit),
    (decide (c.Column.Title.length > 40), Error.ErrorTextExceedLimit),
    (decide (c.Column.Text = ""), Error.ErrorMissingParam),
    (decide (c.Column.Text.length >
        (if c.Column.Title ≠ "" ∧ c.Column.ThumbnailImageURL ≠ "" then 60 else 120)),
      Error.ErrorTextExceedLimit) ]

/-- The error of the first violated rule of a list of rules, if any. -/
def firstViolated (rules : List (Bool × Error)) : Option Error :=
  (rules.find? (fun r => r.1)).map (fun r => r.2)

/-- The number of actions of the first column of the builder (0 without a
column). -/
def CarouselMessageBuilder.firstCount (cm : CarouselMessageBuilder) : Nat :=
  match cm.deref with
  | [] => 0
  | c :: _ => c.actions.length

/-- The checks of the loop of `Build` read off a list of platform columns that
have their actions assigned, without the memory: the list `columns` with the
columns appended, or the first error.  The proofs compare the loop with
it. -/
def checkColumns :
    List LinebotCarouselColumn → Int → List LinebotCarouselColumn →
      Except Error (List LinebotCarouselColumn)
  | [], _, columns => Except.ok columns
  | column :: rest, actionCount, columns =>
    match CarouselMessageBuilder.checkColumn actionCount column with
    | Except.error e => Except.error e
    | Except.ok actionCount1 => checkColumns rest actionCount1 (columns ++ [column])

/-- The columns that the pointers returned by `generate` point to when it
returns, or the error returned. -/
def ColumnTemplate.generated {D : Type} (lib : TemplateLib D) (ct : ColumnTemplate)
    (data : Option (List D)) (cells : ColumnCells) (fresh : Nat) :
    Except Error (List CarouselColumn) :=
  match ColumnTemplate.generate lib ct data cells fresh with
  | (Except.error e, _) => Except.error e
  | (Except.ok columns, cells1) => Except.ok (columns.map cells1)

/-- The rules of the carousel builder on a column other than the action
caps. -/
def CarouselColumn.validButCaps (c : CarouselColumn) : Prop :=
  c.Column.Text ≠ "" ∧ c.actions.length ≤ 3 ∧
    c.Column.ThumbnailImageURL.length ≤ 1000 ∧ c.Column.Title.length ≤ 40 ∧
    c.Column.Text.length ≤
      (if c.Column.Title ≠ "" ∧ c.Column.ThumbnailImageURL ≠ "" then 60 else 120)

instance (c : CarouselColumn) : Decidable c.validButCaps :=
  inferInstanceAs (Decidable (_ ∧ _))

/-! ## Reading the calls of the profile endpoint -/

/-- One call of the profile endpoint as a recording client sees it: the user
id asked for and the answer. -/
structure ProfileFetch where
  userId : String
  res : Except Error UserProfileResponse
  deriving DecidableEq, Repr

/-- A client that behaves as `cl` and, beside the world, keeps the list of the
calls of the profile endpoint made through it, oldest first. -/
def Client.fetchLog {W : Type} (cl : Client W) : Client (W × List ProfileFetch) where
  ParseRequest := fun r s => ((cl.ParseRequest r s.1).1, ((cl.ParseRequest r s.1).2, s.2))
  GetMessageContent := fun id s =>
    ((cl.GetMessageContent id s.1).1, ((cl.GetMessageContent id s.1).2, s.2))
  ReadAll := fun c s => ((cl.ReadAll c s.1).1, ((cl.ReadAll c s.1).2, s.2))
  Close := fun c s => (cl.Close c s.1, s.2)
  GetProfile := fun id s =>
    ((cl.GetProfile id s.1).1,
      ((cl.GetProfile id s.1).2, s.2 ++ [{ userId := id, res := (cl.GetProfile id s.1).1 }]))
  ReplyMessage := fun token messages s =>
    ((cl.ReplyMessage token messages s.1).1, ((cl.ReplyMessage token messages s.1).2, s.2))
  PushMessage := fun target messages s =>
    ((cl.PushMessage target messages s.1).1, ((cl.PushMessage target messages s.1).2, s.2))

/-- The fetch was answered with an error. -/
def ProfileFetch.failed (f : ProfileFetch) : Bool :=
  match f.res with
  | Except.error _ => true
  | Except.ok _ => false

/-- `n` calls of `GetUser` on a context, one after the other: what each call
returned, and the context and the world after the last.  A call that panics
ends the sequence. -/
def BotContext.GetUserTimes {W : Type} (cl : Client W) :
    Nat → BotContext → W → List (Option (Except Error UserProfile)) × BotContext × W
  | 0, c, w => ([], c, w)
  | n + 1, c, w =>
    match BotContext.GetUser cl c w with
    | (none, c1, w1) => ([none], c1, w1)
    | (some r, c1, w1) =>
      (some r :: (BotContext.GetUserTimes cl n c1 w1).1,
        (BotContext.GetUserTimes cl n c1 w1).2.1, (BotContext.GetUserTimes cl n c1 w1).2.2)

/-- A platform whose profile endpoint answers with the error `e` and whose
other endpoints accept; it has no state. -/
def failingProfileClient (e : Error) : Client Unit :=
  { ParseRequest := fun _ w => (Except.ok [], w)
    GetMessageContent := fun _ w => (Except.ok { Content := 0 }, w)
    ReadAll := fun _ w => (Except.ok [], w)
    Close := fun _ w => w
    GetProfile := fun _ w => (Except.error e, w)
    ReplyMessage := fun _ _ w => (none, w)
    PushMessage := fun _ _ w => (none, w) }

namespace TestServer

/-- The request of the test with the signature "invalidsignatue". -/
def invalidRequest : Request := { Signature := "invalidsignatue", Body := "" }

end TestServer

/-! ## `message_test.go`: the image map and the column generator -/

namespace TestMessage

/-- The first builder of `TestImageMap`, filled field by field. -/
def imageMapBuilder : ImageMapBuilder :=
  let b := NewImageMapBuilder
  let b := { b with BaseUrl := httpsImage }
  let b := { b with AltText := "altText" }
  let b := { b with Width := 400 }
  let b := { b with Height := 400 }
  let b := b.WithMessageAction "test" 10 10 30 30
  b.WithURIAction "https://www.google.com" 30 30 40 40

/-- The second builder of `TestImageMap`. -/
def imageMapBuilderWith : ImageMapBuilder :=
  let b := NewImageMapBuilderWith httpsImage "altText" 400 400
  let b := b.WithMessageAction "test" 10 10 30 30
  b.WithURIAction "https://www.google.com" 30 30 40 40

/-- The message that `TestImageMap` constructs by hand. -/
def imageMapMessage3 : Message :=
  NewImagemapMessage httpsImage "altText" { Width := 400, Height := 400 }
    [NewMessageImagemapAction "test" { X := 10, Y := 10, Width := 30, Height := 30 },
      NewURIImagemapAction "https://www.google.com"
        { X := 30, Y := 30, Width := 40, Height := 40 }]

/-- The records of `TestCarouselGenerator`; `Index` is kept as the text that
`%v` and the template print for it. -/
structure Record where
  Index : String
  Name : String
  deriving DecidableEq, Repr

def data : List Record :=
  [{ Index := "1", Name := "John" }, { Index := "2", Name := "Mary" },
    { Index := "3", Name := "Julian" }]

/-- What `text/template` does with the templates of the test: each parses;
`{{.Index}}` and `{{.Name}}` print the field of the record, and a text without
action prints as it is. -/
def lib : TemplateLib Record :=
  { parseError := fun _ => none
    Execute := fun t d =>
      if t.text = "http://myhost.com/image/\x7b\x7b.Index\x7d\x7d" then
        "http://myhost.com/image/" ++ d.Index
      else if t.text = "Hi \x7b\x7b.Name\x7d\x7d" then "Hi " ++ d.Name
      else if t.text = "I'm \x7b\x7b.Name\x7d\x7d" then "I'm " ++ d.Name
      else t.text }

/-- The builder of `TestCarouselGenerator` with its generator configured,
before `GenerateColumnsWith`. -/
def generatorBuilder : CarouselMessageBuilder :=
  let b := NewCarouselMessageBuilder.GetColumnGenerator
  let b := b.onGenerator
    (fun g => (g.WithImage lib "http://myhost.com/image/\x7b\x7b.Index\x7d\x7d").2)
  let b := b.onGenerator (fun g => (g.WithText lib "Hi \x7b\x7b.Name\x7d\x7d").2)
  b.onGenerator (fun g => g.WithMessageAction lib "Press me" "I'm \x7b\x7b.Name\x7d\x7d")

/-- The message that `TestCarouselGenerator` constructs by hand. -/
def generatorMessage2 : Message :=
  NewTemplateMessage "altText"
    (NewCarouselTemplate
      (data.map fun d =>
        NewCarouselColumn ("http://myhost.com/image/" ++ d.Index) "" ("Hi " ++ d.Name)
          [NewMessageTemplateAction "Press me" ("I'm " ++ d.Name)]))

/-- The generator of the test with a second action template. -/
def twoActionsTemplate : ColumnTemplate :=
  let g := (newColumnTemplate.WithText lib "Hi \x7b\x7b.Name\x7d\x7d").2
  let g := g.WithMessageAction lib "Press me" "I'm \x7b\x7b.Name\x7d\x7d"
  g.WithURIAction lib "Google" "http://www.google.com"

/-- A generator with a text and no action template. -/
def noActionTemplate : ColumnTemplate :=
  (newColumnTemplate.WithText lib "Hi \x7b\x7b.Name\x7d\x7d").2

/-- A generator with a text and one postback action template. -/
def postbackTemplate : ColumnTemplate :=
  let g := (newColumnTemplate.WithText lib "Hi \x7b\x7b.Name\x7d\x7d").2
  g.WithPostbackAction lib "test2" "I'm data" "test3"

/-- A button builder that satisfies the rules of `Build`, with a message
action whose label has 21 code points. -/
def buttonBuilderLongLabel : ButtonMessageBuilder :=
  let b := NewButtonMessageBuilderWith httpsImage "Leaky Bucket" "For test"
  b.WithMessageAction "123456789012345678901" "test1"

/-- A confirm builder that satisfies the rules of `Build`, with a postback
action whose data has 301 code points. -/
def confirmBuilderLongData : ConfirmMessageBuilder :=
  let b := NewConfirmMessageBuilder.WithText "test"
  b.WithPostbackAction "test2" (String.mk (List.replicate 301 'd')) "test2"

/-- A carousel builder whose generator has two action templates and no text
template, after `GenerateColumnsWith` on one record: the two entries of its
slice are one and the same pointer. -/
def carouselBuilderGeneratedTwice : CarouselMessageBuilder :=
  let b := NewCarouselMessageBuilder.GetColumnGenerator
  let b := b.onGenerator
    (fun g => g.WithMessageAction lib "Press me" "I'm \x7b\x7b.Name\x7d\x7d")
  let b := b.onGenerator (fun g => g.WithURIAction lib "Google" "http://www.google.com")
  (b.GenerateColumnsWith lib (some [{ Index := "1", Name := "John" }])).2

/-- A carousel builder with one column that has the text of the button
builder above and its message action whose label has 21 code points. -/
def carouselBuilderLongLabel : CarouselMessageBuilder :=
  let r := NewCarouselMessageBuilder.AddColumn
  let b := r.1.onColumn r.2 (fun col => col.WithText "For test")
  b.onColumn r.2 (fun col => col.WithMessageAction "123456789012345678901" "test1")

/-- A carousel builder with a single column that has no text and 4 actions. -/
def carouselBuilderNoTextFour : CarouselMessageBuilder :=
  let r := NewCarouselMessageBuilder.AddColumn
  let b := r.1.onColumn r.2 (fun col => col.WithMessageAction "Message" "test")
  let b := b.onColumn r.2 (fun col => col.WithMessageAction "Message" "test")
  let b := b.onColumn r.2 (fun col => col.WithMessageAction "Message" "test")
  b.onColumn r.2 (fun col => col.WithMessageAction "Message" "test")

end TestMessage

/-! ## A chain whose text handler rewrites the event -/

namespace RewritingChain

/-- A text handler that sets the type of the event of its context to `follow`
and lets the chain go on (Go: `context.Event.Type = linebot.EventTypeFollow;
return true, nil`). -/
def rewriteToFollow : TextMessageHandler Unit := fun context _ w =>
  (Outcome.ret true none,
    { context with Event := { context.Event with Type_ := EventTypeFollow } }, w)

/-- A follow handler that parks a mark in its context and stops the chain. -/
def markFollowed : EventHandler Unit := fun context w =>
  (Outcome.ret false none, context.Set "followed" (Value.int 1), w)

/-- The two registrations, in their order. -/
def registrations : List (Registration Unit) :=
  [Registration.OnText rewriteToFollow, Registration.OnFollow markFollowed]

/-- A text message event. -/
def textEvent : Event := (TestServer.textContext "Hello").Event

/-- A platform client that accepts everything. -/
def client : Client Unit := scriptedClient fun _ => none

end RewritingChain

/-! ## Sequences of `AddMessage` calls -/

/-- A sequence of `AddMessage` calls on a bank that is not nil, one call for
each message of the list: the errors returned, in the order of the calls, and
the bank after the last call. -/
def MessageBank.AddMessages : MessageBank → List Message → List (Option Error) × MessageBank
  | bank, [] => ([], bank)
  | bank, m :: rest =>
    match MessageBank.AddMessage (some bank) m with
    | some (err, bank1) =>
      (err :: (MessageBank.AddMessages bank1 rest).1, (MessageBank.AddMessages bank1 rest).2)
    | none => ([], bank)

end Lbotx

/-! # Theorems -/

namespace Lbotx

variable {W : Type}

theorem handlerCalls_append (t1 t2 : List Call) :
    handlerCalls (t1 ++ t2) = handlerCalls t1 ++ handlerCalls t2 := by
  simp [handlerCalls, List.filterMap_append]

theorem errHandlerCalls_append (t1 t2 : List Call) :
    errHandlerCalls (t1 ++ t2) = errHandlerCalls t1 ++ errHandlerCalls t2 := by
  simp [errHandlerCalls, List.filterMap_append]

theorem replyCalls_append (t1 t2 : List Call) :
    replyCalls (t1 ++ t2) = replyCalls t1 ++ replyCalls t2 := by
  simp [replyCalls, List.filterMap_append]

theorem handlerCalls_callErrHandlers (e : Error) (errs : List (ErrorHandler W)) :
    ∀ (j : Nat) (s : St W),
      handlerCalls (callErrHandlers e errs j s).trace = handlerCalls s.trace := by
  induction errs with
  | nil => intro j s; rfl
  | cons eh rest ih =>
    intro j s
    simp only [callErrHandlers]
    rw [ih]
    simp [handlerCalls]

theorem replyCalls_callErrHandlers (e : Error) (errs : List (ErrorHandler W)) :
    ∀ (j : Nat) (s : St W),
      replyCalls (callErrHandlers e errs j s).trace = replyCalls s.trace := by
  induction errs with
  | nil => intro j s; rfl
  | cons eh rest ih =>
    intro j s
    simp only [callErrHandlers]
    rw [ih]
    simp [replyCalls]

theorem errHandlerCalls_callErrHandlers (e : Error) (errs : List (ErrorHandler W)) :
    ∀ (j : Nat) (s : St W),
      errHandlerCalls (callErrHandlers e errs j s).trace
        = errHandlerCalls s.trace ++ (List.range' j errs.length).map (fun k => (k, e)) := by
  induction errs with
  | nil => intro j s; simp [callErrHandlers]
  | cons eh rest ih =>
    intro j s
    simp only [callErrHandlers]
    rw [ih]
    simp [errHandlerCalls, List.range'_succ]

theorem callErrHandlers_after (e : Error) (errs : List (ErrorHandler W)) (t0 : List Call) :
    ∀ (j : Nat) (s : St W),
      callErrHandlers e errs j (St.after t0 s) = St.after t0 (callErrHandlers e errs j s) := by
  induction errs with
  | nil => intro j s; rfl
  | cons eh rest ih =>
    intro j s
    simp only [callErrHandlers]
    rw [← ih]
    simp [St.after]

theorem runHandlers_after (errs : List (ErrorHandler W)) (t0 : List Call) :
    ∀ (hs : List (EventHandler W)) (idx : Nat) (s : St W),
      runHandlers errs hs idx (St.after t0 s)
        = ((runHandlers errs hs idx s).1, St.after t0 (runHandlers errs hs idx s).2) := by
  intro hs
  induction hs with
  | nil => intro idx s; rfl
  | cons h rest ih =>
    intro idx s
    simp only [runHandlers]
    have hc : (St.after t0 s).ctx = s.ctx := rfl
    have hw : (St.after t0 s).world = s.world := rfl
    have ht : (St.after t0 s).trace = t0 ++ s.trace := rfl
    rw [hc, hw, ht]
    rcases h s.ctx s.world with ⟨o, c1, w1⟩
    rcases o with ⟨next, _ | e⟩ | _
    · cases next
      · simp [St.after]
      · simp only
        rw [← ih]
        simp [St.after]
    · simp only
      rw [← callErrHandlers_after]
      simp [St.after]
    · simp [St.after]

/-- Shape of the handler calls of one run of the handler loop: the handlers
`idx, idx+1, ...` in order, all but possibly the last one with outcome
`(true, nil)`; the run is exhausted exactly when there is no such last one. -/
theorem handlerCalls_runHandlers (errs : List (ErrorHandler W)) :
    ∀ (hs : List (EventHandler W)) (idx : Nat) (s : St W),
      (handlerCalls (runHandlers errs hs idx s).2.trace
          = handlerCalls s.trace
            ++ (List.range' idx hs.length).map (fun k => (k, Outcome.goOn))
        ∧ (runHandlers errs hs idx s).1 = ChainEnd.exhausted) ∨
      (∃ n o, n < hs.length ∧ o ≠ Outcome.goOn ∧
        handlerCalls (runHandlers errs hs idx s).2.trace
          = handlerCalls s.trace
            ++ (List.range' idx n).map (fun k => (k, Outcome.goOn)) ++ [(idx + n, o)]
        ∧ (runHandlers errs hs idx s).1 ≠ ChainEnd.exhausted) := by
  intro hs
  induction hs with
  | nil => intro idx s; left; simp [runHandlers]
  | cons h rest ih =>
    intro idx s
    simp only [runHandlers]
    split
    · right
      refine ⟨0, Outcome.panic, by simp, by simp [Outcome.goOn], ?_, by simp⟩
      simp [handlerCalls]
    · rename_i next e ctx1 w1 heq
      right
      refine ⟨0, Outcome.ret next (some e), by simp, by simp [Outcome.goOn], ?_, by simp⟩
      rw [handlerCalls_callErrHandlers]
      simp [handlerCalls]
    · right
      refine ⟨0, Outcome.ret false none, by simp, by simp [Outcome.goOn], ?_, by simp⟩
      simp [handlerCalls]
    · rename_i ctx1 w1 heq
      rcases ih (idx + 1)
        { ctx := ctx1, world := w1,
          trace := s.trace ++ [Call.handler idx s.ctx (Outcome.ret true none)] } with
        ⟨h1, h2⟩ | ⟨n, o, hn, ho, h1, h2⟩
      · left
        refine ⟨?_, h2⟩
        rw [h1]
        simp [handlerCalls, List.range'_succ, Outcome.goOn]
      · right
        refine ⟨n + 1, o, by simpa using hn, ho, ?_, h2⟩
        rw [h1]
        simp [handlerCalls, List.range'_succ, Outcome.goOn, Nat.add_assoc, Nat.add_comm 1 n]

theorem mem_handlerCalls (tr : List Call) (i : Nat) (out : Outcome) :
    (i, out) ∈ handlerCalls tr ↔ ∃ ctx, Call.handler i ctx out ∈ tr := by
  simp only [handlerCalls, List.mem_filterMap]
  constructor
  · rintro ⟨c, hc, hm⟩
    cases c <;> simp at hm
    obtain ⟨rfl, rfl⟩ := hm
    exact ⟨_, hc⟩
  · rintro ⟨ctx, hc⟩
    exact ⟨_, hc, rfl⟩

/-- The error handler loop only appends to the trace: one entry per error
handler, in order, each with the error `e`, the first one with the context
the loop started from. -/
theorem callErrHandlers_trace (e : Error) (errs : List (ErrorHandler W)) :
    ∀ (j : Nat) (s : St W), ∃ tail : List Call,
      (callErrHandlers e errs j s).trace = s.trace ++ tail
      ∧ tail.length = errs.length
      ∧ (∀ k, k < errs.length → ∃ c, tail[k]? = some (Call.errHandler (j + k) c e))
      ∧ (∀ eh rest, errs = eh :: rest → tail[0]? = some (Call.errHandler j s.ctx e)) := by
  induction errs with
  | nil => intro j s; exact ⟨[], by simp [callErrHandlers]⟩
  | cons eh rest ih =>
    intro j s
    simp only [callErrHandlers]
    obtain ⟨tail, h1, h2, h3, -⟩ := ih (j + 1)
      { ctx := (eh s.ctx e s.world).1, world := (eh s.ctx e s.world).2,
        trace := s.trace ++ [Call.errHandler j s.ctx e] }
    refine ⟨Call.errHandler j s.ctx e :: tail, ?_, by simp [h2], ?_, by simp⟩
    · rw [h1]; simp
    · intro k hk
      cases k with
      | zero => exact ⟨s.ctx, by simp⟩
      | succ k =>
        obtain ⟨c, hc⟩ := h3 k (by simpa using hk)
        refine ⟨c, ?_⟩
        simp only [List.getElem?_cons_succ, hc]
        congr 2
        omega

theorem mem_trace_callErrHandlers (e : Error) (errs : List (ErrorHandler W)) (j : Nat)
    (s : St W) (i : Nat) (ctx : BotContext) (out : Outcome)
    (h : Call.handler i ctx out ∈ (callErrHandlers e errs j s).trace) :
    Call.handler i ctx out ∈ s.trace := by
  have h1 := (mem_handlerCalls _ i out).2 ⟨ctx, h⟩
  obtain ⟨tail, ht, hlen, hk, -⟩ := callErrHandlers_trace e errs j s
  rw [ht, List.mem_append] at h
  rcases h with h | h
  · exact h
  · obtain ⟨k, hk1, hk2⟩ := List.getElem_of_mem h
    obtain ⟨c, hc⟩ := hk k (by omega)
    rw [List.getElem?_eq_getElem hk1, hk2] at hc
    simp at hc

/-- Every handler entry that the loop adds to the trace records a real call:
the handler of that index, applied to the recorded context in some world,
did what the entry says. -/
theorem runHandlers_faithful (errs : List (ErrorHandler W)) :
    ∀ (hs : List (EventHandler W)) (idx : Nat) (s : St W) (i : Nat) (ctx : BotContext)
      (out : Outcome),
      Call.handler i ctx out ∈ (runHandlers errs hs idx s).2.trace →
      Call.handler i ctx out ∈ s.trace ∨
        (idx ≤ i ∧ ∃ h w0, hs[i - idx]? = some h ∧ (h ctx w0).1 = out) := by
  intro hs
  induction hs with
  | nil => intro idx s i ctx out h; left; simpa [runHandlers] using h
  | cons h rest ih =>
    intro idx s i ctx out hmem
    have key : ∀ o c1 w1, h s.ctx s.world = (o, c1, w1) →
        Call.handler i ctx out ∈ s.trace ++ [Call.handler idx s.ctx o] →
        Call.handler i ctx out ∈ s.trace ∨
          (idx ≤ i ∧ ∃ h0 w0, (h :: rest)[i - idx]? = some h0 ∧ (h0 ctx w0).1 = out) := by
      intro o c1 w1 heq hm
      rw [List.mem_append] at hm
      rcases hm with hm | hm
      · exact Or.inl hm
      · simp only [List.mem_singleton, Call.handler.injEq] at hm
        obtain ⟨rfl, rfl, rfl⟩ := hm
        right
        refine ⟨le_refl _, h, s.world, by simp, by rw [heq]⟩
    simp only [runHandlers] at hmem
    split at hmem
    · rename_i ctx1 w1 heq
      exact key _ _ _ heq hmem
    · rename_i next e ctx1 w1 heq
      exact key _ _ _ heq (mem_trace_callErrHandlers _ _ _ _ _ _ _ hmem)
    · rename_i ctx1 w1 heq
      exact key _ _ _ heq hmem
    · rename_i ctx1 w1 heq
      rcases ih _ _ _ _ _ hmem with h1 | ⟨hle, h0, w0, hget, hout⟩
      · exact key _ _ _ heq h1
      · right
        refine ⟨by omega, h0, w0, ?_, hout⟩
        have : i - idx = (i - (idx + 1)) + 1 := by omega
        rw [this]
        simpa using hget

/-- The flush only appends to the trace: the entry of the one call of `reply`,
then the entries of the error handlers when `reply` failed. -/
theorem flush_trace (b : Bot W) (event : Event) (s : St W) :
    ∃ res tail,
      (flush b event s).trace
        = s.trace ++ Call.reply event.ReplyToken s.ctx.Messages.messages res :: tail
      ∧ res = (MessageBank.reply b.Client s.ctx.Messages event.ReplyToken s.world).1
      ∧ handlerCalls tail = [] ∧ replyCalls tail = []
      ∧ (res = none → tail = [])
      ∧ (∀ e, res = some e →
          errHandlerCalls tail = (List.range b.errHandlers.length).map (fun k => (k, e))
          ∧ (flush b event s) = callErrHandlers e b.errHandlers 0
              { ctx := s.ctx,
                world := (MessageBank.reply b.Client s.ctx.Messages event.ReplyToken s.world).2,
                trace := s.trace
                  ++ [Call.reply event.ReplyToken s.ctx.Messages.messages (some e)] }) := by
  unfold flush
  split
  · rename_i e w1 heq
    obtain ⟨tail, h1, -, -, -⟩ := callErrHandlers_trace e b.errHandlers 0
      { ctx := s.ctx, world := w1,
        trace := s.trace ++ [Call.reply event.ReplyToken s.ctx.Messages.messages (some e)] }
    have hh := handlerCalls_callErrHandlers e b.errHandlers 0
      { ctx := s.ctx, world := w1,
        trace := s.trace ++ [Call.reply event.ReplyToken s.ctx.Messages.messages (some e)] }
    have hr := replyCalls_callErrHandlers e b.errHandlers 0
      { ctx := s.ctx, world := w1,
        trace := s.trace ++ [Call.reply event.ReplyToken s.ctx.Messages.messages (some e)] }
    have he := errHandlerCalls_callErrHandlers e b.errHandlers 0
      { ctx := s.ctx, world := w1,
        trace := s.trace ++ [Call.reply event.ReplyToken s.ctx.Messages.messages (some e)] }
    rw [h1] at hh hr he
    simp only [handlerCalls_append, replyCalls_append, errHandlerCalls_append,
      List.append_assoc, List.append_cancel_left_eq] at hh hr he
    refine ⟨some e, tail, by rw [h1]; simp, by rw [heq], ?_, ?_, by simp, ?_⟩
    · simpa [handlerCalls] using hh
    · simpa [replyCalls] using hr
    · intro e1 he1
      simp only [Option.some.injEq] at he1
      subst he1
      refine ⟨?_, by rw [heq]⟩
      simpa [errHandlerCalls, List.range_eq_range'] using he
  · rename_i w1 heq
    exact ⟨none, [], by simp, by rw [heq], rfl, rfl, by simp, by simp⟩

theorem handlerCalls_flush (b : Bot W) (event : Event) (s : St W) :
    handlerCalls (flush b event s).trace = handlerCalls s.trace := by
  obtain ⟨res, tail, h1, -, h2, -⟩ := flush_trace b event s
  rw [h1, handlerCalls_append]
  simp [handlerCalls] at h2 ⊢
  exact h2

theorem mem_handler_flush (b : Bot W) (event : Event) (s : St W) (i : Nat)
    (ctx : BotContext) (out : Outcome)
    (h : Call.handler i ctx out ∈ (flush b event s).trace) :
    Call.handler i ctx out ∈ s.trace := by
  obtain ⟨res, tail, h1, -, h2, -⟩ := flush_trace b event s
  rw [h1] at h
  simp only [List.mem_append, List.mem_cons] at h
  rcases h with h | h | h
  · exact h
  · simp at h
  · have := (mem_handlerCalls tail i out).2 ⟨ctx, h⟩
    rw [h2] at this
    simp at this

/-- The trace of a dispatch is the trace of its handler loop, followed by the
flush unless a handler panicked. -/
theorem dispatch_trace_cases (b : Bot W) (event : Event) (w : W) (t0 : List Call) :
    (dispatch b event w t0).2.trace
        = (runHandlers b.errHandlers b.bound 0
            { ctx := NewContext event, world := w,
              trace := t0 ++ [Call.newContext (NewContext event)] }).2.trace
    ∨ (dispatch b event w t0).2.trace
        = (flush b event (runHandlers b.errHandlers b.bound 0
            { ctx := NewContext event, world := w,
              trace := t0 ++ [Call.newContext (NewContext event)] }).2).trace := by
  unfold dispatch
  simp only
  split
  · left; rfl
  · right; rfl

theorem handlerCalls_dispatch (b : Bot W) (event : Event) (w : W) :
    handlerCalls (dispatch b event w []).2.trace
      = handlerCalls (runHandlers b.errHandlers b.bound 0
          { ctx := NewContext event, world := w,
            trace := [Call.newContext (NewContext event)] }).2.trace := by
  rcases dispatch_trace_cases b event w [] with h | h
  · rw [h]; rfl
  · rw [h, handlerCalls_flush]; rfl

/-- C1. In the dispatch of one event the handlers are invoked in registration
order, each at most once and without gaps from the first one; handler `i` is
invoked if and only if every handler registered before it returned
`(true, nil)`; every entry of the trace is a real call of the handler of that
index.  With two handlers, the second runs (on the context the first one left)
when the first returns `(true, nil)`, and does not run when the first returns
`(false, nil)` or a non-nil error. -/
theorem dispatch_runs_handlers_in_order_until_stop (b : Bot W) (event : Event) (w : W) :
    (∃ n, n ≤ b.bound.length ∧
        (handlerCalls (eventTrace b event w)).map Prod.fst = List.range n)
    ∧ (∀ i, i < b.bound.length →
        ((∃ ctx out, Call.handler i ctx out ∈ eventTrace b event w) ↔
          ∀ j, j < i → ∃ ctx, Call.handler j ctx (Outcome.ret true none) ∈ eventTrace b event w))
    ∧ (∀ i ctx out, Call.handler i ctx out ∈ eventTrace b event w →
        ∃ h w0, b.bound[i]? = some h ∧ (h ctx w0).1 = out)
    ∧ (∀ h1 h2, b.bound = [h1, h2] →
        ((h1 (NewContext event) w).1 = Outcome.ret true none →
          Call.handler 1 (h1 (NewContext event) w).2.1
            (h2 (h1 (NewContext event) w).2.1 (h1 (NewContext event) w).2.2).1
              ∈ eventTrace b event w)
        ∧ (((h1 (NewContext event) w).1 = Outcome.ret false none ∨
            ∃ next e, (h1 (NewContext event) w).1 = Outcome.ret next (some e)) →
          ∀ ctx out, Call.handler 1 ctx out ∉ eventTrace b event w)) := by
  have hcalls := handlerCalls_dispatch b event w
  have shape := handlerCalls_runHandlers b.errHandlers b.bound 0
    { ctx := NewContext event, world := w, trace := [Call.newContext (NewContext event)] }
  rw [← hcalls] at shape
  have hnil : handlerCalls [Call.newContext (NewContext event)] = [] := rfl
  simp only [hnil, List.nil_append, Nat.zero_add] at shape
  have hmem : ∀ i out, (∃ ctx, Call.handler i ctx out ∈ eventTrace b event w) ↔
      (i, out) ∈ handlerCalls (dispatch b event w []).2.trace := by
    intro i out
    exact (mem_handlerCalls _ i out).symm
  refine ⟨?_, ?_, ?_, ?_⟩
  · rcases shape with ⟨h1, -⟩ | ⟨n, o, hn, -, h1, -⟩
    · refine ⟨b.bound.length, le_refl _, ?_⟩
      unfold eventTrace
      rw [h1]
      simp [List.range_eq_range', Function.comp_def]
    · refine ⟨n + 1, hn, ?_⟩
      unfold eventTrace
      rw [h1]
      simp [List.range_eq_range', Function.comp_def, List.range'_concat]
  · intro i hi
    have e1 : (∃ ctx out, Call.handler i ctx out ∈ eventTrace b event w) ↔
        ∃ out, (i, out) ∈ handlerCalls (dispatch b event w []).2.trace := by
      constructor
      · rintro ⟨ctx, out, h⟩; exact ⟨out, (hmem i out).1 ⟨ctx, h⟩⟩
      · rintro ⟨out, h⟩
        obtain ⟨ctx, hc⟩ := (hmem i out).2 h
        exact ⟨ctx, out, hc⟩
    rw [e1]
    simp only [hmem]
    rcases shape with ⟨h1, -⟩ | ⟨n, o, hn, ho, h1, -⟩
    · rw [h1]
      simp only [List.mem_map, List.mem_range'_1, Prod.mk.injEq, Outcome.goOn]
      constructor
      · intro _ j hj
        exact ⟨j, ⟨by omega, by omega⟩, rfl, trivial⟩
      · intro _
        exact ⟨Outcome.ret true none, i, ⟨by omega, by omega⟩, rfl, rfl⟩
    · rw [h1]
      simp only [List.mem_append, List.mem_map, List.mem_range'_1, Prod.mk.injEq,
        List.mem_singleton, Outcome.goOn] at ho ⊢
      constructor
      · rintro ⟨out, ⟨k, ⟨-, hk⟩, rfl, -⟩ | ⟨rfl, -⟩⟩ j hj
        · exact Or.inl ⟨j, ⟨by omega, by omega⟩, rfl, trivial⟩
        · exact Or.inl ⟨j, ⟨by omega, by omega⟩, rfl, trivial⟩
      · intro hall
        by_cases hin : i ≤ n
        · rcases Nat.lt_or_eq_of_le hin with hlt | heq
          · exact ⟨_, Or.inl ⟨i, ⟨by omega, by omega⟩, rfl, rfl⟩⟩
          · exact ⟨o, Or.inr ⟨heq, rfl⟩⟩
        · exfalso
          rcases hall n (by omega) with ⟨k, ⟨-, hk⟩, hkn, -⟩ | ⟨-, h2⟩
          · omega
          · exact ho h2.symm
  · intro i ctx out hin
    have hin2 : Call.handler i ctx out ∈ (runHandlers b.errHandlers b.bound 0
        { ctx := NewContext event, world := w,
          trace := [] ++ [Call.newContext (NewContext event)] }).2.trace := by
      rcases dispatch_trace_cases b event w [] with h | h
      · unfold eventTrace at hin; rw [h] at hin; exact hin
      · unfold eventTrace at hin; rw [h] at hin; exact mem_handler_flush _ _ _ _ _ _ hin
    rcases runHandlers_faithful _ _ _ _ _ _ _ hin2 with h | ⟨-, h0, w0, hget, hout⟩
    · simp at h
    · exact ⟨h0, w0, by simpa using hget, hout⟩
  · intro h1 h2 hb
    constructor
    · intro hgo
      have : Call.handler 1 (h1 (NewContext event) w).2.1
          (h2 (h1 (NewContext event) w).2.1 (h1 (NewContext event) w).2.2).1
            ∈ (runHandlers b.errHandlers b.bound 0
                { ctx := NewContext event, world := w,
                  trace := [] ++ [Call.newContext (NewContext event)] }).2.trace := by
        rw [hb]
        rcases hr : h1 (NewContext event) w with ⟨o1, c1, w1⟩
        rw [hr] at hgo
        simp only at hgo
        subst hgo
        simp only [runHandlers, hr]
        rcases hr2 : h2 c1 w1 with ⟨o2, c2, w2⟩
        rcases o2 with ⟨next, _ | e⟩ | _
        · cases next <;> simp [runHandlers]
        · simp only [List.nil_append, List.cons_append, Nat.zero_add]
          obtain ⟨tail, ht, -⟩ := callErrHandlers_trace e b.errHandlers 0
            { ctx := c2, world := w2,
              trace := [Call.newContext (NewContext event),
                Call.handler 0 (NewContext event) (Outcome.ret true none),
                Call.handler 1 c1 (Outcome.ret next (some e))] }
          rw [ht]
          simp
        · simp
      rcases dispatch_trace_cases b event w [] with h | h
      · unfold eventTrace; rw [h]; exact this
      · unfold eventTrace; rw [h]
        obtain ⟨res, tail, ht, -⟩ := flush_trace b event (runHandlers b.errHandlers b.bound 0
          { ctx := NewContext event, world := w,
            trace := [] ++ [Call.newContext (NewContext event)] }).2
        rw [ht]
        exact List.mem_append_left _ this
    · intro hstop ctx out hin
      have h1mem := (hmem 1 out).1 ⟨ctx, hin⟩
      rcases shape with ⟨h1', -⟩ | ⟨n, o, hn, ho, h1', -⟩
      · rw [h1'] at hcalls
        rw [hb] at hcalls
        rcases hr : h1 (NewContext event) w with ⟨o1, c1, w1⟩
        rw [hr] at hstop
        simp only at hstop
        rcases hstop with rfl | ⟨next, e, rfl⟩
        · simp [runHandlers, hr, handlerCalls, hb, List.range', Outcome.goOn] at hcalls
        · simp only [runHandlers, hr, handlerCalls_callErrHandlers] at hcalls
          simp [handlerCalls, hb, List.range', Outcome.goOn] at hcalls
      · rw [h1'] at hcalls h1mem
        rw [hb] at hcalls
        rcases hr : h1 (NewContext event) w with ⟨o1, c1, w1⟩
        rw [hr] at hstop
        simp only at hstop
        have hn0 : n = 0 := by
          rcases hstop with rfl | ⟨next, e, rfl⟩
          · simp only [runHandlers, hr] at hcalls
            simp only [handlerCalls, List.filterMap_cons, List.filterMap_nil,
              List.nil_append, List.cons_append] at hcalls
            rcases n with _ | n
            · rfl
            · simp [List.range'_succ, Outcome.goOn] at hcalls
          · simp only [runHandlers, hr, handlerCalls_callErrHandlers] at hcalls
            simp only [handlerCalls, List.filterMap_cons, List.filterMap_nil,
              List.nil_append, List.cons_append] at hcalls
            rcases n with _ | n
            · rfl
            · simp [List.range'_succ, Outcome.goOn] at hcalls
        subst hn0
        simp at h1mem

/-- When the trace of the handler loop shows a handler that returned the
error `e`, the loop ended there: before it only handlers that returned
`(true, nil)` ran, and the final state is the one that the error handlers,
called one after the other with `e`, make of the state the failing handler
left. -/
theorem runHandlers_failed_shape (errs : List (ErrorHandler W)) :
    ∀ (hs : List (EventHandler W)) (idx : Nat) (s : St W) (i : Nat) (ctx : BotContext)
      (next : Bool) (e : Error),
      Call.handler i ctx (Outcome.ret next (some e)) ∈ (runHandlers errs hs idx s).2.trace →
      Call.handler i ctx (Outcome.ret next (some e)) ∉ s.trace →
      ∃ mid h0 w0 ctx1 w1,
        idx ≤ i ∧ hs[i - idx]? = some h0
        ∧ h0 ctx w0 = (Outcome.ret next (some e), ctx1, w1)
        ∧ (∀ c ∈ mid, ∃ j cj, j < i ∧ c = Call.handler j cj (Outcome.ret true none))
        ∧ runHandlers errs hs idx s
            = (ChainEnd.failed e,
                callErrHandlers e errs 0
                  { ctx := ctx1, world := w1,
                    trace := s.trace ++ mid
                      ++ [Call.handler i ctx (Outcome.ret next (some e))] }) := by
  intro hs
  induction hs with
  | nil =>
    intro idx s i ctx next e hin hnot
    exact absurd (by simpa [runHandlers] using hin) hnot
  | cons h rest ih =>
    intro idx s i ctx next e hin hnot
    simp only [runHandlers] at hin ⊢
    rcases hr : h s.ctx s.world with ⟨o, c1, w1⟩
    rw [hr] at hin
    rcases o with ⟨nx, _ | e1⟩ | _
    · cases nx
      · simp only [List.mem_append, List.mem_singleton] at hin
        rcases hin with hin | hin
        · exact absurd hin hnot
        · simp at hin
      · simp only at hin ⊢
        have hnot2 : Call.handler i ctx (Outcome.ret next (some e)) ∉
            s.trace ++ [Call.handler idx s.ctx (Outcome.ret true none)] := by
          simp [hnot]
        obtain ⟨mid, h0, w0, ctx1, w2, hle, hget, hrun, hmid, heq⟩ :=
          ih (idx + 1) _ i ctx next e hin hnot2
        refine ⟨Call.handler idx s.ctx (Outcome.ret true none) :: mid, h0, w0, ctx1, w2,
          by omega, ?_, hrun, ?_, ?_⟩
        · have : i - idx = (i - (idx + 1)) + 1 := by omega
          rw [this]
          simpa using hget
        · intro c hc
          rcases List.mem_cons.1 hc with rfl | hc
          · exact ⟨idx, s.ctx, by omega, rfl⟩
          · exact hmid c hc
        · rw [heq]
          simp
    · simp only at hin ⊢
      have hin2 := mem_trace_callErrHandlers _ _ _ _ _ _ _ hin
      simp only [List.mem_append, List.mem_singleton] at hin2
      rcases hin2 with hin2 | hin2
      · exact absurd hin2 hnot
      · simp only [Call.handler.injEq, Outcome.ret.injEq, Option.some.injEq] at hin2
        obtain ⟨rfl, rfl, rfl, rfl⟩ := hin2
        exact ⟨[], h, s.world, c1, w1, le_refl _, by simp, hr, by simp, by simp⟩
    · simp only [List.mem_append, List.mem_singleton] at hin
      rcases hin with hin | hin
      · exact absurd hin hnot
      · simp at hin

/-- C2. When the handler loop of an event shows a handler that returned a
non-nil error `e` (whatever flag came with it), the loop ended with that
error; every registered error handler was called exactly once, in
registration order, with `e`, the first one on the context the failing
handler left and each next one on the context its predecessor left; and no
handler registered after the failing one was called. -/
theorem handler_error_reaches_every_error_handler (b : Bot W) (event : Event) (w : W)
    (i : Nat) (ctx : BotContext) (next : Bool) (e : Error)
    (hret : Call.handler i ctx (Outcome.ret next (some e)) ∈ (handlerLoop b event w).2.trace) :
    (handlerLoop b event w).1 = ChainEnd.failed e
    ∧ errHandlerCalls (handlerLoop b event w).2.trace
        = (List.range b.errHandlers.length).map (fun j => (j, e))
    ∧ (∀ i1 c o, Call.handler i1 c o ∈ (handlerLoop b event w).2.trace → i1 ≤ i)
    ∧ ∃ pre tail h0 w0 ctx1 w1,
        b.bound[i]? = some h0
        ∧ h0 ctx w0 = (Outcome.ret next (some e), ctx1, w1)
        ∧ (handlerLoop b event w).2.trace
            = pre ++ Call.handler i ctx (Outcome.ret next (some e)) :: tail
        ∧ (∀ c ∈ pre, ∃ j cj, j < i ∧ c = Call.handler j cj (Outcome.ret true none))
        ∧ tail.length = b.errHandlers.length
        ∧ (∀ k, k < b.errHandlers.length → ∃ c, tail[k]? = some (Call.errHandler k c e))
        ∧ (∀ eh rest, b.errHandlers = eh :: rest → tail[0]? = some (Call.errHandler 0 ctx1 e))
        ∧ (handlerLoop b event w).2
            = callErrHandlers e b.errHandlers 0
                { ctx := ctx1, world := w1,
                  trace := pre ++ [Call.handler i ctx (Outcome.ret next (some e))] } := by
  unfold handlerLoop at hret ⊢
  obtain ⟨mid, h0, w0, ctx1, w1, -, hget, hrun, hmid, heq⟩ :=
    runHandlers_failed_shape b.errHandlers b.bound 0 _ i ctx next e hret (by simp)
  obtain ⟨tail, ht, hlen, hk, hfirst⟩ := callErrHandlers_trace e b.errHandlers 0
    { ctx := ctx1, world := w1,
      trace := ([] : List Call) ++ mid ++ [Call.handler i ctx (Outcome.ret next (some e))] }
  have herr := errHandlerCalls_callErrHandlers e b.errHandlers 0
    { ctx := ctx1, world := w1,
      trace := ([] : List Call) ++ mid ++ [Call.handler i ctx (Outcome.ret next (some e))] }
  have hmidErr : errHandlerCalls mid = [] := by
    simp only [errHandlerCalls, List.filterMap_eq_nil_iff]
    intro c hc
    obtain ⟨j, cj, -, rfl⟩ := hmid c hc
    rfl
  have hsingle : errHandlerCalls [Call.handler i ctx (Outcome.ret next (some e))] = [] := rfl
  rw [heq]
  simp only [List.nil_append] at ht herr hfirst ⊢
  refine ⟨trivial, ?_, ?_, mid, tail, h0, w0, ctx1, w1, by simpa using hget, hrun, ?_, hmid,
    hlen, ?_, ?_, rfl⟩
  · rw [herr, errHandlerCalls_append, hmidErr, hsingle]
    simp [List.range_eq_range']
  · intro i1 c o hin
    rw [ht] at hin
    simp only [List.nil_append, List.append_assoc, List.singleton_append, List.mem_append,
      List.mem_cons] at hin
    rcases hin with hin | hin | hin
    · obtain ⟨j, cj, hj, hc⟩ := hmid _ hin
      simp only [Call.handler.injEq] at hc
      omega
    · simp only [Call.handler.injEq] at hin
      omega
    · obtain ⟨k, hk1, hk2⟩ := List.getElem_of_mem hin
      obtain ⟨c2, hc2⟩ := hk k (by omega)
      rw [List.getElem?_eq_getElem hk1, hk2] at hc2
      simp at hc2
  · rw [ht]; simp
  · intro k hk1
    obtain ⟨c, hc⟩ := hk k hk1
    exact ⟨c, by simpa using hc⟩
  · intro eh rest hb
    simpa using hfirst eh rest hb

theorem replyCalls_runHandlers (errs : List (ErrorHandler W)) :
    ∀ (hs : List (EventHandler W)) (idx : Nat) (s : St W),
      replyCalls (runHandlers errs hs idx s).2.trace = replyCalls s.trace := by
  intro hs
  induction hs with
  | nil => intro idx s; rfl
  | cons h rest ih =>
    intro idx s
    simp only [runHandlers]
    split
    · simp [replyCalls]
    · rw [replyCalls_callErrHandlers]; simp [replyCalls]
    · simp [replyCalls]
    · rw [ih]; simp [replyCalls]

/-- The dispatch of an event in terms of its handler loop: the context is
created, the loop runs, and unless a handler panicked the bank is flushed. -/
theorem dispatch_eq_handlerLoop (b : Bot W) (event : Event) (w : W) (t0 : List Call) :
    dispatch b event w t0
      = match (handlerLoop b event w).1 with
        | ChainEnd.panicked =>
          (ChainEnd.panicked,
            St.after (t0 ++ [Call.newContext (NewContext event)]) (handlerLoop b event w).2)
        | r =>
          (r, flush b event
            (St.after (t0 ++ [Call.newContext (NewContext event)]) (handlerLoop b event w).2)) := by
  have h := runHandlers_after b.errHandlers (t0 ++ [Call.newContext (NewContext event)])
    b.bound 0 { ctx := NewContext event, world := w, trace := [] }
  simp only [St.after, List.append_nil] at h
  unfold dispatch handlerLoop
  simp only [h, St.after]
  split <;> rename_i heq <;> simp only [heq]

/-- C3. Whenever the handler loop of an event ends without a panic (by
exhaustion, by a stop or by a handler error) the dispatch calls `reply`
exactly once, after the loop, with the reply token of the event and with the
messages of the bank as the loop left them; the result of the call is that of
`MessageBank.reply` on that bank, which delivers a non-empty bank through the
client.  If `reply` returns an error, every registered error handler is then
called once, in registration order, with that error; otherwise nothing
follows. -/
theorem dispatch_flushes_bank_once (b : Bot W) (event : Event) (w : W)
    (hend : (handlerLoop b event w).1 ≠ ChainEnd.panicked) :
    ∃ res tail,
      eventTrace b event w
        = Call.newContext (NewContext event) :: (handlerLoop b event w).2.trace
          ++ Call.reply event.ReplyToken (handlerLoop b event w).2.ctx.Messages.messages res
            :: tail
      ∧ replyCalls (eventTrace b event w)
          = [(event.ReplyToken, (handlerLoop b event w).2.ctx.Messages.messages, res)]
      ∧ res = (if (handlerLoop b event w).2.ctx.Messages.messages.length > 0 then
                (b.Client.ReplyMessage event.ReplyToken
                  (handlerLoop b event w).2.ctx.Messages.messages
                  (handlerLoop b event w).2.world).1
              else none)
      ∧ handlerCalls tail = []
      ∧ (res = none → tail = [] ∧ errHandlerCalls (eventTrace b event w)
                                  = errHandlerCalls (handlerLoop b event w).2.trace)
      ∧ (∀ e, res = some e →
          errHandlerCalls tail = (List.range b.errHandlers.length).map (fun k => (k, e))
          ∧ (dispatch b event w []).2
              = callErrHandlers e b.errHandlers 0
                  { ctx := (handlerLoop b event w).2.ctx,
                    world := (b.Client.ReplyMessage event.ReplyToken
                      (handlerLoop b event w).2.ctx.Messages.messages
                      (handlerLoop b event w).2.world).2,
                    trace := Call.newContext (NewContext event)
                      :: (handlerLoop b event w).2.trace
                      ++ [Call.reply event.ReplyToken
                            (handlerLoop b event w).2.ctx.Messages.messages (some e)] }) := by
  have hd : dispatch b event w []
      = ((handlerLoop b event w).1, flush b event
          (St.after [Call.newContext (NewContext event)] (handlerLoop b event w).2)) := by
    rw [dispatch_eq_handlerLoop]
    split
    · rename_i heq; exact absurd heq hend
    · simp
  obtain ⟨res, tail, h1, h2, h3, h4, h5, h6⟩ :=
    flush_trace b event (St.after [Call.newContext (NewContext event)] (handlerLoop b event w).2)
  have hreply : ∀ (mb : MessageBank) (tok : String) (w0 : W),
      MessageBank.reply b.Client mb tok w0
        = if mb.messages.length > 0 then b.Client.ReplyMessage tok mb.messages w0
          else (none, w0) := by
    intro mb tok w0
    unfold MessageBank.reply
    split
    · rcases b.Client.ReplyMessage tok mb.messages w0 with ⟨_ | e, w1⟩ <;> rfl
    · rfl
  have hloopReply : replyCalls (handlerLoop b event w).2.trace = [] := by
    unfold handlerLoop
    rw [replyCalls_runHandlers]
    rfl
  have hSc : (St.after [Call.newContext (NewContext event)] (handlerLoop b event w).2).ctx
      = (handlerLoop b event w).2.ctx := rfl
  have hSw : (St.after [Call.newContext (NewContext event)] (handlerLoop b event w).2).world
      = (handlerLoop b event w).2.world := rfl
  have hSt : (St.after [Call.newContext (NewContext event)] (handlerLoop b event w).2).trace
      = [Call.newContext (NewContext event)] ++ (handlerLoop b event w).2.trace := rfl
  rw [hSc] at h1 h2 h6
  rw [hSw] at h2 h6
  rw [hSt] at h1 h6
  unfold eventTrace
  rw [hd]
  simp only
  refine ⟨res, tail, by simpa using h1, ?_, ?_, h3, ?_, ?_⟩
  · simp only [h1, replyCalls_append, hloopReply]
    have : replyCalls (Call.reply event.ReplyToken
        (handlerLoop b event w).2.ctx.Messages.messages res :: tail)
          = (event.ReplyToken, (handlerLoop b event w).2.ctx.Messages.messages, res)
            :: replyCalls tail := rfl
    rw [this, h4]
    rfl
  · rw [h2, hreply]
    split <;> rfl
  · intro hres
    have ht := h5 hres
    refine ⟨ht, ?_⟩
    simp only [h1, ht, errHandlerCalls_append]
    simp [errHandlerCalls]
  · intro e he
    obtain ⟨h61, h62⟩ := h6 e he
    refine ⟨h61, ?_⟩
    simp only [h62, hreply]
    have hpos : (handlerLoop b event w).2.ctx.Messages.messages.length > 0 := by
      by_contra hcon
      rw [h2, hreply, if_neg hcon] at he
      simp at he
    simp [if_pos hpos]

/-- The closure that `OnImage` registers fetches with the client that the bot
holds when the handler is called, not with the one it held at the time of the
registration. -/
theorem bound_OnImage_later_client (b : Bot W) (handler : BinaryDataHandler W)
    (cl : Client W) :
    ({ b.OnImage handler with Client := cl } : Bot W).bound
      = b.handlers.map (fun h => h cl) ++ [OnImage.eventHandler cl handler] := by
  simp [Bot.bound, Bot.OnImage, Bot.OnEvent]

theorem register_eq_OnEvent (b : Bot W) (r : Registration W) :
    b.register r = b.OnEvent (fun bot => r.eventHandler bot) := by
  cases r <;> rfl

/-- A typed registration whose kind differs from that of the event hands the
context and the world back and says `(true, nil)`. -/
theorem eventHandler_of_differs (cl : Client W) (r : Registration W)
    (context : BotContext) (w : W) (hd : r.kind.differs context.Event = true) :
    r.eventHandler cl context w = (Outcome.ret true none, context, w) := by
  cases r <;>
    simp only [Registration.kind, Kind.differs, Kind.eventType, Kind.messageKind,
      Kind.beaconType, Bool.or_false, Bool.or_eq_true, decide_eq_true_eq] at hd <;>
    simp only [Registration.eventHandler, OnText.eventHandler, OnImage.eventHandler,
      OnVideo.eventHandler, OnAudio.eventHandler, OnLocation.eventHandler,
      OnSticker.eventHandler, OnFollow.eventHandler, OnUnFollow.eventHandler,
      OnJoin.eventHandler, OnLeave.eventHandler, OnPostback.eventHandler,
      OnBeaconEnter.eventHandler, OnBeaconLeave.eventHandler]
  all_goals (split_ifs with h1 <;> try rfl)
  all_goals
    first
      | exact absurd hd h1
      | (have hd2 := hd.resolve_left h1
         rcases hm : context.Event.Message with _ | m
         · rfl
         · rw [hm] at hd2
           cases m <;> first | rfl | exact absurd rfl hd2)
      | (have hd2 := hd.resolve_left h1
         rcases hb : context.Event.Beacon with _ | bc
         · rw [hb] at hd2
           simp at hd2
         · rw [hb] at hd2
           simp only [decide_eq_true_eq] at hd2
           simp only [hd2, ne_eq, not_false_eq_true, if_true])

/-- C4. The event handler of each of the thirteen typed registrations, on an
event whose kind, message sub-kind or beacon sub-kind differs from that of the
registration, returns `(true, nil)` and hands back the context and the world
as it got them; the result is the same for every other handler registered
for the same kind and for every other client, so the handler is not called
and no content is fetched. -/
theorem typed_wrapper_skips_other_kinds (cl : Client W) (r : Registration W)
    (context : BotContext) (w : W) (hd : r.kind.differs context.Event = true) :
    r.eventHandler cl context w = (Outcome.ret true none, context, w)
    ∧ ∀ (cl2 : Client W) (r2 : Registration W), r2.kind = r.kind →
        r2.eventHandler cl2 context w = r.eventHandler cl context w := by
  have h1 := eventHandler_of_differs cl r context w hd
  refine ⟨h1, ?_⟩
  intro cl2 r2 hk
  rw [h1]
  exact eventHandler_of_differs cl2 r2 context w (by rw [hk]; exact hd)

/-- Witness of C4: the image registration of the test on its follow event. -/
theorem typed_wrapper_skips_other_kinds_witness :
    (Registration.OnImage TestServer.binary).kind.differs
        (NewContext (TestServer.event EventTypeFollow TestServer.replyToken
          TestServer.userSource)).Event = true
    ∧ (Registration.OnImage TestServer.binary).eventHandler TestServer.mockClient
        (NewContext (TestServer.event EventTypeFollow TestServer.replyToken
          TestServer.userSource)) TestServer.world0
      = (Outcome.ret true none,
          NewContext (TestServer.event EventTypeFollow TestServer.replyToken
            TestServer.userSource), TestServer.world0) :=
  ⟨by decide,
    (typed_wrapper_skips_other_kinds TestServer.mockClient
      (Registration.OnImage TestServer.binary) _ TestServer.world0 (by decide)).1⟩

/-- C7. On a join event that carries a source, the closure of `OnJoin` returns
`(false, ErrorUnknowJoinType)` and touches nothing, whatever the handler is,
when the source kind is neither group nor room; for a group source the result
is that of the handler called with the source kind and the group id, for a
room source that of the handler called with the source kind and the room id.
On a leave event that carries a source, the closure of `OnLeave` returns
`(false, ErrorUnknowJoinType)` unless the source kind is group, and then the
result is that of the handler called with the group id. -/
theorem join_leave_wrappers_check_source (context : BotContext) (w : W) (source : EventSource)
    (hsrc : context.Event.Source = some source) :
    (∀ handler : JoinHandler W, context.Event.Type_ = EventTypeJoin →
      (source.Type_ ≠ EventSourceTypeGroup ∧ source.Type_ ≠ EventSourceTypeRoom →
        OnJoin.eventHandler handler context w
          = (Outcome.ret false (some Error.ErrorUnknowJoinType), context, w))
      ∧ (source.Type_ = EventSourceTypeGroup →
        OnJoin.eventHandler handler context w
          = handler context EventSourceTypeGroup source.GroupID w)
      ∧ (source.Type_ = EventSourceTypeRoom →
        OnJoin.eventHandler handler context w
          = handler context EventSourceTypeRoom source.RoomID w))
    ∧ (∀ handler : LeaveHandler W, context.Event.Type_ = EventTypeLeave →
      (source.Type_ ≠ EventSourceTypeGroup →
        OnLeave.eventHandler handler context w
          = (Outcome.ret false (some Error.ErrorUnknowJoinType), context, w))
      ∧ (source.Type_ = EventSourceTypeGroup →
        OnLeave.eventHandler handler context w = handler context source.GroupID w)) := by
  constructor
  · intro handler ht
    simp only [OnJoin.eventHandler, ht, hsrc, ne_eq, not_true_eq_false, if_false]
    refine ⟨?_, ?_, ?_⟩
    · rintro ⟨hg, hr⟩
      simp [hg, hr]
    · intro hg
      simp [hg, EventSourceTypeGroup, EventSourceTypeRoom]
    · intro hr
      simp [hr]
  · intro handler ht
    simp only [OnLeave.eventHandler, ht, hsrc, ne_eq, not_true_eq_false, if_false]
    refine ⟨?_, ?_⟩
    · intro hg
      simp [hg]
    · intro hg
      simp [hg]

/-- Witness of C7: the join event of the test, whose source is a group. -/
theorem join_leave_wrappers_check_source_witness :
    (NewContext (TestServer.event EventTypeJoin TestServer.replyToken
        TestServer.groupSource)).Event.Source = some TestServer.groupSource
    ∧ OnJoin.eventHandler TestServer.join
        (NewContext (TestServer.event EventTypeJoin TestServer.replyToken
          TestServer.groupSource)) TestServer.world0
      = TestServer.join
          (NewContext (TestServer.event EventTypeJoin TestServer.replyToken
            TestServer.groupSource))
          EventSourceTypeGroup TestServer.groupSource.GroupID TestServer.world0 :=
  ⟨rfl,
    ((join_leave_wrappers_check_source
      (NewContext (TestServer.event EventTypeJoin TestServer.replyToken
        TestServer.groupSource)) TestServer.world0 TestServer.groupSource rfl).1
      TestServer.join rfl).2.1 rfl⟩

theorem fetchAndHandle_spec (cl : Client W) (handler : BinaryDataHandler W) (id : String)
    (context : BotContext) (w : W) :
    FetchThenHandle cl handler id context w (fetchAndHandle cl handler id context w) := by
  unfold FetchThenHandle fetchAndHandle
  refine ⟨?_, ?_, ?_⟩
  · intro e w1 h1
    simp [h1]
  · intro resp w1 e w2 h1 h2
    simp [h1, h2]
  · intro resp w1 data w2 h1 h2
    simp [h1, h2]

/-- C8. On a message event whose message is an image, a video or an audio
message, the closure of `OnImage`, `OnVideo` or `OnAudio` fetches the content
of that message: when the fetch or the read of its body fails with `e` the
result is `(false, e)` with the context untouched, whatever the handler is;
when both succeed the result and the context are those of the handler called
with the bytes read (see `FetchThenHandle`). -/
theorem binary_wrappers_fetch_then_handle (cl : Client W) (handler : BinaryDataHandler W)
    (context : BotContext) (w : W) (id : String)
    (htype : context.Event.Type_ = EventTypeMessage) :
    (∀ a b, context.Event.Message = some (Message.Image id a b) →
      FetchThenHandle cl handler id context w (OnImage.eventHandler cl handler context w))
    ∧ (∀ a b, context.Event.Message = some (Message.Video id a b) →
      FetchThenHandle cl handler id context w (OnVideo.eventHandler cl handler context w))
    ∧ (∀ a d, context.Event.Message = some (Message.Audio id a d) →
      FetchThenHandle cl handler id context w (OnAudio.eventHandler cl handler context w)) := by
  refine ⟨?_, ?_, ?_⟩
  · intro a b hm
    have : OnImage.eventHandler cl handler context w = fetchAndHandle cl handler id context w := by
      simp [OnImage.eventHandler, htype, hm]
    rw [this]
    exact fetchAndHandle_spec cl handler id context w
  · intro a b hm
    have : OnVideo.eventHandler cl handler context w = fetchAndHandle cl handler id context w := by
      simp [OnVideo.eventHandler, htype, hm]
    rw [this]
    exact fetchAndHandle_spec cl handler id context w
  · intro a d hm
    have : OnAudio.eventHandler cl handler context w = fetchAndHandle cl handler id context w := by
      simp [OnAudio.eventHandler, htype, hm]
    rw [this]
    exact fetchAndHandle_spec cl handler id context w

/-- Witness of C8: the image event of the test; the mock answers six bytes and
the handler of the test gets exactly them. -/
theorem binary_wrappers_fetch_then_handle_witness :
    (NewContext TestServer.imageEvent).Event.Type_ = EventTypeMessage
    ∧ OnImage.eventHandler TestServer.mockClient TestServer.binary
        (NewContext TestServer.imageEvent) TestServer.world0
      = ((TestServer.binary (NewContext TestServer.imageEvent) [0, 0, 0, 0, 0, 0]
            TestServer.world0).1,
          (TestServer.binary (NewContext TestServer.imageEvent) [0, 0, 0, 0, 0, 0]
            TestServer.world0).2.1,
          TestServer.mockClient.Close 0
            (TestServer.binary (NewContext TestServer.imageEvent) [0, 0, 0, 0, 0, 0]
              TestServer.world0).2.2) :=
  ⟨rfl,
    ((binary_wrappers_fetch_then_handle TestServer.mockClient TestServer.binary
      (NewContext TestServer.imageEvent) TestServer.world0 "325708" rfl).1 "" "" rfl).2.2
      { Content := 0 } TestServer.world0 [0, 0, 0, 0, 0, 0] TestServer.world0 rfl rfl⟩

theorem callErrHandlers_core (e : Error) (errs : List (ErrorHandler W)) :
    ∀ (j j2 : Nat) (s s2 : St W), s.ctx = s2.ctx → s.world = s2.world →
      (callErrHandlers e errs j s).ctx = (callErrHandlers e errs j2 s2).ctx
      ∧ (callErrHandlers e errs j s).world = (callErrHandlers e errs j2 s2).world := by
  induction errs with
  | nil => intro j j2 s s2 hc hw; exact ⟨hc, hw⟩
  | cons eh rest ih =>
    intro j j2 s s2 hc hw
    simp only [callErrHandlers]
    apply ih
    · simp [hc, hw]
    · simp [hc, hw]

theorem foldl_register_handlers (regs : List (Registration W)) :
    ∀ b : Bot W,
      (regs.foldl Bot.register b).handlers
          = b.handlers ++ regs.map (fun r bot => r.eventHandler bot)
      ∧ (regs.foldl Bot.register b).Client = b.Client
      ∧ (regs.foldl Bot.register b).errHandlers = b.errHandlers := by
  induction regs with
  | nil => intro b; simp
  | cons r rest ih =>
    intro b
    simp only [List.foldl_cons]
    obtain ⟨h1, h2, h3⟩ := ih (b.register r)
    rw [h1, h2, h3, register_eq_OnEvent]
    simp [Bot.OnEvent]

theorem chainBot_handlers (cl : Client W) (errs : List (ErrorHandler W))
    (regs : List (Registration W)) :
    (chainBot cl errs regs).bound = regs.map (Registration.eventHandler cl)
    ∧ (chainBot cl errs regs).Client = cl
    ∧ (chainBot cl errs regs).errHandlers = errs := by
  obtain ⟨h1, h2, h3⟩ :=
    foldl_register_handlers regs { Client := cl, handlers := [], errHandlers := errs }
  refine ⟨?_, h2, h3⟩
  unfold Bot.bound chainBot
  rw [h1, h2]
  simp

/-- The handler loop over a chain of typed registrations ends the same way,
with the same context and the same world, as the loop over the chain without
the registrations whose kind differs from that of the event. -/
theorem runHandlers_keptFor (cl : Client W) (errs : List (ErrorHandler W)) (ev : Event) :
    ∀ (regs : List (Registration W)) (idx idx2 : Nat) (s s2 : St W),
      (∀ r ∈ regs, ∀ c w0, (r.eventHandler cl c w0).2.1.Event = c.Event) →
      s.ctx = s2.ctx → s.world = s2.world → s.ctx.Event = ev →
      (runHandlers errs (regs.map (Registration.eventHandler cl)) idx s).1
          = (runHandlers errs ((keptFor ev regs).map (Registration.eventHandler cl)) idx2 s2).1
      ∧ (runHandlers errs (regs.map (Registration.eventHandler cl)) idx s).2.ctx
          = (runHandlers errs ((keptFor ev regs).map (Registration.eventHandler cl)) idx2 s2).2.ctx
      ∧ (runHandlers errs (regs.map (Registration.eventHandler cl)) idx s).2.world
          = (runHandlers errs ((keptFor ev regs).map (Registration.eventHandler cl))
              idx2 s2).2.world := by
  intro regs
  induction regs with
  | nil => intro idx idx2 s s2 _ hc hw _; simp [keptFor, runHandlers, hc, hw]
  | cons r rest ih =>
    intro idx idx2 s s2 hev hc hw he
    have hevr := hev r (List.mem_cons_self _ _)
    have hevrest : ∀ r1 ∈ rest, ∀ c w0, (r1.eventHandler cl c w0).2.1.Event = c.Event :=
      fun r1 h1 => hev r1 (List.mem_cons_of_mem _ h1)
    by_cases hd : r.kind.differs ev = true
    · have hskip := eventHandler_of_differs cl r s.ctx s.world (by rw [he]; exact hd)
      have hk : keptFor ev (r :: rest) = keptFor ev rest := by
        simp [keptFor, List.filter_cons, hd]
      rw [hk]
      simp only [List.map_cons, runHandlers, hskip]
      exact ih _ _ _ _ hevrest hc hw he
    · have hk : keptFor ev (r :: rest) = r :: keptFor ev rest := by
        simp [keptFor, List.filter_cons, hd]
      rw [hk]
      simp only [List.map_cons, runHandlers]
      rw [← hc, ← hw]
      have hevr2 := hevr s.ctx s.world
      rcases hr : r.eventHandler cl s.ctx s.world with ⟨o, c1, w1⟩
      rw [hr] at hevr2
      simp only at hevr2
      rcases o with ⟨next, _ | e⟩ | _
      · cases next
        · simp
        · simp only
          exact ih _ _ _ _ hevrest rfl rfl (by rw [hevr2, he])
      · simp only
        exact ⟨trivial, callErrHandlers_core e errs 0 0 _ _ rfl rfl⟩
      · simp

theorem errHandlerCalls_runHandlers (errs : List (ErrorHandler W)) :
    ∀ (hs : List (EventHandler W)) (idx : Nat) (s : St W),
      errHandlerCalls (runHandlers errs hs idx s).2.trace
        = errHandlerCalls s.trace
          ++ (match (runHandlers errs hs idx s).1 with
              | ChainEnd.failed e => (List.range errs.length).map (fun k => (k, e))
              | _ => []) := by
  intro hs
  induction hs with
  | nil => intro idx s; simp [runHandlers]
  | cons h rest ih =>
    intro idx s
    simp only [runHandlers]
    split
    · simp [errHandlerCalls]
    · rw [errHandlerCalls_callErrHandlers]
      simp [errHandlerCalls, List.range_eq_range']
    · simp [errHandlerCalls]
    · rw [ih]
      simp [errHandlerCalls]

/-- The flush in terms of the result of `reply`: one reply entry, then the
error handlers on an error; the context and the world after it depend only
on the context and the world before it. -/
theorem flush_core (b : Bot W) (event : Event) (s : St W) :
    errHandlerCalls (flush b event s).trace
        = errHandlerCalls s.trace
          ++ (match (MessageBank.reply b.Client s.ctx.Messages event.ReplyToken s.world).1 with
              | some e => (List.range b.errHandlers.length).map (fun k => (k, e))
              | none => [])
    ∧ replyCalls (flush b event s).trace
        = replyCalls s.trace
          ++ [(event.ReplyToken, s.ctx.Messages.messages,
                (MessageBank.reply b.Client s.ctx.Messages event.ReplyToken s.world).1)]
    ∧ ∀ s2 : St W, s.ctx = s2.ctx → s.world = s2.world →
        (flush b event s).ctx = (flush b event s2).ctx
        ∧ (flush b event s).world = (flush b event s2).world := by
  refine ⟨?_, ?_, ?_⟩
  · unfold flush
    split
    · rename_i e w1 heq
      rw [errHandlerCalls_callErrHandlers, heq]
      simp [errHandlerCalls, List.range_eq_range']
    · rename_i w1 heq
      rw [heq]
      simp [errHandlerCalls]
  · unfold flush
    split
    · rename_i e w1 heq
      rw [replyCalls_callErrHandlers, heq]
      simp [replyCalls]
    · rename_i w1 heq
      rw [heq]
      simp [replyCalls]
  · intro s2 hc hw
    unfold flush
    rw [← hc, ← hw]
    rcases MessageBank.reply b.Client s.ctx.Messages event.ReplyToken s.world with ⟨_ | e, w1⟩
    · exact ⟨rfl, rfl⟩
    · exact callErrHandlers_core e b.errHandlers 0 0 _ _ rfl rfl

/-- Two bots with the same client and the same error handlers, whose handler
loops for an event end the same way with the same context and world, dispatch
the event to the same end, context and world, with the same calls of error
handlers and the same call of `reply`. -/
theorem dispatch_congr (b1 b2 : Bot W) (event : Event) (w : W)
    (hcl : b1.Client = b2.Client) (herrs : b1.errHandlers = b2.errHandlers)
    (hend : (handlerLoop b1 event w).1 = (handlerLoop b2 event w).1)
    (hctx : (handlerLoop b1 event w).2.ctx = (handlerLoop b2 event w).2.ctx)
    (hworld : (handlerLoop b1 event w).2.world = (handlerLoop b2 event w).2.world) :
    (dispatch b1 event w []).1 = (dispatch b2 event w []).1
    ∧ (dispatch b1 event w []).2.ctx = (dispatch b2 event w []).2.ctx
    ∧ (dispatch b1 event w []).2.world = (dispatch b2 event w []).2.world
    ∧ errHandlerCalls (eventTrace b1 event w) = errHandlerCalls (eventTrace b2 event w)
    ∧ replyCalls (eventTrace b1 event w) = replyCalls (eventTrace b2 event w) := by
  have e1 := errHandlerCalls_runHandlers b1.errHandlers b1.bound 0
    { ctx := NewContext event, world := w, trace := [] }
  have e2 := errHandlerCalls_runHandlers b2.errHandlers b2.bound 0
    { ctx := NewContext event, world := w, trace := [] }
  have r1 := replyCalls_runHandlers b1.errHandlers b1.bound 0
    { ctx := NewContext event, world := w, trace := [] }
  have r2 := replyCalls_runHandlers b2.errHandlers b2.bound 0
    { ctx := NewContext event, world := w, trace := [] }
  change errHandlerCalls (handlerLoop b1 event w).2.trace = _ at e1
  change errHandlerCalls (handlerLoop b2 event w).2.trace = _ at e2
  change replyCalls (handlerLoop b1 event w).2.trace = _ at r1
  change replyCalls (handlerLoop b2 event w).2.trace = _ at r2
  change _ = errHandlerCalls [] ++ (match (handlerLoop b1 event w).1 with
    | ChainEnd.failed e => (List.range b1.errHandlers.length).map (fun k => (k, e))
    | _ => []) at e1
  change _ = errHandlerCalls [] ++ (match (handlerLoop b2 event w).1 with
    | ChainEnd.failed e => (List.range b2.errHandlers.length).map (fun k => (k, e))
    | _ => []) at e2
  rw [← hend, ← herrs] at e2
  have hee : errHandlerCalls (handlerLoop b1 event w).2.trace
      = errHandlerCalls (handlerLoop b2 event w).2.trace := by rw [e1, e2]
  have hrr : replyCalls (handlerLoop b1 event w).2.trace
      = replyCalls (handlerLoop b2 event w).2.trace := by rw [r1, r2]
  unfold eventTrace
  rw [dispatch_eq_handlerLoop b1, dispatch_eq_handlerLoop b2, ← hend]
  rcases hE : (handlerLoop b1 event w).1 with _ | _ | e | _
  all_goals simp only
  case panicked =>
    refine ⟨trivial, hctx, hworld, ?_, ?_⟩
    · simp only [St.after, errHandlerCalls_append, hee]
    · simp only [St.after, replyCalls_append, hrr]
  all_goals
    obtain ⟨f1, f2, f3⟩ := flush_core b1 event
      (St.after ([] ++ [Call.newContext (NewContext event)]) (handlerLoop b1 event w).2)
    obtain ⟨g1, g2, g3⟩ := flush_core b2 event
      (St.after ([] ++ [Call.newContext (NewContext event)]) (handlerLoop b2 event w).2)
    have hflush : ∀ s : St W, flush b1 event s = flush b2 event s := by
      intro s
      unfold flush
      rw [hcl, herrs]
    have hreply : MessageBank.reply b1.Client (handlerLoop b1 event w).2.ctx.Messages
          event.ReplyToken (handlerLoop b1 event w).2.world
        = MessageBank.reply b2.Client (handlerLoop b2 event w).2.ctx.Messages
          event.ReplyToken (handlerLoop b2 event w).2.world := by
      rw [hcl, hctx, hworld]
    have hcore := f3 (St.after ([] ++ [Call.newContext (NewContext event)])
      (handlerLoop b2 event w).2) hctx hworld
    refine ⟨trivial, ?_, ?_, ?_, ?_⟩
    · rw [hcore.1, hflush]
    · rw [hcore.2, hflush]
    · rw [f1, g1]
      simp only [St.after, errHandlerCalls_append, hee, hcl, herrs, hctx, hworld]
    · rw [f2, g2]
      simp only [St.after, replyCalls_append, hrr, hcl, hctx, hworld]

/-- An event fits at most one registration kind, provided a beacon event
carries its beacon. -/
theorem Kind.eq_of_not_differs (k1 k2 : Kind) (ev : Event)
    (h1 : k1.differs ev = false) (h2 : k2.differs ev = false)
    (hb : ev.Type_ = EventTypeBeacon → ev.Beacon ≠ none) : k1 = k2 := by
  rcases hm : ev.Message.map Message.kind with _ | mk <;> rcases hbc : ev.Beacon with _ | bc
  all_goals simp only [Kind.differs, hm, hbc] at h1 h2
  · have hnb : ev.Type_ ≠ EventTypeBeacon := fun h => hb h hbc
    cases k1 <;> cases k2 <;> first
      | rfl
      | (exfalso
         simp_all [Kind.differs, Kind.eventType, Kind.messageKind, Kind.beaconType,
           EventTypeMessage, EventTypeFollow, EventTypeUnfollow, EventTypeJoin, EventTypeLeave,
           EventTypePostback, EventTypeBeacon])
  · cases k1 <;> cases k2 <;> first
      | rfl
      | (exfalso
         simp_all [Kind.differs, Kind.eventType, Kind.messageKind, Kind.beaconType,
           EventTypeMessage, EventTypeFollow, EventTypeUnfollow, EventTypeJoin, EventTypeLeave,
           EventTypePostback, EventTypeBeacon, BeaconEventTypeEnter, BeaconEventTypeLeave])
  · have hnb : ev.Type_ ≠ EventTypeBeacon := fun h => hb h hbc
    cases k1 <;> cases k2 <;> first
      | rfl
      | (exfalso
         simp_all [Kind.differs, Kind.eventType, Kind.messageKind, Kind.beaconType,
           EventTypeMessage, EventTypeFollow, EventTypeUnfollow, EventTypeJoin, EventTypeLeave,
           EventTypePostback, EventTypeBeacon])
  · cases k1 <;> cases k2 <;> first
      | rfl
      | (exfalso
         simp_all [Kind.differs, Kind.eventType, Kind.messageKind, Kind.beaconType,
           EventTypeMessage, EventTypeFollow, EventTypeUnfollow, EventTypeJoin, EventTypeLeave,
           EventTypePostback, EventTypeBeacon, BeaconEventTypeEnter, BeaconEventTypeLeave])

theorem keptFor_length_le_one (ev : Event) (regs : List (Registration W))
    (hnd : (regs.map Registration.kind).Nodup)
    (hb : ev.Type_ = EventTypeBeacon → ev.Beacon ≠ none) :
    (keptFor ev regs).length ≤ 1 := by
  have hsub : ((keptFor ev regs).map Registration.kind).Nodup :=
    hnd.sublist (List.Sublist.map _ (List.filter_sublist _))
  have hall : ∀ r ∈ keptFor ev regs, r.kind.differs ev = false := by
    intro r hr
    simpa [keptFor] using (List.mem_filter.1 hr).2
  rcases hk : keptFor ev regs with _ | ⟨a, _ | ⟨c, rest⟩⟩
  · simp
  · simp
  · exfalso
    rw [hk] at hsub hall
    have hac : a.kind = c.kind :=
      Kind.eq_of_not_differs _ _ ev (hall a (by simp)) (hall c (by simp)) hb
    simp [hac] at hsub

/-- C5, the claim as worded fails for a chain whose handler changes the event
of the context: with a text handler that sets the type of the event to
`follow` and goes on, followed by a follow handler that stops, the dispatch of
a text event calls both handlers and ends stopped, while the dispatch through
the chain without the follow registration, whose kind differs from that of
the event, calls the text handler only and ends exhausted. -/
theorem kind_filtered_chain_differs_when_event_rewritten :
    (keptFor RewritingChain.textEvent RewritingChain.registrations).map Registration.kind
        = [Kind.text]
    ∧ handlerCalls (eventTrace (chainBot RewritingChain.client [] RewritingChain.registrations)
          RewritingChain.textEvent ())
        = [(0, Outcome.ret true none), (1, Outcome.ret false none)]
    ∧ handlerCalls (eventTrace
          (chainBot RewritingChain.client []
            (keptFor RewritingChain.textEvent RewritingChain.registrations))
          RewritingChain.textEvent ())
        = [(0, Outcome.ret true none)]
    ∧ (dispatch (chainBot RewritingChain.client [] RewritingChain.registrations)
          RewritingChain.textEvent () []).1 = ChainEnd.stopped
    ∧ (dispatch (chainBot RewritingChain.client []
            (keptFor RewritingChain.textEvent RewritingChain.registrations))
          RewritingChain.textEvent () []).1 = ChainEnd.exhausted
    ∧ (dispatch (chainBot RewritingChain.client [] RewritingChain.registrations)
          RewritingChain.textEvent () []).2.ctx.Data = [("followed", Value.int 1)]
    ∧ (dispatch (chainBot RewritingChain.client []
            (keptFor RewritingChain.textEvent RewritingChain.registrations))
          RewritingChain.textEvent () []).2.ctx.Data = [] := by
  decide

/-- C5, amended. For a chain built from typed registrations whose handlers
leave the event of the context in place, the dispatch of an event through the
chain ends the same way, with the same context and the same world (so with
the same calls of the user handlers, which act on nothing else), the same
calls of error handlers and the same call of `reply`, as the dispatch through
the chain without the registrations whose kind or sub-kind differs from that
of the event.  With at most one registration per kind, at most one
registration is left for an event (a beacon event being one that carries its
beacon), and when exactly one is left its event handler is called exactly
once, on the fresh context.  The event handler of a registration, on a context
whose event is of its kind, is the call of its user handler with the payload:
the text of a text message; the bytes fetched and read for an image, video or
audio message, when both succeed; the location or sticker message; nothing for
follow and unfollow; the source type and the room or group id for a join from
a room or group; the group id for a leave from a group; the data of a
postback; the hardware id of a beacon of the sub-kind.  On the batch of the
test, the counter `tested` ends at 11. -/
theorem kind_filtered_chain_refines (cl : Client W) (errs : List (ErrorHandler W))
    (regs : List (Registration W)) (ev : Event) (w : W)
    (hev : ∀ r ∈ regs, ∀ c w0, (r.eventHandler cl c w0).2.1.Event = c.Event) :
    ((dispatch (chainBot cl errs regs) ev w []).1
        = (dispatch (chainBot cl errs (keptFor ev regs)) ev w []).1
      ∧ (dispatch (chainBot cl errs regs) ev w []).2.ctx
        = (dispatch (chainBot cl errs (keptFor ev regs)) ev w []).2.ctx
      ∧ (dispatch (chainBot cl errs regs) ev w []).2.world
        = (dispatch (chainBot cl errs (keptFor ev regs)) ev w []).2.world
      ∧ errHandlerCalls (eventTrace (chainBot cl errs regs) ev w)
        = errHandlerCalls (eventTrace (chainBot cl errs (keptFor ev regs)) ev w)
      ∧ replyCalls (eventTrace (chainBot cl errs regs) ev w)
        = replyCalls (eventTrace (chainBot cl errs (keptFor ev regs)) ev w))
    ∧ ((regs.map Registration.kind).Nodup →
        (ev.Type_ = EventTypeBeacon → ev.Beacon ≠ none) → (keptFor ev regs).length ≤ 1)
    ∧ (∀ r, keptFor ev regs = [r] →
        handlerCalls (eventTrace (chainBot cl errs (keptFor ev regs)) ev w)
          = [(0, (r.eventHandler cl (NewContext ev) w).1)])
    ∧ (∀ (context : BotContext) (w0 : W),
        (∀ h id text, context.Event.Type_ = EventTypeMessage →
          context.Event.Message = some (Message.Text id text) →
          (Registration.OnText h).eventHandler cl context w0 = h context text w0)
        ∧ (∀ h id url preview resp w1 data w2, context.Event.Type_ = EventTypeMessage →
          context.Event.Message = some (Message.Image id url preview) →
          cl.GetMessageContent id w0 = (Except.ok resp, w1) →
          cl.ReadAll resp.Content w1 = (Except.ok data, w2) →
          (Registration.OnImage h).eventHandler cl context w0
            = ((h context data w2).1, (h context data w2).2.1,
                cl.Close resp.Content (h context data w2).2.2))
        ∧ (∀ h id url preview resp w1 data w2, context.Event.Type_ = EventTypeMessage →
          context.Event.Message = some (Message.Video id url preview) →
          cl.GetMessageContent id w0 = (Except.ok resp, w1) →
          cl.ReadAll resp.Content w1 = (Except.ok data, w2) →
          (Registration.OnVideo h).eventHandler cl context w0
            = ((h context data w2).1, (h context data w2).2.1,
                cl.Close resp.Content (h context data w2).2.2))
        ∧ (∀ h id url duration resp w1 data w2, context.Event.Type_ = EventTypeMessage →
          context.Event.Message = some (Message.Audio id url duration) →
          cl.GetMessageContent id w0 = (Except.ok resp, w1) →
          cl.ReadAll resp.Content w1 = (Except.ok data, w2) →
          (Registration.OnAudio h).eventHandler cl context w0
            = ((h context data w2).1, (h context data w2).2.1,
                cl.Close resp.Content (h context data w2).2.2))
        ∧ (∀ h msg, context.Event.Type_ = EventTypeMessage →
          context.Event.Message = some (Message.Location msg) →
          (Registration.OnLocation h).eventHandler cl context w0 = h context msg w0)
        ∧ (∀ h msg, context.Event.Type_ = EventTypeMessage →
          context.Event.Message = some (Message.Sticker msg) →
          (Registration.OnSticker h).eventHandler cl context w0 = h context msg w0)
        ∧ (∀ h, context.Event.Type_ = EventTypeFollow →
          (Registration.OnFollow h).eventHandler cl context w0 = h context w0)
        ∧ (∀ h, context.Event.Type_ = EventTypeUnfollow →
          (Registration.OnUnFollow h).eventHandler cl context w0 = h context w0)
        ∧ (∀ h source, context.Event.Type_ = EventTypeJoin →
          context.Event.Source = some source → source.Type_ = EventSourceTypeRoom →
          (Registration.OnJoin h).eventHandler cl context w0
            = h context EventSourceTypeRoom source.RoomID w0)
        ∧ (∀ h source, context.Event.Type_ = EventTypeJoin →
          context.Event.Source = some source → source.Type_ = EventSourceTypeGroup →
          (Registration.OnJoin h).eventHandler cl context w0
            = h context EventSourceTypeGroup source.GroupID w0)
        ∧ (∀ h source, context.Event.Type_ = EventTypeLeave →
          context.Event.Source = some source → source.Type_ = EventSourceTypeGroup →
          (Registration.OnLeave h).eventHandler cl context w0 = h context source.GroupID w0)
        ∧ (∀ h postback, context.Event.Type_ = EventTypePostback →
          context.Event.Postback = some postback →
          (Registration.OnPostback h).eventHandler cl context w0 = h context postback.Data w0)
        ∧ (∀ h beacon, context.Event.Type_ = EventTypeBeacon →
          context.Event.Beacon = some beacon → beacon.Type_ = BeaconEventTypeEnter →
          (Registration.OnBeaconEnter h).eventHandler cl context w0 = h context beacon.Hwid w0)
        ∧ (∀ h beacon, context.Event.Type_ = EventTypeBeacon →
          context.Event.Beacon = some beacon → beacon.Type_ = BeaconEventTypeLeave →
          (Registration.OnBeaconLeave h).eventHandler cl context w0
            = h context beacon.Hwid w0))
    ∧ ((ServeHTTP TestServer.bot TestServer.validRequest TestServer.world0).world.tested = 11
      ∧ (ServeHTTP TestServer.bot TestServer.validRequest TestServer.world0).world.failedAsserts
          = 0
      ∧ (ServeHTTP TestServer.bot TestServer.validRequest TestServer.world0).status
          = some 200) := by
  obtain ⟨a1, a2, a3⟩ := chainBot_handlers cl errs regs
  obtain ⟨b1, b2, b3⟩ := chainBot_handlers cl errs (keptFor ev regs)
  have hrun := runHandlers_keptFor cl errs ev regs 0 0
    { ctx := NewContext ev, world := w, trace := [] }
    { ctx := NewContext ev, world := w, trace := [] } hev rfl rfl rfl
  refine ⟨?_, keptFor_length_le_one ev regs, ?_, ?_, by decide, by decide, by decide⟩
  · apply dispatch_congr
    · rw [a2, b2]
    · rw [a3, b3]
    · unfold handlerLoop; rw [a1, a3, b1, b3]; exact hrun.1
    · unfold handlerLoop; rw [a1, a3, b1, b3]; exact hrun.2.1
    · unfold handlerLoop; rw [a1, a3, b1, b3]; exact hrun.2.2
  · intro r hr
    unfold eventTrace
    rw [handlerCalls_dispatch, b1, b3, hr]
    simp only [List.map_cons, List.map_nil, runHandlers]
    rcases r.eventHandler cl (NewContext ev) w with ⟨o, c1, w1⟩
    rcases o with ⟨next, _ | e⟩ | _
    · cases next <;> simp [runHandlers, handlerCalls]
    · simp only
      rw [handlerCalls_callErrHandlers]
      simp [handlerCalls]
    · simp [handlerCalls]
  · intro context w0
    refine ⟨?_, ?_, ?_, ?_, ?_, ?_, ?_, ?_, ?_, ?_, ?_, ?_, ?_, ?_⟩
    · intro h id text h1 h2
      simp [Registration.eventHandler, OnText.eventHandler, h1, h2]
    · intro h id url preview resp w1 data w2 h1 h2 h3 h4
      simp [Registration.eventHandler, OnImage.eventHandler, fetchAndHandle, h1, h2, h3, h4]
    · intro h id url preview resp w1 data w2 h1 h2 h3 h4
      simp [Registration.eventHandler, OnVideo.eventHandler, fetchAndHandle, h1, h2, h3, h4]
    · intro h id url duration resp w1 data w2 h1 h2 h3 h4
      simp [Registration.eventHandler, OnAudio.eventHandler, fetchAndHandle, h1, h2, h3, h4]
    · intro h msg h1 h2
      simp [Registration.eventHandler, OnLocation.eventHandler, h1, h2]
    · intro h msg h1 h2
      simp [Registration.eventHandler, OnSticker.eventHandler, h1, h2]
    · intro h h1
      simp [Registration.eventHandler, OnFollow.eventHandler, h1]
    · intro h h1
      simp [Registration.eventHandler, OnUnFollow.eventHandler, h1]
    · intro h source h1 h2 h3
      simp [Registration.eventHandler, OnJoin.eventHandler, h1, h2, h3]
    · intro h source h1 h2 h3
      simp [Registration.eventHandler, OnJoin.eventHandler, h1, h2, h3, EventSourceTypeGroup,
        EventSourceTypeRoom]
    · intro h source h1 h2 h3
      simp [Registration.eventHandler, OnLeave.eventHandler, h1, h2, h3]
    · intro h postback h1 h2
      simp [Registration.eventHandler, OnPostback.eventHandler, h1, h2]
    · intro h beacon h1 h2 h3
      simp [Registration.eventHandler, OnBeaconEnter.eventHandler, h1, h2, h3]
    · intro h beacon h1 h2 h3
      simp [Registration.eventHandler, OnBeaconLeave.eventHandler, h1, h2, h3]

theorem GetUser_event (cl : Client W) (c : BotContext) (w : W) :
    (c.GetUser cl w).2.1.Event = c.Event := by
  unfold BotContext.GetUser
  split
  · rfl
  · split
    · rfl
    · simp only
      split
      · rfl
      · split <;> rfl

theorem GetUser_keeps_event (cl : Client W) (c : BotContext) (w : W)
    (r : Option (Except Error UserProfile)) (c1 : BotContext) (w1 : W)
    (h : c.GetUser cl w = (r, c1, w1)) : c1.Event = c.Event := by
  have h1 := GetUser_event cl c w
  rw [h] at h1
  exact h1

theorem TestServer.registrations_keep_event :
    ∀ r ∈ TestServer.registrations, ∀ (c : BotContext) (w0 : TestServer.World),
      (r.eventHandler TestServer.mockClient c w0).2.1.Event = c.Event := by
  intro r hr c w0
  simp only [TestServer.registrations, List.mem_cons, List.mem_singleton, List.mem_nil_iff,
    or_false] at hr
  rcases hr with rfl | rfl | rfl | rfl | rfl | rfl | rfl | rfl | rfl | rfl | rfl | rfl | rfl | rfl
  all_goals
    simp only [Registration.eventHandler, OnText.eventHandler, OnImage.eventHandler,
      OnVideo.eventHandler, OnAudio.eventHandler, OnLocation.eventHandler,
      OnSticker.eventHandler, OnFollow.eventHandler, OnUnFollow.eventHandler,
      OnJoin.eventHandler, OnLeave.eventHandler, OnBeaconEnter.eventHandler,
      OnBeaconLeave.eventHandler, fetchAndHandle, TestServer.text1, TestServer.text2,
      TestServer.text3, TestServer.binary, TestServer.location, TestServer.sticker,
      TestServer.follow, TestServer.unfollow, TestServer.join, TestServer.leave,
      TestServer.beacon, TestServer.addText, BotContext.Set,
      MessageBank.AddTextMessage, MessageBank.AddMessage]
    repeat' split
    all_goals first | rfl | (apply GetUser_keeps_event; assumption)

/-- Witness of C5: the bot of the test is the chain of its registrations, its
handlers leave the event in place, and the text event from a group goes
through the three text registrations only. -/
theorem kind_filtered_chain_refines_witness :
    TestServer.bot
        = chainBot TestServer.mockClient [TestServer.onError] TestServer.registrations
    ∧ (∀ r ∈ TestServer.registrations, ∀ (c : BotContext) (w0 : TestServer.World),
        (r.eventHandler TestServer.mockClient c w0).2.1.Event = c.Event)
    ∧ (dispatch (chainBot TestServer.mockClient [TestServer.onError] TestServer.registrations)
          TestServer.groupTextEvent TestServer.world0 []).2.world
        = (dispatch (chainBot TestServer.mockClient [TestServer.onError]
            (keptFor TestServer.groupTextEvent TestServer.registrations))
          TestServer.groupTextEvent TestServer.world0 []).2.world :=
  ⟨rfl, TestServer.registrations_keep_event,
    (kind_filtered_chain_refines TestServer.mockClient [TestServer.onError]
      TestServer.registrations TestServer.groupTextEvent TestServer.world0
      TestServer.registrations_keep_event).1.2.2.1⟩

theorem flush_after (b : Bot W) (event : Event) (t0 : List Call) (s : St W) :
    flush b event (St.after t0 s) = St.after t0 (flush b event s) := by
  unfold flush
  have hc : (St.after t0 s).ctx = s.ctx := rfl
  have hw : (St.after t0 s).world = s.world := rfl
  have ht : (St.after t0 s).trace = t0 ++ s.trace := rfl
  rw [hc, hw, ht]
  rcases MessageBank.reply b.Client s.ctx.Messages event.ReplyToken s.world with ⟨_ | e, w1⟩
  · simp [St.after]
  · simp only
    rw [← callErrHandlers_after]
    simp [St.after]

theorem St.after_after (t0 t1 : List Call) (s : St W) :
    St.after t0 (St.after t1 s) = St.after (t0 ++ t1) s := by
  simp [St.after]

theorem St.after_nil (s : St W) : St.after [] s = s := by
  simp [St.after]

/-- A dispatch only appends to the trace it is given. -/
theorem dispatch_after (b : Bot W) (event : Event) (w : W) (t0 : List Call) :
    dispatch b event w t0
      = ((dispatch b event w []).1, St.after t0 (dispatch b event w []).2) := by
  rw [dispatch_eq_handlerLoop b event w t0, dispatch_eq_handlerLoop b event w []]
  rcases (handlerLoop b event w).1 with _ | _ | e | _
  all_goals simp only [List.nil_append]
  all_goals first
    | rw [← flush_after, St.after_after]
    | rw [St.after_after]

/-- The loop over the events threads the world and the trace and nothing
else: without a panic, its trace is the given one followed by the traces of
the events dispatched each on its own, and its world is the world after
these dispatches. -/
theorem serveEvents_eq_batch (b : Bot W) :
    ∀ (events : List Event) (w : W) (t0 : List Call),
      (serveEvents b events w t0).1 = false →
      (serveEvents b events w t0).2.2 = t0 ++ batchTrace b events w
      ∧ (serveEvents b events w t0).2.1 = batchWorld b events w := by
  intro events
  induction events with
  | nil => intro w t0 _; simp [serveEvents, batchTrace, batchWorld]
  | cons ev rest ih =>
    intro w t0 hnp
    simp only [serveEvents] at hnp ⊢
    rw [dispatch_after b ev w t0] at hnp ⊢
    rcases hd : (dispatch b ev w []).1 with _ | _ | e | _
    all_goals rw [hd] at hnp
    all_goals simp only at hnp ⊢
    case panicked => simp at hnp
    all_goals
      obtain ⟨h1, h2⟩ := ih _ _ hnp
      rw [h1, h2]
      simp [batchTrace, batchWorld, St.after, eventTrace]

/-- Handlers whose outcome and effect on the context do not depend on the
world are called in the same order, on the same contexts, with the same
outcomes, whatever the world is. -/
theorem handlerEntries_runHandlers_world (errs : List (ErrorHandler W)) :
    ∀ (hs : List (EventHandler W)) (idx : Nat) (s s2 : St W),
      (∀ h ∈ hs, ∀ c w1 w2, (h c w1).1 = (h c w2).1 ∧ (h c w1).2.1 = (h c w2).2.1) →
      s.ctx = s2.ctx → handlerEntries s.trace = handlerEntries s2.trace →
      handlerEntries (runHandlers errs hs idx s).2.trace
        = handlerEntries (runHandlers errs hs idx s2).2.trace := by
  have herr : ∀ (e : Error) (j : Nat) (s : St W),
      handlerEntries (callErrHandlers e errs j s).trace = handlerEntries s.trace := by
    intro e j s
    obtain ⟨tail, ht, hlen, hk, -⟩ := callErrHandlers_trace e errs j s
    rw [ht]
    simp only [handlerEntries, List.filterMap_append]
    have : tail.filterMap (fun c => match c with
        | Call.handler idx ctx out => some (idx, ctx, out)
        | _ => none) = [] := by
      rw [List.filterMap_eq_nil_iff]
      intro c hc
      obtain ⟨k, hk1, hk2⟩ := List.getElem_of_mem hc
      obtain ⟨c2, hc2⟩ := hk k (by omega)
      rw [List.getElem?_eq_getElem hk1, hk2] at hc2
      simp only [Option.some.injEq] at hc2
      rw [hc2]
    rw [this]
    simp
  intro hs
  induction hs with
  | nil => intro idx s s2 _ _ ht; simpa [runHandlers] using ht
  | cons h rest ih =>
    intro idx s s2 hblind hc ht
    have hb := hblind h (List.mem_cons_self _ _) s.ctx s.world s2.world
    have hrest : ∀ h1 ∈ rest, ∀ c w1 w2,
        (h1 c w1).1 = (h1 c w2).1 ∧ (h1 c w1).2.1 = (h1 c w2).2.1 :=
      fun h1 hm => hblind h1 (List.mem_cons_of_mem _ hm)
    simp only [runHandlers]
    rw [← hc]
    rcases hr1 : h s.ctx s.world with ⟨o1, c1, w1⟩
    rcases hr2 : h s.ctx s2.world with ⟨o2, c2, w2⟩
    rw [hr1, hr2] at hb
    simp only at hb
    obtain ⟨rfl, rfl⟩ := hb
    rcases o1 with ⟨next, _ | e⟩ | _
    · cases next
      · simp [handlerEntries, List.filterMap_append] at ht ⊢
        exact ht
      · simp only
        refine ih _ _ _ hrest rfl ?_
        simp [handlerEntries, List.filterMap_append] at ht ⊢
        exact ht
    · simp only
      rw [herr, herr]
      simp [handlerEntries, List.filterMap_append] at ht ⊢
      exact ht
    · simp [handlerEntries, List.filterMap_append] at ht ⊢
      exact ht

theorem handlerCalls_eq_map (tr : List Call) :
    handlerCalls tr = (handlerEntries tr).map (fun p => (p.1, p.2.2)) := by
  induction tr with
  | nil => rfl
  | cons c rest ih =>
    cases c <;> simp [handlerCalls, handlerEntries, List.filterMap_cons] at ih ⊢ <;> exact ih

theorem handlerEntries_append (t1 t2 : List Call) :
    handlerEntries (t1 ++ t2) = handlerEntries t1 ++ handlerEntries t2 := by
  simp [handlerEntries, List.filterMap_append]

theorem handlerEntries_flush (b : Bot W) (event : Event) (s : St W) :
    handlerEntries (flush b event s).trace = handlerEntries s.trace := by
  obtain ⟨res, tail, h1, -, h2, -⟩ := flush_trace b event s
  rw [handlerCalls_eq_map] at h2
  have h3 : handlerEntries tail = [] := by simpa using h2
  rw [h1, handlerEntries_append]
  have h4 : handlerEntries (Call.reply event.ReplyToken s.ctx.Messages.messages res :: tail)
      = handlerEntries tail := rfl
  rw [h4, h3]
  simp

/-- The handler entries of the dispatch of an event are those of its handler
loop. -/
theorem handlerEntries_eventTrace (b : Bot W) (event : Event) (w : W) :
    handlerEntries (eventTrace b event w) = handlerEntries (handlerLoop b event w).2.trace := by
  unfold eventTrace
  rw [dispatch_eq_handlerLoop]
  rcases (handlerLoop b event w).1 with _ | _ | e | _
  all_goals simp only [List.nil_append]
  all_goals first
    | (rw [handlerEntries_flush]; simp [St.after, handlerEntries_append, handlerEntries])
    | simp [St.after, handlerEntries_append, handlerEntries]

/-- The trace of the handler loop starts with the call of the first handler on
the context and in the world the loop starts from. -/
theorem runHandlers_trace_head (errs : List (ErrorHandler W)) (h : EventHandler W)
    (rest : List (EventHandler W)) (idx : Nat) (s : St W) :
    ∃ ext, (runHandlers errs (h :: rest) idx s).2.trace
      = s.trace ++ Call.handler idx s.ctx (h s.ctx s.world).1 :: ext := by
  simp only [runHandlers]
  rcases h s.ctx s.world with ⟨o, c1, w1⟩
  rcases o with ⟨next, _ | e⟩ | _
  · cases next
    · exact ⟨[], by simp⟩
    · simp only
      have hafter := runHandlers_after errs
        (s.trace ++ [Call.handler idx s.ctx (Outcome.ret true none)]) rest (idx + 1)
        { ctx := c1, world := w1, trace := [] }
      simp only [St.after, List.append_nil] at hafter
      rw [hafter]
      exact ⟨(runHandlers errs rest (idx + 1) { ctx := c1, world := w1, trace := [] }).2.trace,
        by simp⟩
  · simp only
    obtain ⟨tail, ht, -⟩ := callErrHandlers_trace e errs 0
      { ctx := c1, world := w1,
        trace := s.trace ++ [Call.handler idx s.ctx (Outcome.ret next (some e))] }
    rw [ht]
    exact ⟨tail, by simp⟩
  · exact ⟨[], by simp⟩

/-- C6. In a batch in which no handler panics, the trace of `ServeHTTP` over
the events is the concatenation of the traces of the events dispatched each on
its own, from the empty trace, in the world the event before it left: nothing
but the world passes from one event to the next, however the chain of the
earlier event ended.  Each dispatch starts by creating the fresh context of
its event (no parameter, no data, no message, no profile) and, when there is a
handler, goes on with the call of the first handler on that context.  When
the handlers do not look at the world, the handlers called for an event, the
contexts they are given and their outcomes are the same in every world, hence
the same whatever happened to the events before it. -/
theorem batch_events_dispatched_independently (b : Bot W) (events : List Event) (w : W)
    (hnp : (serveEvents b events w []).1 = false) :
    (serveEvents b events w []).2.2 = batchTrace b events w
    ∧ (serveEvents b events w []).2.1 = batchWorld b events w
    ∧ (∀ ev wk, ∃ rest,
        eventTrace b ev wk = Call.newContext (NewContext ev) :: rest
        ∧ NewContext ev
            = { Event := ev, Params := [], Data := [], Messages := { messages := [] },
                userProfile := none }
        ∧ (∀ h hs, b.bound = h :: hs →
            ∃ rest2, rest = Call.handler 0 (NewContext ev) (h (NewContext ev) wk).1 :: rest2))
    ∧ ((∀ h ∈ b.bound, ∀ c w1 w2, (h c w1).1 = (h c w2).1 ∧ (h c w1).2.1 = (h c w2).2.1) →
        ∀ ev w1 w2, handlerEntries (eventTrace b ev w1) = handlerEntries (eventTrace b ev w2)) := by
  obtain ⟨h1, h2⟩ := serveEvents_eq_batch b events w [] hnp
  refine ⟨by simpa using h1, h2, ?_, ?_⟩
  · intro ev wk
    have hstart : ∃ ext, (handlerLoop b ev wk).2.trace = ext
        ∧ ∀ h hs, b.bound = h :: hs →
          ∃ rest2, ext = Call.handler 0 (NewContext ev) (h (NewContext ev) wk).1 :: rest2 := by
      refine ⟨_, rfl, ?_⟩
      intro h hs hb
      unfold handlerLoop
      rw [hb]
      obtain ⟨ext, hx⟩ := runHandlers_trace_head b.errHandlers h hs 0
        { ctx := NewContext ev, world := wk, trace := [] }
      exact ⟨ext, by simpa using hx⟩
    obtain ⟨ext, hext, hhead⟩ := hstart
    unfold eventTrace
    rw [dispatch_eq_handlerLoop]
    rcases (handlerLoop b ev wk).1 with _ | _ | e | _
    case panicked =>
      refine ⟨ext, by simp [St.after, hext], rfl, hhead⟩
    all_goals
      simp only [List.nil_append]
      obtain ⟨res, tail, ht, -⟩ := flush_trace b ev
        (St.after [Call.newContext (NewContext ev)] (handlerLoop b ev wk).2)
      rw [ht]
      refine ⟨ext ++ Call.reply ev.ReplyToken
        (St.after [Call.newContext (NewContext ev)] (handlerLoop b ev wk).2).ctx.Messages.messages
        res :: tail, by simp [St.after, hext], rfl, ?_⟩
      intro h hs hb
      obtain ⟨rest2, hr⟩ := hhead h hs hb
      exact ⟨rest2 ++ Call.reply ev.ReplyToken
        (St.after [Call.newContext (NewContext ev)] (handlerLoop b ev wk).2).ctx.Messages.messages
        res :: tail, by rw [hr]; simp⟩
  · intro hblind ev w1 w2
    rw [handlerEntries_eventTrace, handlerEntries_eventTrace]
    unfold handlerLoop
    exact handlerEntries_runHandlers_world b.errHandlers b.bound 0 _ _ hblind rfl rfl

/-- Witness of C6: the batch of the test, in which no handler panics. -/
theorem batch_events_dispatched_independently_witness :
    (serveEvents TestServer.bot TestServer.events TestServer.world0 []).1 = false
    ∧ (serveEvents TestServer.bot TestServer.events TestServer.world0 []).2.2
        = batchTrace TestServer.bot TestServer.events TestServer.world0 :=
  ⟨by decide,
    (batch_events_dispatched_independently TestServer.bot TestServer.events TestServer.world0
      (by decide)).1⟩

/-- Witness of C2 on the bot of the test: its third text handler returns
`(true, "Error on purpose")` on the text event from a group. -/
theorem handler_error_reaches_every_error_handler_witness :
    Call.handler 2 TestServer.contextBeforeText3
        (Outcome.ret true (some (Error.other "Error on purpose")))
      ∈ (handlerLoop TestServer.bot TestServer.groupTextEvent TestServer.world0).2.trace
    ∧ (handlerLoop TestServer.bot TestServer.groupTextEvent TestServer.world0).1
        = ChainEnd.failed (Error.other "Error on purpose")
    ∧ errHandlerCalls
        (handlerLoop TestServer.bot TestServer.groupTextEvent TestServer.world0).2.trace
        = [(0, Error.other "Error on purpose")] :=
  ⟨by decide,
    (handler_error_reaches_every_error_handler TestServer.bot TestServer.groupTextEvent
      TestServer.world0 2 TestServer.contextBeforeText3 true (Error.other "Error on purpose")
      (by decide)).1,
    (handler_error_reaches_every_error_handler TestServer.bot TestServer.groupTextEvent
      TestServer.world0 2 TestServer.contextBeforeText3 true (Error.other "Error on purpose")
      (by decide)).2.1⟩

/-- Witness of C3 on the bot of the test: on the text event from a group the
third handler fails after three messages were added, and the one call of
`reply` still carries the three of them. -/
theorem dispatch_flushes_bank_once_witness :
    (handlerLoop TestServer.bot TestServer.groupTextEvent TestServer.world0).1
        ≠ ChainEnd.panicked
    ∧ replyCalls (eventTrace TestServer.bot TestServer.groupTextEvent TestServer.world0)
        = [(TestServer.replyToken,
            [Message.Text "" "test1", Message.Text "" "Hello, world", Message.Text "" "test1"],
            none)] := by
  refine ⟨by decide, ?_⟩
  obtain ⟨res, tail, -, h2, h3, -⟩ :=
    dispatch_flushes_bank_once TestServer.bot TestServer.groupTextEvent TestServer.world0
      (by decide)
  rw [h2, h3]
  decide

theorem QuoteMeta_append (a b : List Char) :
    QuoteMeta (a ++ b) = QuoteMeta a ++ QuoteMeta b := by
  induction a with
  | nil => rfl
  | cons c cs ih =>
    simp only [List.cons_append, QuoteMeta]
    split <;> simp [ih]

/-- A prefix of `u ++ b` is a prefix of `u`, or it starts with all of `u` and
goes on with a prefix of `b`. -/
theorem prefix_append_cases (a u b : List Char) (h : a <+: u ++ b) :
    a <+: u ∨ (u.length < a.length ∧ u = a.take u.length ∧ a.drop u.length <+: b) := by
  by_cases hlen : a.length ≤ u.length
  · left
    exact List.prefix_of_prefix_length_le h (List.prefix_append u b) hlen
  · right
    have hu : u <+: a :=
      List.prefix_of_prefix_length_le (List.prefix_append u b) h (by omega)
    obtain ⟨a2, rfl⟩ := hu
    refine ⟨by simp only [List.length_append] at hlen ⊢; omega, by simp, ?_⟩
    simpa using h

theorem templRegMatchAt_quotedName (rest : List Char) :
    templRegMatchAt (quotedNamePlaceholder ++ rest)
      = some (quotedNamePlaceholder, "name".toList) := by
  simp [templRegMatchAt, quotedNamePlaceholder, templOpen, templClose, List.isPrefixOf,
    isWordChar, List.takeWhile, List.dropWhile]

/-- The run of word characters in front of the quoted placeholder: when the
closing `\}\}` follows the run in `r ++ quotedNamePlaceholder`, the run and
the closing text lie within `r`. -/
theorem wordRun_append_quotedName (r : List Char)
    (h : templClose <+: (r ++ quotedNamePlaceholder).dropWhile isWordChar) :
    (r ++ quotedNamePlaceholder).takeWhile isWordChar = r.takeWhile isWordChar
    ∧ templClose <+: r.dropWhile isWordChar := by
  induction r with
  | nil =>
    exfalso
    revert h
    rw [← List.isPrefixOf_iff_prefix]
    decide
  | cons c r ih =>
    by_cases hc : isWordChar c = true
    · simp only [List.cons_append, List.takeWhile_cons, List.dropWhile_cons, hc, if_true] at h ⊢
      obtain ⟨h1, h2⟩ := ih h
      exact ⟨by rw [h1], h2⟩
    · simp only [List.cons_append, List.takeWhile_cons, List.dropWhile_cons, hc] at h ⊢
      refine ⟨by simp, ?_⟩
      have h' : templClose <+: (c :: r) ++ quotedNamePlaceholder := by simpa using h
      rcases prefix_append_cases _ _ _ h' with hp | ⟨hlt, htake, hdrop⟩
      · simpa using hp
      · exfalso
        have hl : r.length = 0 ∨ r.length = 1 ∨ r.length = 2 := by
          simp [templClose] at hlt
          omega
        rcases hl with hl | hl | hl
        all_goals
          simp only [List.length_cons, hl] at hdrop
          revert hdrop
          rw [← List.isPrefixOf_iff_prefix]
          decide

theorem templRegMatchAt_ne_none (s : List Char) :
    templRegMatchAt s ≠ none ↔
      templOpen.isPrefixOf s = true
      ∧ ((s.drop 4).takeWhile isWordChar ≠ []
        ∧ templClose.isPrefixOf ((s.drop 4).dropWhile isWordChar) = true) := by
  unfold templRegMatchAt
  by_cases h1 : templOpen.isPrefixOf s = true
  · by_cases h2 : (s.drop 4).takeWhile isWordChar ≠ []
        ∧ templClose.isPrefixOf ((s.drop 4).dropWhile isWordChar) = true
    · simp only [h1, h2, if_true]
      simp
    · simp only [h1, if_true, h2, if_false]
      simp
  · simp only [h1, if_false]
    simp

/-- Appending the quoted placeholder to a non-empty text creates no match of
`templReg` at the start of that text. -/
theorem templRegMatchAt_append_quotedName (u : List Char) (hu : u ≠ [])
    (h : templRegMatchAt u = none) :
    templRegMatchAt (u ++ quotedNamePlaceholder) = none := by
  by_contra hcon
  obtain ⟨h1, h2⟩ := (templRegMatchAt_ne_none _).1 hcon
  rw [List.isPrefixOf_iff_prefix] at h1
  rcases prefix_append_cases _ _ _ h1 with hp | ⟨hlt, htake, hdrop⟩
  · obtain ⟨r, rfl⟩ := hp
    have hd : (templOpen ++ r ++ quotedNamePlaceholder).drop 4 = r ++ quotedNamePlaceholder := by
      simp [templOpen]
    rw [hd] at h2
    obtain ⟨h21, h22⟩ := h2
    rw [List.isPrefixOf_iff_prefix] at h22
    obtain ⟨k1, k2⟩ := wordRun_append_quotedName r h22
    rw [k1] at h21
    have : templRegMatchAt (templOpen ++ r) ≠ none := by
      rw [templRegMatchAt_ne_none]
      have hd2 : (templOpen ++ r).drop 4 = r := by simp [templOpen]
      have hpre : templOpen.isPrefixOf (templOpen ++ r) = true := by
        rw [List.isPrefixOf_iff_prefix]; exact List.prefix_append _ _
      rw [hd2]
      rw [← List.isPrefixOf_iff_prefix] at k2
      exact ⟨hpre, h21, k2⟩
    exact this h
  · have hl : u.length = 1 ∨ u.length = 2 ∨ u.length = 3 := by
      have : u.length ≠ 0 := by simpa using hu
      simp [templOpen] at hlt
      omega
    rcases hl with hl | hl | hl
    · rw [hl] at hdrop
      revert hdrop
      rw [← List.isPrefixOf_iff_prefix]
      decide
    · rw [hl] at htake
      subst htake
      revert h2
      decide
    · rw [hl] at hdrop
      revert hdrop
      rw [← List.isPrefixOf_iff_prefix]
      decide

/-- From a text without a match of `templReg`: no match starts at its first
character, and its tail has no match either. -/
theorem templRegFindAll_nil_cons (c : Char) (cs : List Char)
    (h : templRegFindAll 0 (c :: cs) = []) :
    templRegMatchAt (c :: cs) = none ∧ templRegFindAll 0 cs = [] := by
  simp only [templRegFindAll] at h
  split at h
  · simp at h
  · rename_i hm
    exact ⟨hm, h⟩

/-- The scan for placeholders in a text without placeholder, followed by the
quoted `{{name}}`, finds that one placeholder. -/
theorem templRegFindAll_append_quotedName (q : List Char) (h : templRegFindAll 0 q = []) :
    templRegFindAll 0 (q ++ quotedNamePlaceholder)
      = [(quotedNamePlaceholder, "name".toList)] := by
  induction q with
  | nil => decide
  | cons c cs ih =>
    obtain ⟨h1, h2⟩ := templRegFindAll_nil_cons c cs h
    have h3 := templRegMatchAt_append_quotedName (c :: cs) (by simp) h1
    simp only [List.cons_append] at h3 ⊢
    simp only [templRegFindAll, h3]
    exact ih h2

/-- The quoted `{{name}}` does not overlap itself, and where it starts a text
`templReg` matches. -/
theorem quotedName_prefix_append (u : List Char) (hu : u ≠ [])
    (h : quotedNamePlaceholder <+: u ++ quotedNamePlaceholder) :
    templRegMatchAt u ≠ none := by
  rcases prefix_append_cases _ _ _ h with hp | ⟨hlt, -, hdrop⟩
  · obtain ⟨r, rfl⟩ := hp
    rw [templRegMatchAt_quotedName]
    simp
  · exfalso
    have hall : ∀ d, d < 12 → 0 < d →
        (quotedNamePlaceholder.drop d).isPrefixOf quotedNamePlaceholder = false := by
      decide
    have hpos : 0 < u.length := List.length_pos.2 hu
    have hlt2 : u.length < 12 := by
      have : quotedNamePlaceholder.length = 12 := by decide
      omega
    have := hall u.length hlt2 hpos
    rw [← List.isPrefixOf_iff_prefix, this] at hdrop
    exact Bool.noConfusion hdrop

/-- Replacing the quoted `{{name}}` in a text without placeholder, followed by
the quoted `{{name}}`, replaces that one occurrence. -/
theorem replaceScan_append_quotedName (q : List Char) (h : templRegFindAll 0 q = []) :
    replaceScan quotedNamePlaceholder groupText 0 (q ++ quotedNamePlaceholder)
      = q ++ groupText := by
  induction q with
  | nil => decide
  | cons c cs ih =>
    obtain ⟨h1, h2⟩ := templRegFindAll_nil_cons c cs h
    have hnot : quotedNamePlaceholder.isPrefixOf (c :: (cs ++ quotedNamePlaceholder)) = false := by
      rw [Bool.eq_false_iff]
      intro hpre
      rw [List.isPrefixOf_iff_prefix] at hpre
      exact quotedName_prefix_append (c :: cs) (by simp) (by simpa using hpre) h1
    have hstep : replaceScan quotedNamePlaceholder groupText 0
          (c :: (cs ++ quotedNamePlaceholder))
        = c :: replaceScan quotedNamePlaceholder groupText 0 (cs ++ quotedNamePlaceholder) := by
      rw [replaceScan, hnot]
      rfl
    rw [List.cons_append, hstep, ih h2]
    rfl

theorem parseItems_escaped (d : Char) (rest : List Char) (hd : isSpecial d = true) :
    parseItems ('\\' :: d :: rest)
      = (parseItems rest).map (fun items => Item.lit d :: items) := by
  simp only [parseItems, parseScan, if_true, List.head?_cons, hd]

theorem parseItems_plain (c : Char) (rest : List Char) (hc : isSpecial c = false) :
    parseItems (c :: rest) = (parseItems rest).map (fun items => Item.lit c :: items) := by
  have h1 : c ≠ '\\' := by
    intro h; rw [h] at hc; exact absurd hc (by decide)
  have h2 : c ≠ '(' := by
    intro h; rw [h] at hc; exact absurd hc (by decide)
  simp only [parseItems, parseScan, if_neg h1, if_neg h2, hc]
  rfl

/-- The quoted text of a literal, followed by the group, parses to the
literal characters followed by the group. -/
theorem parseItems_quoteMeta_group (p : List Char) :
    parseItems (QuoteMeta p ++ groupText) = some (p.map Item.lit ++ [Item.group]) := by
  induction p with
  | nil => decide
  | cons c cs ih =>
    by_cases hc : isSpecial c = true
    · rw [QuoteMeta, if_pos hc, List.cons_append, List.cons_append,
        parseItems_escaped c _ hc, ih]
      rfl
    · have hc2 : isSpecial c = false := by simpa using hc
      rw [QuoteMeta, if_neg hc, List.cons_append, parseItems_plain c _ hc2, ih]
      rfl

/-- A run without line feed is all taken by `.+`. -/
theorem dotRun_eq_length (v : List Char) (h : '\n' ∉ v) : dotRun v = v.length := by
  unfold dotRun
  rw [List.takeWhile_eq_self_iff.2]
  intro c hc
  simp only [ne_eq, decide_eq_true_eq]
  intro hcn
  exact h (hcn ▸ hc)

/-- The literal `p` followed by a group matches `p ++ v` from its start, and
the group takes all of `v`. -/
theorem matchHere_literal_group (p v : List Char) (hv : v ≠ []) (hnl : '\n' ∉ v) :
    matchHere (p.map Item.lit ++ [Item.group]) (p ++ v) = some ([v], []) := by
  induction p with
  | nil =>
    obtain ⟨n, hn⟩ : ∃ n, v.length = n + 1 :=
      ⟨v.length - 1, by have := List.length_pos.2 hv; omega⟩
    simp only [List.map_nil, List.nil_append, matchHere, dotRun_eq_length v hnl, hn, tryLengths]
    rw [← hn]
    simp
  | cons c cs ih =>
    simp only [List.map_cons, List.cons_append, matchHere, if_true]
    exact ih

/-- What `OnTextWith` builds from a literal without placeholder followed by
`{{name}}`: the quoted literal followed by one group, and the one name. -/
theorem build_literal_name (p : String) (hp : templRegFindAll 0 (QuoteMeta p.toList) = []) :
    OnTextWith.build (p ++ namePlaceholder) = (QuoteMeta p.toList ++ groupText, ["name"]) := by
  have hq : QuoteMeta (p ++ namePlaceholder).toList
      = QuoteMeta p.toList ++ quotedNamePlaceholder := by
    have : (p ++ namePlaceholder).toList = p.toList ++ namePlaceholder.toList := by
      simp [String.toList]
    rw [this, QuoteMeta_append]
    congr 1
  have hne : quotedNamePlaceholder ≠ [] := by decide
  simp only [OnTextWith.build, hq, templRegFindAll_append_quotedName _ hp,
    OnTextWith.substitute, stringsReplace, if_neg hne, replaceScan_append_quotedName _ hp]
  rfl

/-- The filter built from a compiled literal-and-group on the text `p ++ v`. -/
theorem filter_literal_name (p v : String) (context : BotContext) (w : W)
    (hv : v ≠ "") (hnl : '\n' ∉ v.toList) :
    OnTextWith.filter (some { items := p.toList.map Item.lit ++ [Item.group] }) ["name"]
        context (p ++ v) w
      = (some true, { context with Params := [("name", v)] }, w) := by
  have hvl : v.toList ≠ [] := by
    intro h
    apply hv
    cases v
    simp only [String.toList] at h
    subst h
    rfl
  have htext : (p ++ v).toList = p.toList ++ v.toList := by simp [String.toList]
  have hm := matchHere_literal_group p.toList v.toList hvl hnl
  have hfind : findFrom (p.toList.map Item.lit ++ [Item.group]) (p.toList ++ v.toList)
      = some [p.toList ++ v.toList, v.toList] := by
    rcases hpv : p.toList ++ v.toList with _ | ⟨t, ts⟩
    · simp at hpv
      exact absurd hpv.2 hvl
    · rw [hpv] at hm
      rw [findFrom, hm]
      simp
  have hstr : ∀ s : String, String.mk s.toList = s := fun s => rfl
  simp only [OnTextWith.filter, Regexp.MatchString, Regexp.FindStringSubmatch, htext, hfind,
    Option.isSome_some, Bool.not_true, List.map_cons, List.map_nil]
  simp only [OnTextWith.fill, GoMap.make, GoMap.set]
  simp [hstr, ← htext]

/-- C9. For a literal `p` in which the scan of `OnTextWith` finds no
placeholder (it may hold any special character) and a non-empty `v` without
line feed, the filter built from the template `p ++ "{{name}}"` accepts the
text `p ++ v`, replaces the parameters of the context by the one entry
`name ↦ v` and touches nothing else, and the event handler of `OnTextWith`
then is the handler called on that context with the text.  The two examples
of the test: `Hello, {{name}}` on `Hello, Julian`, and the template with two
placeholders on `Hello, Julian. Can you give me apple?`. -/
theorem onTextWith_extracts_named_capture (p v id : String) (handler : TextMessageHandler W)
    (context : BotContext) (w : W)
    (hp : templRegFindAll 0 (QuoteMeta p.toList) = [])
    (hv : v ≠ "") (hnl : '\n' ∉ v.toList)
    (htype : context.Event.Type_ = EventTypeMessage)
    (hmsg : context.Event.Message = some (Message.Text id (p ++ v))) :
    OnTextWith.matcher (p ++ namePlaceholder) context (p ++ v) w
        = (some true, { context with Params := [("name", v)] }, w)
    ∧ OnTextWith.eventHandler (p ++ namePlaceholder) handler context w
        = handler { context with Params := [("name", v)] } (p ++ v) w
    ∧ (OnTextWith.matcher "Hello, \x7b\x7bname\x7d\x7d"
          (TestServer.textContext "Hello, Julian") "Hello, Julian" ()
        = (some true,
            { TestServer.textContext "Hello, Julian" with Params := [("name", "Julian")] }, ()))
    ∧ (OnTextWith.matcher
          "Hello, \x7b\x7bname\x7d\x7d. Can you give me \x7b\x7bthing\x7d\x7d?"
          (TestServer.textContext "Hello, Julian. Can you give me apple?")
          "Hello, Julian. Can you give me apple?" ()
        = (some true,
            { TestServer.textContext "Hello, Julian. Can you give me apple?" with
                Params := [("name", "Julian"), ("thing", "apple")] }, ())) := by
  have hb := build_literal_name p hp
  have hc : Compile (QuoteMeta p.toList ++ groupText)
      = some { items := p.toList.map Item.lit ++ [Item.group] } := by
    simp [Compile, parseItems_quoteMeta_group]
  have hf : OnTextWith.matcher (p ++ namePlaceholder) context (p ++ v) w
      = (some true, { context with Params := [("name", v)] }, w) := by
    unfold OnTextWith.matcher
    rw [hb]
    simp only
    rw [hc]
    exact filter_literal_name p v context w hv hnl
  refine ⟨hf, ?_, by decide, by decide⟩
  unfold OnTextWith.eventHandler OnFilteredText.eventHandler
  unfold OnTextWith.matcher at hf
  simp only [htype, hmsg, ne_eq, not_true_eq_false, if_false, hf]

/-- Witness of C9: a literal with special characters. -/
theorem onTextWith_extracts_named_capture_witness :
    templRegFindAll 0 (QuoteMeta "Hi. (you*)? ".toList) = []
    ∧ OnTextWith.matcher ("Hi. (you*)? " ++ namePlaceholder)
          (TestServer.textContext ("Hi. (you*)? " ++ "Julian")) ("Hi. (you*)? " ++ "Julian") ()
        = (some true,
            { TestServer.textContext ("Hi. (you*)? " ++ "Julian") with
                Params := [("name", "Julian")] }, ()) :=
  ⟨by decide,
    (onTextWith_extracts_named_capture "Hi. (you*)? " "Julian" "325708"
      (fun c _ u => (Outcome.ret true none, c, u))
      (TestServer.textContext ("Hi. (you*)? " ++ "Julian")) ()
      (by decide) (by decide) (by decide) rfl rfl).1⟩

/-! ### `Compile` never fails on what `OnTextWith` builds -/

theorem quoteMeta_eq_piecesText (t : List Char) :
    QuoteMeta t = piecesText (t.map quotePiece)
    ∧ ∀ piece ∈ t.map quotePiece, piece.ok = true := by
  induction t with
  | nil => exact ⟨rfl, by simp⟩
  | cons c cs ih =>
    obtain ⟨h1, h2⟩ := ih
    by_cases hc : isSpecial c = true
    · refine ⟨by simp [QuoteMeta, hc, quotePiece, piecesText, Piece.text, h1], ?_⟩
      intro piece hp
      rcases List.mem_cons.1 hp with rfl | hp
      · simp [quotePiece, hc, Piece.ok]
      · exact h2 piece hp
    · refine ⟨by simp [QuoteMeta, hc, quotePiece, piecesText, Piece.text, h1], ?_⟩
      intro piece hp
      rcases List.mem_cons.1 hp with rfl | hp
      · simp [quotePiece, hc, Piece.ok]
      · exact h2 piece hp

theorem parseItems_piecesText (pieces : List Piece) (hok : ∀ piece ∈ pieces, piece.ok = true) :
    parseItems (piecesText pieces) = some (pieces.map Piece.item) := by
  induction pieces with
  | nil => rfl
  | cons piece rest ih =>
    have hrest := ih (fun q hq => hok q (List.mem_cons_of_mem _ hq))
    have hp := hok piece (List.mem_cons_self _ _)
    cases piece with
    | plain c =>
      have hc : isSpecial c = false := by simpa [Piece.ok] using hp
      simp only [piecesText, Piece.text, List.singleton_append, List.map_cons, Piece.item]
      rw [parseItems_plain c _ hc, hrest]
      rfl
    | escaped c =>
      have hc : isSpecial c = true := by simpa [Piece.ok] using hp
      simp only [piecesText, Piece.text, List.cons_append, List.nil_append, List.map_cons,
        Piece.item]
      rw [parseItems_escaped c _ hc, hrest]
      rfl
    | group =>
      simp only [piecesText, Piece.text, List.map_cons, Piece.item]
      have : parseItems (groupText ++ piecesText rest)
          = (parseItems (piecesText rest)).map (fun items => Item.group :: items) := by
        simp [parseItems, parseScan, groupText]
      rw [this, hrest]
      rfl

theorem piece_of_backslash (piece : Piece) (hok : piece.ok = true) (r x : List Char) (d : Char)
    (h : piece.text ++ r = '\\' :: d :: x) : piece = Piece.escaped d ∧ x = r := by
  cases piece with
  | plain c =>
    simp only [Piece.text, List.singleton_append, List.cons.injEq] at h
    simp only [Piece.ok, h.1] at hok
    exact absurd hok (by decide)
  | escaped c =>
    simp only [Piece.text, List.cons_append, List.nil_append, List.cons.injEq, true_and] at h
    exact ⟨by rw [h.1], h.2.symm⟩
  | group =>
    simp only [Piece.text, groupText, List.cons_append, List.cons.injEq] at h
    exact absurd h.1 (by decide)

theorem piece_of_wordChar (piece : Piece) (hok : piece.ok = true) (r x : List Char) (c : Char)
    (hc : isWordChar c = true) (h : piece.text ++ r = c :: x) :
    piece = Piece.plain c ∧ x = r := by
  cases piece with
  | plain c1 =>
    simp only [Piece.text, List.singleton_append, List.cons.injEq] at h
    exact ⟨by rw [h.1], h.2.symm⟩
  | escaped c1 =>
    simp only [Piece.text, List.cons_append, List.cons.injEq] at h
    rw [← h.1] at hc
    exact absurd hc (by decide)
  | group =>
    simp only [Piece.text, groupText, List.cons_append, List.cons.injEq] at h
    rw [← h.1] at hc
    exact absurd hc (by decide)

/-- Pieces whose text starts with a run of word characters start with one
plain piece for each of them. -/
theorem pieces_of_wordRun (name : List Char) (hname : ∀ c ∈ name, isWordChar c = true) :
    ∀ (pieces : List Piece) (z : List Char), (∀ piece ∈ pieces, piece.ok = true) →
      piecesText pieces = name ++ z →
      ∃ rest : List Piece, piecesText rest = z ∧ (∀ piece ∈ rest, piece.ok = true)
        ∧ rest.length + name.length = pieces.length := by
  induction name with
  | nil => intro pieces z hok h; exact ⟨pieces, by simpa using h, hok, by simp⟩
  | cons c cs ih =>
    intro pieces z hok h
    cases pieces with
    | nil => simp [piecesText] at h
    | cons piece rest =>
      simp only [piecesText, List.cons_append] at h
      obtain ⟨-, hx⟩ := piece_of_wordChar piece (hok piece (List.mem_cons_self _ _)) _ _ c
        (hname c (List.mem_cons_self _ _)) h
      obtain ⟨rest2, h1, h2, h3⟩ := ih (fun d hd => hname d (List.mem_cons_of_mem _ hd)) rest z
        (fun q hq => hok q (List.mem_cons_of_mem _ hq)) hx.symm
      exact ⟨rest2, h1, h2, by simp only [List.length_cons]; omega⟩

/-- Pieces whose text starts with two escaped characters `\c\c` start with
the two escaped pieces. -/
theorem pieces_of_two_escaped (c : Char) (pieces : List Piece) (z : List Char)
    (hok : ∀ piece ∈ pieces, piece.ok = true)
    (h : piecesText pieces = '\\' :: c :: '\\' :: c :: z) :
    ∃ rest : List Piece, piecesText rest = z ∧ (∀ piece ∈ rest, piece.ok = true)
      ∧ rest.length + 2 = pieces.length := by
  cases pieces with
  | nil => simp [piecesText] at h
  | cons p1 r1 =>
    simp only [piecesText] at h
    obtain ⟨-, hx⟩ := piece_of_backslash p1 (hok p1 (List.mem_cons_self _ _)) _ _ _ h
    cases r1 with
    | nil => simp [piecesText] at hx
    | cons p2 r2 =>
      simp only [piecesText] at hx
      obtain ⟨-, hy⟩ := piece_of_backslash p2
        (hok p2 (List.mem_cons_of_mem _ (List.mem_cons_self _ _))) _ _ _ hx.symm
      exact ⟨r2, hy.symm,
        fun q hq => hok q (List.mem_cons_of_mem _ (List.mem_cons_of_mem _ hq)), by simp⟩

/-- An occurrence of a quoted placeholder at the start of the text of pieces
covers whole pieces. -/
theorem pieces_of_placeholder (m : List Char) (hm : IsQuotedPlaceholder m)
    (pieces : List Piece) (hok : ∀ piece ∈ pieces, piece.ok = true)
    (h : m <+: piecesText pieces) :
    ∃ rest : List Piece, piecesText pieces = m ++ piecesText rest
      ∧ (∀ piece ∈ rest, piece.ok = true) ∧ rest.length < pieces.length := by
  obtain ⟨name, -, hword, rfl⟩ := hm
  obtain ⟨y, hy⟩ := h
  have h1 : piecesText pieces
      = '\\' :: '\x7b' :: '\\' :: '\x7b' :: (name ++ (templClose ++ y)) := by
    rw [← hy]; simp [templOpen]
  obtain ⟨r1, t1, ok1, l1⟩ := pieces_of_two_escaped _ pieces _ hok h1
  obtain ⟨r2, t2, ok2, l2⟩ := pieces_of_wordRun name hword r1 _ ok1 t1
  have h2 : piecesText r2 = '\\' :: '\x7d' :: '\\' :: '\x7d' :: y := by
    rw [t2]; simp [templClose]
  obtain ⟨r3, t3, ok3, l3⟩ := pieces_of_two_escaped _ r2 _ ok2 h2
  exact ⟨r3, by rw [← hy, t3], ok3, by omega⟩

theorem replaceScan_skip (old new : List Char) :
    ∀ (xs ys : List Char), replaceScan old new xs.length (xs ++ ys) = replaceScan old new 0 ys := by
  intro xs
  induction xs with
  | nil => intro ys; rfl
  | cons x xs ih =>
    intro ys
    simp only [List.length_cons, List.cons_append, replaceScan]
    exact ih ys

theorem replaceScan_no_backslash (old new : List Char) (c : Char) (rest : List Char)
    (hold : ∃ tl, old = '\\' :: tl) (hc : c ≠ '\\') :
    replaceScan old new 0 (c :: rest) = c :: replaceScan old new 0 rest := by
  obtain ⟨tl, rfl⟩ := hold
  have : ('\\' :: tl).isPrefixOf (c :: rest) = false := by
    simp only [List.isPrefixOf, Bool.and_eq_false_imp, beq_iff_eq]
    intro h
    exact absurd h.symm hc
  rw [replaceScan, this]
  rfl

theorem piecesText_no_brace (pieces : List Piece) (hok : ∀ piece ∈ pieces, piece.ok = true)
    (x : List Char) : piecesText pieces ≠ '\x7b' :: x := by
  intro h
  cases pieces with
  | nil => simp [piecesText] at h
  | cons piece rest =>
    have hp := hok piece (List.mem_cons_self _ _)
    cases piece with
    | plain c =>
      simp only [piecesText, Piece.text, List.singleton_append, List.cons.injEq] at h
      simp only [Piece.ok, h.1] at hp
      exact absurd hp (by decide)
    | escaped c =>
      simp only [piecesText, Piece.text, List.cons_append, List.cons.injEq] at h
      exact absurd h.1 (by decide)
    | group =>
      simp only [piecesText, Piece.text, groupText, List.cons_append, List.cons.injEq] at h
      exact absurd h.1 (by decide)

/-- Replacing a quoted placeholder by the group in the text of pieces gives the
text of pieces again. -/
theorem replaceScan_pieces (m : List Char) (hm : IsQuotedPlaceholder m) :
    ∀ (n : Nat) (pieces : List Piece), pieces.length ≤ n →
      (∀ piece ∈ pieces, piece.ok = true) →
      ∃ out : List Piece, (∀ piece ∈ out, piece.ok = true)
        ∧ replaceScan m groupText 0 (piecesText pieces) = piecesText out := by
  have hshape : ∃ tl, m = '\\' :: '\x7b' :: tl := by
    obtain ⟨name, -, -, rfl⟩ := hm
    exact ⟨'\\' :: '\x7b' :: (name ++ templClose), by simp [templOpen]⟩
  obtain ⟨tl, htl⟩ := hshape
  have hback : ∃ tl2, m = '\\' :: tl2 := ⟨_, htl⟩
  intro n
  induction n with
  | zero =>
    intro pieces hlen _
    have : pieces = [] := List.length_eq_zero.1 (by omega)
    subst this
    exact ⟨[], by simp, rfl⟩
  | succ n ih =>
    intro pieces hlen hok
    cases pieces with
    | nil => exact ⟨[], by simp, rfl⟩
    | cons piece rest =>
      have hokrest : ∀ q ∈ rest, q.ok = true := fun q hq => hok q (List.mem_cons_of_mem _ hq)
      have hlenrest : rest.length ≤ n := by simp only [List.length_cons] at hlen; omega
      by_cases hpre : m.isPrefixOf (piecesText (piece :: rest)) = true
      · obtain ⟨rest2, ht, hok2, hl2⟩ :=
          pieces_of_placeholder m hm (piece :: rest) hok (List.isPrefixOf_iff_prefix.1 hpre)
        obtain ⟨out, hout, hrep⟩ := ih rest2 (by omega) hok2
        refine ⟨Piece.group :: out, ?_, ?_⟩
        · intro q hq
          rcases List.mem_cons.1 hq with rfl | hq
          · rfl
          · exact hout q hq
        · have hpre2 : m.isPrefixOf (m ++ piecesText rest2) = true :=
            List.isPrefixOf_iff_prefix.2 (List.prefix_append _ _)
          rw [ht]
          have hlen2 : ('\x7b' :: tl).length = m.length - 1 := by rw [htl]; simp
          have hstep : replaceScan m groupText 0 (m ++ piecesText rest2)
              = groupText ++ replaceScan m groupText (m.length - 1)
                  (('\x7b' :: tl) ++ piecesText rest2) := by
            have hm2 : m ++ piecesText rest2
                = '\\' :: (('\x7b' :: tl) ++ piecesText rest2) := by rw [htl]; rfl
            rw [hm2, replaceScan, ← hm2, hpre2]
            rfl
          rw [hstep, ← hlen2, replaceScan_skip, hrep]
          rfl
      · have hpre3 : m.isPrefixOf (piecesText (piece :: rest)) = false :=
          Bool.eq_false_iff.2 hpre
        obtain ⟨out, hout, hrep⟩ := ih rest hlenrest hokrest
        have hp := hok piece (List.mem_cons_self _ _)
        refine ⟨piece :: out, ?_, ?_⟩
        · intro q hq
          rcases List.mem_cons.1 hq with rfl | hq
          · exact hp
          · exact hout q hq
        · cases piece with
          | plain c =>
            have hc : c ≠ '\\' := by
              intro h
              simp only [Piece.ok, h] at hp
              exact absurd hp (by decide)
            simp only [piecesText, Piece.text, List.singleton_append]
            rw [replaceScan_no_backslash m groupText c _ hback hc, hrep]
          | escaped c =>
            simp only [piecesText, Piece.text, List.cons_append, List.nil_append] at hpre3 ⊢
            have hstep : replaceScan m groupText 0 ('\\' :: c :: piecesText rest)
                = '\\' :: replaceScan m groupText 0 (c :: piecesText rest) := by
              rw [replaceScan, hpre3]
              rfl
            have hstep2 : replaceScan m groupText 0 (c :: piecesText rest)
                = c :: replaceScan m groupText 0 (piecesText rest) := by
              by_cases hc : c = '\\'
              · have hno : m.isPrefixOf (c :: piecesText rest) = false := by
                  rw [Bool.eq_false_iff]
                  intro hcon
                  rw [List.isPrefixOf_iff_prefix, htl] at hcon
                  obtain ⟨y, hy⟩ := hcon
                  simp only [List.cons_append, List.cons.injEq] at hy
                  exact piecesText_no_brace rest hokrest _ hy.2.symm
                rw [replaceScan, hno]
                rfl
              · exact replaceScan_no_backslash m groupText c _ hback hc
            rw [hstep, hstep2, hrep]
          | group =>
            have h4 : piecesText (Piece.group :: rest)
                = '(' :: '.' :: '+' :: ')' :: piecesText rest := rfl
            have h5 : piecesText (Piece.group :: out)
                = '(' :: '.' :: '+' :: ')' :: piecesText out := rfl
            rw [h4, h5,
              replaceScan_no_backslash m groupText '(' _ hback (by decide),
              replaceScan_no_backslash m groupText '.' _ hback (by decide),
              replaceScan_no_backslash m groupText '+' _ hback (by decide),
              replaceScan_no_backslash m groupText ')' _ hback (by decide), hrep]

theorem templRegMatchAt_placeholder (s : List Char) (m : List Char × List Char)
    (h : templRegMatchAt s = some m) : IsQuotedPlaceholder m.1 := by
  have hne : templRegMatchAt s ≠ none := by rw [h]; simp
  obtain ⟨h1, h2, h3⟩ := (templRegMatchAt_ne_none s).1 hne
  unfold templRegMatchAt at h
  simp only [h1, h2, h3, and_self, if_true, ne_eq, not_false_eq_true, Option.some.injEq] at h
  rw [← h]
  exact ⟨_, h2, fun c hc => List.mem_takeWhile_imp hc, rfl⟩

theorem templRegFindAll_placeholders :
    ∀ (s : List Char) (k : Nat), ∀ m ∈ templRegFindAll k s, IsQuotedPlaceholder m.1 := by
  intro s
  induction s with
  | nil => intro k m hm; simp [templRegFindAll] at hm
  | cons c cs ih =>
    intro k m hm
    cases k with
    | zero =>
      simp only [templRegFindAll] at hm
      split at hm
      · rename_i m0 hm0
        rcases List.mem_cons.1 hm with rfl | hm
        · exact templRegMatchAt_placeholder _ _ hm0
        · exact ih _ m hm
      · exact ih _ m hm
    | succ k =>
      simp only [templRegFindAll] at hm
      exact ih _ m hm

/-- The loop of `OnTextWith` over the matches keeps the template a text of
pieces, and appends one name for every match. -/
theorem substitute_pieces :
    ∀ (found : List (List Char × List Char)), (∀ m ∈ found, IsQuotedPlaceholder m.1) →
      ∀ (pieces : List Piece) (names : List String), (∀ piece ∈ pieces, piece.ok = true) →
        ∃ out : List Piece, (∀ piece ∈ out, piece.ok = true)
          ∧ (OnTextWith.substitute found (piecesText pieces, names)).1 = piecesText out
          ∧ (OnTextWith.substitute found (piecesText pieces, names)).2
              = names ++ found.map (fun m => String.mk m.2) := by
  intro found
  induction found with
  | nil => intro _ pieces names hok; exact ⟨pieces, hok, rfl, by simp [OnTextWith.substitute]⟩
  | cons m rest ih =>
    intro hfound pieces names hok
    have hm := hfound m (List.mem_cons_self _ _)
    have hne : m.1 ≠ [] := by
      obtain ⟨name, -, -, h⟩ := hm
      rw [h]
      simp [templOpen]
    obtain ⟨mid, hmid, hrep⟩ := replaceScan_pieces m.1 hm pieces.length pieces (le_refl _) hok
    obtain ⟨out, hout, h1, h2⟩ :=
      ih (fun q hq => hfound q (List.mem_cons_of_mem _ hq)) mid
        (names ++ [String.mk m.2]) hmid
    refine ⟨out, hout, ?_, ?_⟩
    · simp only [OnTextWith.substitute, stringsReplace, if_neg hne, hrep]
      exact h1
    · simp only [OnTextWith.substitute, stringsReplace, if_neg hne, hrep]
      rw [h2]
      simp

/-- Whatever the template is, the expression that `OnTextWith` builds from it
compiles: the nil expression does not occur. -/
theorem compile_build_some (template : String) :
    ∃ re, Compile (OnTextWith.build template).1 = some re := by
  obtain ⟨hq, hok⟩ := quoteMeta_eq_piecesText template.toList
  obtain ⟨out, hout, h1, -⟩ := substitute_pieces
    (templRegFindAll 0 (QuoteMeta template.toList))
    (templRegFindAll_placeholders _ 0) (template.toList.map quotePiece) [] hok
  refine ⟨{ items := out.map Piece.item }, ?_⟩
  simp only [OnTextWith.build, Compile]
  rw [hq] at h1 ⊢
  rw [h1, parseItems_piecesText out hout]
  rfl

/-- C10. For every template and every text message event whose text the
compiled expression of the template does not match, the event handler of
`OnTextWith` returns `(true, nil)` and hands back the context (its parameters
and data included) and the world as it got them, whatever the handler is: the
handler is not called.  The test's case: the two-placeholder template on
`Test another. No one will handle this`. -/
theorem onTextWith_skips_unmatched_text (template id text : String)
    (handler : TextMessageHandler W) (context : BotContext) (w : W)
    (htype : context.Event.Type_ = EventTypeMessage)
    (hmsg : context.Event.Message = some (Message.Text id text))
    (hno : ∀ re, Compile (OnTextWith.build template).1 = some re → re.MatchString text = false) :
    OnTextWith.eventHandler template handler context w = (Outcome.ret true none, context, w)
    ∧ (∀ handler2 : TextMessageHandler W,
        OnTextWith.eventHandler template handler2 context w
          = OnTextWith.eventHandler template handler context w)
    ∧ (∃ re, Compile (OnTextWith.build template).1 = some re)
    ∧ OnTextWith.eventHandler
          "Hello, \x7b\x7bname\x7d\x7d. Can you give me \x7b\x7bthing\x7d\x7d?"
          (fun c _ u => (Outcome.ret true none, c.Set "test" (Value.str "Julian"), u))
          (TestServer.textContext "Test another. No one will handle this") ()
        = (Outcome.ret true none,
            TestServer.textContext "Test another. No one will handle this", ()) := by
  obtain ⟨re, hre⟩ := compile_build_some template
  have hm := hno re hre
  have key : ∀ h : TextMessageHandler W,
      OnTextWith.eventHandler template h context w = (Outcome.ret true none, context, w) := by
    intro h
    unfold OnTextWith.eventHandler OnFilteredText.eventHandler OnTextWith.filter
    simp only [htype, hmsg, ne_eq, not_true_eq_false, if_false, hre, hm, Bool.not_false, if_true]
  exact ⟨key handler, fun h2 => by rw [key h2, key handler], ⟨re, hre⟩, by decide⟩

/-- Witness of C10: the template of the test on the second text of the test. -/
theorem onTextWith_skips_unmatched_text_witness :
    (∀ re, Compile (OnTextWith.build
          "Hello, \x7b\x7bname\x7d\x7d. Can you give me \x7b\x7bthing\x7d\x7d?").1 = some re →
        re.MatchString "Test another. No one will handle this" = false)
    ∧ OnTextWith.eventHandler
          "Hello, \x7b\x7bname\x7d\x7d. Can you give me \x7b\x7bthing\x7d\x7d?" TestServer.text1
          (TestServer.textContext "Test another. No one will handle this") TestServer.world0
        = (Outcome.ret true none,
            TestServer.textContext "Test another. No one will handle this",
            TestServer.world0) := by
  have hc : Compile (OnTextWith.build
      "Hello, \x7b\x7bname\x7d\x7d. Can you give me \x7b\x7bthing\x7d\x7d?").1
        = some { items := ("Hello, ".toList.map Item.lit) ++ [Item.group]
                  ++ (". Can you give me ".toList.map Item.lit) ++ [Item.group, Item.lit '?'] } := by
    decide
  have hno : ∀ re, Compile (OnTextWith.build
        "Hello, \x7b\x7bname\x7d\x7d. Can you give me \x7b\x7bthing\x7d\x7d?").1 = some re →
      re.MatchString "Test another. No one will handle this" = false := by
    intro re hre
    rw [hc] at hre
    simp only [Option.some.injEq] at hre
    subst hre
    decide
  exact ⟨hno,
    (onTextWith_skips_unmatched_text _ "325708" "Test another. No one will handle this"
      TestServer.text1 (TestServer.textContext "Test another. No one will handle this")
      TestServer.world0 rfl rfl hno).1⟩

/-! ## The message bank -/

/-- C12. The guard of `AddMessage` lets a sixth message in: on a bank that
holds exactly 5 messages it returns nil and the bank then holds 6, so the cap
of 5 that the error text names is exceeded. -/
theorem addMessage_accepts_sixth_message (bank : MessageBank) (m : Message)
    (h : bank.messages.length = 5) :
    MessageBank.AddMessage (some bank) m =
        some (none, { messages := bank.messages ++ [m] }) ∧
      MessageBank.Len { messages := bank.messages ++ [m] } = 6 := by
  constructor
  · simp [MessageBank.AddMessage, h]
  · simp [MessageBank.Len, h]

theorem addMessage_accepts_sixth_message_witness :
    MessageBank.AddMessage
        (some { messages := List.replicate 5 (Message.Text "" "a") }) (Message.Text "" "b") =
        some (none,
          { messages := List.replicate 5 (Message.Text "" "a") ++ [Message.Text "" "b"] }) ∧
      MessageBank.Len
        { messages := List.replicate 5 (Message.Text "" "a") ++ [Message.Text "" "b"] } = 6 :=
  addMessage_accepts_sixth_message { messages := List.replicate 5 (Message.Text "" "a") }
    (Message.Text "" "b") (by decide)

/-- C13. On a bank that is not nil, `AddMessage` fails with
`ErrorTooManyMessages` exactly when the bank holds more than 5 messages, and
leaves the bank as it was; otherwise it returns nil, the bank is the old
sequence followed by `m`, and `Len` grows by one. Each typed helper is
`AddMessage` of the message it constructs. -/
theorem addMessage_fails_exactly_above_five (bank : MessageBank) (m : Message) :
    (∃ after, MessageBank.AddMessage (some bank) m = some after ∧
      (after.1 = some Error.ErrorTooManyMessages ↔ bank.messages.length > 5) ∧
      (after.1 = none ↔ ¬ bank.messages.length > 5) ∧
      (bank.messages.length > 5 → after.2 = bank) ∧
      (¬ bank.messages.length > 5 →
        after.2.messages = bank.messages ++ [m] ∧ after.2.Len = bank.Len + 1)) ∧
    (∀ msg, MessageBank.AddTextMessage (some bank) msg =
      MessageBank.AddMessage (some bank) (Message.Text "" msg)) ∧
    (∀ packageId stickerId, MessageBank.AddStickerMessage (some bank) packageId stickerId =
      MessageBank.AddMessage (some bank)
        (Message.Sticker { ID := "", PackageID := packageId, StickerID := stickerId })) ∧
    (∀ title address latitude longitude,
      MessageBank.AddLocationMessage (some bank) title address latitude longitude =
      MessageBank.AddMessage (some bank)
        (Message.Location
          { ID := "", Title := title, Address := address,
            Latitude := latitude, Longitude := longitude })) ∧
    (∀ contentUrl duration, MessageBank.AddAudioMessage (some bank) contentUrl duration =
      MessageBank.AddMessage (some bank) (Message.Audio "" contentUrl duration)) ∧
    (∀ contentUrl previewUrl, MessageBank.AddVideoMessage (some bank) contentUrl previewUrl =
      MessageBank.AddMessage (some bank) (Message.Video "" contentUrl previewUrl)) ∧
    (∀ contentUrl previewUrl, MessageBank.AddImageMessage (some bank) contentUrl previewUrl =
      MessageBank.AddMessage (some bank) (Message.Image "" contentUrl previewUrl)) := by
  refine ⟨?_, fun _ => rfl, fun _ _ => rfl, fun _ _ _ _ => rfl, fun _ _ => rfl,
    fun _ _ => rfl, fun _ _ => rfl⟩
  by_cases h : bank.messages.length > 5
  · exact ⟨(some Error.ErrorTooManyMessages, bank),
      by simp only [MessageBank.AddMessage, if_pos h], by simp [h], by simp [h],
      fun _ => rfl, fun h2 => absurd h h2⟩
  · exact ⟨(none, { messages := bank.messages ++ [m] }),
      by simp only [MessageBank.AddMessage, if_neg h], by simp [h], by simp [h],
      fun h2 => absurd h2 h, fun _ => ⟨rfl, by simp [MessageBank.Len]⟩⟩

/-- C14. `reply` on a bank that holds messages makes one reply call with all
the messages in their order and returns its error; on an empty bank it makes
no call and returns nil. `push` makes one push call with the messages, also
when there are none. The methods assign nothing to their receiver, so the bank
after the call is the bank before it. The calls are read off a recording
client, and the plain client gives the same answers. -/
theorem reply_and_push_deliver_once (cl : Client W) (mb : MessageBank)
    (token target : String) (w : W) :
    (mb.messages ≠ [] →
      MessageBank.reply cl mb token w = cl.ReplyMessage token mb.messages w ∧
      deliveries (MessageBank.reply cl.recording mb token (w, [])).2 =
        [Delivery.reply token mb.messages (MessageBank.reply cl mb token w).1]) ∧
    (mb.messages = [] →
      MessageBank.reply cl mb token w = (none, w) ∧
      deliveries (MessageBank.reply cl.recording mb token (w, [])).2 = []) ∧
    MessageBank.push cl mb target w = cl.PushMessage target mb.messages w ∧
    deliveries (MessageBank.push cl.recording mb target (w, [])).2 =
      [Delivery.push target mb.messages (MessageBank.push cl mb target w).1] ∧
    (MessageBank.reply cl.recording mb token (w, [])).1 = (MessageBank.reply cl mb token w).1 ∧
    (MessageBank.push cl.recording mb target (w, [])).1 =
      (MessageBank.push cl mb target w).1 := by
  have hp : MessageBank.push cl mb target w = cl.PushMessage target mb.messages w := by
    unfold MessageBank.push
    rcases h : cl.PushMessage target mb.messages w with ⟨_ | e, w1⟩ <;> rfl
  have hr : 0 < mb.messages.length →
      MessageBank.reply cl mb token w = cl.ReplyMessage token mb.messages w := by
    intro hlen
    unfold MessageBank.reply
    rw [if_pos hlen]
    rcases h : cl.ReplyMessage token mb.messages w with ⟨_ | e, w1⟩ <;> rfl
  have hpr : MessageBank.push cl.recording mb target (w, []) =
      ((cl.PushMessage target mb.messages w).1, ((cl.PushMessage target mb.messages w).2,
        [Delivery.push target mb.messages (cl.PushMessage target mb.messages w).1])) := by
    unfold MessageBank.push
    simp only [Client.recording, List.nil_append]
    rcases h : cl.PushMessage target mb.messages w with ⟨_ | e, w1⟩ <;> rfl
  have hrr : 0 < mb.messages.length → MessageBank.reply cl.recording mb token (w, []) =
      ((cl.ReplyMessage token mb.messages w).1, ((cl.ReplyMessage token mb.messages w).2,
        [Delivery.reply token mb.messages (cl.ReplyMessage token mb.messages w).1])) := by
    intro hlen
    unfold MessageBank.reply
    rw [if_pos hlen]
    simp only [Client.recording, List.nil_append]
    rcases h : cl.ReplyMessage token mb.messages w with ⟨_ | e, w1⟩ <;> rfl
  have hr0 : mb.messages = [] → MessageBank.reply cl mb token w = (none, w) := by
    intro h0
    simp [MessageBank.reply, h0]
  have hrr0 : mb.messages = [] →
      MessageBank.reply cl.recording mb token (w, []) = (none, (w, [])) := by
    intro h0
    simp [MessageBank.reply, h0]
  refine ⟨?_, ?_, hp, ?_, ?_, ?_⟩
  · intro hne
    have hlen : 0 < mb.messages.length := List.length_pos.mpr hne
    exact ⟨hr hlen, by rw [hrr hlen, hr hlen]; rfl⟩
  · intro h0
    exact ⟨hr0 h0, by rw [hrr0 h0]; rfl⟩
  · rw [hpr, hp]; rfl
  · by_cases h0 : mb.messages = []
    · rw [hrr0 h0, hr0 h0]
    · have hlen : 0 < mb.messages.length := List.length_pos.mpr h0
      rw [hrr hlen, hr hlen]
  · rw [hpr, hp]

/-! ## The postman -/

theorem push_recording (cl : Client W) (mb : MessageBank) (target : String) (w : W)
    (log : List Delivery) :
    MessageBank.push cl.recording mb target (w, log) =
      ((MessageBank.push cl mb target w).1, ((MessageBank.push cl mb target w).2,
        log ++ [Delivery.push target mb.messages (MessageBank.push cl mb target w).1])) := by
  unfold MessageBank.push
  simp only [Client.recording]
  rcases h : cl.PushMessage target mb.messages w with ⟨_ | e, w1⟩ <;> rfl

/-- The loop of `SendImmediately` through a recording client: the answers of
the plain client, and one recorded push for each target up to the first that
fails. -/
theorem sendLoop_recording (cl : Client W) (pm : PostMan) :
    ∀ (tos success : List String) (w : W) (log : List Delivery),
      ∃ k, k ≤ tos.length ∧
        (PostMan.sendLoop cl pm tos success w).1 = success ++ tos.take k ∧
        (PostMan.sendLoop cl.recording pm tos success (w, log)).1 =
          (PostMan.sendLoop cl pm tos success w).1 ∧
        (PostMan.sendLoop cl.recording pm tos success (w, log)).2.1 =
          (PostMan.sendLoop cl pm tos success w).2.1 ∧
        (PostMan.sendLoop cl.recording pm tos success (w, log)).2.2.1 =
          (PostMan.sendLoop cl pm tos success w).2.2 ∧
        (PostMan.sendLoop cl.recording pm tos success (w, log)).2.2.2 =
          log ++ (tos.take k).map (fun t => Delivery.push t pm.MessageBank.messages none) ++
            (match (PostMan.sendLoop cl pm tos success w).2.1 with
              | none => []
              | some e =>
                (tos.drop k).head?.toList.map
                  (fun t => Delivery.push t pm.MessageBank.messages (some e))) ∧
        ((PostMan.sendLoop cl pm tos success w).2.1 = none → k = tos.length) ∧
        ((PostMan.sendLoop cl pm tos success w).2.1 ≠ none → k < tos.length) := by
  intro tos
  induction tos with
  | nil =>
    intro success w log
    exact ⟨0, Nat.le_refl _, by simp [PostMan.sendLoop], rfl, rfl, rfl,
      by simp [PostMan.sendLoop], fun _ => rfl, fun h => absurd rfl h⟩
  | cons target tos ih =>
    intro success w log
    have hrec := push_recording cl pm.MessageBank target w log
    rcases hp : MessageBank.push cl pm.MessageBank target w with ⟨_ | e, w1⟩
    · rw [hp] at hrec
      have h1 : PostMan.sendLoop cl pm (target :: tos) success w =
          PostMan.sendLoop cl pm tos (success ++ [target]) w1 := by
        rw [PostMan.sendLoop, hp]
      have h2 : PostMan.sendLoop cl.recording pm (target :: tos) success (w, log) =
          PostMan.sendLoop cl.recording pm tos (success ++ [target])
            (w1, log ++ [Delivery.push target pm.MessageBank.messages none]) := by
        rw [PostMan.sendLoop, hrec]
      obtain ⟨k, hk, hs, ha, hb, hc, hd, he, hf⟩ :=
        ih (success ++ [target]) w1 (log ++ [Delivery.push target pm.MessageBank.messages none])
      refine ⟨k + 1, by simpa using hk, ?_, ?_, ?_, ?_, ?_, ?_, ?_⟩
      · rw [h1, hs]; simp
      · rw [h1, h2, ha]
      · rw [h1, h2, hb]
      · rw [h1, h2, hc]
      · rw [h1, h2, hd]; simp
      · intro h; rw [h1] at h; simp [he h]
      · intro h; rw [h1] at h; simpa using hf h
    · rw [hp] at hrec
      have h1 : PostMan.sendLoop cl pm (target :: tos) success w = (success, some e, w1) := by
        rw [PostMan.sendLoop, hp]
      have h2 : PostMan.sendLoop cl.recording pm (target :: tos) success (w, log) =
          (success, some e,
            (w1, log ++ [Delivery.push target pm.MessageBank.messages (some e)])) := by
        rw [PostMan.sendLoop, hrec]
      refine ⟨0, Nat.zero_le _, ?_, ?_, ?_, ?_, ?_, ?_, ?_⟩
      · rw [h1]; simp
      · rw [h1, h2]
      · rw [h1, h2]
      · rw [h1, h2]
      · rw [h1, h2]; simp
      · intro h; rw [h1] at h; cases h
      · intro _; simp

theorem sendImmediately_of_loop (cl : Client W) (pm : PostMan) (tos : List String) (w : W) :
    (PostMan.SendImmediately cl pm tos w).1 =
        ((PostMan.sendLoop cl pm tos [] w).1, (PostMan.sendLoop cl pm tos [] w).2.1) ∧
      (PostMan.SendImmediately cl pm tos w).2.2 = (PostMan.sendLoop cl pm tos [] w).2.2 ∧
      ((PostMan.sendLoop cl pm tos [] w).2.1 = none →
        (PostMan.SendImmediately cl pm tos w).2.1 =
          { pm with MessageBank := { pm.MessageBank with messages := [] } }) ∧
      ((PostMan.sendLoop cl pm tos [] w).2.1 ≠ none →
        (PostMan.SendImmediately cl pm tos w).2.1 = pm) := by
  unfold PostMan.SendImmediately
  rcases h : PostMan.sendLoop cl pm tos [] w with ⟨success, _ | e, w1⟩
  · exact ⟨rfl, rfl, fun _ => rfl, fun h => absurd rfl h⟩
  · exact ⟨rfl, rfl, fun h => Option.noConfusion h, fun _ => rfl⟩

/-- C15. `SendImmediately` pushes to the targets in the given order and stops
at the first push that fails: for some `k`, the recorded deliveries are pushes
of the accumulated messages to the first `k` targets, each answered nil,
followed, when an error is returned, by the one push to the next target that
was answered with that error; the success list is the first `k` targets, and
`k` is the number of targets when the returned error is nil. The plain client
gives the same answer as the recording one. -/
theorem sendImmediately_pushes_until_first_failure (cl : Client W) (pm : PostMan)
    (tos : List String) (w : W) :
    ∃ k, k ≤ tos.length ∧
      (PostMan.SendImmediately cl pm tos w).1.1 = tos.take k ∧
      deliveries (PostMan.SendImmediately cl.recording pm tos (w, [])).2.2 =
        (tos.take k).map (fun t => Delivery.push t pm.MessageBank.messages none) ++
          (match (PostMan.SendImmediately cl pm tos w).1.2 with
            | none => []
            | some e =>
              (tos.drop k).head?.toList.map
                (fun t => Delivery.push t pm.MessageBank.messages (some e))) ∧
      ((PostMan.SendImmediately cl pm tos w).1.2 = none → k = tos.length) ∧
      ((PostMan.SendImmediately cl pm tos w).1.2 ≠ none → k < tos.length) ∧
      (PostMan.SendImmediately cl.recording pm tos (w, [])).1 =
        (PostMan.SendImmediately cl pm tos w).1 := by
  obtain ⟨k, hk, hs, ha, hb, _, hd, he, hf⟩ := sendLoop_recording cl pm tos [] w []
  obtain ⟨p1, _, _, _⟩ := sendImmediately_of_loop cl pm tos w
  obtain ⟨r1, r2, _, _⟩ := sendImmediately_of_loop cl.recording pm tos (w, [])
  refine ⟨k, hk, ?_, ?_, ?_, ?_, ?_⟩
  · rw [p1]; simpa using hs
  · rw [p1]
    unfold deliveries
    rw [r2, hd]
    simp
  · rw [p1]; exact he
  · rw [p1]; exact hf
  · rw [p1, r1, ha, hb]

/-- C16, the claim as worded fails: on a postman without messages, a push
that fails leaves the messages empty and returns an error, so the messages are
empty while the error is not nil. -/
theorem sendImmediately_empty_postman_failing_push :
    ((PostMan.SendImmediately (scriptedClient fun _ => some (Error.other "down"))
        { MessageBank := { messages := [] } } ["U1"] ()).2.1.MessageBank.messages = []) ∧
      (PostMan.SendImmediately (scriptedClient fun _ => some (Error.other "down"))
        { MessageBank := { messages := [] } } ["U1"] ()).1.2 = some (Error.other "down") ∧
      ¬ ((PostMan.SendImmediately (scriptedClient fun _ => some (Error.other "down"))
          { MessageBank := { messages := [] } } ["U1"] ()).2.1.MessageBank.messages = [] ↔
        (PostMan.SendImmediately (scriptedClient fun _ => some (Error.other "down"))
          { MessageBank := { messages := [] } } ["U1"] ()).1.2 = none) := by
  decide

/-- C16, amended. After `SendImmediately` the accumulated messages are empty
if the returned error is nil, which includes the call with no targets, where
no delivery is made; if a push fails the postman is exactly what it was before
the call. So for a postman that held messages before the call, the messages
are empty afterwards if and only if the returned error is nil. -/
theorem sendImmediately_clears_only_on_success (cl : Client W) (pm : PostMan)
    (tos : List String) (w : W) :
    ((PostMan.SendImmediately cl pm tos w).1.2 = none →
      (PostMan.SendImmediately cl pm tos w).2.1.MessageBank.messages = []) ∧
    ((PostMan.SendImmediately cl pm tos w).1.2 ≠ none →
      (PostMan.SendImmediately cl pm tos w).2.1 = pm) ∧
    (tos = [] →
      (PostMan.SendImmediately cl pm tos w).1.2 = none ∧
      deliveries (PostMan.SendImmediately cl.recording pm tos (w, [])).2.2 = []) ∧
    (pm.MessageBank.messages ≠ [] →
      ((PostMan.SendImmediately cl pm tos w).2.1.MessageBank.messages = [] ↔
        (PostMan.SendImmediately cl pm tos w).1.2 = none)) := by
  obtain ⟨p1, _, p3, p4⟩ := sendImmediately_of_loop cl pm tos w
  have hnone : (PostMan.SendImmediately cl pm tos w).1.2 = none →
      (PostMan.SendImmediately cl pm tos w).2.1.MessageBank.messages = [] := by
    intro h
    rw [p1] at h
    rw [p3 h]
  have hsome : (PostMan.SendImmediately cl pm tos w).1.2 ≠ none →
      (PostMan.SendImmediately cl pm tos w).2.1 = pm := by
    intro h
    rw [p1] at h
    exact p4 h
  refine ⟨hnone, hsome, ?_, ?_⟩
  · intro h0
    subst h0
    exact ⟨rfl, rfl⟩
  · intro hne
    constructor
    · intro hempty
      by_contra herr
      rw [hsome herr] at hempty
      exact hne hempty
    · exact hnone

/-! ## The button and confirm builders -/

theorem buttonBuild_after_url (parse : UrlParse) (b : ButtonMessageBuilder) (altMsg : String)
    (htext : b.text ≠ "") (hurl : b.secureThumbnail parse) :
    ButtonMessageBuilder.Build parse b altMsg =
      if b.title.length > 40 then Except.error Error.ErrorTextExceedLimit
      else if (if b.title = "" ∨ b.thumbnailImageUrl = "" then b.text.length > 160
               else b.text.length > 60) then
        Except.error Error.ErrorTextExceedLimit
      else if b.actions.length > 4 then Except.error Error.ErrorTooManyActions
      else
        Except.ok
          (Message.Template altMsg
            (Template.Buttons b.thumbnailImageUrl b.title b.text b.actions)) := by
  unfold ButtonMessageBuilder.Build
  rw [if_neg htext]
  rcases hurl with h0 | ⟨u, hu, hs⟩
  · simp only [h0, ne_eq, not_true_eq_false, if_false]
  · by_cases h0 : b.thumbnailImageUrl = ""
    · simp only [h0, ne_eq, not_true_eq_false, if_false]
    · simp only [ne_eq, h0, not_false_eq_true, if_true, hu, hs, not_true_eq_false, if_false]

/-- C17. The button builder's `Build`, for every builder state, alt text and
behaviour of `url.Parse`: `ErrorMissingParam` if the text is empty; else, for
a thumbnail that is not empty, the error of `url.Parse` if it fails and
`ErrorInvalidUrl` if the parsed scheme is not `https`; else
`ErrorTextExceedLimit` if the title has more than 40 code points; else
`ErrorTextExceedLimit` if the text has more than 60 code points with title and
thumbnail both present, or more than 160 otherwise; else `ErrorTooManyActions`
if there are more than 4 actions; otherwise the buttons template message
hand-constructed from the alt text, thumbnail, title, text and actions. In the
test, with `url.Parse` reading the schemes `http` and `https` off the two
thumbnails, the `http` builder fails with `ErrorInvalidUrl` and the same
builder with the `https` thumbnail succeeds. -/
theorem button_build_checks_in_order (parse : UrlParse) (b : ButtonMessageBuilder)
    (altMsg : String) :
    (b.text = "" →
      ButtonMessageBuilder.Build parse b altMsg = Except.error Error.ErrorMissingParam) ∧
    (∀ e, b.text ≠ "" → b.thumbnailImageUrl ≠ "" →
      parse b.thumbnailImageUrl = Except.error e →
      ButtonMessageBuilder.Build parse b altMsg = Except.error e) ∧
    (∀ u, b.text ≠ "" → b.thumbnailImageUrl ≠ "" →
      parse b.thumbnailImageUrl = Except.ok u → u.Scheme ≠ "https" →
      ButtonMessageBuilder.Build parse b altMsg = Except.error Error.ErrorInvalidUrl) ∧
    (b.text ≠ "" → b.secureThumbnail parse → b.title.length > 40 →
      ButtonMessageBuilder.Build parse b altMsg = Except.error Error.ErrorTextExceedLimit) ∧
    (b.text ≠ "" → b.secureThumbnail parse → b.title.length ≤ 40 →
      b.title ≠ "" ∧ b.thumbnailImageUrl ≠ "" → b.text.length > 60 →
      ButtonMessageBuilder.Build parse b altMsg = Except.error Error.ErrorTextExceedLimit) ∧
    (b.text ≠ "" → b.secureThumbnail parse → b.title.length ≤ 40 →
      ¬ (b.title ≠ "" ∧ b.thumbnailImageUrl ≠ "") → b.text.length > 160 →
      ButtonMessageBuilder.Build parse b altMsg = Except.error Error.ErrorTextExceedLimit) ∧
    (b.text ≠ "" → b.secureThumbnail parse → b.title.length ≤ 40 →
      b.text.length ≤ (if b.title ≠ "" ∧ b.thumbnailImageUrl ≠ "" then 60 else 160) →
      b.actions.length > 4 →
      ButtonMessageBuilder.Build parse b altMsg = Except.error Error.ErrorTooManyActions) ∧
    (b.text ≠ "" → b.secureThumbnail parse → b.title.length ≤ 40 →
      b.text.length ≤ (if b.title ≠ "" ∧ b.thumbnailImageUrl ≠ "" then 60 else 160) →
      b.actions.length ≤ 4 →
      ButtonMessageBuilder.Build parse b altMsg =
        Except.ok (NewTemplateMessage altMsg
          (NewButtonsTemplate b.thumbnailImageUrl b.title b.text b.actions))) ∧
    ButtonMessageBuilder.Build TestMessage.parse TestMessage.buttonBuilderHttp
        "invalid image url" = Except.error Error.ErrorInvalidUrl ∧
    ButtonMessageBuilder.Build TestMessage.parse TestMessage.buttonBuilderHttps
        "invalid image url" =
      Except.ok (NewTemplateMessage "invalid image url"
        (NewButtonsTemplate TestMessage.httpsImage "Leaky Bucket" "For test"
          [NewMessageTemplateAction "test" "test1",
            NewURITemplateAction "test2" "http://www.google.com"])) ∧
    ButtonMessageBuilder.Build TestMessage.parse TestMessage.buttonBuilder "AltText" =
      Except.ok TestMessage.buttonMessage2 ∧
    ButtonMessageBuilder.Build TestMessage.parse TestMessage.buttonBuilderSix
        "too many actions" = Except.error Error.ErrorTooManyActions := by
  refine ⟨?_, ?_, ?_, ?_, ?_, ?_, ?_, ?_, by decide, by decide, by decide, by decide⟩
  · intro h
    simp only [ButtonMessageBuilder.Build, h, if_true]
  · intro e htext hthumb hparse
    simp only [ButtonMessageBuilder.Build, htext, if_false, ne_eq, hthumb, not_false_eq_true,
      if_true, hparse]
  · intro u htext hthumb hparse hscheme
    simp only [ButtonMessageBuilder.Build, htext, if_false, ne_eq, hthumb, not_false_eq_true,
      if_true, hparse, hscheme]
  · intro htext hurl htitle
    rw [buttonBuild_after_url parse b altMsg htext hurl, if_pos htitle]
  · intro htext hurl htitle hboth hlen
    have ht : ¬ b.title.length > 40 := by omega
    rw [buttonBuild_after_url parse b altMsg htext hurl]
    simp [ht, hboth.1, hboth.2, hlen]
  · intro htext hurl htitle hboth hlen
    have ht : ¬ b.title.length > 40 := by omega
    have h1 : b.title = "" ∨ b.thumbnailImageUrl = "" := by
      by_contra hcon
      exact hboth ⟨fun h => hcon (Or.inl h), fun h => hcon (Or.inr h)⟩
    rw [buttonBuild_after_url parse b altMsg htext hurl]
    simp [ht, h1, hlen]
  · intro htext hurl htitle hlen hact
    have ht : ¬ b.title.length > 40 := by omega
    rw [buttonBuild_after_url parse b altMsg htext hurl]
    by_cases h1 : b.title = "" ∨ b.thumbnailImageUrl = ""
    · have h2 : ¬ (b.title ≠ "" ∧ b.thumbnailImageUrl ≠ "") := by
        rintro ⟨ha, hb⟩
        rcases h1 with h | h
        · exact ha h
        · exact hb h
      rw [if_neg h2] at hlen
      have hl : ¬ b.text.length > 160 := by omega
      simp [ht, h1, hl, hact]
    · have h2 : b.title ≠ "" ∧ b.thumbnailImageUrl ≠ "" :=
        ⟨fun h => h1 (Or.inl h), fun h => h1 (Or.inr h)⟩
      rw [if_pos h2] at hlen
      have hl : ¬ b.text.length > 60 := by omega
      simp [ht, h1, hl, hact]
  · intro htext hurl htitle hlen hact
    have ht : ¬ b.title.length > 40 := by omega
    have ha : ¬ b.actions.length > 4 := by omega
    rw [buttonBuild_after_url parse b altMsg htext hurl]
    by_cases h1 : b.title = "" ∨ b.thumbnailImageUrl = ""
    · have h2 : ¬ (b.title ≠ "" ∧ b.thumbnailImageUrl ≠ "") := by
        rintro ⟨ha, hb⟩
        rcases h1 with h | h
        · exact ha h
        · exact hb h
      rw [if_neg h2] at hlen
      have hl : ¬ b.text.length > 160 := by omega
      simp [ht, h1, hl, ha, NewTemplateMessage, NewButtonsTemplate]
    · have h2 : b.title ≠ "" ∧ b.thumbnailImageUrl ≠ "" :=
        ⟨fun h => h1 (Or.inl h), fun h => h1 (Or.inr h)⟩
      rw [if_pos h2] at hlen
      have hl : ¬ b.text.length > 60 := by omega
      simp [ht, h1, hl, ha, NewTemplateMessage, NewButtonsTemplate]

/-- C18. The confirm builder's `Build`, for every builder state and alt text:
`ErrorMissingParam` if the text is empty; else `ErrorTextExceedLimit` if the
text has more than 240 code points; else `ErrorTooManyActions` if there are
more than 2 actions; otherwise the template message hand-constructed from the
alt text, the text and the actions in insertion order. In the test the builder
with two actions gives the hand-constructed message, and with a third action
added it gives `ErrorTooManyActions`. -/
theorem confirm_build_checks_in_order (b : ConfirmMessageBuilder) (altMsg : String) :
    (b.text = "" → ConfirmMessageBuilder.Build b altMsg = Except.error Error.ErrorMissingParam) ∧
    (b.text ≠ "" → b.text.length > 240 →
      ConfirmMessageBuilder.Build b altMsg = Except.error Error.ErrorTextExceedLimit) ∧
    (b.text ≠ "" → b.text.length ≤ 240 → b.actions.length > 2 →
      ConfirmMessageBuilder.Build b altMsg = Except.error Error.ErrorTooManyActions) ∧
    (b.text ≠ "" → b.text.length ≤ 240 → b.actions.length ≤ 2 →
      ConfirmMessageBuilder.Build b altMsg =
        Except.ok (NewTemplateMessage altMsg (NewConfirmTemplate b.text b.actions))) ∧
    ConfirmMessageBuilder.Build TestMessage.confirmBuilder "test" =
      Except.ok TestMessage.confirmMessage2 ∧
    ConfirmMessageBuilder.Build
        (TestMessage.confirmBuilder.WithURIAction "google" "http://www.google.com")
        "AltText" = Except.error Error.ErrorTooManyActions := by
  refine ⟨?_, ?_, ?_, ?_, by decide, by decide⟩
  · intro h
    simp only [ConfirmMessageBuilder.Build, h, if_true]
  · intro h1 h2
    simp only [ConfirmMessageBuilder.Build, h1, if_false, h2, if_true]
  · intro h1 h2 h3
    rw [ConfirmMessageBuilder.Build, if_neg h1, if_neg (by omega), if_pos h3]
  · intro h1 h2 h3
    rw [ConfirmMessageBuilder.Build, if_neg h1, if_neg (by omega), if_neg (by omega)]
    rfl

/-! ## The carousel builder -/

theorem validateActionTexts_template (a : TemplateAction) :
    (validateActionTexts (AnyAction.template a) = none ↔ a.withinCaps) ∧
      (validateActionTexts (AnyAction.template a) = none ∨
        validateActionTexts (AnyAction.template a) = some Error.ErrorTextExceedLimit) := by
  cases a with
  | URI label uri =>
    simp only [validateActionTexts, TemplateAction.withinCaps]
    by_cases h : label.length > 20
    · simp [h]
    · simp [h]; omega
  | Message label text =>
    simp only [validateActionTexts, TemplateAction.withinCaps]
    by_cases h : label.length > 20
    · simp [h]
    · by_cases h2 : text.length > 300
      · simp [h, h2]
      · simp [h, h2]; omega
  | Postback label data text =>
    simp only [validateActionTexts, TemplateAction.withinCaps]
    by_cases h : label.length > 20
    · simp [h]
    · by_cases h2 : text.length > 300
      · simp [h, h2]
      · by_cases h3 : data.length > 300
        · simp [h, h2, h3]
        · simp [h, h2, h3]; omega

theorem validateActions_none_iff (actions : List TemplateAction) :
    validateActions actions = none ↔ ∀ a ∈ actions, a.withinCaps := by
  induction actions with
  | nil => simp [validateActions]
  | cons a rest ih =>
    rw [validateActions]
    rcases h : validateActionTexts (AnyAction.template a) with _ | e
    · have ha := (validateActionTexts_template a).1.mp h
      simp only [ih, List.mem_cons, forall_eq_or_imp, ha, true_and]
    · have ha : ¬ a.withinCaps := fun hc => by
        rw [(validateActionTexts_template a).1.mpr hc] at h
        cases h
      simp [ha]

/-- The column that the loop of `Build` checks and appends is the one
constructed by hand from the column of the builder. -/
theorem handBuilt_eq (c : CarouselColumn) :
    ({ c.Column with Actions := c.actions } : LinebotCarouselColumn) = c.handBuilt := rfl

theorem checkColumn_ok_iff (c : CarouselColumn) (actionCount actionCount1 : Int) :
    CarouselMessageBuilder.checkColumn actionCount c.handBuilt = Except.ok actionCount1 ↔
      c.valid ∧ (actionCount = -1 ∨ actionCount = (c.actions.length : Int)) ∧
        actionCount1 = (if actionCount = -1 then (c.actions.length : Int) else actionCount) := by
  unfold CarouselMessageBuilder.checkColumn CarouselColumn.valid
  simp only [CarouselColumn.handBuilt, NewCarouselColumn]
  by_cases h1 : c.actions.length > 3
  · simp only [h1, if_true]
    constructor
    · intro h; cases h
    · intro h; omega
  simp only [h1, if_false]
  by_cases h2 : actionCount ≠ -1 ∧ actionCount ≠ (c.actions.length : Int)
  · rw [if_pos h2]
    constructor
    · intro h; cases h
    · rintro ⟨_, h | h, _⟩
      · exact absurd h h2.1
      · exact absurd h h2.2
  rw [if_neg h2]
  have h2' : actionCount = -1 ∨ actionCount = (c.actions.length : Int) := by
    by_contra hcon
    exact h2 ⟨fun h => hcon (Or.inl h), fun h => hcon (Or.inr h)⟩
  rcases hv : validateActions c.actions with _ | e
  · have hcaps := (validateActions_none_iff c.actions).mp hv
    simp only
    by_cases h3 : c.Column.ThumbnailImageURL.length > 1000
    · simp only [h3, if_true]
      constructor
      · intro h; cases h
      · intro h; omega
    by_cases h4 : c.Column.Title.length > 40
    · simp only [h3, h4, if_true, if_false]
      constructor
      · intro h; cases h
      · intro h; omega
    by_cases h5 : c.Column.Text = ""
    · simp only [h3, h4, h5, if_true, if_false]
      constructor
      · intro h; cases h
      · intro h; exact absurd rfl h.1.1
    have hmax : (if c.Column.ThumbnailImageURL = "" ∨ c.Column.Title = "" then 120 else 60) =
        (if c.Column.Title ≠ "" ∧ c.Column.ThumbnailImageURL ≠ "" then 60 else 120) := by
      by_cases ha : c.Column.ThumbnailImageURL = "" <;> by_cases hb : c.Column.Title = "" <;>
        simp [ha, hb]
    rw [hmax]
    by_cases h6 : c.Column.Text.length >
        (if c.Column.Title ≠ "" ∧ c.Column.ThumbnailImageURL ≠ "" then 60 else 120)
    · simp only [h3, h4, h5, h6, if_true, if_false]
      constructor
      · intro h; cases h
      · intro h; omega
    simp only [h3, h4, h5, h6, if_false]
    constructor
    · intro h
      injection h with h
      exact ⟨⟨h5, by omega, by omega, by omega, by omega, hcaps⟩, h2', h.symm⟩
    · intro h
      rw [h.2.2]
  · have hcaps : ¬ ∀ a ∈ c.actions, a.withinCaps := fun hc => by
      rw [(validateActions_none_iff c.actions).mpr hc] at hv
      cases hv
    simp only
    constructor
    · intro h; cases h
    · intro h; exact absurd h.1.2.2.2.2.2 hcaps

theorem checkColumn_mismatch (c : CarouselColumn) (actionCount : Int) (hv : c.valid)
    (h1 : actionCount ≠ -1) (h2 : actionCount ≠ (c.actions.length : Int)) :
    CarouselMessageBuilder.checkColumn actionCount c.handBuilt =
      Except.error Error.ErrorActionNumNotConsistent := by
  unfold CarouselMessageBuilder.checkColumn
  simp only [CarouselColumn.handBuilt, NewCarouselColumn]
  have h3 : ¬ c.actions.length > 3 := by
    have := hv.2.1
    omega
  rw [if_neg h3, if_pos ⟨h1, h2⟩]

/-- The checks of the loop of `Build` from an action count already fixed, on
columns that are each valid: they succeed with the hand-built columns appended
if every column has that number of actions, and fail with
`ErrorActionNumNotConsistent` otherwise. -/
theorem buildLoop_valid :
    ∀ (cols : List CarouselColumn) (actionCount : Int) (columns : List LinebotCarouselColumn),
      actionCount ≠ -1 → (∀ c ∈ cols, c.valid) →
      checkColumns (cols.map CarouselColumn.handBuilt) actionCount columns =
        if ∀ c ∈ cols, (c.actions.length : Int) = actionCount then
          Except.ok (columns ++ cols.map CarouselColumn.handBuilt)
        else Except.error Error.ErrorActionNumNotConsistent := by
  intro cols
  induction cols with
  | nil =>
    intro actionCount columns _ _
    simp [checkColumns]
  | cons c rest ih =>
    intro actionCount columns hac hvalid
    have hc : c.valid := hvalid c (List.mem_cons_self _ _)
    have hrest : ∀ c ∈ rest, c.valid := fun x hx => hvalid x (List.mem_cons_of_mem _ hx)
    rw [List.map_cons, checkColumns]
    by_cases hlen : actionCount = (c.actions.length : Int)
    · have hok : CarouselMessageBuilder.checkColumn actionCount c.handBuilt =
          Except.ok actionCount :=
        (checkColumn_ok_iff c actionCount actionCount).mpr
          ⟨hc, Or.inr hlen, by rw [if_neg hac]⟩
      rw [hok]
      simp only
      rw [ih actionCount _ hac hrest]
      simp only [List.mem_cons, forall_eq_or_imp, hlen, true_and, List.map_cons,
        List.append_assoc, List.singleton_append]
    · rw [checkColumn_mismatch c actionCount hc hac hlen]
      simp only
      have : ¬ ∀ x ∈ c :: rest, (x.actions.length : Int) = actionCount := fun h =>
        hlen (h c (List.mem_cons_self _ _)).symm
      rw [if_neg this]

/-- The checks of the loop of `Build` succeed only on columns that are each
valid and have the action count of the rounds before, if there was one. -/
theorem buildLoop_ok :
    ∀ (cols : List CarouselColumn) (actionCount : Int) (columns res : List LinebotCarouselColumn),
      checkColumns (cols.map CarouselColumn.handBuilt) actionCount columns = Except.ok res →
      (∀ c ∈ cols, c.valid) ∧
        (∀ c1 ∈ cols, ∀ c2 ∈ cols, c1.actions.length = c2.actions.length) ∧
        (actionCount ≠ -1 → ∀ c ∈ cols, (c.actions.length : Int) = actionCount) ∧
        res = columns ++ cols.map CarouselColumn.handBuilt := by
  intro cols
  induction cols with
  | nil =>
    intro actionCount columns res h
    simp only [List.map_nil, checkColumns] at h
    injection h with h
    simp [h]
  | cons c rest ih =>
    intro actionCount columns res h
    rw [List.map_cons, checkColumns] at h
    rcases hck : CarouselMessageBuilder.checkColumn actionCount c.handBuilt with e | ac1
    · rw [hck] at h
      cases h
    · rw [hck] at h
      simp only at h
      obtain ⟨hv, hcount, hac1⟩ := (checkColumn_ok_iff c actionCount ac1).mp hck
      obtain ⟨hvr, _, hcr, hres⟩ := ih ac1 _ res h
      have hne : ac1 ≠ -1 := by
        rw [hac1]
        split
        · omega
        · assumption
      have hsame : ∀ x ∈ rest, x.actions.length = c.actions.length := by
        intro x hx
        have h1 := hcr hne x hx
        rw [hac1] at h1
        split at h1
        · omega
        · rcases hcount with h2 | h2
          · contradiction
          · omega
      refine ⟨?_, ?_, ?_, ?_⟩
      · intro x hx
        rcases List.mem_cons.mp hx with rfl | hx
        · exact hv
        · exact hvr x hx
      · have hs : ∀ z ∈ c :: rest, z.actions.length = c.actions.length := by
          intro z hz
          rcases List.mem_cons.mp hz with h | h
          · rw [h]
          · exact hsame z h
        intro x hx y hy
        rw [hs x hx, hs y hy]
      · intro hac x hx
        have hcl : actionCount = (c.actions.length : Int) := hcount.resolve_left hac
        rcases List.mem_cons.mp hx with rfl | hx
        · exact hcl.symm
        · rw [hcl, hsame x hx]
      · rw [hres]
        simp

/-- The checks of the loop of `Build` from the start, on columns that are each
valid. -/
theorem buildLoop_start (cols : List CarouselColumn) (hvalid : ∀ c ∈ cols, c.valid) :
    checkColumns (cols.map CarouselColumn.handBuilt) (-1) [] =
      if ∀ c1 ∈ cols, ∀ c2 ∈ cols, c1.actions.length = c2.actions.length then
        Except.ok (cols.map CarouselColumn.handBuilt)
      else Except.error Error.ErrorActionNumNotConsistent := by
  cases cols with
  | nil => simp [checkColumns]
  | cons c rest =>
    have hc : c.valid := hvalid c (List.mem_cons_self _ _)
    have hrest : ∀ c ∈ rest, c.valid := fun x hx => hvalid x (List.mem_cons_of_mem _ hx)
    rw [List.map_cons, checkColumns]
    have hok : CarouselMessageBuilder.checkColumn (-1) c.handBuilt =
        Except.ok (c.actions.length : Int) :=
      (checkColumn_ok_iff c (-1) _).mpr ⟨hc, Or.inl rfl, by simp⟩
    rw [hok]
    simp only
    rw [buildLoop_valid rest _ _ (by omega) hrest]
    by_cases hall : ∀ x ∈ rest, (x.actions.length : Int) = (c.actions.length : Int)
    · have hall2 : ∀ c1 ∈ c :: rest, ∀ c2 ∈ c :: rest,
          c1.actions.length = c2.actions.length := by
        have hs : ∀ x ∈ c :: rest, x.actions.length = c.actions.length := by
          intro x hx
          rcases List.mem_cons.mp hx with rfl | hx
          · rfl
          · exact_mod_cast hall x hx
        intro x hx y hy
        rw [hs x hx, hs y hy]
      rw [if_pos hall, if_pos hall2]
      simp
    · have hall2 : ¬ ∀ c1 ∈ c :: rest, ∀ c2 ∈ c :: rest,
          c1.actions.length = c2.actions.length := fun h =>
        hall fun x hx => by
          exact_mod_cast h x (List.mem_cons_of_mem _ hx) c (List.mem_cons_self _ _)
      rw [if_neg hall, if_neg hall2]

/-! ### The loop of `Build` on the memory of the columns -/

theorem assigned_column (c : CarouselColumn) : c.assigned.Column = c.handBuilt := rfl

theorem assigned_assigned (c : CarouselColumn) : c.assigned.assigned = c.assigned := rfl

theorem handBuilt_assigned (c : CarouselColumn) : c.assigned.handBuilt = c.handBuilt := rfl

theorem storeColumn_same (cells : ColumnCells) (p : Nat) (c : CarouselColumn) :
    storeColumn cells p c p = c := by
  simp [storeColumn]

theorem storeColumn_other (cells : ColumnCells) (p q : Nat) (c : CarouselColumn) (h : q ≠ p) :
    storeColumn cells p c q = cells q := by
  simp [storeColumn, h]

/-- The memory with the `Actions` assigned in the columns at the addresses
`visited`. -/
theorem storeColumn_assigned_apply (cells : ColumnCells) (p q : Nat) :
    storeColumn cells p (cells p).assigned q = if q = p then (cells q).assigned else cells q := by
  unfold storeColumn
  by_cases h : q = p
  · rw [if_pos h, if_pos h, h]
  · rw [if_neg h, if_neg h]

/-- The memory as the loop of `Build` leaves it: the columns at the addresses
visited have their `Actions` assigned, every other column is untouched; the
loop visits the entries of the slice in order, stops at the first one that
fails, and visits all when it succeeds. -/
theorem buildLoop_state :
    ∀ (ptrs : List Nat) (cells : ColumnCells) (actionCount : Int) (columns : List Nat),
      ∃ k, k ≤ ptrs.length
        ∧ (∀ q, (CarouselMessageBuilder.buildLoop ptrs cells actionCount columns).2 q
            = if q ∈ ptrs.take k then (cells q).assigned else cells q)
        ∧ (∀ e, (CarouselMessageBuilder.buildLoop ptrs cells actionCount columns).1
            = Except.error e → 1 ≤ k)
        ∧ (∀ r, (CarouselMessageBuilder.buildLoop ptrs cells actionCount columns).1
            = Except.ok r → k = ptrs.length ∧ r = columns ++ ptrs) := by
  intro ptrs
  induction ptrs with
  | nil =>
    intro cells actionCount columns
    refine ⟨0, Nat.le_refl _, fun q => by simp [CarouselMessageBuilder.buildLoop],
      fun e h => by simp [CarouselMessageBuilder.buildLoop] at h, ?_⟩
    intro r h
    simp only [CarouselMessageBuilder.buildLoop, Except.ok.injEq] at h
    exact ⟨rfl, by rw [← h]; simp⟩
  | cons c rest ih =>
    intro cells actionCount columns
    rw [CarouselMessageBuilder.buildLoop]
    rcases hck : CarouselMessageBuilder.checkColumn actionCount (cells c).assigned.Column
      with e | ac1
    · refine ⟨1, by simp, ?_, fun _ _ => Nat.le_refl _, ?_⟩
      · intro q
        simp only [List.take_succ_cons, List.take_zero, List.mem_singleton]
        exact storeColumn_assigned_apply cells c q
      · intro r h
        cases h
    · obtain ⟨k, hk, hstate, herr, hok⟩ :=
        ih (storeColumn cells c (cells c).assigned) ac1 (columns ++ [c])
      refine ⟨k + 1, by simpa using hk, ?_, fun _ _ => by omega, ?_⟩
      · intro q
        simp only
        rw [hstate q, List.take_succ_cons]
        by_cases hq : q = c
        · subst hq
          simp only [storeColumn_same, assigned_assigned, List.mem_cons, true_or, if_true,
            ite_self]
        · simp only [storeColumn_other _ _ _ _ hq, List.mem_cons, hq, false_or]
      · intro r h
        obtain ⟨h1, h2⟩ := hok r h
        exact ⟨by simp [h1], by rw [h2]; simp⟩

/-- The result of the loop of `Build` is that of its checks on the columns
that the pointers show: the assignments that the loop makes on its way change
no field that the checks of a later round read. -/
theorem buildLoop_result :
    ∀ (ptrs : List Nat) (cells : ColumnCells) (actionCount : Int) (columns : List Nat)
      (acc : List LinebotCarouselColumn),
      (match (CarouselMessageBuilder.buildLoop ptrs cells actionCount columns).1 with
        | Except.error e => Except.error e
        | Except.ok _ => Except.ok (acc ++ ptrs.map fun p => (cells p).handBuilt))
        = checkColumns (ptrs.map fun p => (cells p).handBuilt) actionCount acc := by
  intro ptrs
  induction ptrs with
  | nil =>
    intro cells actionCount columns acc
    simp [CarouselMessageBuilder.buildLoop, checkColumns]
  | cons c rest ih =>
    intro cells actionCount columns acc
    rw [CarouselMessageBuilder.buildLoop, List.map_cons, checkColumns, assigned_column]
    rcases hck : CarouselMessageBuilder.checkColumn actionCount (cells c).handBuilt with e | ac1
    · rfl
    · simp only
      have hmap : (rest.map fun p => (storeColumn cells c (cells c).assigned p).handBuilt)
          = rest.map fun p => (cells p).handBuilt := by
        apply List.map_congr_left
        intro p _
        rw [storeColumn_assigned_apply]
        split
        · exact handBuilt_assigned _
        · rfl
      have := ih (storeColumn cells c (cells c).assigned) ac1 (columns ++ [c])
        (acc ++ [(cells c).handBuilt])
      rw [hmap] at this
      rw [← this]
      simp

theorem deref_handBuilt (cm : CarouselMessageBuilder) :
    (cm.columns.map fun p => (cm.cells p).handBuilt) = cm.deref.map CarouselColumn.handBuilt := by
  simp [CarouselMessageBuilder.deref]

theorem build_of_loop (cm : CarouselMessageBuilder) (altMsg : String)
    (hcount : cm.columns.length ≤ 5) :
    (cm.Build altMsg).1 =
      match checkColumns (cm.deref.map CarouselColumn.handBuilt) (-1) [] with
      | Except.error e => Except.error e
      | Except.ok columns => Except.ok (Message.Template altMsg (Template.Carousel columns)) := by
  have hres := buildLoop_result cm.columns cm.cells (-1) [] []
  obtain ⟨k, _, hstate, _, hok⟩ := buildLoop_state cm.columns cm.cells (-1) []
  rw [deref_handBuilt] at hres
  rw [← hres]
  unfold CarouselMessageBuilder.Build
  rw [if_neg (by omega)]
  rcases h : CarouselMessageBuilder.buildLoop cm.columns cm.cells (-1) [] with ⟨e | columns, cells1⟩
  · rfl
  · rw [h] at hstate hok
    obtain ⟨hk, hcols⟩ := hok columns rfl
    simp only [List.nil_append] at hcols ⊢
    rw [hcols, ← deref_handBuilt]
    have hmap : (cm.columns.map fun p => (cells1 p).Column)
        = cm.columns.map fun p => (cm.cells p).handBuilt := by
      apply List.map_congr_left
      intro p hp
      have := hstate p
      simp only at this
      rw [this, hk, List.take_length, if_pos hp]
      rfl
    rw [hmap]

theorem deref_length (cm : CarouselMessageBuilder) : cm.deref.length = cm.columns.length := by
  simp [CarouselMessageBuilder.deref]

/-- C19. The carousel builder's `Build` succeeds if and only if there are at
most 5 columns, every column is valid on its own (text not empty, at most 3
actions, thumbnail URL of at most 1000 code points, title of at most 40, text
of at most 60 with title and thumbnail both present and at most 120
otherwise, actions within their caps) and all columns have the same number of
actions; the message is then the carousel hand-constructed from the columns
in insertion order.  The columns are those that the pointers of the builder
point to, entry by entry.  In the test, 5 columns give the hand-constructed
message, a 6th column gives `ErrorTooManyColumn`, and a column without text
gives `ErrorMissingParam`. -/
theorem carousel_build_succeeds_iff (cm : CarouselMessageBuilder) (altMsg : String) :
    ((∃ msg, (cm.Build altMsg).1 = Except.ok msg) ↔
      cm.deref.length ≤ 5 ∧ (∀ c ∈ cm.deref, c.valid) ∧
        ∀ c1 ∈ cm.deref, ∀ c2 ∈ cm.deref, c1.actions.length = c2.actions.length) ∧
    (∀ msg, (cm.Build altMsg).1 = Except.ok msg →
      msg = NewTemplateMessage altMsg
        (NewCarouselTemplate (cm.deref.map CarouselColumn.handBuilt))) ∧
    (TestMessage.carouselBuilder.Build "altText").1 = Except.ok TestMessage.carouselMessage2 ∧
    (TestMessage.carouselBuilderSix.Build "Too many columns").1 =
      Except.error Error.ErrorTooManyColumn ∧
    (TestMessage.carouselBuilderNoText.Build "altText").1 =
      Except.error Error.ErrorMissingParam := by
  have hmany : cm.columns.length > 5 →
      (cm.Build altMsg).1 = Except.error Error.ErrorTooManyColumn := by
    intro h
    unfold CarouselMessageBuilder.Build
    rw [if_pos h]
  have hok : ∀ msg, (cm.Build altMsg).1 = Except.ok msg →
      cm.deref.length ≤ 5 ∧ (∀ c ∈ cm.deref, c.valid) ∧
        (∀ c1 ∈ cm.deref, ∀ c2 ∈ cm.deref, c1.actions.length = c2.actions.length) ∧
        msg = NewTemplateMessage altMsg
          (NewCarouselTemplate (cm.deref.map CarouselColumn.handBuilt)) := by
    intro msg h
    have hcount : cm.columns.length ≤ 5 := by
      by_contra hcon
      rw [hmany (by omega)] at h
      cases h
    rw [build_of_loop cm altMsg hcount] at h
    rcases hl : checkColumns (cm.deref.map CarouselColumn.handBuilt) (-1) [] with e | columns
    · rw [hl] at h
      cases h
    · rw [hl] at h
      obtain ⟨hv, hs, _, hres⟩ := buildLoop_ok cm.deref (-1) [] columns hl
      injection h with h
      refine ⟨by rw [deref_length]; exact hcount, hv, hs, ?_⟩
      rw [← h, hres]
      rfl
  refine ⟨⟨?_, ?_⟩, ?_, by decide, by decide, by decide⟩
  · rintro ⟨msg, h⟩
    obtain ⟨h1, h2, h3, _⟩ := hok msg h
    exact ⟨h1, h2, h3⟩
  · rintro ⟨hcount, hv, hs⟩
    rw [deref_length] at hcount
    rw [build_of_loop cm altMsg hcount, buildLoop_start cm.deref hv, if_pos hs]
    exact ⟨_, rfl⟩
  · intro msg h
    exact (hok msg h).2.2.2

/-- C20, the claim as worded fails: six columns that are each valid, the first
with 2 actions and the others with 1, make `Build` fail with
`ErrorTooManyColumn`, not `ErrorActionNumNotConsistent`; and six valid columns
with 1 action each make it fail as well. -/
theorem carousel_six_valid_columns_fail_on_count :
    (∀ c ∈ TestMessage.carouselBuilderSixMixed.deref, c.valid) ∧
      (∃ c1 ∈ TestMessage.carouselBuilderSixMixed.deref,
        ∃ c2 ∈ TestMessage.carouselBuilderSixMixed.deref,
          c1.actions.length ≠ c2.actions.length) ∧
      (TestMessage.carouselBuilderSixMixed.Build "altText").1 =
        Except.error Error.ErrorTooManyColumn ∧
      (TestMessage.carouselBuilderSixMixed.Build "altText").1 ≠
        Except.error Error.ErrorActionNumNotConsistent ∧
      (∀ c ∈ TestMessage.carouselBuilderSixSame.deref, c.valid) ∧
      (∀ c1 ∈ TestMessage.carouselBuilderSixSame.deref,
        ∀ c2 ∈ TestMessage.carouselBuilderSixSame.deref,
          c1.actions.length = c2.actions.length) ∧
      (TestMessage.carouselBuilderSixSame.Build "altText").1 =
        Except.error Error.ErrorTooManyColumn := by
  decide

/-- C20, amended. For a carousel builder with at most 5 columns, each valid on
its own, `Build` fails with `ErrorActionNumNotConsistent` whenever two columns
have different numbers of actions, and succeeds when all columns have the same
number of actions. -/
theorem carousel_action_counts_must_agree (cm : CarouselMessageBuilder) (altMsg : String)
    (hcount : cm.deref.length ≤ 5) (hvalid : ∀ c ∈ cm.deref, c.valid) :
    ((∃ c1 ∈ cm.deref, ∃ c2 ∈ cm.deref, c1.actions.length ≠ c2.actions.length) →
      (cm.Build altMsg).1 = Except.error Error.ErrorActionNumNotConsistent) ∧
    ((∀ c1 ∈ cm.deref, ∀ c2 ∈ cm.deref, c1.actions.length = c2.actions.length) →
      (cm.Build altMsg).1 =
        Except.ok (NewTemplateMessage altMsg
          (NewCarouselTemplate (cm.deref.map CarouselColumn.handBuilt)))) := by
  rw [deref_length] at hcount
  constructor
  · rintro ⟨c1, h1, c2, h2, hne⟩
    have hall : ¬ ∀ c1 ∈ cm.deref, ∀ c2 ∈ cm.deref,
        c1.actions.length = c2.actions.length := fun h => hne (h c1 h1 c2 h2)
    rw [build_of_loop cm altMsg hcount, buildLoop_start cm.deref hvalid, if_neg hall]
  · intro hall
    rw [build_of_loop cm altMsg hcount, buildLoop_start cm.deref hvalid, if_pos hall]
    rfl

theorem carousel_action_counts_must_agree_witness :
    (TestMessage.carouselBuilderTwoOne.Build "altText").1 =
        Except.error Error.ErrorActionNumNotConsistent ∧
      (TestMessage.carouselBuilderTwoTwo.Build "altText").1 =
        Except.ok (NewTemplateMessage "altText"
          (NewCarouselTemplate
            (TestMessage.carouselBuilderTwoTwo.deref.map CarouselColumn.handBuilt))) :=
  ⟨(carousel_action_counts_must_agree TestMessage.carouselBuilderTwoOne "altText"
      (by decide) (by decide)).1 (by decide),
    (carousel_action_counts_must_agree TestMessage.carouselBuilderTwoTwo "altText"
      (by decide) (by decide)).2 (by decide)⟩

/-! ## The parameters that `OnTextWith` extracts -/

/-! ### Counting the groups of the expression -/

theorem piecesText_append (a b : List Piece) :
    piecesText (a ++ b) = piecesText a ++ piecesText b := by
  induction a with
  | nil => rfl
  | cons p a ih => simp [piecesText, ih]

theorem piecesText_map_plain (name : List Char) :
    piecesText (name.map Piece.plain) = name := by
  induction name with
  | nil => rfl
  | cons c cs ih => simp [piecesText, Piece.text, ih]

theorem piecesText_placeholderPieces (name : List Char) :
    piecesText (placeholderPieces name) = templOpen ++ name ++ templClose := by
  simp [placeholderPieces, piecesText, piecesText_append, piecesText_map_plain, Piece.text,
    templOpen, templClose]

theorem wordChar_not_special (c : Char) (h : isWordChar c = true) : isSpecial c = false := by
  by_contra hcon
  have hs : isSpecial c = true := by simpa using hcon
  simp only [isSpecial, Bool.or_eq_true, decide_eq_true_eq] at hs
  rcases hs with ((((((((((((h1 | h1) | h1) | h1) | h1) | h1) | h1) | h1) | h1) | h1) | h1) | h1)
    | h1) | h1 <;> (rw [h1] at h; exact absurd h (by decide))

theorem placeholderPieces_ok (name : List Char) (hword : ∀ c ∈ name, isWordChar c = true) :
    ∀ piece ∈ placeholderPieces name, piece.ok = true := by
  intro piece hp
  simp only [placeholderPieces, List.mem_cons, List.mem_append, List.mem_map,
    List.mem_singleton, List.not_mem_nil, or_false] at hp
  rcases hp with rfl | rfl | ⟨c, hc, rfl⟩ | rfl | rfl
  · decide
  · decide
  · simp [Piece.ok, wordChar_not_special c (hword c hc)]
  · decide
  · decide

theorem pieceGroups_placeholderPieces (name : List Char) :
    pieceGroups (placeholderPieces name) = 0 := by
  simp only [pieceGroups, placeholderPieces, List.count_eq_zero]
  intro h
  simp at h

theorem pieceGroups_append (a b : List Piece) :
    pieceGroups (a ++ b) = pieceGroups a + pieceGroups b := by
  simp [pieceGroups, List.count_append]

theorem pieceGroups_cons (p : Piece) (a : List Piece) :
    pieceGroups (p :: a) = (if p = Piece.group then 1 else 0) + pieceGroups a := by
  simp only [pieceGroups, List.count_cons]
  by_cases h : p = Piece.group
  · simp [h]; omega
  · have : (p == Piece.group) = false := by simpa using h
    simp [h, this]

theorem groupCount_map_item (pieces : List Piece) :
    groupCount (pieces.map Piece.item) = pieceGroups pieces := by
  induction pieces with
  | nil => rfl
  | cons p rest ih =>
    rw [pieceGroups_cons, ← ih]
    cases p <;> simp [groupCount, Piece.item, List.count_cons, Nat.add_comm]

/-- The text of pieces determines the pieces. -/
theorem piecesText_injective :
    ∀ (a b : List Piece), (∀ p ∈ a, p.ok = true) → (∀ p ∈ b, p.ok = true) →
      piecesText a = piecesText b → a.map Piece.item = b.map Piece.item := by
  intro a b ha hb h
  have h1 := parseItems_piecesText a ha
  have h2 := parseItems_piecesText b hb
  rw [h] at h1
  rw [h1] at h2
  exact Option.some.inj h2

theorem pieceGroups_of_text (a b : List Piece) (ha : ∀ p ∈ a, p.ok = true)
    (hb : ∀ p ∈ b, p.ok = true) (h : piecesText a = piecesText b) :
    pieceGroups a = pieceGroups b := by
  rw [← groupCount_map_item, ← groupCount_map_item, piecesText_injective a b ha hb h]


/-! ### The scan of `templReg` over the text of pieces -/

theorem templRegFindAll_skip :
    ∀ (xs ys : List Char), templRegFindAll xs.length (xs ++ ys) = templRegFindAll 0 ys := by
  intro xs
  induction xs with
  | nil => intro ys; rfl
  | cons x xs ih =>
    intro ys
    simp only [List.length_cons, List.cons_append, templRegFindAll]
    exact ih ys

theorem wordRun_split (name rest : List Char) (hword : ∀ c ∈ name, isWordChar c = true) :
    (name ++ '\\' :: rest).takeWhile isWordChar = name
      ∧ (name ++ '\\' :: rest).dropWhile isWordChar = '\\' :: rest := by
  induction name with
  | nil =>
    have h : isWordChar '\\' = false := by decide
    simp [List.takeWhile, List.dropWhile, h]
  | cons c cs ih =>
    have hc := hword c (List.mem_cons_self _ _)
    obtain ⟨h1, h2⟩ := ih (fun d hd => hword d (List.mem_cons_of_mem _ hd))
    exact ⟨by rw [List.cons_append, List.takeWhile_cons, if_pos hc, h1],
      by rw [List.cons_append, List.dropWhile_cons, if_pos hc, h2]⟩

/-- At the start of a quoted placeholder, `templReg` matches that placeholder,
whatever follows it. -/
theorem templRegMatchAt_placeholder_append (name X : List Char) (hne : name ≠ [])
    (hword : ∀ c ∈ name, isWordChar c = true) :
    templRegMatchAt (templOpen ++ name ++ templClose ++ X)
      = some (templOpen ++ name ++ templClose, name) := by
  have hs : templOpen ++ name ++ templClose ++ X
      = '\\' :: '\x7b' :: '\\' :: '\x7b' :: (name ++ '\\' :: ('\x7d' :: '\\' :: '\x7d' :: X)) := by
    simp [templOpen, templClose]
  obtain ⟨h1, h2⟩ := wordRun_split name ('\x7d' :: '\\' :: '\x7d' :: X) hword
  rw [hs]
  unfold templRegMatchAt
  have hpre : templOpen.isPrefixOf
      ('\\' :: '\x7b' :: '\\' :: '\x7b' :: (name ++ '\\' :: ('\x7d' :: '\\' :: '\x7d' :: X)))
        = true := by
    simp [templOpen, List.isPrefixOf]
  have hd : ('\\' :: '\x7b' :: '\\' :: '\x7b' ::
      (name ++ '\\' :: ('\x7d' :: '\\' :: '\x7d' :: X))).drop 4
        = name ++ '\\' :: ('\x7d' :: '\\' :: '\x7d' :: X) := rfl
  rw [if_pos hpre]
  simp only [hd, h1, h2]
  have hcl : templClose.isPrefixOf ('\\' :: '\x7d' :: '\\' :: '\x7d' :: X) = true := by
    simp [templClose, List.isPrefixOf]
  rw [if_pos ⟨hne, hcl⟩]

theorem templRegMatchAt_some (s : List Char) (m : List Char × List Char)
    (h : templRegMatchAt s = some m) :
    ∃ Y, s = m.1 ++ Y ∧ m.2 ≠ [] ∧ (∀ c ∈ m.2, isWordChar c = true)
      ∧ m.1 = templOpen ++ m.2 ++ templClose := by
  have hne : templRegMatchAt s ≠ none := by rw [h]; simp
  obtain ⟨h1, h2, h3⟩ := (templRegMatchAt_ne_none s).1 hne
  unfold templRegMatchAt at h
  simp only [h1, h2, h3, and_self, if_true, ne_eq, not_false_eq_true, Option.some.injEq] at h
  rw [List.isPrefixOf_iff_prefix] at h1 h3
  obtain ⟨t, ht⟩ := h1
  obtain ⟨Y, hY⟩ := h3
  have hd : s.drop 4 = t := by rw [← ht]; simp [templOpen]
  refine ⟨Y, ?_, ?_, ?_, ?_⟩
  · rw [← h]
    simp only
    rw [hd] at hY ⊢
    rw [← ht, List.append_assoc, List.append_assoc, hY, List.takeWhile_append_dropWhile]
  · rw [← h]; exact h2
  · rw [← h]; exact fun c hc => List.mem_takeWhile_imp hc
  · rw [← h]

/-- A match of `templReg` depends only on the matched text: where that text
stands at the start, the match is the same. -/
theorem templRegMatchAt_of_prefix (s s2 : List Char) (m : List Char × List Char)
    (h : templRegMatchAt s = some m) (hpre : m.1 <+: s2) : templRegMatchAt s2 = some m := by
  obtain ⟨_, _, hne, hword, hm⟩ := templRegMatchAt_some s m h
  obtain ⟨Z, rfl⟩ := hpre
  rw [hm, templRegMatchAt_placeholder_append m.2 Z hne hword, ← hm]

theorem templRegFindAll_match (s : List Char) (m : List Char × List Char) (X : List Char)
    (h : templRegMatchAt s = some m) (hs : s = m.1 ++ X) :
    templRegFindAll 0 s = m :: templRegFindAll 0 X := by
  obtain ⟨_, _, _, _, hm⟩ := templRegMatchAt_some s m h
  have hshape : ∃ tl, m.1 = '\\' :: tl := by
    rw [hm]; exact ⟨_, by simp [templOpen]; rfl⟩
  obtain ⟨tl, htl⟩ := hshape
  have hs2 : s = '\\' :: (tl ++ X) := by rw [hs, htl]; rfl
  have hlen : m.1.length - 1 = tl.length := by rw [htl]; simp
  rw [hs2, templRegFindAll, ← hs2, h]
  simp only
  rw [hlen, templRegFindAll_skip]

theorem templRegMatchAt_cons_ne (c : Char) (X : List Char) (hc : c ≠ '\\') :
    templRegMatchAt (c :: X) = none := by
  unfold templRegMatchAt
  have : templOpen.isPrefixOf (c :: X) = false := by
    simp only [templOpen, List.isPrefixOf, Bool.and_eq_false_imp, beq_iff_eq]
    intro h
    exact absurd h.symm hc
  rw [this]
  rfl

theorem templRegFindAll_none (c : Char) (X : List Char) (h : templRegMatchAt (c :: X) = none) :
    templRegFindAll 0 (c :: X) = templRegFindAll 0 X := by
  rw [templRegFindAll, h]

theorem templRegFindAll_cons_ne (c : Char) (X : List Char) (hc : c ≠ '\\') :
    templRegFindAll 0 (c :: X) = templRegFindAll 0 X :=
  templRegFindAll_none c X (templRegMatchAt_cons_ne c X hc)

theorem templRegMatchAt_backslash_pieces (rest : List Piece)
    (hok : ∀ piece ∈ rest, piece.ok = true) :
    templRegMatchAt ('\\' :: piecesText rest) = none := by
  by_contra hcon
  obtain ⟨h1, -⟩ := (templRegMatchAt_ne_none _).1 hcon
  rw [List.isPrefixOf_iff_prefix] at h1
  obtain ⟨t, ht⟩ := h1
  simp only [templOpen, List.cons_append, List.cons.injEq, true_and] at ht
  exact piecesText_no_brace rest hok _ ht.symm

/-- Where `templReg` finds no match at the start of the text of pieces, its
scan goes on behind the first piece. -/
theorem templRegFindAll_piece_step (piece : Piece) (rest : List Piece)
    (hok : ∀ q ∈ piece :: rest, q.ok = true)
    (hnone : templRegMatchAt (piecesText (piece :: rest)) = none) :
    templRegFindAll 0 (piecesText (piece :: rest)) = templRegFindAll 0 (piecesText rest) := by
  have hokrest : ∀ q ∈ rest, q.ok = true := fun q hq => hok q (List.mem_cons_of_mem _ hq)
  have hp := hok piece (List.mem_cons_self _ _)
  cases piece with
  | plain c =>
    have hc : c ≠ '\\' := by
      intro h
      simp only [Piece.ok, h] at hp
      exact absurd hp (by decide)
    simp only [piecesText, Piece.text, List.singleton_append]
    exact templRegFindAll_cons_ne c _ hc
  | escaped c =>
    simp only [piecesText, Piece.text, List.cons_append, List.nil_append] at hnone ⊢
    rw [templRegFindAll_none _ _ hnone]
    by_cases hc : c = '\\'
    · rw [hc]
      exact templRegFindAll_none _ _ (templRegMatchAt_backslash_pieces rest hokrest)
    · exact templRegFindAll_cons_ne c _ hc
  | group =>
    have h4 : piecesText (Piece.group :: rest)
        = '(' :: '.' :: '+' :: ')' :: piecesText rest := rfl
    rw [h4, templRegFindAll_cons_ne '(' _ (by decide), templRegFindAll_cons_ne '.' _ (by decide),
      templRegFindAll_cons_ne '+' _ (by decide), templRegFindAll_cons_ne ')' _ (by decide)]


/-! ### Replacing one placeholder: what becomes of the groups and the matches -/

theorem replaceScan_occurrence (m new X : List Char) (hm : m ≠ []) :
    replaceScan m new 0 (m ++ X) = new ++ replaceScan m new 0 X := by
  cases m with
  | nil => exact absurd rfl hm
  | cons c tl =>
    have hpre : (c :: tl).isPrefixOf (c :: (tl ++ X)) = true :=
      List.isPrefixOf_iff_prefix.2 ⟨X, rfl⟩
    have hlen : (c :: tl).length - 1 = tl.length := by simp
    rw [List.cons_append, replaceScan, if_pos hpre, hlen, replaceScan_skip]

theorem replaceScan_step (m new : List Char) (c : Char) (X : List Char)
    (h : m.isPrefixOf (c :: X) = false) :
    replaceScan m new 0 (c :: X) = c :: replaceScan m new 0 X := by
  rw [replaceScan, h]
  rfl

theorem replaceScan_wordRun (m new : List Char) (hback : ∃ tl, m = '\\' :: tl)
    (name Z : List Char) (hword : ∀ c ∈ name, isWordChar c = true) :
    replaceScan m new 0 (name ++ Z) = name ++ replaceScan m new 0 Z := by
  induction name with
  | nil => rfl
  | cons c cs ih =>
    have hc : c ≠ '\\' := by
      intro h
      have := hword c (List.mem_cons_self _ _)
      rw [h] at this
      exact absurd this (by decide)
    rw [List.cons_append, replaceScan_no_backslash m new c _ hback hc,
      ih (fun d hd => hword d (List.mem_cons_of_mem _ hd))]
    rfl

/-- A quoted placeholder other than `m` at the start of the text is copied by
the scan that replaces `m`. -/
theorem replaceScan_other_placeholder (m : List Char) (hm : IsQuotedPlaceholder m)
    (name X : List Char) (hne : name ≠ []) (hword : ∀ c ∈ name, isWordChar c = true)
    (hnot : m.isPrefixOf (templOpen ++ name ++ templClose ++ X) = false) :
    replaceScan m groupText 0 (templOpen ++ name ++ templClose ++ X)
      = templOpen ++ name ++ templClose ++ replaceScan m groupText 0 X := by
  obtain ⟨nm, hnm, hwm, hmeq⟩ := hm
  have hshape : m = '\\' :: '\x7b' :: '\\' :: '\x7b' :: (nm ++ templClose) := by
    rw [hmeq]; simp [templOpen]
  have hback : ∃ tl, m = '\\' :: tl := ⟨_, hshape⟩
  have hs : templOpen ++ name ++ templClose ++ X
      = '\\' :: '\x7b' :: '\\' :: '\x7b' :: (name ++ '\\' :: '\x7d' :: '\\' :: '\x7d' :: X) := by
    simp [templOpen, templClose]
  have hr : templOpen ++ name ++ templClose ++ replaceScan m groupText 0 X
      = '\\' :: '\x7b' :: '\\' :: '\x7b' ::
          (name ++ '\\' :: '\x7d' :: '\\' :: '\x7d' :: replaceScan m groupText 0 X) := by
    simp [templOpen, templClose]
  rw [hs] at hnot
  rw [hs, hr, replaceScan_step m groupText _ _ hnot,
    replaceScan_no_backslash m groupText '\x7b' _ hback (by decide)]
  have h3 : m.isPrefixOf
      ('\\' :: '\x7b' :: (name ++ '\\' :: '\x7d' :: '\\' :: '\x7d' :: X)) = false := by
    cases name with
    | nil => exact absurd rfl hne
    | cons n1 ns =>
      have hn1 : n1 ≠ '\\' := by
        intro h
        have := hword n1 (List.mem_cons_self _ _)
        rw [h] at this
        exact absurd this (by decide)
      rw [hshape]
      simp only [List.cons_append, List.isPrefixOf, Bool.and_eq_false_imp, beq_iff_eq]
      intro _ _ h
      exact absurd h.symm hn1
  rw [replaceScan_step m groupText _ _ h3,
    replaceScan_no_backslash m groupText '\x7b' _ hback (by decide),
    replaceScan_wordRun m groupText hback name _ hword]
  have h6 : ∀ Z : List Char, m.isPrefixOf ('\\' :: '\x7d' :: Z) = false := by
    intro Z
    rw [hshape]
    simp only [List.isPrefixOf, Bool.and_eq_false_imp, beq_iff_eq]
    intro _ h
    exact absurd h (by decide)
  rw [replaceScan_step m groupText _ _ (h6 _),
    replaceScan_no_backslash m groupText '\x7d' _ hback (by decide),
    replaceScan_step m groupText _ _ (h6 _),
    replaceScan_no_backslash m groupText '\x7d' _ hback (by decide)]

/-- Where `m` does not stand at the start of the text of pieces, the scan that
replaces `m` copies the first piece. -/
theorem replaceScan_piece_step (m : List Char) (hm : IsQuotedPlaceholder m) (piece : Piece)
    (rest : List Piece) (hok : ∀ q ∈ piece :: rest, q.ok = true)
    (hpre : m.isPrefixOf (piecesText (piece :: rest)) = false) :
    replaceScan m groupText 0 (piecesText (piece :: rest))
      = piece.text ++ replaceScan m groupText 0 (piecesText rest) := by
  have hshape : ∃ tl, m = '\\' :: '\x7b' :: tl := by
    obtain ⟨name, -, -, rfl⟩ := hm
    exact ⟨'\\' :: '\x7b' :: (name ++ templClose), by simp [templOpen]⟩
  obtain ⟨tl, htl⟩ := hshape
  have hback : ∃ tl2, m = '\\' :: tl2 := ⟨_, htl⟩
  have hokrest : ∀ q ∈ rest, q.ok = true := fun q hq => hok q (List.mem_cons_of_mem _ hq)
  have hp := hok piece (List.mem_cons_self _ _)
  cases piece with
  | plain c =>
    have hc : c ≠ '\\' := by
      intro h
      simp only [Piece.ok, h] at hp
      exact absurd hp (by decide)
    simp only [piecesText, Piece.text, List.singleton_append]
    rw [replaceScan_no_backslash m groupText c _ hback hc]
  | escaped c =>
    simp only [piecesText, Piece.text, List.cons_append, List.nil_append] at hpre ⊢
    rw [replaceScan_step m groupText _ _ hpre]
    by_cases hc : c = '\\'
    · have hno : m.isPrefixOf (c :: piecesText rest) = false := by
        rw [Bool.eq_false_iff]
        intro hcon
        rw [List.isPrefixOf_iff_prefix, htl] at hcon
        obtain ⟨y, hy⟩ := hcon
        simp only [List.cons_append, List.cons.injEq] at hy
        exact piecesText_no_brace rest hokrest _ hy.2.symm
      rw [replaceScan_step m groupText _ _ hno]
    · rw [replaceScan_no_backslash m groupText c _ hback hc]
  | group =>
    have h4 : piecesText (Piece.group :: rest)
        = '(' :: '.' :: '+' :: ')' :: piecesText rest := rfl
    rw [h4,
      replaceScan_no_backslash m groupText '(' _ hback (by decide),
      replaceScan_no_backslash m groupText '.' _ hback (by decide),
      replaceScan_no_backslash m groupText '+' _ hback (by decide),
      replaceScan_no_backslash m groupText ')' _ hback (by decide)]
    rfl

theorem placeholder_no_paren (name : List Char) (hword : ∀ c ∈ name, isWordChar c = true) :
    '(' ∉ templOpen ++ name ++ templClose := by
  intro h
  simp only [List.mem_append] at h
  rcases h with (h | h) | h
  · exact absurd h (by decide)
  · exact absurd (hword _ h) (by decide)
  · exact absurd h (by decide)

/-- A text without parenthesis that starts `pre ++ a` also starts `pre ++ b`,
if the same holds for the starts of `a` and `b`. -/
theorem prefix_transfer (pre a b : List Char)
    (h : ∀ u : List Char, '(' ∉ u → u <+: a → u <+: b) :
    ∀ u : List Char, '(' ∉ u → u <+: pre ++ a → u <+: pre ++ b := by
  intro u hu hpre
  rcases prefix_append_cases u pre a hpre with h1 | ⟨_, h2, h3⟩
  · exact h1.trans (List.prefix_append _ _)
  · have h4 : u = pre ++ u.drop pre.length := by
      conv_lhs => rw [← List.take_append_drop pre.length u]
      rw [← h2]
    have h5 : '(' ∉ u.drop pre.length := fun hc => hu (List.mem_of_mem_drop hc)
    rw [h4]
    exact (List.prefix_append_right_inj pre).2 (h _ h5 h3)


/-- Replacing the quoted placeholder `m` by the group in the text of pieces:
every match of `templReg` with the text `m` becomes one group, and the other
matches stay as they are. -/
theorem replaceScan_count (m : List Char) (hm : IsQuotedPlaceholder m) :
    ∀ (n : Nat) (pieces : List Piece), pieces.length ≤ n →
      (∀ piece ∈ pieces, piece.ok = true) →
      ∃ out : List Piece, (∀ piece ∈ out, piece.ok = true)
        ∧ replaceScan m groupText 0 (piecesText pieces) = piecesText out
        ∧ pieceGroups out + (templRegFindAll 0 (piecesText out)).length
            = pieceGroups pieces + (templRegFindAll 0 (piecesText pieces)).length
        ∧ (∀ x ∈ templRegFindAll 0 (piecesText out),
            x ∈ templRegFindAll 0 (piecesText pieces) ∧ x.1 ≠ m)
        ∧ (∀ u : List Char, '(' ∉ u → u <+: piecesText out → u <+: piecesText pieces) := by
  have hmne : m ≠ [] := by
    obtain ⟨name, -, -, rfl⟩ := hm
    simp [templOpen]
  intro n
  induction n with
  | zero =>
    intro pieces hlen _
    have : pieces = [] := List.length_eq_zero.1 (by omega)
    subst this
    exact ⟨[], by simp, rfl, rfl, by simp [piecesText, templRegFindAll], fun u _ h => h⟩
  | succ n ih =>
    intro pieces hlen hok
    cases pieces with
    | nil => exact ⟨[], by simp, rfl, rfl, by simp [piecesText, templRegFindAll], fun u _ h => h⟩
    | cons piece rest =>
      have hokrest : ∀ q ∈ rest, q.ok = true := fun q hq => hok q (List.mem_cons_of_mem _ hq)
      have hlenrest : rest.length ≤ n := by simp only [List.length_cons] at hlen; omega
      rcases hmatch : templRegMatchAt (piecesText (piece :: rest)) with _ | m2
      · -- no match of `templReg` here: the piece is copied
        have hpre : m.isPrefixOf (piecesText (piece :: rest)) = false := by
          rw [Bool.eq_false_iff]
          intro hcon
          obtain ⟨Z, hZ⟩ := List.isPrefixOf_iff_prefix.1 hcon
          obtain ⟨nm, hnm, hwm, hmeq⟩ := hm
          rw [← hZ, hmeq, templRegMatchAt_placeholder_append nm Z hnm hwm] at hmatch
          cases hmatch
        obtain ⟨out, hout, hrep, hcount, hmem, hpref⟩ := ih rest hlenrest hokrest
        have hokout : ∀ q ∈ piece :: out, q.ok = true := by
          intro q hq
          rcases List.mem_cons.1 hq with h | h
          · rw [h]; exact hok piece (List.mem_cons_self _ _)
          · exact hout q h
        have hpref2 : ∀ u : List Char, '(' ∉ u → u <+: piecesText (piece :: out) →
            u <+: piecesText (piece :: rest) :=
          prefix_transfer piece.text _ _ hpref
        have hnone2 : templRegMatchAt (piecesText (piece :: out)) = none := by
          rcases h2 : templRegMatchAt (piecesText (piece :: out)) with _ | x
          · rfl
          · obtain ⟨Y, hY, _, hword, hx⟩ := templRegMatchAt_some _ x h2
            have hnp : '(' ∉ x.1 := by rw [hx]; exact placeholder_no_paren _ hword
            have := templRegMatchAt_of_prefix _ (piecesText (piece :: rest)) x h2
              (hpref2 x.1 hnp ⟨Y, hY.symm⟩)
            rw [hmatch] at this
            cases this
        refine ⟨piece :: out, hokout, ?_, ?_, ?_, hpref2⟩
        · rw [replaceScan_piece_step m hm piece rest hok hpre, hrep]
          rfl
        · rw [templRegFindAll_piece_step piece out hokout hnone2,
            templRegFindAll_piece_step piece rest hok hmatch, pieceGroups_cons,
            pieceGroups_cons]
          omega
        · rw [templRegFindAll_piece_step piece out hokout hnone2,
            templRegFindAll_piece_step piece rest hok hmatch]
          exact hmem
      · -- a match of `templReg` here: it is replaced if its text is `m`, copied if not
        obtain ⟨Y, hY, hne2, hword2, hm2⟩ := templRegMatchAt_some _ m2 hmatch
        have hph : IsQuotedPlaceholder m2.1 := ⟨m2.2, hne2, hword2, hm2⟩
        obtain ⟨rest2, ht, hok2, hl2⟩ :=
          pieces_of_placeholder m2.1 hph (piece :: rest) hok ⟨Y, hY.symm⟩
        obtain ⟨out, hout, hrep, hcount, hmem, hpref⟩ :=
          ih rest2 (by simp only [List.length_cons] at hl2 hlen; omega) hok2
        have hfind : templRegFindAll 0 (piecesText (piece :: rest))
            = m2 :: templRegFindAll 0 (piecesText rest2) :=
          templRegFindAll_match _ m2 _ hmatch ht
        have hgroups : pieceGroups (piece :: rest) = pieceGroups rest2 := by
          have hok3 : ∀ q ∈ placeholderPieces m2.2 ++ rest2, q.ok = true := by
            intro q hq
            rcases List.mem_append.1 hq with h | h
            · exact placeholderPieces_ok m2.2 hword2 q h
            · exact hok2 q h
          rw [pieceGroups_of_text (piece :: rest) (placeholderPieces m2.2 ++ rest2) hok hok3
            (by rw [ht, piecesText_append, piecesText_placeholderPieces, hm2]),
            pieceGroups_append, pieceGroups_placeholderPieces]
          omega
        by_cases heq : m2.1 = m
        · refine ⟨Piece.group :: out, ?_, ?_, ?_, ?_, ?_⟩
          · intro q hq
            rcases List.mem_cons.1 hq with h | h
            · rw [h]; rfl
            · exact hout q h
          · rw [ht, heq, replaceScan_occurrence m groupText _ hmne, hrep]
            rfl
          · have h4 : piecesText (Piece.group :: out)
                = '(' :: '.' :: '+' :: ')' :: piecesText out := rfl
            rw [h4, templRegFindAll_cons_ne '(' _ (by decide),
              templRegFindAll_cons_ne '.' _ (by decide),
              templRegFindAll_cons_ne '+' _ (by decide),
              templRegFindAll_cons_ne ')' _ (by decide), hfind, hgroups, pieceGroups_cons]
            simp only [if_true, List.length_cons]
            omega
          · have h4 : piecesText (Piece.group :: out)
                = '(' :: '.' :: '+' :: ')' :: piecesText out := rfl
            rw [h4, templRegFindAll_cons_ne '(' _ (by decide),
              templRegFindAll_cons_ne '.' _ (by decide),
              templRegFindAll_cons_ne '+' _ (by decide),
              templRegFindAll_cons_ne ')' _ (by decide), hfind]
            intro x hx
            exact ⟨List.mem_cons_of_mem _ (hmem x hx).1, (hmem x hx).2⟩
          · intro u hu hpre
            have h4 : piecesText (Piece.group :: out)
                = '(' :: '.' :: '+' :: ')' :: piecesText out := rfl
            rw [h4] at hpre
            cases u with
            | nil => exact List.nil_prefix
            | cons c cs =>
              obtain ⟨Z, hZ⟩ := hpre
              simp only [List.cons_append, List.cons.injEq] at hZ
              exact absurd (by rw [hZ.1]; exact List.mem_cons_self _ _) hu
        · have hnot : m.isPrefixOf (templOpen ++ m2.2 ++ templClose ++ piecesText rest2)
              = false := by
            rw [Bool.eq_false_iff]
            intro hcon
            obtain ⟨Z, hZ⟩ := List.isPrefixOf_iff_prefix.1 hcon
            obtain ⟨nm, hnm, hwm, hmeq⟩ := hm
            have h5 := templRegMatchAt_placeholder_append nm Z hnm hwm
            rw [← hmeq, hZ, ← hm2, ← ht, hmatch] at h5
            exact heq (by rw [Option.some.inj h5, hmeq])
          have hokout : ∀ q ∈ placeholderPieces m2.2 ++ out, q.ok = true := by
            intro q hq
            rcases List.mem_append.1 hq with h | h
            · exact placeholderPieces_ok m2.2 hword2 q h
            · exact hout q h
          have htext : piecesText (placeholderPieces m2.2 ++ out) = m2.1 ++ piecesText out := by
            rw [piecesText_append, piecesText_placeholderPieces, hm2]
          have hmatch2 : templRegMatchAt (m2.1 ++ piecesText out) = some m2 :=
            templRegMatchAt_of_prefix _ _ m2 hmatch (List.prefix_append _ _)
          have hfind2 : templRegFindAll 0 (m2.1 ++ piecesText out)
              = m2 :: templRegFindAll 0 (piecesText out) :=
            templRegFindAll_match _ m2 _ hmatch2 rfl
          refine ⟨placeholderPieces m2.2 ++ out, hokout, ?_, ?_, ?_, ?_⟩
          · rw [htext, ht]
            conv_lhs => rw [hm2]
            rw [replaceScan_other_placeholder m hm m2.2 _ hne2 hword2 hnot, hrep, ← hm2]
          · rw [htext, hfind2, hfind, hgroups, pieceGroups_append,
              pieceGroups_placeholderPieces]
            simp only [List.length_cons]
            omega
          · rw [htext, hfind2, hfind]
            intro x hx
            rcases List.mem_cons.1 hx with h | h
            · rw [h]
              exact ⟨List.mem_cons_self _ _, heq⟩
            · exact ⟨List.mem_cons_of_mem _ (hmem x h).1, (hmem x h).2⟩
          · rw [htext, ht]
            exact prefix_transfer m2.1 _ _ hpref

/-- The loop of `OnTextWith` over the matches turns every match of `templReg`
that it runs over into one group. -/
theorem substitute_count :
    ∀ (found : List (List Char × List Char)), (∀ m ∈ found, IsQuotedPlaceholder m.1) →
      ∀ (pieces : List Piece) (names : List String), (∀ piece ∈ pieces, piece.ok = true) →
        (∀ x ∈ templRegFindAll 0 (piecesText pieces), ∃ y ∈ found, y.1 = x.1) →
        ∃ out : List Piece, (∀ piece ∈ out, piece.ok = true)
          ∧ (OnTextWith.substitute found (piecesText pieces, names)).1 = piecesText out
          ∧ pieceGroups out
              = pieceGroups pieces + (templRegFindAll 0 (piecesText pieces)).length := by
  intro found
  induction found with
  | nil =>
    intro _ pieces names hok hall
    have hnil : templRegFindAll 0 (piecesText pieces) = [] := by
      rcases h : templRegFindAll 0 (piecesText pieces) with _ | ⟨x, xs⟩
      · rfl
      · obtain ⟨y, hy, _⟩ := hall x (by rw [h]; exact List.mem_cons_self _ _)
        cases hy
    exact ⟨pieces, hok, rfl, by rw [hnil]; rfl⟩
  | cons m rest ih =>
    intro hfound pieces names hok hall
    have hm := hfound m (List.mem_cons_self _ _)
    have hne : m.1 ≠ [] := by
      obtain ⟨name, -, -, h⟩ := hm
      rw [h]
      simp [templOpen]
    obtain ⟨mid, hmid, hrep, hcount, hmem, -⟩ :=
      replaceScan_count m.1 hm pieces.length pieces (le_refl _) hok
    have hall2 : ∀ x ∈ templRegFindAll 0 (piecesText mid), ∃ y ∈ rest, y.1 = x.1 := by
      intro x hx
      obtain ⟨hx1, hx2⟩ := hmem x hx
      obtain ⟨y, hy, hyx⟩ := hall x hx1
      rcases List.mem_cons.1 hy with h | h
      · rw [h] at hyx
        exact absurd hyx.symm hx2
      · exact ⟨y, h, hyx⟩
    obtain ⟨out, hout, h1, h2⟩ :=
      ih (fun q hq => hfound q (List.mem_cons_of_mem _ hq)) mid
        (names ++ [String.mk m.2]) hmid hall2
    refine ⟨out, hout, ?_, ?_⟩
    · simp only [OnTextWith.substitute, stringsReplace, if_neg hne, hrep]
      exact h1
    · rw [h2, hcount]

theorem pieceGroups_map_quotePiece (t : List Char) :
    pieceGroups (t.map quotePiece) = 0 := by
  simp only [pieceGroups, List.count_eq_zero, List.mem_map, not_exists, not_and]
  intro c _ h
  unfold quotePiece at h
  split at h <;> cases h

/-- The expression that `OnTextWith` builds from a template compiles, and it
has as many groups as the name list has names. -/
theorem build_groupCount (template : String) :
    ∃ re, Compile (OnTextWith.build template).1 = some re
      ∧ groupCount re.items = (OnTextWith.build template).2.length := by
  obtain ⟨hq, hok⟩ := quoteMeta_eq_piecesText template.toList
  obtain ⟨out, hout, h1, h2⟩ := substitute_count
    (templRegFindAll 0 (QuoteMeta template.toList))
    (templRegFindAll_placeholders _ 0) (template.toList.map quotePiece) [] hok
    (by
      intro x hx
      rw [← hq] at hx
      exact ⟨x, hx, rfl⟩)
  obtain ⟨_, _, _, h3⟩ := substitute_pieces
    (templRegFindAll 0 (QuoteMeta template.toList))
    (templRegFindAll_placeholders _ 0) (template.toList.map quotePiece) [] hok
  refine ⟨{ items := out.map Piece.item }, ?_, ?_⟩
  · simp only [OnTextWith.build, Compile]
    rw [hq] at h1 ⊢
    rw [h1, parseItems_piecesText out hout]
    rfl
  · simp only [OnTextWith.build]
    rw [hq] at h3 ⊢
    rw [h3, groupCount_map_item, h2, pieceGroups_map_quotePiece]
    simp


/-! ### One capture for every group, one name for every capture -/

theorem tryLengths_some (k : List Char → Option (List (List Char) × List Char))
    (text : List Char) :
    ∀ (n : Nat) (gs : List (List Char)) (rest : List Char),
      tryLengths k text n = some (gs, rest) →
      ∃ j gs2, k (text.drop j) = some (gs2, rest) ∧ gs = text.take j :: gs2 := by
  intro n
  induction n with
  | zero => intro gs rest h; simp [tryLengths] at h
  | succ n ih =>
    intro gs rest h
    rw [tryLengths] at h
    rcases hk : k (text.drop (n + 1)) with _ | ⟨gs2, rest2⟩
    · rw [hk] at h
      exact ih gs rest h
    · rw [hk] at h
      simp only [Option.some.injEq, Prod.mk.injEq] at h
      exact ⟨n + 1, gs2, by rw [hk, h.2], h.1.symm⟩

theorem groupCount_cons (i : Item) (items : List Item) :
    groupCount (i :: items) = (if i = Item.group then 1 else 0) + groupCount items := by
  simp only [groupCount, List.count_cons]
  by_cases h : i = Item.group
  · simp [h]; omega
  · have : (i == Item.group) = false := by simpa using h
    simp [h, this]

/-- A match yields one capture for every group of the expression. -/
theorem matchHere_groups :
    ∀ (items : List Item) (text : List Char) (groups : List (List Char)) (rest : List Char),
      matchHere items text = some (groups, rest) → groups.length = groupCount items := by
  intro items
  induction items with
  | nil =>
    intro text groups rest h
    simp only [matchHere, Option.some.injEq, Prod.mk.injEq] at h
    rw [← h.1]
    rfl
  | cons i items ih =>
    intro text groups rest h
    cases i with
    | lit c =>
      cases text with
      | nil => simp [matchHere] at h
      | cons t text =>
        rw [matchHere] at h
        split at h
        · rw [groupCount_cons]
          simp only [reduceCtorEq, if_false, Nat.zero_add]
          exact ih text groups rest h
        · cases h
    | group =>
      rw [matchHere] at h
      obtain ⟨j, gs2, hk, hgs⟩ := tryLengths_some _ text _ groups rest h
      rw [groupCount_cons, hgs, List.length_cons, ih _ gs2 rest hk]
      simp only [if_true]
      omega

theorem findFrom_length (items : List Item) :
    ∀ (text : List Char) (results : List (List Char)),
      findFrom items text = some results → results.length = groupCount items + 1 := by
  intro text
  induction text with
  | nil =>
    intro results h
    rw [findFrom] at h
    rcases hm : matchHere items [] with _ | ⟨groups, rest⟩
    · rw [hm] at h; cases h
    · rw [hm] at h
      simp only [Option.some.injEq] at h
      rw [← h, List.length_cons, matchHere_groups items [] groups rest hm]
  | cons t text ih =>
    intro results h
    rw [findFrom] at h
    rcases hm : matchHere items (t :: text) with _ | ⟨groups, rest⟩
    · rw [hm] at h
      exact ih results h
    · rw [hm] at h
      simp only [Option.some.injEq] at h
      rw [← h, List.length_cons, matchHere_groups items _ groups rest hm]

theorem GoMap.get_set (params : GoMap String) (name value key : String) :
    GoMap.get (GoMap.set params name value) key
      = if name = key then some value else GoMap.get params key := by
  induction params with
  | nil => simp [GoMap.set, GoMap.get]
  | cons kv rest ih =>
    obtain ⟨k, x⟩ := kv
    by_cases hk : k = name
    · subst hk
      by_cases hkey : k = key
      · simp [GoMap.set, GoMap.get, hkey]
      · simp [GoMap.set, GoMap.get, hkey]
    · by_cases hkey : k = key
      · subst hkey
        simp [GoMap.set, GoMap.get, hk, Ne.symm hk]
      · simp [GoMap.set, GoMap.get, hk, hkey, ih]

/-- The parameters after a list of assignments, the first made first. -/
theorem get_assigned_keys :
    ∀ (kvs : List (String × String)) (params : GoMap String) (key : String),
      GoMap.get (kvs.foldl (fun p kv => GoMap.set p kv.1 kv.2) params) key ≠ none ↔
        GoMap.get params key ≠ none ∨ key ∈ kvs.map Prod.fst := by
  intro kvs
  induction kvs with
  | nil => intro params key; simp
  | cons kv kvs ih =>
    intro params key
    rw [List.foldl_cons, ih, GoMap.get_set]
    by_cases h : kv.1 = key
    · simp [h]
    · simp [h, Ne.symm h]

theorem get_assigned_not_mem :
    ∀ (kvs : List (String × String)) (params : GoMap String) (key : String),
      key ∉ kvs.map Prod.fst →
      GoMap.get (kvs.foldl (fun p kv => GoMap.set p kv.1 kv.2) params) key
        = GoMap.get params key := by
  intro kvs
  induction kvs with
  | nil => intro params key _; rfl
  | cons kv kvs ih =>
    intro params key hkey
    simp only [List.map_cons, List.mem_cons, not_or] at hkey
    rw [List.foldl_cons, ih _ _ hkey.2, GoMap.get_set, if_neg (Ne.symm hkey.1)]

/-- The last assignment to a key is the one that stays. -/
theorem get_assigned_last :
    ∀ (names captures : List String) (params : GoMap String) (i : Nat) (name capture : String),
      names[i]? = some name → captures[i]? = some capture → name ∉ names.drop (i + 1) →
      GoMap.get ((names.zip captures).foldl (fun p kv => GoMap.set p kv.1 kv.2) params) name
        = some capture := by
  intro names
  induction names with
  | nil => intro captures params i name capture h; simp at h
  | cons n names ih =>
    intro captures params i name capture hn hc hlast
    cases captures with
    | nil => simp at hc
    | cons c captures =>
      cases i with
      | zero =>
        simp only [List.getElem?_cons_zero, Option.some.injEq] at hn hc
        simp only [Nat.zero_add, List.drop_succ_cons, List.drop_zero] at hlast
        rw [List.zip_cons_cons, List.foldl_cons, get_assigned_not_mem, GoMap.get_set, hn, hc]
        · simp
        · intro hmem
          rw [List.mem_map] at hmem
          obtain ⟨kv, hkv, hfst⟩ := hmem
          have := (List.of_mem_zip hkv).1
          rw [hfst] at this
          exact hlast this
      | succ i =>
        simp only [List.getElem?_cons_succ] at hn hc
        simp only [List.drop_succ_cons] at hlast
        rw [List.zip_cons_cons, List.foldl_cons]
        exact ih captures _ i name capture hn hc hlast

/-- The loop of the filter over the captures, when there is a name for every
capture: every capture is assigned to the name at its place. -/
theorem fill_assigns (nameList : List String) :
    ∀ (captures : List String) (i : Nat) (params : GoMap String),
      i + captures.length ≤ nameList.length →
      OnTextWith.fill nameList captures (i + 1) params
        = some (((nameList.drop i).zip captures).foldl
            (fun p kv => GoMap.set p kv.1 kv.2) params) := by
  intro captures
  induction captures with
  | nil => intro i params _; simp [OnTextWith.fill]
  | cons c captures ih =>
    intro i params hlen
    simp only [List.length_cons] at hlen
    have hi : i < nameList.length := by omega
    have hget : nameList[i]? = some (nameList[i]) := List.getElem?_eq_getElem hi
    have hdrop : nameList.drop i = nameList[i] :: nameList.drop (i + 1) :=
      List.drop_eq_getElem_cons hi
    rw [OnTextWith.fill, if_neg (by omega)]
    simp only [Nat.add_sub_cancel, hget]
    rw [ih (i + 1) _ (by omega), hdrop, List.zip_cons_cons, List.foldl_cons]

/-- What the filter of `OnTextWith` does, for every template, context and
text: the expression compiles, with one group for every name; the filter
either rejects the text and leaves the context alone, or accepts it and
replaces the parameters by the assignments of the captures to the names, made
on the empty map.  It does not panic. -/
theorem matcher_cases (template text : String) (context : BotContext) (w : W) :
    ∃ re, Compile (OnTextWith.build template).1 = some re
      ∧ groupCount re.items = (OnTextWith.build template).2.length
      ∧ ((re.MatchString text = false
          ∧ OnTextWith.matcher template context text w = (some false, context, w))
        ∨ (∃ whole captures, re.FindStringSubmatch text = whole :: captures
          ∧ captures.length = (OnTextWith.build template).2.length
          ∧ OnTextWith.matcher template context text w
              = (some true,
                  { context with
                    Params := (((OnTextWith.build template).2).zip captures).foldl
                      (fun p kv => GoMap.set p kv.1 kv.2) GoMap.make }, w))) := by
  obtain ⟨re, hre, hcount⟩ := build_groupCount template
  refine ⟨re, hre, hcount, ?_⟩
  unfold OnTextWith.matcher OnTextWith.filter
  rw [hre]
  simp only
  rcases hfind : findFrom re.items text.toList with _ | results
  · left
    have hm : re.MatchString text = false := by
      unfold Regexp.MatchString
      rw [hfind]
      rfl
    exact ⟨hm, by rw [hm]; rfl⟩
  · right
    have hm : re.MatchString text = true := by
      unfold Regexp.MatchString
      rw [hfind]
      rfl
    have hlen := findFrom_length re.items text.toList results hfind
    have hfs : re.FindStringSubmatch text = results.map String.mk := by
      unfold Regexp.FindStringSubmatch
      rw [hfind]
    cases results with
    | nil => simp at hlen
    | cons r0 rs =>
      have hcap : (rs.map String.mk).length = (OnTextWith.build template).2.length := by
        simp only [List.length_cons] at hlen
        rw [List.length_map]
        omega
      refine ⟨String.mk r0, rs.map String.mk, by rw [hfs]; rfl, hcap, ?_⟩
      rw [hm, hfs]
      simp only [Bool.not_true, Bool.false_eq_true, if_false, List.map_cons]
      have hfill : OnTextWith.fill (OnTextWith.build template).2
          (String.mk r0 :: rs.map String.mk) 0 GoMap.make
          = some ((((OnTextWith.build template).2).zip (rs.map String.mk)).foldl
              (fun p kv => GoMap.set p kv.1 kv.2) GoMap.make) := by
        rw [OnTextWith.fill, if_pos rfl]
        have := fill_assigns (OnTextWith.build template).2 (rs.map String.mk) 0 GoMap.make
          (by omega)
        simpa using this
      rw [hfill]

/-- C11. When the filter of `OnTextWith` accepts a text, the parameters of the
context afterwards are the assignments of the captures to the placeholder
names of the template, made on an empty map: a key is present exactly if it
is one of the names that `OnTextWith` collected from the template, so every
key that was present before and is no placeholder of this template is gone;
each name holds the capture of its group (the last one, if the name occurs
several times); the parameters do not depend on what the map held before; and
nothing else of the context, nor the world, is changed. -/
theorem onTextWith_replaces_params (template text : String) (context context1 : BotContext)
    (w w1 : W)
    (h : OnTextWith.matcher template context text w = (some true, context1, w1)) :
    w1 = w ∧ context1 = { context with Params := context1.Params }
    ∧ (∀ key, GoMap.get context1.Params key ≠ none ↔ key ∈ (OnTextWith.build template).2)
    ∧ (∀ key, key ∉ (OnTextWith.build template).2 → GoMap.get context1.Params key = none)
    ∧ (∃ re whole captures, Compile (OnTextWith.build template).1 = some re
        ∧ re.FindStringSubmatch text = whole :: captures
        ∧ captures.length = (OnTextWith.build template).2.length
        ∧ ∀ (i : Nat) (name capture : String),
            ((OnTextWith.build template).2)[i]? = some name → captures[i]? = some capture →
            name ∉ ((OnTextWith.build template).2).drop (i + 1) →
            GoMap.get context1.Params name = some capture)
    ∧ (∀ params0 : GoMap String,
        OnTextWith.matcher template { context with Params := params0 } text w
          = (some true, context1, w)) := by
  obtain ⟨re, hre, _, hcases⟩ := matcher_cases template text context w
  rcases hcases with ⟨_, hrej⟩ | ⟨whole, captures, hfs, hcap, hacc⟩
  · rw [hrej] at h
    cases h
  rw [hacc] at h
  simp only [Prod.mk.injEq, true_and] at h
  obtain ⟨hctx, hw⟩ := h
  have hkeys : ∀ key, GoMap.get context1.Params key ≠ none ↔
      key ∈ (OnTextWith.build template).2 := by
    intro key
    rw [← hctx]
    simp only
    rw [get_assigned_keys]
    have hfst : ((OnTextWith.build template).2.zip captures).map Prod.fst
        = (OnTextWith.build template).2 := by
      rw [List.map_fst_zip]
      omega
    rw [hfst]
    simp [GoMap.make, GoMap.get]
  refine ⟨hw.symm, by rw [← hctx], hkeys, ?_, ⟨re, whole, captures, hre, hfs, hcap, ?_⟩, ?_⟩
  · intro key hkey
    by_contra hcon
    exact hkey ((hkeys key).1 hcon)
  · intro i name capture hn hc hlast
    rw [← hctx]
    exact get_assigned_last _ captures GoMap.make i name capture hn hc hlast
  · intro params0
    obtain ⟨re2, hre2, _, hcases2⟩ :=
      matcher_cases template text { context with Params := params0 } w
    rw [hre] at hre2
    have hre3 : re2 = re := (Option.some.inj hre2).symm
    subst hre3
    rcases hcases2 with ⟨hno, _⟩ | ⟨whole2, captures2, hfs2, _, hacc2⟩
    · have : re2.MatchString text = true := by
        unfold Regexp.MatchString
        unfold Regexp.FindStringSubmatch at hfs
        rcases hf : findFrom re2.items text.toList with _ | r
        · rw [hf] at hfs; cases hfs
        · rfl
      rw [this] at hno
      cases hno
    · rw [hfs] at hfs2
      simp only [List.cons.injEq] at hfs2
      rw [hacc2, ← hctx, hfs2.2]

/-- Witness of C11: a context that already holds the keys `old` and `b`. -/
theorem onTextWith_replaces_params_witness :
    GoMap.get
        ({ TestServer.textContext "x and y" with Params := [("old", "1"), ("b", "2")] } :
          BotContext).Params "old" = some "1"
    ∧ OnTextWith.matcher "\x7b\x7ba\x7d\x7d and \x7b\x7bb\x7d\x7d"
        { TestServer.textContext "x and y" with Params := [("old", "1"), ("b", "2")] }
        "x and y" ()
        = (some true,
            { TestServer.textContext "x and y" with Params := [("a", "x"), ("b", "y")] }, ())
    ∧ GoMap.get ([("a", "x"), ("b", "y")] : GoMap String) "old" = none
    ∧ (∀ key, GoMap.get ([("a", "x"), ("b", "y")] : GoMap String) key ≠ none ↔
        key ∈ (OnTextWith.build "\x7b\x7ba\x7d\x7d and \x7b\x7bb\x7d\x7d").2) :=
  ⟨by decide, by decide, by decide,
    (onTextWith_replaces_params "\x7b\x7ba\x7d\x7d and \x7b\x7bb\x7d\x7d" "x and y"
      { TestServer.textContext "x and y" with Params := [("old", "1"), ("b", "2")] }
      { TestServer.textContext "x and y" with Params := [("a", "x"), ("b", "y")] }
      () () (by decide)).2.2.1⟩

/-! ## The caps of the action texts and the image map builder -/

theorem validateActionTexts_spec (a : AnyAction) :
    validateActionTexts a = if a.overCap then some Error.ErrorTextExceedLimit else none := by
  rcases a with (⟨label, uri⟩ | ⟨label, text⟩ | ⟨label, data, text⟩) | (⟨text, area⟩ | ⟨link, area⟩)
  · simp only [validateActionTexts, AnyAction.overCap]
  · simp only [validateActionTexts, AnyAction.overCap]
    by_cases h1 : label.length > 20
    · simp [h1]
    · simp [h1]
  · simp only [validateActionTexts, AnyAction.overCap]
    by_cases h1 : label.length > 20
    · simp [h1]
    · by_cases h2 : text.length > 300
      · simp [h1, h2]
      · simp [h1, h2]
  · simp only [validateActionTexts, AnyAction.overCap]
  · simp only [validateActionTexts, AnyAction.overCap]

/-- C22. `validateActionTexts` returns `ErrorTextExceedLimit` exactly when the
action violates a cap of its type, and nil in every other case; the lengths
are numbers of code points: a label of 20 characters of two bytes each (40
bytes) passes, one of 21 characters fails. -/
theorem validateActionTexts_exactly_over_cap (a : AnyAction) :
    (validateActionTexts a = some Error.ErrorTextExceedLimit ↔ a.overCap)
    ∧ (validateActionTexts a = none ↔ ¬ a.overCap)
    ∧ (∀ e, validateActionTexts a = some e → e = Error.ErrorTextExceedLimit)
    ∧ ("éééééééééééééééééééé".length = 20 ∧ "éééééééééééééééééééé".utf8ByteSize = 40
      ∧ validateActionTexts
          (AnyAction.template (NewURITemplateAction "éééééééééééééééééééé" "http://a")) = none
      ∧ validateActionTexts
          (AnyAction.template (NewMessageTemplateAction "éééééééééééééééééééé" "text")) = none
      ∧ validateActionTexts
          (AnyAction.template
            (NewPostbackTemplateAction "éééééééééééééééééééé" "data" "text")) = none
      ∧ validateActionTexts
          (AnyAction.template (NewURITemplateAction "ééééééééééééééééééééé" "http://a"))
          = some Error.ErrorTextExceedLimit) := by
  have h := validateActionTexts_spec a
  refine ⟨?_, ?_, ?_, by decide⟩
  · rw [h]
    by_cases hc : a.overCap <;> simp [hc]
  · rw [h]
    by_cases hc : a.overCap <;> simp [hc]
  · intro e he
    rw [h] at he
    by_cases hc : a.overCap
    · rw [if_pos hc] at he
      exact (Option.some.inj he).symm
    · rw [if_neg hc] at he
      cases he

/-- An action of the image map that passes the round of the loop of `Build`:
its area has neither width nor height 0, and its text is within the cap. -/
theorem checkActions_none_iff (actions : List ImagemapAction) :
    ImageMapBuilder.checkActions actions = none ↔
      ∀ x ∈ actions, x.area.Width ≠ 0 ∧ x.area.Height ≠ 0
        ∧ ¬ (AnyAction.imagemap x).overCap := by
  induction actions with
  | nil => simp [ImageMapBuilder.checkActions]
  | cons a rest ih =>
    rw [ImageMapBuilder.checkActions]
    by_cases hz : a.area.Width = 0 ∨ a.area.Height = 0
    · rw [if_pos hz]
      constructor
      · intro h; cases h
      · intro h
        have := h a (List.mem_cons_self _ _)
        rcases hz with hz | hz
        · exact absurd hz this.1
        · exact absurd hz this.2.1
    · rw [if_neg hz, validateActionTexts_spec]
      have hw : a.area.Width ≠ 0 := fun h => hz (Or.inl h)
      have hh : a.area.Height ≠ 0 := fun h => hz (Or.inr h)
      by_cases hc : (AnyAction.imagemap a).overCap
      · rw [if_pos hc]
        constructor
        · intro h; cases h
        · intro h
          exact absurd hc (h a (List.mem_cons_self _ _)).2.2
      · rw [if_neg hc]
        simp only [ih, List.mem_cons, forall_eq_or_imp, hw, hh, hc, ne_eq, not_false_eq_true,
          and_self, true_and]

/-- The loop of `Build` of the image map stops at the first action that does
not pass. -/
theorem checkActions_first (pre post : List ImagemapAction) (a : ImagemapAction)
    (hpre : ∀ x ∈ pre, x.area.Width ≠ 0 ∧ x.area.Height ≠ 0
      ∧ ¬ (AnyAction.imagemap x).overCap) :
    ImageMapBuilder.checkActions (pre ++ a :: post) =
      if a.area.Width = 0 ∨ a.area.Height = 0 then some Error.ErrorInvalidMapSize
      else if (AnyAction.imagemap a).overCap then some Error.ErrorTextExceedLimit
      else ImageMapBuilder.checkActions post := by
  induction pre with
  | nil =>
    rw [List.nil_append, ImageMapBuilder.checkActions, validateActionTexts_spec]
    by_cases hz : a.area.Width = 0 ∨ a.area.Height = 0
    · rw [if_pos hz, if_pos hz]
    · rw [if_neg hz, if_neg hz]
      by_cases hc : (AnyAction.imagemap a).overCap
      · rw [if_pos hc, if_pos hc]
      · rw [if_neg hc, if_neg hc]
  | cons x pre ih =>
    obtain ⟨hw, hh, hc⟩ := hpre x (List.mem_cons_self _ _)
    have hz : ¬ (x.area.Width = 0 ∨ x.area.Height = 0) := by
      rintro (h | h)
      · exact hw h
      · exact hh h
    rw [List.cons_append, ImageMapBuilder.checkActions, if_neg hz, validateActionTexts_spec,
      if_neg hc]
    exact ih (fun y hy => hpre y (List.mem_cons_of_mem _ hy))

theorem imageMapBuild_of_check (ib : ImageMapBuilder) (hact : ib.actions ≠ [])
    (hw : ib.Width ≠ 0) (hh : ib.Height ≠ 0) :
    ib.Build =
      match ImageMapBuilder.checkActions ib.actions with
      | some e => Except.error e
      | none =>
        Except.ok
          (NewImagemapMessage ib.BaseUrl ib.AltText
            { Width := ib.Width, Height := ib.Height } ib.actions) := by
  have h1 : ¬ ib.actions.length = 0 := fun h => hact (List.length_eq_zero.1 h)
  have h2 : ¬ (ib.Width = 0 ∨ ib.Height = 0) := by
    rintro (h | h)
    · exact hw h
    · exact hh h
  rw [ImageMapBuilder.Build, if_neg h1, if_neg h2]

/-- C21. The image map builder's `Build`: `ErrorNoAction` without an action;
else `ErrorInvalidMapSize` if the width or the height is 0; else, with the
actions scanned in insertion order, at the first action that does not pass,
`ErrorInvalidMapSize` if its area has width or height 0 and
`ErrorTextExceedLimit` if its text is above the cap of its type; otherwise the
image map message hand-constructed from base URL, alt text, base size and the
actions in insertion order.  `NewImageMapBuilderWith` gives the builder that
`NewImageMapBuilder` gives when filled field by field, and the two builders of
the test build the hand-constructed message. -/
theorem imageMap_build_checks_in_order (ib : ImageMapBuilder) :
    (ib.actions = [] → ib.Build = Except.error Error.ErrorNoAction)
    ∧ (ib.actions ≠ [] → ib.Width = 0 ∨ ib.Height = 0 →
        ib.Build = Except.error Error.ErrorInvalidMapSize)
    ∧ (∀ pre a post, ib.actions = pre ++ a :: post → ib.Width ≠ 0 → ib.Height ≠ 0 →
        (∀ x ∈ pre, x.area.Width ≠ 0 ∧ x.area.Height ≠ 0
          ∧ ¬ (AnyAction.imagemap x).overCap) →
        a.area.Width = 0 ∨ a.area.Height = 0 →
        ib.Build = Except.error Error.ErrorInvalidMapSize)
    ∧ (∀ pre a post, ib.actions = pre ++ a :: post → ib.Width ≠ 0 → ib.Height ≠ 0 →
        (∀ x ∈ pre, x.area.Width ≠ 0 ∧ x.area.Height ≠ 0
          ∧ ¬ (AnyAction.imagemap x).overCap) →
        a.area.Width ≠ 0 → a.area.Height ≠ 0 → (AnyAction.imagemap a).overCap →
        ib.Build = Except.error Error.ErrorTextExceedLimit)
    ∧ (ib.actions ≠ [] → ib.Width ≠ 0 → ib.Height ≠ 0 →
        (∀ x ∈ ib.actions, x.area.Width ≠ 0 ∧ x.area.Height ≠ 0
          ∧ ¬ (AnyAction.imagemap x).overCap) →
        ib.Build = Except.ok
          (NewImagemapMessage ib.BaseUrl ib.AltText
            { Width := ib.Width, Height := ib.Height } ib.actions))
    ∧ (∀ (baseUrl altText : String) (width height : Int),
        NewImageMapBuilderWith baseUrl altText width height =
          { NewImageMapBuilder with
            BaseUrl := baseUrl, AltText := altText, Width := width, Height := height })
    ∧ TestMessage.imageMapBuilder.Build = Except.ok TestMessage.imageMapMessage3
    ∧ TestMessage.imageMapBuilderWith.Build = Except.ok TestMessage.imageMapMessage3 := by
  refine ⟨?_, ?_, ?_, ?_, ?_, fun _ _ _ _ => rfl, by decide, by decide⟩
  · intro h
    rw [ImageMapBuilder.Build, if_pos (by rw [h]; rfl)]
  · intro h hz
    have h1 : ¬ ib.actions.length = 0 := fun h0 => h (List.length_eq_zero.1 h0)
    rw [ImageMapBuilder.Build, if_neg h1, if_pos hz]
  · intro pre a post hact hw hh hpre hz
    have hne : ib.actions ≠ [] := by rw [hact]; simp
    rw [imageMapBuild_of_check ib hne hw hh, hact, checkActions_first pre post a hpre,
      if_pos hz]
  · intro pre a post hact hw hh hpre haw hah hc
    have hne : ib.actions ≠ [] := by rw [hact]; simp
    have hz : ¬ (a.area.Width = 0 ∨ a.area.Height = 0) := by
      rintro (h | h)
      · exact haw h
      · exact hah h
    rw [imageMapBuild_of_check ib hne hw hh, hact, checkActions_first pre post a hpre,
      if_neg hz, if_pos hc]
  · intro hne hw hh hall
    rw [imageMapBuild_of_check ib hne hw hh, (checkActions_none_iff ib.actions).2 hall]

/-! ## The order of the rules of the carousel builder -/

theorem withinCaps_iff_not_overCap (a : TemplateAction) :
    a.withinCaps ↔ ¬ (AnyAction.template a).overCap := by
  cases a <;> simp only [TemplateAction.withinCaps, AnyAction.overCap] <;> omega

theorem validateActions_of_violation (actions : List TemplateAction)
    (h : ∃ a ∈ actions, ¬ a.withinCaps) :
    validateActions actions = some Error.ErrorTextExceedLimit := by
  induction actions with
  | nil => simp at h
  | cons a rest ih =>
    rw [validateActions]
    rcases (validateActionTexts_template a).2 with h1 | h1
    · rw [h1]
      have ha := (validateActionTexts_template a).1.mp h1
      obtain ⟨x, hx, hxc⟩ := h
      rcases List.mem_cons.1 hx with hxa | hxr
      · rw [hxa] at hxc
        exact absurd ha hxc
      · exact ih ⟨x, hxr, hxc⟩
    · rw [h1]

/-- One round of the loop of `Build` returns the error of the first rule that
the column violates, and passes on the action count of the first column if the
column violates none. -/
theorem checkColumn_rules (c : CarouselColumn) (actionCount : Int) (first : Nat)
    (hinv : actionCount = (first : Int) ∨ (actionCount = -1 ∧ c.actions.length = first)) :
    CarouselMessageBuilder.checkColumn actionCount c.handBuilt =
      match firstViolated (c.rules first) with
      | some e => Except.error e
      | none => Except.ok (first : Int) := by
  unfold CarouselMessageBuilder.checkColumn
  simp only [CarouselColumn.handBuilt, NewCarouselColumn, CarouselColumn.rules, firstViolated]
  by_cases h1 : c.actions.length > 3
  · simp [h1, List.find?]
  have hcount : (actionCount ≠ -1 ∧ actionCount ≠ (c.actions.length : Int)) ↔
      c.actions.length ≠ first := by
    rcases hinv with h | ⟨h, h2⟩
    · rw [h]
      constructor
      · intro hh heq
        exact hh.2 (by rw [heq])
      · intro hh
        exact ⟨by omega, fun heq => hh (by exact_mod_cast heq.symm)⟩
    · rw [h]
      constructor
      · intro hh
        exact absurd rfl hh.1
      · intro hh
        exact absurd h2 hh
  by_cases h2 : c.actions.length ≠ first
  · have h2' := hcount.2 h2
    simp [h1, h2, h2', List.find?]
  have h2' : ¬ (actionCount ≠ -1 ∧ actionCount ≠ (c.actions.length : Int)) :=
    fun h => h2 (hcount.1 h)
  have hfirst : (if actionCount = -1 then (c.actions.length : Int) else actionCount)
      = (first : Int) := by
    rcases hinv with h | ⟨h, h3⟩
    · rw [h, if_neg (by omega)]
    · rw [h, if_pos rfl, h3]
  rw [if_neg h1, if_neg h2']
  by_cases h3 : ∃ a ∈ c.actions, ¬ a.withinCaps
  · rw [validateActions_of_violation c.actions h3]
    simp [h1, h2, h3, List.find?]
  have h3' : ∀ a ∈ c.actions, a.withinCaps := by
    intro a ha
    by_contra hcon
    exact h3 ⟨a, ha, hcon⟩
  rw [(validateActions_none_iff c.actions).2 h3']
  simp only
  have hmax : (if c.Column.ThumbnailImageURL = "" ∨ c.Column.Title = "" then 120 else 60) =
      (if c.Column.Title ≠ "" ∧ c.Column.ThumbnailImageURL ≠ "" then 60 else 120) := by
    by_cases ha : c.Column.ThumbnailImageURL = "" <;> by_cases hb : c.Column.Title = "" <;>
      simp [ha, hb]
  rw [hmax, hfirst]
  by_cases h4 : c.Column.ThumbnailImageURL.length > 1000
  · simp [h1, h2, h3, h4, List.find?]
  by_cases h5 : c.Column.Title.length > 40
  · simp [h1, h2, h3, h4, h5, List.find?]
  by_cases h6 : c.Column.Text = ""
  · simp [h1, h2, h3, h4, h5, h6, List.find?]
  by_cases h7 : c.Column.Text.length >
      (if c.Column.Title ≠ "" ∧ c.Column.ThumbnailImageURL ≠ "" then 60 else 120)
  · simp [h1, h2, h3, h4, h5, h6, h7, List.find?]
  · simp [h1, h2, h3, h4, h5, h6, h7, List.find?]


/-- The checks of the loop of `Build` fail with the error of the first rule
violated by the first column that violates one. -/
theorem buildLoop_error_iff (first : Nat) (e : Error) :
    ∀ (cols : List CarouselColumn) (actionCount : Int) (columns : List LinebotCarouselColumn),
      (actionCount = (first : Int)
        ∨ (actionCount = -1 ∧ ∀ c, cols.head? = some c → c.actions.length = first)) →
      (checkColumns (cols.map CarouselColumn.handBuilt) actionCount columns = Except.error e ↔
        ∃ pre c post, cols = pre ++ c :: post
          ∧ (∀ x ∈ pre, firstViolated (x.rules first) = none)
          ∧ firstViolated (c.rules first) = some e) := by
  intro cols
  induction cols with
  | nil =>
    intro actionCount columns _
    simp [checkColumns]
  | cons c rest ih =>
    intro actionCount columns hinv
    have hinv2 : actionCount = (first : Int)
        ∨ (actionCount = -1 ∧ c.actions.length = first) := by
      rcases hinv with h | ⟨h, h2⟩
      · exact Or.inl h
      · exact Or.inr ⟨h, h2 c rfl⟩
    rw [List.map_cons, checkColumns, checkColumn_rules c actionCount first hinv2]
    rcases hv : firstViolated (c.rules first) with _ | e2
    · simp only
      rw [ih (first : Int) _ (Or.inl rfl)]
      constructor
      · rintro ⟨pre, x, post, hcols, hpre, hx⟩
        refine ⟨c :: pre, x, post, by rw [hcols]; rfl, ?_, hx⟩
        intro y hy
        rcases List.mem_cons.1 hy with h | h
        · rw [h]; exact hv
        · exact hpre y h
      · rintro ⟨pre, x, post, hcols, hpre, hx⟩
        cases pre with
        | nil =>
          simp only [List.nil_append, List.cons.injEq] at hcols
          rw [← hcols.1, hv] at hx
          cases hx
        | cons p pre =>
          simp only [List.cons_append, List.cons.injEq] at hcols
          exact ⟨pre, x, post, hcols.2, fun y hy => hpre y (List.mem_cons_of_mem _ hy), hx⟩
    · simp only
      constructor
      · intro h
        injection h with h
        exact ⟨[], c, rest, rfl, by simp, by rw [hv, h]⟩
      · rintro ⟨pre, x, post, hcols, hpre, hx⟩
        cases pre with
        | nil =>
          simp only [List.nil_append, List.cons.injEq] at hcols
          rw [← hcols.1, hv] at hx
          rw [Option.some.inj hx]
        | cons p pre =>
          simp only [List.cons_append, List.cons.injEq] at hcols
          have := hpre p (List.mem_cons_self _ _)
          rw [← hcols.1, hv] at this
          cases this

theorem assigned_eq_self_iff (c : CarouselColumn) :
    c.assigned = c ↔ c.Column.Actions = c.actions := by
  constructor
  · intro h
    have := congrArg (fun x : CarouselColumn => x.Column.Actions) h
    exact this.symm
  · intro h
    cases c with
    | mk base col =>
      cases col with
      | mk t ti te ac =>
        simp only [CarouselColumn.assigned]
        simp only at h
        rw [h]

theorem build_firstCount_inv (cm : CarouselMessageBuilder) :
    ∀ c, cm.deref.head? = some c → c.actions.length = cm.firstCount := by
  intro c h
  unfold CarouselMessageBuilder.firstCount
  cases hc : cm.deref with
  | nil => rw [hc] at h; cases h
  | cons x rest =>
    rw [hc] at h
    simp only [List.head?_cons, Option.some.injEq] at h
    rw [h]

theorem build_error_iff (cm : CarouselMessageBuilder) (altMsg : String) (e : Error) :
    (cm.Build altMsg).1 = Except.error e ↔
      (cm.deref.length > 5 ∧ e = Error.ErrorTooManyColumn)
      ∨ (cm.deref.length ≤ 5 ∧ ∃ pre c post, cm.deref = pre ++ c :: post
          ∧ (∀ x ∈ pre, firstViolated (x.rules cm.firstCount) = none)
          ∧ firstViolated (c.rules cm.firstCount) = some e) := by
  rw [deref_length]
  by_cases hcount : cm.columns.length > 5
  · have : (cm.Build altMsg).1 = Except.error Error.ErrorTooManyColumn := by
      unfold CarouselMessageBuilder.Build
      rw [if_pos hcount]
    rw [this]
    constructor
    · intro h
      injection h with h
      exact Or.inl ⟨hcount, h.symm⟩
    · rintro (⟨_, h⟩ | ⟨h, _⟩)
      · rw [h]
      · omega
  · have hle : cm.columns.length ≤ 5 := by omega
    rw [build_of_loop cm altMsg hle,
      ← buildLoop_error_iff cm.firstCount e cm.deref (-1) []
        (Or.inr ⟨rfl, build_firstCount_inv cm⟩)]
    constructor
    · intro h
      right
      refine ⟨hle, ?_⟩
      rcases hl : checkColumns (cm.deref.map CarouselColumn.handBuilt) (-1) [] with e2 | r
      · rw [hl] at h
        simpa using h
      · rw [hl] at h
        cases h
    · rintro (⟨h, _⟩ | ⟨_, h⟩)
      · omega
      · rw [h]

/-- C28, the claim as worded fails: a single column with empty text and 4
actions makes `Build` fail with `ErrorTooManyActions`, not with
`ErrorMissingParam`: the number of actions is checked before the text. -/
theorem carousel_empty_text_four_actions :
    (∃ c, TestMessage.carouselBuilderNoTextFour.deref = [c] ∧ c.Column.Text = ""
        ∧ c.actions.length = 4)
    ∧ (TestMessage.carouselBuilderNoTextFour.Build "altText").1
        = Except.error Error.ErrorTooManyActions
    ∧ (TestMessage.carouselBuilderNoTextFour.Build "altText").1
        ≠ Except.error Error.ErrorMissingParam := by
  refine ⟨⟨_, rfl, by decide, by decide⟩, by decide, by decide⟩

/-- C28, amended. When `Build` of the carousel builder fails, the error is that
of the first violated rule in the order in which `Build` checks the rules: the
number of columns first; then, column by column in insertion order, at most 3
actions, as many actions as the first column, action texts within their caps,
thumbnail URL length, title length, text required, text length.  The columns
are those that the pointers of the builder point to, entry by entry. -/
theorem carousel_build_first_violated_rule (cm : CarouselMessageBuilder) (altMsg : String)
    (e : Error) :
    (cm.Build altMsg).1 = Except.error e ↔
      (cm.deref.length > 5 ∧ e = Error.ErrorTooManyColumn)
      ∨ (cm.deref.length ≤ 5 ∧ ∃ pre c post, cm.deref = pre ++ c :: post
          ∧ (∀ x ∈ pre, firstViolated (x.rules cm.firstCount) = none)
          ∧ firstViolated (c.rules cm.firstCount) = some e) :=
  build_error_iff cm altMsg e

/-- The builder after `Build` of the carousel builder: the slice of pointers
and the generator are as before; in the memory, the columns at the addresses
of the entries visited have their `Actions` assigned, whichever entries point
to them. -/
theorem build_state (cm : CarouselMessageBuilder) (altMsg : String) :
    ∃ k, k ≤ cm.columns.length
      ∧ (cm.Build altMsg).2.columns = cm.columns
      ∧ (cm.Build altMsg).2.columnGenerator = cm.columnGenerator
      ∧ (∀ q, (cm.Build altMsg).2.cells q
          = if q ∈ cm.columns.take k then (cm.cells q).assigned else cm.cells q)
      ∧ (cm.columns.length > 5 → k = 0)
      ∧ (cm.columns.length ≤ 5 → ∀ e, (cm.Build altMsg).1 = Except.error e → 1 ≤ k) := by
  by_cases hcount : cm.columns.length > 5
  · refine ⟨0, Nat.zero_le _, ?_, ?_, ?_, fun _ => rfl, fun h => by omega⟩
    · unfold CarouselMessageBuilder.Build
      rw [if_pos hcount]
    · unfold CarouselMessageBuilder.Build
      rw [if_pos hcount]
    · intro q
      unfold CarouselMessageBuilder.Build
      rw [if_pos hcount]
      simp
  · obtain ⟨k, hk, hstate, herr, -⟩ := buildLoop_state cm.columns cm.cells (-1) []
    have hbuild : (cm.Build altMsg).2
        = { cm with
            cells := (CarouselMessageBuilder.buildLoop cm.columns cm.cells (-1) []).2 } := by
      unfold CarouselMessageBuilder.Build
      rw [if_neg hcount]
      rcases CarouselMessageBuilder.buildLoop cm.columns cm.cells (-1) []
        with ⟨e | r, cells1⟩ <;> rfl
    have hres : ∀ e, (cm.Build altMsg).1 = Except.error e →
        (CarouselMessageBuilder.buildLoop cm.columns cm.cells (-1) []).1 = Except.error e := by
      intro e
      unfold CarouselMessageBuilder.Build
      rw [if_neg hcount]
      rcases CarouselMessageBuilder.buildLoop cm.columns cm.cells (-1) []
        with ⟨e2 | r, cells1⟩
      · intro h
        simpa using h
      · intro h
        cases h
    refine ⟨k, hk, by rw [hbuild], by rw [hbuild], ?_, fun h => absurd h hcount, ?_⟩
    · intro q
      rw [hbuild]
      exact hstate q
    · intro _ e h
      exact herr e (hres e h)

/-- C24, the claim as worded fails for the carousel builder: the builder of
the test with one column, two actions and no text fails with
`ErrorMissingParam`, and after the call the `Actions` field of the column,
empty before, holds the two actions.  A builder with two entries that are one
column, as `GenerateColumnsWith` makes them from two action templates, fails
at its first entry, and after the call both entries show the two actions. -/
theorem carousel_failed_build_changes_actions :
    (TestMessage.carouselBuilderNoText.Build "altText").1
        = Except.error Error.ErrorMissingParam
    ∧ (TestMessage.carouselBuilderNoText.Build "altText").2.deref
        ≠ TestMessage.carouselBuilderNoText.deref
    ∧ TestMessage.carouselBuilderNoText.deref.map (fun c => c.Column.Actions) = [[]]
    ∧ (TestMessage.carouselBuilderNoText.Build "altText").2.deref.map
        (fun c => c.Column.Actions)
        = [[NewMessageTemplateAction "Message" "test",
            NewURITemplateAction "Google" "http://www.google.com"]]
    ∧ TestMessage.carouselBuilderGeneratedTwice.columns = [0, 0]
    ∧ (TestMessage.carouselBuilderGeneratedTwice.Build "altText").1
        = Except.error Error.ErrorMissingParam
    ∧ TestMessage.carouselBuilderGeneratedTwice.deref.map (fun c => c.Column.Actions.length)
        = [0, 0]
    ∧ (TestMessage.carouselBuilderGeneratedTwice.Build "altText").2.deref.map
        (fun c => c.Column.Actions.length) = [2, 2] := by
  decide

/-- C24, amended. The button, confirm and image map builders' `Build` assign
nothing to the builder.  A `Build` of the carousel builder that fails leaves
the slice of pointers and the column generator as they were, and in the memory
of the columns it has changed nothing but the `Actions` fields of the columns
it has visited, which it has set to the accumulated actions of their column:
none when it fails on the number of columns, else the columns that the entries
up to and including the one at which it fails point to.  An entry of the slice
shows the assignment exactly if its pointer is one of the pointers visited, be
it at a later place of the slice.  The thumbnail, title, text and accumulated
actions of every column are as before, and the columns are all as before
exactly if the `Actions` fields of the visited columns already held the
accumulated actions. -/
theorem carousel_failed_build_assigns_visited_actions (cm : CarouselMessageBuilder)
    (altMsg : String) (e : Error) (h : (cm.Build altMsg).1 = Except.error e) :
    ∃ k, k ≤ cm.columns.length
      ∧ (cm.columns.length > 5 → k = 0) ∧ (cm.columns.length ≤ 5 → 1 ≤ k)
      ∧ (cm.Build altMsg).2.columns = cm.columns
      ∧ (cm.Build altMsg).2.columnGenerator = cm.columnGenerator
      ∧ (∀ q, (cm.Build altMsg).2.cells q
          = if q ∈ cm.columns.take k then (cm.cells q).assigned else cm.cells q)
      ∧ (cm.Build altMsg).2.deref
          = cm.columns.map
              (fun q => if q ∈ cm.columns.take k then (cm.cells q).assigned else cm.cells q)
      ∧ (cm.Build altMsg).2.deref.map
            (fun c => (c.actions, c.Column.ThumbnailImageURL, c.Column.Title, c.Column.Text))
          = cm.deref.map
            (fun c => (c.actions, c.Column.ThumbnailImageURL, c.Column.Title, c.Column.Text))
      ∧ ((cm.Build altMsg).2.deref = cm.deref
          ↔ ∀ q ∈ cm.columns.take k, (cm.cells q).Column.Actions = (cm.cells q).actions)
      ∧ ((∀ q, (cm.Build altMsg).2.cells q = cm.cells q)
          ↔ ∀ q ∈ cm.columns.take k, (cm.cells q).Column.Actions = (cm.cells q).actions) := by
  obtain ⟨k, hk, hcols, hgen, hcells, hmany, hfew⟩ := build_state cm altMsg
  have hderef : (cm.Build altMsg).2.deref
      = cm.columns.map
          (fun q => if q ∈ cm.columns.take k then (cm.cells q).assigned else cm.cells q) := by
    unfold CarouselMessageBuilder.deref
    rw [hcols]
    apply List.map_congr_left
    intro q _
    exact hcells q
  refine ⟨k, hk, hmany, fun hle => hfew hle e h, hcols, hgen, hcells, hderef, ?_, ?_, ?_⟩
  · rw [hderef]
    unfold CarouselMessageBuilder.deref
    rw [List.map_map, List.map_map]
    apply List.map_congr_left
    intro q _
    simp only [Function.comp]
    split <;> rfl
  · rw [hderef]
    unfold CarouselMessageBuilder.deref
    constructor
    · intro heq q hq
      have hmem : q ∈ cm.columns := List.mem_of_mem_take hq
      have := List.map_inj_left.1 heq q hmem
      rw [if_pos hq] at this
      exact (assigned_eq_self_iff _).1 this
    · intro hall
      apply List.map_congr_left
      intro q _
      by_cases hq : q ∈ cm.columns.take k
      · rw [if_pos hq]
        exact (assigned_eq_self_iff _).2 (hall q hq)
      · rw [if_neg hq]
  · constructor
    · intro heq q hq
      have := heq q
      rw [hcells q, if_pos hq] at this
      exact (assigned_eq_self_iff _).1 this
    · intro hall q
      rw [hcells q]
      by_cases hq : q ∈ cm.columns.take k
      · rw [if_pos hq]
        exact (assigned_eq_self_iff _).2 (hall q hq)
      · rw [if_neg hq]

theorem carousel_failed_build_assigns_visited_actions_witness :
    (TestMessage.carouselBuilderGeneratedTwice.Build "altText").1
        = Except.error Error.ErrorMissingParam
    ∧ ∃ k, k ≤ TestMessage.carouselBuilderGeneratedTwice.columns.length
      ∧ (TestMessage.carouselBuilderGeneratedTwice.Build "altText").2.deref
          = TestMessage.carouselBuilderGeneratedTwice.columns.map
              (fun q =>
                if q ∈ TestMessage.carouselBuilderGeneratedTwice.columns.take k then
                  (TestMessage.carouselBuilderGeneratedTwice.cells q).assigned
                else TestMessage.carouselBuilderGeneratedTwice.cells q) :=
  ⟨by decide,
    (carousel_failed_build_assigns_visited_actions TestMessage.carouselBuilderGeneratedTwice
      "altText" Error.ErrorMissingParam (by decide)).imp
        fun _ hk => ⟨hk.1, hk.2.2.2.2.2.2.1⟩⟩

/-! ## Which builders check the caps of the action texts -/

theorem exists_first_mem {α : Type} (P : α → Prop) :
    ∀ (l : List α), (∃ x ∈ l, P x) →
      ∃ pre c post, l = pre ++ c :: post ∧ (∀ x ∈ pre, ¬ P x) ∧ P c := by
  intro l
  induction l with
  | nil => intro h; simp at h
  | cons a rest ih =>
    intro h
    by_cases ha : P a
    · exact ⟨[], a, rest, rfl, by simp, ha⟩
    · obtain ⟨x, hx, hpx⟩ := h
      rcases List.mem_cons.1 hx with hxa | hxr
      · rw [hxa] at hpx
        exact absurd hpx ha
      · obtain ⟨pre, c, post, hl, hpre, hc⟩ := ih ⟨x, hxr, hpx⟩
        refine ⟨a :: pre, c, post, by rw [hl]; rfl, ?_, hc⟩
        intro y hy
        rcases List.mem_cons.1 hy with h1 | h1
        · rw [h1]; exact ha
        · exact hpre y h1

theorem firstViolated_rules (c : CarouselColumn) (first : Nat) (hv : c.validButCaps)
    (hcount : c.actions.length = first) :
    firstViolated (c.rules first) =
      if ∃ a ∈ c.actions, ¬ a.withinCaps then some Error.ErrorTextExceedLimit else none := by
  subst hcount
  obtain ⟨h1, h2, h3, h4, h5⟩ := hv
  have h2' : ¬ c.actions.length > 3 := by omega
  have h3' : ¬ c.Column.ThumbnailImageURL.length > 1000 := by omega
  have h4' : ¬ c.Column.Title.length > 40 := by omega
  have h5' : ¬ c.Column.Text.length >
      (if c.Column.Title ≠ "" ∧ c.Column.ThumbnailImageURL ≠ "" then 60 else 120) := by omega
  by_cases hc : ∃ a ∈ c.actions, ¬ a.withinCaps
  · rw [if_pos hc]
    simp [CarouselColumn.rules, firstViolated, List.find?, h2', hc]
  · rw [if_neg hc]
    simp [CarouselColumn.rules, firstViolated, List.find?, h2', hc, h3', h4', h1, h5']

/-- Which `Build` checks the caps of the action texts.  A carousel builder that
satisfies its other rules, and an image map builder that satisfies its other
rules, fail with `ErrorTextExceedLimit` when an accumulated action exceeds a
cap of its type.  A button builder and a confirm builder that satisfy their
other rules build their message whatever the texts of their actions are. -/
theorem action_caps_by_builder :
    (∀ (cm : CarouselMessageBuilder) (altMsg : String), cm.deref.length ≤ 5 →
      (∀ c ∈ cm.deref, c.validButCaps) →
      (∀ c1 ∈ cm.deref, ∀ c2 ∈ cm.deref, c1.actions.length = c2.actions.length) →
      (∃ c ∈ cm.deref, ∃ a ∈ c.actions, (AnyAction.template a).overCap) →
      (cm.Build altMsg).1 = Except.error Error.ErrorTextExceedLimit)
    ∧ (∀ ib : ImageMapBuilder, ib.Width ≠ 0 → ib.Height ≠ 0 →
      (∀ x ∈ ib.actions, x.area.Width ≠ 0 ∧ x.area.Height ≠ 0) →
      (∃ a ∈ ib.actions, (AnyAction.imagemap a).overCap) →
      ib.Build = Except.error Error.ErrorTextExceedLimit)
    ∧ (∀ (parse : UrlParse) (b : ButtonMessageBuilder) (altMsg : String), b.text ≠ "" →
      b.secureThumbnail parse → b.title.length ≤ 40 →
      b.text.length ≤ (if b.title ≠ "" ∧ b.thumbnailImageUrl ≠ "" then 60 else 160) →
      b.actions.length ≤ 4 →
      ButtonMessageBuilder.Build parse b altMsg =
        Except.ok (NewTemplateMessage altMsg
          (NewButtonsTemplate b.thumbnailImageUrl b.title b.text b.actions)))
    ∧ (∀ (b : ConfirmMessageBuilder) (altMsg : String), b.text ≠ "" → b.text.length ≤ 240 →
      b.actions.length ≤ 2 →
      ConfirmMessageBuilder.Build b altMsg =
        Except.ok (NewTemplateMessage altMsg (NewConfirmTemplate b.text b.actions))) := by
  refine ⟨?_, ?_, ?_, ?_⟩
  · intro cm altMsg hcount hvalid hsame hover
    have hover2 : ∃ c ∈ cm.deref, ∃ a ∈ c.actions, ¬ a.withinCaps := by
      obtain ⟨c, hc, a, ha, hcap⟩ := hover
      exact ⟨c, hc, a, ha, fun h => (withinCaps_iff_not_overCap a).1 h hcap⟩
    obtain ⟨pre, c, post, hcols, hpre, hc⟩ :=
      exists_first_mem (fun c : CarouselColumn => ∃ a ∈ c.actions, ¬ a.withinCaps)
        cm.deref hover2
    have hfirst : ∀ x ∈ cm.deref, x.actions.length = cm.firstCount := by
      intro x hx
      unfold CarouselMessageBuilder.firstCount
      cases hcm : cm.deref with
      | nil => rw [hcm] at hx; cases hx
      | cons y rest =>
        simp only
        exact hsame x hx y (by rw [hcm]; exact List.mem_cons_self _ _)
    rw [build_error_iff]
    right
    refine ⟨hcount, pre, c, post, hcols, ?_, ?_⟩
    · intro x hx
      have hxm : x ∈ cm.deref := by rw [hcols]; exact List.mem_append_left _ hx
      rw [firstViolated_rules x _ (hvalid x hxm) (hfirst x hxm), if_neg (hpre x hx)]
    · have hcm : c ∈ cm.deref := by
        rw [hcols]
        exact List.mem_append_right _ (List.mem_cons_self _ _)
      rw [firstViolated_rules c _ (hvalid c hcm) (hfirst c hcm), if_pos hc]
  · intro ib hw hh harea hover
    obtain ⟨pre, a, post, hact, hpre, ha⟩ :=
      exists_first_mem (fun a : ImagemapAction => (AnyAction.imagemap a).overCap)
        ib.actions hover
    have hne : ib.actions ≠ [] := by rw [hact]; simp
    have ham : a ∈ ib.actions := by
      rw [hact]
      exact List.mem_append_right _ (List.mem_cons_self _ _)
    have hz : ¬ (a.area.Width = 0 ∨ a.area.Height = 0) := by
      rintro (h | h)
      · exact (harea a ham).1 h
      · exact (harea a ham).2 h
    rw [imageMapBuild_of_check ib hne hw hh, hact, checkActions_first pre post a
      (fun x hx => ⟨(harea x (by rw [hact]; exact List.mem_append_left _ hx)).1,
        (harea x (by rw [hact]; exact List.mem_append_left _ hx)).2, hpre x hx⟩),
      if_neg hz, if_pos ha]
  · intro parse b altMsg htext hurl htitle hlen hact
    have ht : ¬ b.title.length > 40 := by omega
    have ha : ¬ b.actions.length > 4 := by omega
    rw [buttonBuild_after_url parse b altMsg htext hurl]
    by_cases h1 : b.title = "" ∨ b.thumbnailImageUrl = ""
    · have h2 : ¬ (b.title ≠ "" ∧ b.thumbnailImageUrl ≠ "") := by
        rintro ⟨ha, hb⟩
        rcases h1 with h | h
        · exact ha h
        · exact hb h
      rw [if_neg h2] at hlen
      have hl : ¬ b.text.length > 160 := by omega
      simp [ht, h1, hl, ha, NewTemplateMessage, NewButtonsTemplate]
    · have h2 : b.title ≠ "" ∧ b.thumbnailImageUrl ≠ "" :=
        ⟨fun h => h1 (Or.inl h), fun h => h1 (Or.inr h)⟩
      rw [if_pos h2] at hlen
      have hl : ¬ b.text.length > 60 := by omega
      simp [ht, h1, hl, ha, NewTemplateMessage, NewButtonsTemplate]
  · intro b altMsg h1 h2 h3
    rw [ConfirmMessageBuilder.Build, if_neg h1, if_neg (by omega), if_neg (by omega)]
    rfl

/-- C23. `Build` of the button builder and `Build` of the confirm builder do
not check the texts of the accumulated actions: a button builder and a confirm
builder that satisfy the other rules of their `Build` get their message,
whatever the texts of their actions are, so never `ErrorTextExceedLimit` for an
action.  The button builder of the test with a message action whose label has
21 code points builds its message, and so does a confirm builder with a
postback action whose data has 301 code points.  `Build` of the carousel
builder and of the image map builder do check the caps: with the other rules
satisfied they fail with `ErrorTextExceedLimit` when an action exceeds a cap
of its type, as the carousel column that holds the message action with the
label of 21 code points does. -/
theorem button_confirm_build_skip_action_caps :
    (∀ (parse : UrlParse) (b : ButtonMessageBuilder) (altMsg : String), b.text ≠ "" →
      b.secureThumbnail parse → b.title.length ≤ 40 →
      b.text.length ≤ (if b.title ≠ "" ∧ b.thumbnailImageUrl ≠ "" then 60 else 160) →
      b.actions.length ≤ 4 →
      ButtonMessageBuilder.Build parse b altMsg =
          Except.ok (NewTemplateMessage altMsg
            (NewButtonsTemplate b.thumbnailImageUrl b.title b.text b.actions))
        ∧ ButtonMessageBuilder.Build parse b altMsg ≠ Except.error Error.ErrorTextExceedLimit)
    ∧ (∀ (b : ConfirmMessageBuilder) (altMsg : String), b.text ≠ "" → b.text.length ≤ 240 →
      b.actions.length ≤ 2 →
      ConfirmMessageBuilder.Build b altMsg =
          Except.ok (NewTemplateMessage altMsg (NewConfirmTemplate b.text b.actions))
        ∧ ConfirmMessageBuilder.Build b altMsg ≠ Except.error Error.ErrorTextExceedLimit)
    ∧ (∃ a ∈ TestMessage.buttonBuilderLongLabel.actions, (AnyAction.template a).overCap)
    ∧ ButtonMessageBuilder.Build TestMessage.parse TestMessage.buttonBuilderLongLabel "AltText"
        = Except.ok (NewTemplateMessage "AltText"
            (NewButtonsTemplate TestMessage.httpsImage "Leaky Bucket" "For test"
              [NewMessageTemplateAction "123456789012345678901" "test1"]))
    ∧ (∃ a ∈ TestMessage.confirmBuilderLongData.actions, (AnyAction.template a).overCap)
    ∧ ConfirmMessageBuilder.Build TestMessage.confirmBuilderLongData "AltText"
        = Except.ok (NewTemplateMessage "AltText"
            (NewConfirmTemplate "test"
              [NewPostbackTemplateAction "test2" (String.mk (List.replicate 301 'd'))
                "test2"]))
    ∧ (∀ (cm : CarouselMessageBuilder) (altMsg : String), cm.deref.length ≤ 5 →
      (∀ c ∈ cm.deref, c.validButCaps) →
      (∀ c1 ∈ cm.deref, ∀ c2 ∈ cm.deref, c1.actions.length = c2.actions.length) →
      (∃ c ∈ cm.deref, ∃ a ∈ c.actions, (AnyAction.template a).overCap) →
      (cm.Build altMsg).1 = Except.error Error.ErrorTextExceedLimit)
    ∧ (∀ ib : ImageMapBuilder, ib.Width ≠ 0 → ib.Height ≠ 0 →
      (∀ x ∈ ib.actions, x.area.Width ≠ 0 ∧ x.area.Height ≠ 0) →
      (∃ a ∈ ib.actions, (AnyAction.imagemap a).overCap) →
      ib.Build = Except.error Error.ErrorTextExceedLimit)
    ∧ TestMessage.carouselBuilderLongLabel.deref.map (fun c => c.actions)
        = [[NewMessageTemplateAction "123456789012345678901" "test1"]]
    ∧ (TestMessage.carouselBuilderLongLabel.Build "AltText").1
        = Except.error Error.ErrorTextExceedLimit := by
  obtain ⟨hcar, himg, hbut, hconf⟩ := action_caps_by_builder
  refine ⟨?_, ?_, by decide, by decide, ?_, rfl, hcar, himg, by decide, by decide⟩
  · intro parse b altMsg h1 h2 h3 h4 h5
    have := hbut parse b altMsg h1 h2 h3 h4 h5
    exact ⟨this, by rw [this]; exact fun h => Except.noConfusion h⟩
  · intro b altMsg h1 h2 h3
    have := hconf b altMsg h1 h2 h3
    exact ⟨this, by rw [this]; exact fun h => Except.noConfusion h⟩
  · refine ⟨NewPostbackTemplateAction "test2" (String.mk (List.replicate 301 'd')) "test2",
      List.mem_singleton.2 rfl, ?_⟩
    right
    right
    show (List.replicate 301 'd').length > 300
    rw [List.length_replicate]
    omega

/-! ## The column generator -/

theorem actionsLoop_append {D : Type} (lib : TemplateLib D) (d : D) :
    ∀ (templs rest : List ActionTempate) (actions : List TemplateAction) (appended : Nat),
      ColumnTemplate.actionsLoop lib d (templs ++ rest) actions appended =
        ColumnTemplate.actionsLoop lib d rest
          (ColumnTemplate.actionsLoop lib d templs actions appended).1
          (ColumnTemplate.actionsLoop lib d templs actions appended).2 := by
  intro templs
  induction templs with
  | nil => intro rest actions appended; rfl
  | cons t templs ih =>
    intro rest actions appended
    simp only [List.cons_append, ColumnTemplate.actionsLoop]
    exact ih rest _ _

theorem actionsLoop_count {D : Type} (lib : TemplateLib D) (d : D) :
    ∀ (templs : List ActionTempate) (actions : List TemplateAction) (appended : Nat),
      (ColumnTemplate.actionsLoop lib d templs actions appended).2
        = appended + templs.length := by
  intro templs
  induction templs with
  | nil => intro actions appended; rfl
  | cons t templs ih =>
    intro actions appended
    simp only [ColumnTemplate.actionsLoop, List.length_cons]
    rw [ih]
    omega

/-- The slice that the outer loop of `generate` returns: the address of the
column of every record, in the order of the records, once for every action
template. -/
theorem generateLoop_pointers {D : Type} (lib : TemplateLib D) (ct : ColumnTemplate) :
    ∀ (records : List D) (cells : ColumnCells) (fresh : Nat) (columns : List Nat),
      (ColumnTemplate.generateLoop lib ct records cells fresh columns).1 =
        columns ++ (List.range records.length).flatMap (fun i =>
          List.replicate ct.actionsTemplates.length (fresh + i)) := by
  intro records
  induction records with
  | nil => intro cells fresh columns; simp [ColumnTemplate.generateLoop]
  | cons d rest ih =>
    intro cells fresh columns
    simp only [ColumnTemplate.generateLoop, List.length_cons]
    rw [ih, actionsLoop_count, Nat.zero_add, List.append_assoc, List.range_succ_eq_map,
      List.flatMap_cons, Nat.add_zero, List.flatMap_map]
    congr 2
    apply List.flatMap_congr
    intro i _
    simp only [Function.comp, Nat.succ_eq_add_one]
    rw [Nat.add_assoc, Nat.add_comm 1 i]

/-- The outer loop of `generate` leaves the columns in use alone: it writes at
the addresses from `fresh` on only. -/
theorem generateLoop_below {D : Type} (lib : TemplateLib D) (ct : ColumnTemplate) :
    ∀ (records : List D) (cells : ColumnCells) (fresh : Nat) (columns : List Nat) (q : Nat),
      q < fresh →
      (ColumnTemplate.generateLoop lib ct records cells fresh columns).2 q = cells q := by
  intro records
  induction records with
  | nil => intro cells fresh columns q _; rfl
  | cons d rest ih =>
    intro cells fresh columns q hq
    simp only [ColumnTemplate.generateLoop]
    rw [ih _ _ _ q (by omega), storeColumn_other _ _ _ _ (by omega)]

/-- The columns that the pointers of the slice show when the outer loop of
`generate` is over: the column of every record, in the order of the records,
once for every action template, each with all the actions. -/
theorem generateLoop_eq {D : Type} (lib : TemplateLib D) (ct : ColumnTemplate) :
    ∀ (records : List D) (cells : ColumnCells) (fresh : Nat) (columns : List Nat),
      (∀ p ∈ columns, p < fresh) →
      (ColumnTemplate.generateLoop lib ct records cells fresh columns).1.map
          (ColumnTemplate.generateLoop lib ct records cells fresh columns).2 =
        columns.map cells ++ records.flatMap (fun d =>
          List.replicate ct.actionsTemplates.length
            (ColumnTemplate.column lib ct d
              (ColumnTemplate.actionsLoop lib d ct.actionsTemplates [] 0).1)) := by
  intro records
  induction records with
  | nil => intro cells fresh columns _; simp [ColumnTemplate.generateLoop]
  | cons d rest ih =>
    intro cells fresh columns hcols
    simp only [ColumnTemplate.generateLoop, List.flatMap_cons]
    rw [ih, actionsLoop_count, Nat.zero_add, List.map_append, List.map_replicate,
      storeColumn_same, List.append_assoc]
    · congr 1
      apply List.map_congr_left
      intro p hp
      exact storeColumn_other _ _ _ _ (by have := hcols p hp; omega)
    · intro p hp
      rcases List.mem_append.1 hp with h | h
      · have := hcols p h
        omega
      · rw [List.eq_of_mem_replicate h]
        omega

theorem length_flatMap_replicate {α β : Type} (k : Nat) (f : α → β) (l : List α) :
    (l.flatMap (fun d => List.replicate k (f d))).length = l.length * k := by
  induction l with
  | nil => simp
  | cons a l ih =>
    simp only [List.flatMap_cons, List.length_append, List.length_replicate, ih,
      List.length_cons]
    rw [Nat.succ_mul]
    omega

theorem generated_eq {D : Type} (lib : TemplateLib D) (ct : ColumnTemplate)
    (records : List D) (cells : ColumnCells) (fresh : Nat) :
    ColumnTemplate.generated lib ct (some records) cells fresh =
      Except.ok (records.flatMap (fun d =>
        List.replicate ct.actionsTemplates.length
          (ColumnTemplate.column lib ct d
            (ColumnTemplate.actionsLoop lib d ct.actionsTemplates [] 0).1))) := by
  simp only [ColumnTemplate.generated, ColumnTemplate.generate]
  rw [generateLoop_eq lib ct records cells fresh [] (by simp)]
  simp

/-- C25. `generate` appends the pointer to the column of a record once for
every action template, inside the loop over the action templates: from `n`
records and `k` action templates it returns `n * k` entries, the pointer to
each record's column `k` times, and every entry shows its column with all `k`
actions; so no column at all without an action template and each column twice
with two.  The columns are newly allocated, and the columns in use before are
untouched.  With exactly one action template it returns one column for each
record, and the carousel of the test, built from one message action template
and three records, is the hand-constructed one. -/
theorem generate_returns_column_per_action_template {D : Type} (lib : TemplateLib D)
    (ct : ColumnTemplate) (records : List D) (cells : ColumnCells) (fresh : Nat) :
    (ColumnTemplate.generate lib ct (some records) cells fresh).1 =
        Except.ok ((List.range records.length).flatMap (fun i =>
          List.replicate ct.actionsTemplates.length (fresh + i)))
    ∧ ColumnTemplate.generated lib ct (some records) cells fresh =
        Except.ok (records.flatMap (fun d =>
          List.replicate ct.actionsTemplates.length
            (ColumnTemplate.column lib ct d
              (ColumnTemplate.actionsLoop lib d ct.actionsTemplates [] 0).1)))
    ∧ (∀ q, q < fresh →
        (ColumnTemplate.generate lib ct (some records) cells fresh).2 q = cells q)
    ∧ (∀ cols, (ColumnTemplate.generate lib ct (some records) cells fresh).1 = Except.ok cols →
        cols.length = records.length * ct.actionsTemplates.length)
    ∧ (ct.actionsTemplates = [] →
        (ColumnTemplate.generate lib ct (some records) cells fresh).1 = Except.ok [])
    ∧ ColumnTemplate.generated TestMessage.lib TestMessage.noActionTemplate
        (some TestMessage.data) NewCarouselMessageBuilder.cells 0 = Except.ok []
    ∧ (ColumnTemplate.generate TestMessage.lib TestMessage.twoActionsTemplate
        (some TestMessage.data) NewCarouselMessageBuilder.cells 0).1
        = Except.ok [0, 0, 1, 1, 2, 2]
    ∧ ((TestMessage.generatorBuilder.GenerateColumnsWith TestMessage.lib
          (some TestMessage.data)).2.Build "altText").1
        = Except.ok TestMessage.generatorMessage2 := by
  have hgen : (ColumnTemplate.generate lib ct (some records) cells fresh).1 =
      Except.ok ((List.range records.length).flatMap (fun i =>
        List.replicate ct.actionsTemplates.length (fresh + i))) := by
    simp only [ColumnTemplate.generate, generateLoop_pointers, List.nil_append]
  refine ⟨hgen, generated_eq lib ct records cells fresh, ?_, ?_, ?_, by decide, by decide,
    by decide⟩
  · intro q hq
    simp only [ColumnTemplate.generate]
    exact generateLoop_below lib ct records cells fresh [] q hq
  · intro cols h
    rw [hgen] at h
    injection h with h
    rw [← h, length_flatMap_replicate, List.length_range]
  · intro h0
    rw [hgen, h0]
    simp

/-- C29. `WithPostbackAction(label, data, text)` stores an action template of
type message whose text template is parsed from `label`, not from `text`: the
action it adds to a generated column is the message action with the rendering
of `label` as label and as text, and no postback action; `data` and `text` do
not show in it.  With strings without placeholder, which render as they are,
`WithPostbackAction("test2", "I'm data", "test3")` yields the message action
`("test2", "test2")`. -/
theorem withPostbackAction_generates_message_action {D : Type} (lib : TemplateLib D)
    (ct : ColumnTemplate) (label data text : String) (d : D) (cells : ColumnCells)
    (fresh : Nat) :
    (ColumnTemplate.actionsLoop lib d
        (ct.WithPostbackAction lib label data text).actionsTemplates [] 0).1
      = (ColumnTemplate.actionsLoop lib d ct.actionsTemplates [] 0).1
          ++ [NewMessageTemplateAction (lib.render (lib.parsed "label" label) d)
                (lib.render (lib.parsed "text" label) d)]
    ∧ ColumnTemplate.generated lib (newColumnTemplate.WithPostbackAction lib label data text)
        (some [d]) cells fresh
      = Except.ok
          [{ actions := [NewMessageTemplateAction (lib.render (lib.parsed "label" label) d)
                          (lib.render (lib.parsed "text" label) d)],
             Column := { ThumbnailImageURL := "", Title := "", Text := "", Actions := [] } }]
    ∧ ColumnTemplate.generated TestMessage.lib TestMessage.postbackTemplate
        (some [{ Index := "1", Name := "John" }]) NewCarouselMessageBuilder.cells 0
      = Except.ok
          [{ actions := [NewMessageTemplateAction "test2" "test2"],
             Column :=
              { ThumbnailImageURL := "", Title := "", Text := "Hi John", Actions := [] } }]
    ∧ NewMessageTemplateAction "test2" "test2"
        ≠ NewPostbackTemplateAction "test2" "I'm data" "test3" := by
  refine ⟨?_, ?_, by decide, by decide⟩
  · simp only [ColumnTemplate.WithPostbackAction]
    rw [actionsLoop_append]
    simp only [ColumnTemplate.actionsLoop, ActionTempate.appendAction, if_true]
  · rw [generated_eq]
    simp only [ColumnTemplate.WithPostbackAction, newColumnTemplate, List.nil_append,
      ColumnTemplate.actionsLoop, ActionTempate.appendAction, if_true,
      List.flatMap_cons, List.flatMap_nil, List.length_singleton, List.replicate,
      ColumnTemplate.column, TemplateLib.render, List.append_nil]

/-! ## The cached user profile -/

/-- On a context that holds a profile, `GetUser` returns it and touches
neither the context nor the world, whatever the client is. -/
theorem GetUser_cached (cl : Client W) (c : BotContext) (w : W) (profile : UserProfile)
    (h : c.userProfile = some profile) :
    BotContext.GetUser cl c w = (some (Except.ok profile), c, w) := by
  unfold BotContext.GetUser
  rw [h]

theorem GetUserTimes_cached (cl : Client W) (c : BotContext) (profile : UserProfile)
    (h : c.userProfile = some profile) :
    ∀ (n : Nat) (w : W),
      BotContext.GetUserTimes cl n c w = (List.replicate n (some (Except.ok profile)), c, w) := by
  intro n
  induction n with
  | zero => intro w; rfl
  | succ n ih =>
    intro w
    rw [BotContext.GetUserTimes, GetUser_cached cl c w profile h]
    simp only
    rw [ih w]
    rfl

/-- What one call of `GetUser` does on a context without profile. -/
theorem GetUser_fetch (cl : Client W) (c : BotContext) (w : W) (h : c.userProfile = none) :
    (c.Event.Source = none ∧ BotContext.GetUser cl c w = (none, c, w))
    ∨ (∃ source, c.Event.Source = some source ∧ source.UserID = ""
        ∧ BotContext.GetUser cl c w = (some (Except.error Error.ErrorInvalidUserId), c, w))
    ∨ (∃ source e w1, c.Event.Source = some source ∧ source.UserID ≠ ""
        ∧ cl.GetProfile source.UserID w = (Except.error e, w1)
        ∧ BotContext.GetUser cl c w = (some (Except.error e), c, w1))
    ∨ (∃ source resp w1, c.Event.Source = some source ∧ source.UserID ≠ ""
        ∧ cl.GetProfile source.UserID w = (Except.ok resp, w1)
        ∧ BotContext.GetUser cl c w
          = (some (Except.ok
                { Id := resp.UserID, Name := resp.DisplayName, Picture := resp.PictureURL,
                  Status := resp.StatusMessage }),
              { c with
                userProfile := some
                  { Id := resp.UserID, Name := resp.DisplayName, Picture := resp.PictureURL,
                    Status := resp.StatusMessage } }, w1)) := by
  unfold BotContext.GetUser
  rw [h]
  rcases hs : c.Event.Source with _ | source
  · exact Or.inl ⟨rfl, rfl⟩
  · right
    by_cases hid : source.UserID = ""
    · exact Or.inl ⟨source, rfl, hid, by simp [hid]⟩
    · right
      rcases hp : cl.GetProfile source.UserID w with ⟨e | resp, w1⟩
      · exact Or.inl ⟨source, e, w1, rfl, hid, hp, by simp [hid, hp]⟩
      · exact Or.inr ⟨source, resp, w1, rfl, hid, hp, by simp [hid, hp]⟩

theorem fetchLog_GetProfile (cl : Client W) (id : String) (w : W) (log : List ProfileFetch) :
    cl.fetchLog.GetProfile id (w, log) =
      ((cl.GetProfile id w).1,
        ((cl.GetProfile id w).2, log ++ [{ userId := id, res := (cl.GetProfile id w).1 }])) :=
  rfl

/-- The calls of the profile endpoint during a sequence of `GetUser` calls:
failed fetches, followed by at most one successful fetch. -/
theorem GetUserTimes_fetches (cl : Client W) :
    ∀ (n : Nat) (c : BotContext) (w : W) (log : List ProfileFetch),
      ∃ fails last,
        (BotContext.GetUserTimes cl.fetchLog n c (w, log)).2.2.2 = log ++ fails ++ last
        ∧ (∀ f ∈ fails, f.failed = true)
        ∧ last.length ≤ 1 ∧ (∀ f ∈ last, f.failed = false)
        ∧ fails.length + last.length ≤ n
        ∧ (c.userProfile ≠ none → fails = [] ∧ last = []) := by
  intro n
  induction n with
  | zero =>
    intro c w log
    exact ⟨[], [], by simp [BotContext.GetUserTimes], by simp, by simp, by simp, by simp,
      fun _ => ⟨rfl, rfl⟩⟩
  | succ n ih =>
    intro c w log
    rcases hprof : c.userProfile with _ | profile
    · rcases GetUser_fetch cl.fetchLog c (w, log) hprof with
        ⟨_, hg⟩ | ⟨source, _, _, hg⟩ | ⟨source, e, s1, _, _, hp, hg⟩
          | ⟨source, resp, s1, _, _, hp, hg⟩
      · rw [BotContext.GetUserTimes, hg]
        exact ⟨[], [], by simp, by simp, by simp, by simp, by simp, fun h => absurd rfl h⟩
      · rw [BotContext.GetUserTimes, hg]
        obtain ⟨fails, last, h1, h2, h3, h4, h5, _⟩ := ih c w log
        exact ⟨fails, last, h1, h2, h3, h4, by omega, fun h => absurd rfl h⟩
      · rw [fetchLog_GetProfile] at hp
        simp only [Prod.mk.injEq] at hp
        obtain ⟨hp1, hp2⟩ := hp
        rw [BotContext.GetUserTimes, hg, ← hp2]
        obtain ⟨fails, last, h1, h2, h3, h4, h5, _⟩ :=
          ih c (cl.GetProfile source.UserID w).2
            (log ++ [{ userId := source.UserID, res := (cl.GetProfile source.UserID w).1 }])
        refine ⟨{ userId := source.UserID, res := (cl.GetProfile source.UserID w).1 } :: fails,
          last, ?_, ?_, h3, h4, by simp only [List.length_cons]; omega, fun h => absurd rfl h⟩
        · simp only
          rw [h1]
          simp
        · intro f hf
          rcases List.mem_cons.1 hf with h | h
          · rw [h]
            simp [ProfileFetch.failed, hp1]
          · exact h2 f h
      · rw [fetchLog_GetProfile] at hp
        simp only [Prod.mk.injEq] at hp
        obtain ⟨hp1, hp2⟩ := hp
        rw [BotContext.GetUserTimes, hg, ← hp2]
        simp only
        rw [GetUserTimes_cached cl.fetchLog _ _ rfl n]
        refine ⟨[], [{ userId := source.UserID, res := (cl.GetProfile source.UserID w).1 }],
          by simp, by simp, by simp, ?_, by simp, fun h => absurd rfl h⟩
        intro f hf
        rw [List.mem_singleton.1 hf]
        simp [ProfileFetch.failed, hp1]
    · rw [GetUserTimes_cached cl.fetchLog c profile hprof]
      exact ⟨[], [], by simp, by simp, by simp, by simp, by simp, fun _ => ⟨rfl, rfl⟩⟩

/-- C26, the claim as worded fails: on a context whose fetch fails, two calls of
`GetUser` call the profile endpoint twice: a failed fetch is not cached. -/
theorem getUser_fetches_again_after_failure :
    (BotContext.GetUserTimes (failingProfileClient (Error.other "down")).fetchLog 2
        (TestServer.textContext "Hello") ((), [])).1
      = [some (Except.error (Error.other "down")), some (Except.error (Error.other "down"))]
    ∧ (BotContext.GetUserTimes (failingProfileClient (Error.other "down")).fetchLog 2
        (TestServer.textContext "Hello") ((), [])).2.2.2.length = 2 := by
  decide

/-- C26, amended. In every sequence of `GetUser` calls on a context the
profile endpoint answers successfully at most once, and after that answer it
is not called again: the calls recorded are failed fetches followed by at most
one successful fetch, no more calls than `GetUser` calls.  A failed fetch is
not cached, the next `GetUser` fetches again.  After a `GetUser` that returned
a profile every later `GetUser` returns the same profile and leaves context
and world alone, whatever the endpoint would answer; a profile that was
fetched has id, name, picture and status copied from the response. -/
theorem getUser_caches_first_successful_fetch (cl : Client W) (c : BotContext) (w : W)
    (n : Nat) :
    (∃ fails last,
        (BotContext.GetUserTimes cl.fetchLog n c (w, [])).2.2.2 = fails ++ last
        ∧ (∀ f ∈ fails, f.failed = true)
        ∧ last.length ≤ 1 ∧ (∀ f ∈ last, f.failed = false)
        ∧ fails.length + last.length ≤ n)
    ∧ (∀ profile c1 w1, BotContext.GetUser cl c w = (some (Except.ok profile), c1, w1) →
        c1.userProfile = some profile
        ∧ (∀ (cl2 : Client W) (w2 : W) (m : Nat),
            BotContext.GetUserTimes cl2 m c1 w2
              = (List.replicate m (some (Except.ok profile)), c1, w2))
        ∧ (c.userProfile = none →
            ∃ source resp, c.Event.Source = some source
              ∧ cl.GetProfile source.UserID w = (Except.ok resp, w1)
              ∧ profile = { Id := resp.UserID, Name := resp.DisplayName,
                            Picture := resp.PictureURL, Status := resp.StatusMessage }))
    ∧ (∀ e c1 w1, BotContext.GetUser cl c w = (some (Except.error e), c1, w1) → c1 = c) := by
  refine ⟨?_, ?_, ?_⟩
  · obtain ⟨fails, last, h1, h2, h3, h4, h5, _⟩ := GetUserTimes_fetches cl n c w []
    exact ⟨fails, last, by simpa using h1, h2, h3, h4, h5⟩
  · intro profile c1 w1 h
    rcases hprof : c.userProfile with _ | p
    · rcases GetUser_fetch cl c w hprof with
        ⟨_, hg⟩ | ⟨source, _, _, hg⟩ | ⟨source, e, s1, _, _, hp, hg⟩
          | ⟨source, resp, s1, hs, _, hp, hg⟩
      · rw [hg] at h; cases h
      · rw [hg] at h; cases h
      · rw [hg] at h; cases h
      · rw [hg] at h
        simp only [Prod.mk.injEq, Option.some.injEq, Except.ok.injEq] at h
        obtain ⟨hpr, hc1, hw1⟩ := h
        have hc : c1.userProfile = some profile := by rw [← hc1, ← hpr]
        refine ⟨hc, fun cl2 w2 m => GetUserTimes_cached cl2 c1 profile hc m w2, fun _ => ?_⟩
        exact ⟨source, resp, hs, by rw [hp, hw1], hpr.symm⟩
    · rw [GetUser_cached cl c w p hprof] at h
      simp only [Prod.mk.injEq, Option.some.injEq, Except.ok.injEq] at h
      obtain ⟨hpr, hc1, _⟩ := h
      have hc : c1.userProfile = some profile := by rw [← hc1, ← hpr, hprof]
      exact ⟨hc, fun cl2 w2 m => GetUserTimes_cached cl2 c1 profile hc m w2,
        fun h0 => by cases h0⟩
  · intro e c1 w1 h
    rcases hprof : c.userProfile with _ | p
    · rcases GetUser_fetch cl c w hprof with
        ⟨_, hg⟩ | ⟨source, _, _, hg⟩ | ⟨source, e, s1, _, _, hp, hg⟩
          | ⟨source, resp, s1, hs, _, hp, hg⟩
      · rw [hg] at h; cases h
      · rw [hg] at h
        simp only [Prod.mk.injEq] at h
        exact h.2.1.symm
      · rw [hg] at h
        simp only [Prod.mk.injEq] at h
        exact h.2.1.symm
      · rw [hg] at h
        simp only [Prod.mk.injEq, Option.some.injEq] at h
        cases h.1
    · rw [GetUser_cached cl c w p hprof] at h
      simp only [Prod.mk.injEq, Option.some.injEq] at h
      cases h.1

/-! ## The status of the response -/

theorem runHandlers_no_panic (errHandlers : List (ErrorHandler W)) :
    ∀ (handlers : List (EventHandler W)) (idx : Nat) (s : St W),
      (∀ h ∈ handlers, ∀ ctx w, (h ctx w).1 ≠ Outcome.panic) →
      (runHandlers errHandlers handlers idx s).1 ≠ ChainEnd.panicked := by
  intro handlers
  induction handlers with
  | nil => intro idx s _; simp [runHandlers]
  | cons handler rest ih =>
    intro idx s hnp
    have hh := hnp handler (List.mem_cons_self _ _) s.ctx s.world
    rw [runHandlers]
    rcases hr : handler s.ctx s.world with ⟨out, ctx1, w1⟩
    rw [hr] at hh
    simp only at hh
    cases out with
    | panic => exact absurd rfl hh
    | ret next err =>
      cases err with
      | some e => simp
      | none =>
        cases next with
        | false => simp
        | true =>
          simp only
          exact ih _ _ (fun h hm => hnp h (List.mem_cons_of_mem _ hm))

theorem dispatch_no_panic (b : Bot W) (event : Event) (w : W) (trace : List Call)
    (hnp : ∀ h ∈ b.bound, ∀ ctx w, (h ctx w).1 ≠ Outcome.panic) :
    (dispatch b event w trace).1 ≠ ChainEnd.panicked := by
  have h := runHandlers_no_panic b.errHandlers b.bound 0
    { ctx := NewContext event, world := w, trace := trace ++ [Call.newContext (NewContext event)] }
    hnp
  unfold dispatch
  simp only
  exact h

theorem serveEvents_no_panic (b : Bot W)
    (hnp : ∀ h ∈ b.bound, ∀ ctx w, (h ctx w).1 ≠ Outcome.panic) :
    ∀ (events : List Event) (w : W) (trace : List Call),
      (serveEvents b events w trace).1 = false := by
  intro events
  induction events with
  | nil => intro w trace; rfl
  | cons event rest ih =>
    intro w trace
    have h := dispatch_no_panic b event w trace hnp
    rw [serveEvents]
    rcases hd : dispatch b event w trace with ⟨chainEnd, s⟩
    rw [hd] at h
    simp only at h
    cases chainEnd with
    | panicked => exact absurd rfl h
    | exhausted => exact ih _ _
    | stopped => exact ih _ _
    | failed e => exact ih _ _

/-- C27. `ServeHTTP` with the request parser as an oracle: an invalid-signature
error gives status 400 and any other parse error gives 500, and in both cases
the trace is empty (no context was created, no handler and no error handler
was called) and the world is as the parser left it; a successful parse gives
status 200 for every list of events and all handlers, error handlers and reply
deliveries, whatever they return.  In the test the request with the invalid
signature is answered with 400 and the signed one with 200. -/
theorem serveHTTP_status (b : Bot W) (req : Request) (w : W) :
    (∀ w1, b.Client.ParseRequest req w = (Except.error Error.ErrInvalidSignature, w1) →
        (ServeHTTP b req w).status = some 400 ∧ (ServeHTTP b req w).trace = []
        ∧ (ServeHTTP b req w).world = w1)
    ∧ (∀ e w1, b.Client.ParseRequest req w = (Except.error e, w1) →
        e ≠ Error.ErrInvalidSignature →
        (ServeHTTP b req w).status = some 500 ∧ (ServeHTTP b req w).trace = []
        ∧ (ServeHTTP b req w).world = w1)
    ∧ (∀ events w1, b.Client.ParseRequest req w = (Except.ok events, w1) →
        (∀ h ∈ b.bound, ∀ ctx w2, (h ctx w2).1 ≠ Outcome.panic) →
        (ServeHTTP b req w).status = some 200)
    ∧ (ServeHTTP TestServer.bot TestServer.invalidRequest TestServer.world0).status = some 400
    ∧ (ServeHTTP TestServer.bot TestServer.validRequest TestServer.world0).status
        = some 200 := by
  refine ⟨?_, ?_, ?_, by decide, by decide⟩
  · intro w1 h
    unfold ServeHTTP
    rw [h]
    simp
  · intro e w1 h hne
    unfold ServeHTTP
    rw [h]
    simp [hne]
  · intro events w1 h hnp
    have hs := serveEvents_no_panic b hnp events w1 []
    unfold ServeHTTP
    rw [h]
    simp only
    rcases hse : serveEvents b events w1 [] with ⟨flag, w2, trace⟩
    rw [hse] at hs
    simp only at hs
    rw [hs]

/-! ## Two adjacent placeholders -/

theorem matchHere_group_nil : matchHere [Item.group] [] = none := by
  decide

theorem matchHere_group_single (c : Char) (hc : c ≠ '\n') :
    matchHere [Item.group] [c] = some ([[c]], []) := by
  have hd : dotRun [c] = 1 := by
    rw [dotRun_eq_length [c] (by simpa using Ne.symm hc)]
    rfl
  rw [matchHere, hd]
  rfl

/-- Two groups on a text of at least two characters without line feed: the
first group takes all but the last character. -/
theorem matchHere_two_groups (pre : List Char) (c : Char) (hpre : pre ≠ [])
    (hnl : '\n' ∉ pre ++ [c]) :
    matchHere [Item.group, Item.group] (pre ++ [c]) = some ([pre, [c]], []) := by
  have hc : c ≠ '\n' := by
    intro h
    exact hnl (by rw [h]; simp)
  have hd : dotRun (pre ++ [c]) = pre.length + 1 := by
    rw [dotRun_eq_length _ hnl]
    simp
  obtain ⟨m, hm⟩ : ∃ m, pre.length = m + 1 := by
    cases pre with
    | nil => exact absurd rfl hpre
    | cons x xs => exact ⟨xs.length, rfl⟩
  have hdrop1 : (pre ++ [c]).drop (m + 1 + 1) = [] := by
    rw [List.drop_eq_nil_iff]
    simp
    omega
  have hdrop2 : (pre ++ [c]).drop (m + 1) = [c] := by
    rw [← hm, List.drop_left]
  have htake : (pre ++ [c]).take (m + 1) = pre := by
    rw [← hm, List.take_left]
  rw [matchHere, hd, hm, tryLengths]
  simp only [hdrop1, matchHere_group_nil]
  rw [tryLengths]
  simp only [hdrop2, matchHere_group_single c hc, htake]

theorem findFrom_two_groups (pre : List Char) (c : Char) (hpre : pre ≠ [])
    (hnl : '\n' ∉ pre ++ [c]) :
    findFrom [Item.group, Item.group] (pre ++ [c]) = some [pre ++ [c], pre, [c]] := by
  have hm := matchHere_two_groups pre c hpre hnl
  rcases hpc : pre ++ [c] with _ | ⟨t, ts⟩
  · simp at hpc
  · rw [hpc] at hm
    rw [findFrom, hm]
    simp

theorem build_two_placeholders :
    OnTextWith.build "\x7b\x7ba\x7d\x7d\x7b\x7bb\x7d\x7d" = (groupText ++ groupText, ["a", "b"])
    ∧ Compile (groupText ++ groupText) = some { items := [Item.group, Item.group] } := by
  decide

/-- C30. For the template with the two adjacent placeholders `a` and `b` and
every text of at least two characters without line feed, the filter accepts
the text, and the first placeholder takes as much as it can: the parameter `a`
is the text without its last character and `b` is the last character. -/
theorem onTextWith_adjacent_placeholders_greedy (text : String) (pre : List Char) (c : Char)
    (context : BotContext) (w : W)
    (htext : text.toList = pre ++ [c]) (hpre : pre ≠ []) (hnl : '\n' ∉ text.toList) :
    OnTextWith.matcher "\x7b\x7ba\x7d\x7d\x7b\x7bb\x7d\x7d" context text w
      = (some true,
          { context with Params := [("a", String.mk pre), ("b", String.mk [c])] }, w)
    ∧ GoMap.get ([("a", String.mk pre), ("b", String.mk [c])] : GoMap String) "a"
        = some (String.mk pre)
    ∧ GoMap.get ([("a", String.mk pre), ("b", String.mk [c])] : GoMap String) "b"
        = some (String.mk [c]) := by
  refine ⟨?_, by simp [GoMap.get], by simp [GoMap.get]⟩
  rw [htext] at hnl
  have hfind := findFrom_two_groups pre c hpre hnl
  unfold OnTextWith.matcher
  rw [build_two_placeholders.1]
  simp only
  rw [build_two_placeholders.2]
  simp only [OnTextWith.filter, Regexp.MatchString, Regexp.FindStringSubmatch, htext, hfind,
    Option.isSome_some, Bool.not_true, List.map_cons, List.map_nil]
  simp only [OnTextWith.fill, GoMap.make, GoMap.set]
  simp

/-- Witness of C30: the text `xyz`. -/
theorem onTextWith_adjacent_placeholders_greedy_witness :
    "xyz".toList = ['x', 'y'] ++ ['z']
    ∧ OnTextWith.matcher "\x7b\x7ba\x7d\x7d\x7b\x7bb\x7d\x7d" (TestServer.textContext "xyz")
        "xyz" ()
      = (some true, { TestServer.textContext "xyz" with Params := [("a", "xy"), ("b", "z")] },
          ()) :=
  ⟨rfl,
    (onTextWith_adjacent_placeholders_greedy "xyz" ['x', 'y'] 'z' (TestServer.textContext "xyz")
      () rfl (by decide) (by decide)).1⟩

/-! ## The pattern of `OnTextWith` is not anchored -/

theorem tryLengths_isSome (k : List Char → Option (List (List Char) × List Char))
    (text : List Char) :
    ∀ n : Nat, (tryLengths k text n).isSome = true ↔
      ∃ j, 1 ≤ j ∧ j ≤ n ∧ (k (text.drop j)).isSome = true := by
  intro n
  induction n with
  | zero =>
    simp only [tryLengths, Option.isSome_none, Bool.false_eq_true, false_iff, not_exists]
    intro j h
    omega
  | succ n ih =>
    rw [tryLengths]
    rcases hk : k (text.drop (n + 1)) with _ | ⟨gs, rest⟩
    · simp only
      rw [ih]
      constructor
      · rintro ⟨j, h1, h2, h3⟩
        exact ⟨j, h1, by omega, h3⟩
      · rintro ⟨j, h1, h2, h3⟩
        by_cases hj : j = n + 1
        · rw [hj, hk] at h3
          cases h3
        · exact ⟨j, h1, by omega, h3⟩
    · simp only [Option.isSome_some, true_iff]
      exact ⟨n + 1, by omega, le_refl _, by rw [hk]; rfl⟩

theorem dotRun_le_length (text : List Char) : dotRun text ≤ text.length := by
  unfold dotRun
  exact (List.takeWhile_sublist _).length_le

theorem dotRun_append (text post : List Char) : dotRun text ≤ dotRun (text ++ post) := by
  unfold dotRun
  induction text with
  | nil => simp
  | cons c cs ih =>
    by_cases hc : c = '\n'
    · simp [List.takeWhile_cons, hc]
    · have hd : decide (c ≠ '\n') = true := by simpa using hc
      rw [List.cons_append, List.takeWhile_cons, List.takeWhile_cons, if_pos hd, if_pos hd,
        List.length_cons, List.length_cons]
      exact Nat.succ_le_succ ih

/-- A match at the start of a text is a match at the start of every text that
continues it. -/
theorem matchHere_append :
    ∀ (items : List Item) (text post : List Char),
      (matchHere items text).isSome = true → (matchHere items (text ++ post)).isSome = true := by
  intro items
  induction items with
  | nil => intro text post _; rfl
  | cons i items ih =>
    intro text post h
    cases i with
    | lit c =>
      cases text with
      | nil => simp [matchHere] at h
      | cons t text =>
        rw [matchHere] at h
        rw [List.cons_append, matchHere]
        by_cases hc : c = t
        · rw [if_pos hc] at h ⊢
          exact ih text post h
        · rw [if_neg hc] at h
          cases h
    | group =>
      rw [matchHere] at h ⊢
      rw [tryLengths_isSome] at h ⊢
      obtain ⟨j, h1, h2, h3⟩ := h
      refine ⟨j, h1, le_trans h2 (dotRun_append text post), ?_⟩
      have hj : j ≤ text.length := le_trans h2 (dotRun_le_length text)
      rw [List.drop_append_of_le_length hj]
      exact ih _ post h3

/-- The search finds a match exactly when the items match at the start of some
end piece of the text. -/
theorem findFrom_isSome_iff (items : List Item) :
    ∀ text : List Char, (findFrom items text).isSome = true ↔
      ∃ a b, text = a ++ b ∧ (matchHere items b).isSome = true := by
  intro text
  induction text with
  | nil =>
    rw [findFrom]
    rcases hm : matchHere items [] with _ | ⟨groups, rest⟩
    · simp only [Option.isSome_none, Bool.false_eq_true, false_iff, not_exists, not_and]
      intro a b hab
      have hb : b = [] := (List.append_eq_nil.1 hab.symm).2
      rw [hb, hm]
      simp
    · simp only [Option.isSome_some, true_iff]
      exact ⟨[], [], rfl, by rw [hm]; rfl⟩
  | cons t text ih =>
    rw [findFrom]
    rcases hm : matchHere items (t :: text) with _ | ⟨groups, rest⟩
    · simp only
      rw [ih]
      constructor
      · rintro ⟨a, b, hab, hb⟩
        exact ⟨t :: a, b, by rw [hab]; rfl, hb⟩
      · rintro ⟨a, b, hab, hb⟩
        cases a with
        | nil =>
          simp only [List.nil_append] at hab
          rw [← hab, hm] at hb
          cases hb
        | cons x a =>
          simp only [List.cons_append, List.cons.injEq] at hab
          exact ⟨a, b, hab.2, hb⟩
    · simp only [Option.isSome_some, true_iff]
      exact ⟨[], t :: text, rfl, by rw [hm]; rfl⟩

/-- Text around a match does not undo it. -/
theorem findFrom_surrounded (items : List Item) (before text after : List Char)
    (h : (findFrom items text).isSome = true) :
    (findFrom items (before ++ text ++ after)).isSome = true := by
  rw [findFrom_isSome_iff] at h ⊢
  obtain ⟨a, b, hab, hb⟩ := h
  exact ⟨before ++ a, b ++ after, by rw [hab]; simp, matchHere_append items b after hb⟩

/-- Literal items match at the start of a text exactly when the text starts
with their characters. -/
theorem matchHere_literals :
    ∀ (t text : List Char), (matchHere (t.map Item.lit) text).isSome = true ↔ t <+: text := by
  intro t
  induction t with
  | nil => intro text; simp [matchHere]
  | cons c t ih =>
    intro text
    cases text with
    | nil => simp [matchHere]
    | cons x text =>
      rw [List.map_cons, matchHere]
      by_cases hc : c = x
      · rw [if_pos hc, ih, hc]
        simp [List.cons_prefix_cons]
      · rw [if_neg hc]
        simp [List.cons_prefix_cons, hc]

/-- The search for literal items succeeds exactly when their characters occur
in the text, one after the other. -/
theorem findFrom_literals (t text : List Char) :
    (findFrom (t.map Item.lit) text).isSome = true ↔ t <:+: text := by
  rw [findFrom_isSome_iff]
  constructor
  · rintro ⟨a, b, hab, hb⟩
    obtain ⟨post, hpost⟩ := (matchHere_literals t b).1 hb
    exact ⟨a, post, by rw [hab, ← hpost]; simp⟩
  · rintro ⟨a, post, h⟩
    exact ⟨a, t ++ post, by rw [← h]; simp, (matchHere_literals t _).2 ⟨post, rfl⟩⟩

theorem isInfix_iff_strings (t text : String) :
    t.toList <:+: text.toList ↔ ∃ before after : String, text = before ++ t ++ after := by
  constructor
  · rintro ⟨a, b, h⟩
    refine ⟨String.mk a, String.mk b, ?_⟩
    apply String.ext
    simp only [String.data_append]
    exact h.symm
  · rintro ⟨before, after, h⟩
    refine ⟨before.toList, after.toList, ?_⟩
    rw [h]
    simp [String.toList]

/-- The items of a quoted text are its characters. -/
theorem compile_quoteMeta (t : List Char) :
    Compile (QuoteMeta t) = some { items := t.map Item.lit } := by
  obtain ⟨hq, hok⟩ := quoteMeta_eq_piecesText t
  rw [Compile, hq, parseItems_piecesText _ hok]
  simp only [Option.map_some', List.map_map, Option.some.injEq, Regexp.mk.injEq]
  apply List.map_congr_left
  intro c _
  simp only [Function.comp, quotePiece]
  split <;> rfl

/-- A text without an opening brace holds no placeholder. -/
theorem templRegFindAll_no_brace :
    ∀ (s : List Char) (skip : Nat), '\x7b' ∉ s → templRegFindAll skip s = [] := by
  intro s
  induction s with
  | nil => intro skip _; cases skip <;> rfl
  | cons c cs ih =>
    intro skip h
    simp only [List.mem_cons, not_or] at h
    cases skip with
    | succ k => rw [templRegFindAll]; exact ih k h.2
    | zero =>
      have hm : templRegMatchAt (c :: cs) = none := by
        unfold templRegMatchAt
        rw [if_neg]
        intro hp
        rw [List.isPrefixOf_iff_prefix] at hp
        obtain ⟨post, hpost⟩ := hp
        cases cs with
        | nil => simp [templOpen] at hpost
        | cons d ds =>
          simp only [templOpen, List.cons_append, List.cons.injEq] at hpost
          exact h.2 (by rw [← hpost.2.1]; exact List.mem_cons_self _ _)
      rw [templRegFindAll, hm]
      exact ih 0 h.2

theorem quoteMeta_no_brace (t : List Char) (h : '\x7b' ∉ t) : '\x7b' ∉ QuoteMeta t := by
  induction t with
  | nil => simp [QuoteMeta]
  | cons c cs ih =>
    simp only [List.mem_cons, not_or] at h
    rw [QuoteMeta]
    split
    · simp only [List.mem_cons, not_or]
      exact ⟨by decide, h.1, ih h.2⟩
    · simp only [List.mem_cons, not_or]
      exact ⟨h.1, ih h.2⟩

/-- The filter of `OnTextWith` accepts a text exactly when the search of the
compiled expression finds a match in it. -/
theorem matcher_accepts_iff (template : String) :
    ∃ re, Compile (OnTextWith.build template).1 = some re
      ∧ ∀ (context : BotContext) (text : String) (w : W),
          ((OnTextWith.matcher template context text w).1 = some true
            ↔ (findFrom re.items text.toList).isSome = true)
          ∧ ((OnTextWith.matcher template context text w).1 = some false
            ↔ (findFrom re.items text.toList).isSome = false) := by
  obtain ⟨re, hre, _⟩ := build_groupCount template
  refine ⟨re, hre, ?_⟩
  intro context text w
  obtain ⟨re2, hre2, _, hcases⟩ := matcher_cases template text context w
  rw [hre] at hre2
  have hre3 : re2 = re := (Option.some.inj hre2).symm
  subst hre3
  rcases hcases with ⟨hno, h⟩ | ⟨whole, captures, hres, _, h⟩
  · unfold Regexp.MatchString at hno
    rw [h, hno]
    simp
  · have hyes : (findFrom re2.items text.toList).isSome = true := by
      unfold Regexp.FindStringSubmatch at hres
      rcases hf : findFrom re2.items text.toList with _ | r
      · rw [hf] at hres; cases hres
      · rfl
    rw [h, hyes]
    simp

/-- C31. The pattern built by `OnTextWith` is not anchored.  For a template
`t` in which the scan of `OnTextWith` finds no placeholder (any template
without an opening brace is one), the compiled items are the characters of
`t`, and the filter accepts a text exactly when `t` occurs in it, that is when
the text is `before ++ t ++ after` for some `before` and `after`; it then
leaves the parameters empty, and otherwise it rejects the text and leaves the
context alone.  The template `Hello` accepts `Oh, Hello there`.  For every
template, with placeholders or without, a text that is accepted stays accepted
with any text put before it and after it; the template `Hello, {{name}}!`
accepts `Oh. Hello, Bob! Bye` with the name `Bob`. -/
theorem onTextWith_pattern_not_anchored (t text : String) (context : BotContext) (w : W)
    (ht : templRegFindAll 0 (QuoteMeta t.toList) = []) :
    Compile (OnTextWith.build t).1 = some { items := t.toList.map Item.lit }
    ∧ ((OnTextWith.matcher t context text w).1 = some true
        ↔ ∃ before after : String, text = before ++ t ++ after)
    ∧ ((∃ before after : String, text = before ++ t ++ after) →
        OnTextWith.matcher t context text w
          = (some true, { context with Params := GoMap.make }, w))
    ∧ ((¬ ∃ before after : String, text = before ++ t ++ after) →
        OnTextWith.matcher t context text w = (some false, context, w))
    ∧ ('\x7b' ∉ t.toList → templRegFindAll 0 (QuoteMeta t.toList) = [])
    ∧ OnTextWith.matcher "Hello" (TestServer.textContext "Oh, Hello there") "Oh, Hello there" ()
        = (some true, { TestServer.textContext "Oh, Hello there" with Params := GoMap.make }, ())
    ∧ (∀ (template before accepted after : String) (context1 : BotContext),
        (OnTextWith.matcher template context1 accepted w).1 = some true →
        (OnTextWith.matcher template context1 (before ++ accepted ++ after) w).1 = some true)
    ∧ OnTextWith.matcher "Hello, \x7b\x7bname\x7d\x7d!"
        (TestServer.textContext "Oh. Hello, Bob! Bye") "Oh. Hello, Bob! Bye" ()
        = (some true,
            { TestServer.textContext "Oh. Hello, Bob! Bye" with Params := [("name", "Bob")] },
            ()) := by
  have hb : OnTextWith.build t = (QuoteMeta t.toList, []) := by
    simp only [OnTextWith.build, ht, OnTextWith.substitute]
  have hc : Compile (OnTextWith.build t).1 = some { items := t.toList.map Item.lit } := by
    rw [hb]
    exact compile_quoteMeta t.toList
  have hfind : (findFrom (t.toList.map Item.lit) text.toList).isSome = true
      ↔ ∃ before after : String, text = before ++ t ++ after := by
    rw [findFrom_literals, isInfix_iff_strings]
  have hcases : (¬ (∃ before after : String, text = before ++ t ++ after)
        ∧ OnTextWith.matcher t context text w = (some false, context, w))
      ∨ ((∃ before after : String, text = before ++ t ++ after)
        ∧ OnTextWith.matcher t context text w
          = (some true, { context with Params := GoMap.make }, w)) := by
    obtain ⟨re, hre, _, hcases⟩ := matcher_cases t text context w
    rw [hc] at hre
    have hre2 : re = { items := t.toList.map Item.lit } := (Option.some.inj hre).symm
    subst hre2
    rcases hcases with ⟨hno, h⟩ | ⟨whole, captures, hres, _, h⟩
    · left
      refine ⟨?_, h⟩
      rw [← hfind]
      unfold Regexp.MatchString at hno
      simp only at hno
      rw [hno]
      simp
    · right
      refine ⟨?_, ?_⟩
      · rw [← hfind]
        unfold Regexp.FindStringSubmatch at hres
        simp only at hres
        rcases hf : findFrom (t.toList.map Item.lit) text.toList with _ | r
        · rw [hf] at hres; cases hres
        · rfl
      · rw [h, hb]
        rfl
  refine ⟨hc, ?_, ?_, ?_, ?_, by decide, ?_, by decide⟩
  · rcases hcases with ⟨hno, h⟩ | ⟨hyes, h⟩
    · rw [h]
      simp [hno]
    · rw [h]
      simp [hyes]
  · intro hyes
    rcases hcases with ⟨hno, _⟩ | ⟨_, h⟩
    · exact absurd hyes hno
    · exact h
  · intro hno
    rcases hcases with ⟨_, h⟩ | ⟨hyes, _⟩
    · exact h
    · exact absurd hyes hno
  · intro hbrace
    exact templRegFindAll_no_brace _ 0 (quoteMeta_no_brace _ hbrace)
  · intro template before accepted after context1 hacc
    obtain ⟨re, _, hiff⟩ := @matcher_accepts_iff W template
    rw [(hiff context1 accepted w).1] at hacc
    rw [(hiff context1 (before ++ accepted ++ after) w).1]
    have := findFrom_surrounded re.items before.toList accepted.toList after.toList hacc
    simpa [String.toList] using this

/-- Witness of C31: the template `Hello` on the text `Oh, Hello there`. -/
theorem onTextWith_pattern_not_anchored_witness :
    templRegFindAll 0 (QuoteMeta "Hello".toList) = []
    ∧ ((OnTextWith.matcher "Hello" (TestServer.textContext "Oh, Hello there")
          "Oh, Hello there" ()).1 = some true
        ↔ ∃ before after : String, "Oh, Hello there" = before ++ "Hello" ++ after) :=
  ⟨by decide,
    (onTextWith_pattern_not_anchored "Hello" "Oh, Hello there"
      (TestServer.textContext "Oh, Hello there") () (by decide)).2.1⟩

/-! ## One name for every group of the compiled pattern -/

/-- The results of `FindStringSubmatch` on the expression of a template: none,
or the matched text and one capture for every collected name. -/
theorem findStringSubmatch_length (re : Regexp) (text : String) :
    re.FindStringSubmatch text = []
    ∨ (re.FindStringSubmatch text).length = groupCount re.items + 1 := by
  unfold Regexp.FindStringSubmatch
  rcases hfind : findFrom re.items text.toList with _ | results
  · left; rfl
  · right
    simp only [List.length_map]
    exact findFrom_length re.items text.toList results hfind

/-- C32. For every template the expression that `OnTextWith` builds compiles,
and the compiled pattern has exactly as many groups as the name list has
names.  So for every text the results of `FindStringSubmatch` hold at most one
entry more than the name list, every index `i - 1` that the filter reads lies
within the name list, the loop that fills the parameters never fails, and the
filter returns a verdict on every context and text.  When the text matches,
each name holds the capture of its last occurrence in the name list.  The
template `{{a}} and {{a}}` collects the name `a` twice, its pattern has two
groups, and on `x and y` the parameter `a` is `y`; the template
`f({{x}}) = [{{y}}]*` has two names and a pattern of two groups, whose other
items are literal characters, and on `f(1) = [2]*` it yields `x = 1` and
`y = 2`. -/
theorem onTextWith_groups_match_names (template : String) :
    ∃ re, Compile (OnTextWith.build template).1 = some re
      ∧ groupCount re.items = (OnTextWith.build template).2.length
      ∧ (∀ (text : String) (i : Nat), 0 < i → i < (re.FindStringSubmatch text).length →
          ((OnTextWith.build template).2)[i - 1]? ≠ none)
      ∧ (∀ text : String,
          OnTextWith.fill (OnTextWith.build template).2 (re.FindStringSubmatch text) 0 GoMap.make
            ≠ none)
      ∧ (∀ (context : BotContext) (text : String) (w : W),
          (OnTextWith.matcher template context text w).1 ≠ none)
      ∧ (∀ (context : BotContext) (text : String) (w : W) (whole : String)
          (captures : List String),
          re.FindStringSubmatch text = whole :: captures →
          captures.length = (OnTextWith.build template).2.length
          ∧ (OnTextWith.matcher template context text w).1 = some true
          ∧ ∀ (i : Nat) (name capture : String),
              ((OnTextWith.build template).2)[i]? = some name → captures[i]? = some capture →
              name ∉ ((OnTextWith.build template).2).drop (i + 1) →
              GoMap.get (OnTextWith.matcher template context text w).2.1.Params name
                = some capture)
      ∧ (OnTextWith.build "\x7b\x7ba\x7d\x7d and \x7b\x7ba\x7d\x7d").2 = ["a", "a"]
      ∧ (Compile (OnTextWith.build "\x7b\x7ba\x7d\x7d and \x7b\x7ba\x7d\x7d").1).map
          (fun r => groupCount r.items) = some 2
      ∧ OnTextWith.matcher "\x7b\x7ba\x7d\x7d and \x7b\x7ba\x7d\x7d"
          (TestServer.textContext "x and y") "x and y" ()
          = (some true, { TestServer.textContext "x and y" with Params := [("a", "y")] }, ())
      ∧ (OnTextWith.build "f(\x7b\x7bx\x7d\x7d) = [\x7b\x7by\x7d\x7d]*").2 = ["x", "y"]
      ∧ Compile (OnTextWith.build "f(\x7b\x7bx\x7d\x7d) = [\x7b\x7by\x7d\x7d]*").1
          = some { items := [Item.lit 'f', Item.lit '(', Item.group, Item.lit ')', Item.lit ' ',
              Item.lit '=', Item.lit ' ', Item.lit '[', Item.group, Item.lit ']',
              Item.lit '*'] }
      ∧ OnTextWith.matcher "f(\x7b\x7bx\x7d\x7d) = [\x7b\x7by\x7d\x7d]*"
          (TestServer.textContext "f(1) = [2]*") "f(1) = [2]*" ()
          = (some true,
              { TestServer.textContext "f(1) = [2]*" with Params := [("x", "1"), ("y", "2")] },
              ()) := by
  obtain ⟨re, hre, hcount⟩ := build_groupCount template
  have hmatch : ∀ (context : BotContext) (text : String) (w : W),
      (re.MatchString text = false
          ∧ OnTextWith.matcher template context text w = (some false, context, w))
        ∨ (∃ whole captures, re.FindStringSubmatch text = whole :: captures
          ∧ captures.length = (OnTextWith.build template).2.length
          ∧ OnTextWith.matcher template context text w
              = (some true,
                  { context with
                    Params := (((OnTextWith.build template).2).zip captures).foldl
                      (fun p kv => GoMap.set p kv.1 kv.2) GoMap.make }, w)) := by
    intro context text w
    obtain ⟨re2, hre2, _, hcases⟩ := matcher_cases template text context w
    rw [hre] at hre2
    have hre3 : re2 = re := (Option.some.inj hre2).symm
    subst hre3
    exact hcases
  refine ⟨re, hre, hcount, ?_, ?_, ?_, ?_, by decide, by decide, by decide, by decide,
    by decide, by decide⟩
  · intro text i hi hlt
    rcases findStringSubmatch_length re text with h | h
    · rw [h] at hlt
      simp at hlt
    · have hlt2 : i - 1 < (OnTextWith.build template).2.length := by omega
      rw [List.getElem?_eq_getElem hlt2]
      exact Option.some_ne_none _
  · intro text
    rcases findStringSubmatch_length re text with h | h
    · rw [h]
      simp [OnTextWith.fill]
    · rcases hres : re.FindStringSubmatch text with _ | ⟨whole, captures⟩
      · simp [OnTextWith.fill]
      · rw [hres, List.length_cons] at h
        rw [OnTextWith.fill, if_pos rfl]
        have := fill_assigns (OnTextWith.build template).2 captures 0 GoMap.make (by omega)
        simp only [Nat.zero_add] at this
        rw [this]
        exact Option.some_ne_none _
  · intro context text w
    rcases hmatch context text w with ⟨_, h⟩ | ⟨_, _, _, _, h⟩ <;> rw [h] <;>
      exact Option.some_ne_none _
  · intro context text w whole captures hres
    rcases hmatch context text w with ⟨hno, _⟩ | ⟨whole2, captures2, hres2, hlen, h⟩
    · exfalso
      unfold Regexp.MatchString at hno
      unfold Regexp.FindStringSubmatch at hres
      rcases hf : findFrom re.items text.toList with _ | r
      · rw [hf] at hres; cases hres
      · rw [hf] at hno; cases hno
    · rw [hres] at hres2
      simp only [List.cons.injEq] at hres2
      obtain ⟨_, hc⟩ := hres2
      subst hc
      refine ⟨hlen, by rw [h], ?_⟩
      intro i name capture hn hc hlast
      rw [h]
      exact get_assigned_last _ captures GoMap.make i name capture hn hc hlast

/-! ## The length of the bank over a sequence of appends -/

/-- A sequence of `AddMessage` calls on a bank that holds at most 6 messages:
the calls return nil and append until the bank holds 6 messages, and fail with
`ErrorTooManyMessages` from then on. -/
theorem addMessages_spec :
    ∀ (ms : List Message) (bank : MessageBank), bank.messages.length ≤ 6 →
      (MessageBank.AddMessages bank ms).2.messages
          = bank.messages ++ ms.take (6 - bank.messages.length)
      ∧ (MessageBank.AddMessages bank ms).1
          = List.replicate (min ms.length (6 - bank.messages.length)) none
            ++ List.replicate (ms.length - (6 - bank.messages.length))
                (some Error.ErrorTooManyMessages) := by
  intro ms
  induction ms with
  | nil => intro bank _; simp [MessageBank.AddMessages]
  | cons m rest ih =>
    intro bank hlen
    by_cases h : bank.messages.length > 5
    · have h6 : bank.messages.length = 6 := by omega
      have hadd : MessageBank.AddMessage (some bank) m
          = some (some Error.ErrorTooManyMessages, bank) := by
        simp only [MessageBank.AddMessage, if_pos h]
      obtain ⟨ih1, ih2⟩ := ih bank hlen
      rw [MessageBank.AddMessages, hadd]
      simp only
      rw [ih1, ih2, h6]
      simp [List.replicate_succ]
    · have hadd : MessageBank.AddMessage (some bank) m
          = some (none, { bank with messages := bank.messages ++ [m] }) := by
        simp only [MessageBank.AddMessage, if_neg h]
      have hlen1 : (bank.messages ++ [m]).length ≤ 6 := by
        simp only [List.length_append, List.length_singleton]
        omega
      obtain ⟨ih1, ih2⟩ := ih { bank with messages := bank.messages ++ [m] } hlen1
      rw [MessageBank.AddMessages, hadd]
      simp only
      rw [ih1, ih2]
      simp only [List.length_append, List.length_singleton, List.length_cons, List.length_nil,
        Nat.zero_add]
      obtain ⟨k, hk⟩ : ∃ k, 6 - bank.messages.length = k + 1 :=
        ⟨5 - bank.messages.length, by omega⟩
      have hk2 : 6 - (bank.messages.length + 1) = k := by omega
      rw [hk, hk2]
      constructor
      · simp
      · have hmin : min (rest.length + 1) (k + 1) = min rest.length k + 1 := by omega
        have hsub : rest.length + 1 - (k + 1) = rest.length - k := by omega
        rw [hmin, hsub, List.replicate_succ]
        rfl

/-- C33. In every sequence of `AddMessage` calls that starts from an empty
bank the bank never holds more than 6 messages, after any number of the calls;
it holds the first 6 messages of the sequence (all of them if there are
fewer), and 6 is reached: the first six calls return nil, the seventh and all
later ones fail with `ErrorTooManyMessages` and leave the bank alone. -/
theorem addMessages_from_empty_reach_six (ms : List Message) :
    (∀ k, (MessageBank.AddMessages { messages := [] } (ms.take k)).2.Len ≤ 6)
    ∧ (MessageBank.AddMessages { messages := [] } ms).2.messages = ms.take 6
    ∧ (MessageBank.AddMessages { messages := [] } ms).1
        = List.replicate (min ms.length 6) none
          ++ List.replicate (ms.length - 6) (some Error.ErrorTooManyMessages)
    ∧ (ms.length = 6 →
        (MessageBank.AddMessages { messages := [] } ms).1 = List.replicate 6 none
        ∧ (MessageBank.AddMessages { messages := [] } ms).2.Len = 6
        ∧ ∀ m, MessageBank.AddMessage
              (some (MessageBank.AddMessages { messages := [] } ms).2) m
            = some (some Error.ErrorTooManyMessages,
                (MessageBank.AddMessages { messages := [] } ms).2))
    ∧ (MessageBank.AddMessages { messages := [] }
          (List.replicate 7 (Message.Text "" "a"))).1
        = [none, none, none, none, none, none, some Error.ErrorTooManyMessages]
    ∧ (MessageBank.AddMessages { messages := [] }
          (List.replicate 7 (Message.Text "" "a"))).2.Len = 6 := by
  have hspec : ∀ l : List Message,
      (MessageBank.AddMessages { messages := [] } l).2.messages = l.take 6
      ∧ (MessageBank.AddMessages { messages := [] } l).1
          = List.replicate (min l.length 6) none
            ++ List.replicate (l.length - 6) (some Error.ErrorTooManyMessages) := by
    intro l
    have h := addMessages_spec l { messages := [] } (by simp)
    simpa using h
  refine ⟨?_, (hspec ms).1, (hspec ms).2, ?_, by decide, by decide⟩
  · intro k
    rw [MessageBank.Len, (hspec (ms.take k)).1, List.length_take]
    omega
  · intro h6
    obtain ⟨h1, h2⟩ := hspec ms
    have hlen : (MessageBank.AddMessages { messages := [] } ms).2.messages.length = 6 := by
      rw [h1, List.length_take]
      omega
    refine ⟨by rw [h2, h6]; rfl, hlen, ?_⟩
    intro m
    simp only [MessageBank.AddMessage, hlen]
    rfl

end Lbotx
